import Mathlib

/-!
# Robtex API client: request construction and response decoding

A shallow embedding of the Go package `robtex` (`robtex.go`, `types.go`).

The four operations of the client are embedded from the source.  The pieces of
the Go standard library they call (`path.Join`, `net/url`, `net/http` request
construction, `fmt.Errorf`, `encoding/json` stream decoding) are embedded as
pure functions over byte sequences: a Go `string` is a `List UInt8`.

Conventions:
* the transport (`http.Client.Do`) is a field of the client, a function from
  the request to a response or an error;
* a response body is the complete sequence of bytes read from the connection;
* Go `int` is `Int`; the 64 bit range is checked where Go checks it
  (`strconv.ParseInt`);
* a Go slice is `Option (Slice a)`: `none` is the nil slice.
-/

namespace Robtex

/-! ## Bytes and strings -/

/-- A Go `string` or `[]byte`. -/
abbrev Bytes := List UInt8

/-- The bytes of an ASCII literal. -/
def ascii (s : String) : Bytes := s.toList.map (fun c => UInt8.ofNat c.toNat)

/-- Decimal digits of a natural number (`%d`, `strconv.Itoa`). -/
def formatNat (n : Nat) : Bytes := (Nat.toDigits 10 n).map (fun c => UInt8.ofNat c.toNat)

/-- Decimal rendering of a Go `int` (`%d`). -/
def formatInt : Int → Bytes
  | Int.ofNat n => formatNat n
  | Int.negSucc n => 45 :: formatNat (n + 1)

deriving instance DecidableEq for Except

/-! ## Errors -/

/-- The errors the client can return.  `status` is the value built by
`fmt.Errorf("%d: %s", resp.StatusCode, string(data))`; the others are the
errors of the standard library, by kind. -/
inductive Error where
  /-- A response whose status code is not 200. -/
  | status (code : Int) (body : Bytes)
  /-- The error `io.EOF`: the stream holds no further value. -/
  | eof
  /-- The error `io.ErrUnexpectedEOF`: the stream ends inside a value. -/
  | unexpectedEOF
  /-- A `*json.SyntaxError`. -/
  | badSyntax
  /-- A `*json.UnmarshalTypeError`. -/
  | unmarshalType
  /-- A `*url.Error` from `url.Parse`. -/
  | urlParse
  /-- The error of `http.NewRequestWithContext` on a nil context. -/
  | nilContext
  /-- An error of the transport (`http.Client.Do`), by tag. -/
  | transport (tag : Nat)
  deriving DecidableEq, Repr

/-- The text of `err.Error()` for the error built by the client itself. -/
def Error.message : Error → Option Bytes
  | .status code body => some (formatInt code ++ ascii ": " ++ body)
  | .eof => some (ascii "EOF")
  | .unexpectedEOF => some (ascii "unexpected EOF")
  | .nilContext => some (ascii "net/http: nil Context")
  | _ => none

/-! ## encoding/json: the scanner -/

/-- JSON white space (`isSpace` of `encoding/json`). -/
def isSpace (c : UInt8) : Bool := c = 32 || c = 9 || c = 13 || c = 10

/-- Drop leading white space. -/
def skipSpace : Bytes → Bytes
  | [] => []
  | c :: cs => if isSpace c then skipSpace cs else c :: cs

/-- A hexadecimal digit. -/
def isHex (c : UInt8) : Bool :=
  (48 ≤ c && c ≤ 57) || (97 ≤ c && c ≤ 102) || (65 ≤ c && c ≤ 70)

/-- A decimal digit. -/
def isDigit (c : UInt8) : Bool := 48 ≤ c && c ≤ 57

/-- The scanner states inside a string literal (`stateInString`,
`stateInStringEsc`, `stateInStringEscU`, `...U1`, `...U12`, `...U123`). -/
inductive StrState where
  | inString | esc | escU | escU1 | escU12 | escU123
  deriving DecidableEq, Repr

/-- Put a byte in front of the text a scan returns. -/
def consRaw (c : UInt8) : Except Error (Bytes × Bytes) → Except Error (Bytes × Bytes)
  | .ok (raw, rest) => .ok (c :: raw, rest)
  | .error e => .error e

/-- Scan a string literal after its opening quote: the raw bytes up to the
closing quote, and the input after it. -/
def scanStr : StrState → Bytes → Except Error (Bytes × Bytes)
  | _, [] => .error .unexpectedEOF
  | .inString, c :: cs =>
    if c = 34 then .ok ([], cs)
    else if c = 92 then consRaw c (scanStr .esc cs)
    else if c < 32 then .error .badSyntax
    else consRaw c (scanStr .inString cs)
  | .esc, c :: cs =>
    if c = 98 || c = 102 || c = 110 || c = 114 || c = 116 || c = 92 || c = 47 || c = 34 then
      consRaw c (scanStr .inString cs)
    else if c = 117 then consRaw c (scanStr .escU cs)
    else .error .badSyntax
  | .escU, c :: cs => if isHex c then consRaw c (scanStr .escU1 cs) else .error .badSyntax
  | .escU1, c :: cs => if isHex c then consRaw c (scanStr .escU12 cs) else .error .badSyntax
  | .escU12, c :: cs => if isHex c then consRaw c (scanStr .escU123 cs) else .error .badSyntax
  | .escU123, c :: cs => if isHex c then consRaw c (scanStr .inString cs) else .error .badSyntax

/-- The scanner states inside a number (`stateNeg`, `state0`, `state1`,
`stateDot`, `stateDot0`, `stateE`, `stateESign`, `stateE0`). -/
inductive NumState where
  | neg | zero | int | dot | dot0 | exp | expSign | exp0
  deriving DecidableEq, Repr

/-- Whether a number may end in this state. -/
def NumState.accepting : NumState → Bool
  | .zero | .int | .dot0 | .exp0 => true
  | _ => false

/-- One step of the number automaton: the next state, or `none` when the byte
does not continue the number. -/
def NumState.step (st : NumState) (c : UInt8) : Option NumState :=
  match st with
  | .neg => if c = 48 then some .zero else if 49 ≤ c && c ≤ 57 then some .int else none
  | .zero => if c = 46 then some .dot else if c = 101 || c = 69 then some .exp else none
  | .int =>
    if isDigit c then some .int
    else if c = 46 then some .dot else if c = 101 || c = 69 then some .exp else none
  | .dot => if isDigit c then some .dot0 else none
  | .dot0 => if isDigit c then some .dot0 else if c = 101 || c = 69 then some .exp else none
  | .exp => if c = 43 || c = 45 then some .expSign else if isDigit c then some .exp0 else none
  | .expSign => if isDigit c then some .exp0 else none
  | .exp0 => if isDigit c then some .exp0 else none

/-- Scan the rest of a number from state `st`: the bytes that belong to the
number and the input after them.  The number ends before the first byte that
does not continue it. -/
def scanNum : NumState → Bytes → Except Error (Bytes × Bytes)
  | st, [] => if st.accepting then .ok ([], []) else .error .unexpectedEOF
  | st, c :: cs =>
    match st.step c with
    | some st1 => consRaw c (scanNum st1 cs)
    | none => if st.accepting then .ok ([], c :: cs) else .error .badSyntax

/-- Scan the remaining bytes of a literal name (`true`, `false`, `null`). -/
def scanLit : Bytes → Bytes → Except Error Bytes
  | [], inp => .ok inp
  | _ :: _, [] => .error .unexpectedEOF
  | e :: es, c :: cs => if c = e then scanLit es cs else .error .badSyntax

/-! ## encoding/json: reading one value -/

/-- A JSON value as the decoder sees it after the scanner has delimited it.
String literals and object keys are kept raw (the bytes between the quotes),
numbers are kept as their literal text. -/
inductive JValue where
  | null
  | bool (b : Bool)
  | num (lit : Bytes)
  | str (raw : Bytes)
  | arr (elems : List JValue)
  | obj (members : List (Bytes × JValue))

/-- The nesting limit of the scanner (`maxNestingDepth`). -/
def maxNestingDepth : Nat := 10000

/-- Read a value that is not an array or an object; `c` is its first byte
and `cs` the input after it. -/
def scanScalar (c : UInt8) (cs : Bytes) : Except Error (JValue × Bytes) :=
  if c = 34 then
    match scanStr .inString cs with
    | .error e => .error e
    | .ok (raw, rest) => .ok (.str raw, rest)
  else if c = 45 then
    match scanNum .neg cs with
    | .error e => .error e
    | .ok (lit, rest) => .ok (.num (c :: lit), rest)
  else if c = 48 then
    match scanNum .zero cs with
    | .error e => .error e
    | .ok (lit, rest) => .ok (.num (c :: lit), rest)
  else if 49 ≤ c && c ≤ 57 then
    match scanNum .int cs with
    | .error e => .error e
    | .ok (lit, rest) => .ok (.num (c :: lit), rest)
  else if c = 116 then
    match scanLit [114, 117, 101] cs with
    | .error e => .error e
    | .ok rest => .ok (.bool true, rest)
  else if c = 102 then
    match scanLit [97, 108, 115, 101] cs with
    | .error e => .error e
    | .ok rest => .ok (.bool false, rest)
  else if c = 110 then
    match scanLit [117, 108, 108] cs with
    | .error e => .error e
    | .ok rest => .ok (.null, rest)
  else .error .badSyntax

mutual
/-- Read one JSON value from the front of the input, after optional white
space.  `depth` is the number of arrays and objects around the value.  The
result is `none` only when the fuel runs out. -/
def parseValue : Nat → Nat → Bytes → Option (Except Error (JValue × Bytes))
  | 0, _, _ => none
  | fuel + 1, depth, inp =>
    match skipSpace inp with
    | [] => some (.error .unexpectedEOF)
    | c :: cs =>
      if c = 123 then
        if maxNestingDepth ≤ depth then some (.error .badSyntax)
        else
          match skipSpace cs with
          | [] => some (.error .unexpectedEOF)
          | c1 :: cs1 =>
            if c1 = 125 then some (.ok (.obj [], cs1))
            else
              match parseMembers fuel (depth + 1) (c1 :: cs1) with
              | none => none
              | some (.error e) => some (.error e)
              | some (.ok (ms, rest)) => some (.ok (.obj ms, rest))
      else if c = 91 then
        if maxNestingDepth ≤ depth then some (.error .badSyntax)
        else
          match skipSpace cs with
          | [] => some (.error .unexpectedEOF)
          | c1 :: cs1 =>
            if c1 = 93 then some (.ok (.arr [], cs1))
            else
              match parseElems fuel (depth + 1) (c1 :: cs1) with
              | none => none
              | some (.error e) => some (.error e)
              | some (.ok (es, rest)) => some (.ok (.arr es, rest))
      else some (scanScalar c cs)
/-- Read the elements of a non-empty array up to and including its closing
bracket. -/
def parseElems : Nat → Nat → Bytes → Option (Except Error (List JValue × Bytes))
  | 0, _, _ => none
  | fuel + 1, depth, inp =>
    match parseValue fuel depth inp with
    | none => none
    | some (.error e) => some (.error e)
    | some (.ok (v, r1)) =>
      match skipSpace r1 with
      | [] => some (.error .unexpectedEOF)
      | c :: cs =>
        if c = 44 then
          match parseElems fuel depth cs with
          | none => none
          | some (.error e) => some (.error e)
          | some (.ok (vs, rest)) => some (.ok (v :: vs, rest))
        else if c = 93 then some (.ok ([v], cs))
        else some (.error .badSyntax)
/-- Read the members of a non-empty object up to and including its closing
brace. -/
def parseMembers : Nat → Nat → Bytes → Option (Except Error (List (Bytes × JValue) × Bytes))
  | 0, _, _ => none
  | fuel + 1, depth, inp =>
    match skipSpace inp with
    | [] => some (.error .unexpectedEOF)
    | q :: r0 =>
      if q = 34 then
        match scanStr .inString r0 with
        | .error e => some (.error e)
        | .ok (key, r1) =>
          match skipSpace r1 with
          | [] => some (.error .unexpectedEOF)
          | c2 :: r2 =>
            if c2 = 58 then
              match parseValue fuel depth r2 with
              | none => none
              | some (.error e) => some (.error e)
              | some (.ok (v, r3)) =>
                match skipSpace r3 with
                | [] => some (.error .unexpectedEOF)
                | c4 :: r4 =>
                  if c4 = 44 then
                    match parseMembers fuel depth r4 with
                    | none => none
                    | some (.error e) => some (.error e)
                    | some (.ok (ms, rest)) => some (.ok ((key, v) :: ms, rest))
                  else if c4 = 125 then some (.ok ([(key, v)], r4))
                  else some (.error .badSyntax)
            else some (.error .badSyntax)
      else some (.error .badSyntax)
end

/-- The state of a `json.Decoder` over a fully received body: the bytes not
yet consumed. -/
abbrev Decoder := Bytes

/-- Whether another value follows (`Decoder.More`): the next byte that is not
white space exists and is neither a closing bracket nor a closing brace. -/
def Decoder.More (dec : Decoder) : Bool :=
  match skipSpace dec with
  | [] => false
  | c :: _ => c != 93 && c != 125

/-- Read the next value of the stream (`Decoder.readValue`): `io.EOF` when
only white space is left, otherwise the value at the front and the decoder
after it. -/
def Decoder.readValue (dec : Decoder) : Except Error (JValue × Decoder) :=
  match skipSpace dec with
  | [] => .error .eof
  | _ :: _ =>
    match parseValue (2 * dec.length + 2) 0 dec with
    | some r => r
    | none => .error .badSyntax

/-! ## encoding/json: literals -/

/-- The value of a hexadecimal digit. -/
def hexVal (c : UInt8) : Nat :=
  if 48 ≤ c && c ≤ 57 then c.toNat - 48
  else if 97 ≤ c && c ≤ 102 then c.toNat - 87
  else if 65 ≤ c && c ≤ 70 then c.toNat - 55
  else 0

/-- The rune of a `\uXXXX` escape at the front of the input (`getu4`). -/
def getu4 : Bytes → Option Nat
  | b :: u :: h1 :: h2 :: h3 :: h4 :: _ =>
    if b = 92 && u = 117 && isHex h1 && isHex h2 && isHex h3 && isHex h4 then
      some (((hexVal h1 * 16 + hexVal h2) * 16 + hexVal h3) * 16 + hexVal h4)
    else none
  | _ => none

/-- The UTF-8 encoding of a rune; a surrogate or a rune beyond U+10FFFF is
written as U+FFFD (`utf8.AppendRune`). -/
def encodeRune (r : Nat) : Bytes :=
  if r < 128 then [UInt8.ofNat r]
  else if r < 2048 then [UInt8.ofNat (192 + r / 64), UInt8.ofNat (128 + r % 64)]
  else if 1114111 < r || (55296 ≤ r && r ≤ 57343) then [239, 191, 189]
  else if r < 65536 then
    [UInt8.ofNat (224 + r / 4096), UInt8.ofNat (128 + r / 64 % 64), UInt8.ofNat (128 + r % 64)]
  else
    [UInt8.ofNat (240 + r / 262144), UInt8.ofNat (128 + r / 4096 % 64),
      UInt8.ofNat (128 + r / 64 % 64), UInt8.ofNat (128 + r % 64)]

/-- A UTF-8 continuation byte. -/
def isCont (c : UInt8) : Bool := 128 ≤ c && c ≤ 191

/-- The length of the well-formed UTF-8 sequence at the front of the input,
`0` when there is none (`utf8.DecodeRune` returning `RuneError, 1`). -/
def utf8SeqLen : Bytes → Nat
  | [] => 0
  | b0 :: rest =>
    if b0 < 128 then 1
    else if b0 < 194 then 0
    else if b0 ≤ 223 then
      match rest with
      | b1 :: _ => if isCont b1 then 2 else 0
      | _ => 0
    else if b0 ≤ 239 then
      match rest with
      | b1 :: b2 :: _ =>
        let lo : UInt8 := if b0 = 224 then 160 else 128
        let hi : UInt8 := if b0 = 237 then 159 else 191
        if lo ≤ b1 && b1 ≤ hi && isCont b2 then 3 else 0
      | _ => 0
    else if b0 ≤ 244 then
      match rest with
      | b1 :: b2 :: b3 :: _ =>
        let lo : UInt8 := if b0 = 240 then 144 else 128
        let hi : UInt8 := if b0 = 244 then 143 else 191
        if lo ≤ b1 && b1 ≤ hi && isCont b2 && isCont b3 then 4 else 0
      | _ => 0
    else 0

/-- The byte a one-letter escape stands for. -/
def simpleEscape (e : UInt8) : Option UInt8 :=
  if e = 34 || e = 92 || e = 47 || e = 39 then some e
  else if e = 98 then some 8
  else if e = 102 then some 12
  else if e = 110 then some 10
  else if e = 114 then some 13
  else if e = 116 then some 9
  else none

/-- The worker of `unquote`: `skip` counts bytes of the input that belong to
an escape or a UTF-8 sequence already written. -/
def unquoteAux : Nat → Bytes → Option Bytes
  | _, [] => some []
  | skip + 1, _ :: cs => unquoteAux skip cs
  | 0, c :: cs =>
    if c = 92 then
      match cs with
      | [] => none
      | e :: _ =>
        if e = 117 then
          match getu4 (c :: cs) with
          | none => none
          | some rr =>
            if 55296 ≤ rr && rr ≤ 57343 then
              match getu4 (cs.drop 5) with
              | some rr1 =>
                if rr ≤ 56319 && 56320 ≤ rr1 && rr1 ≤ 57343 then
                  (unquoteAux 11 cs).map
                    (fun t => encodeRune ((rr - 55296) * 1024 + (rr1 - 56320) + 65536) ++ t)
                else (unquoteAux 5 cs).map (fun t => [239, 191, 189] ++ t)
              | none => (unquoteAux 5 cs).map (fun t => [239, 191, 189] ++ t)
            else (unquoteAux 5 cs).map (fun t => encodeRune rr ++ t)
        else
          match simpleEscape e with
          | some b => (unquoteAux 1 cs).map (fun t => b :: t)
          | none => none
    else if c = 34 || c < 32 then none
    else if c < 128 then (unquoteAux 0 cs).map (fun t => c :: t)
    else
      match utf8SeqLen (c :: cs) with
      | 0 => (unquoteAux 0 cs).map (fun t => [239, 191, 189] ++ t)
      | n + 1 => (unquoteAux n cs).map (fun t => c :: cs.take n ++ t)

/-- The string a raw literal stands for (`unquoteBytes`): escapes are
replaced, ill-formed UTF-8 is replaced by U+FFFD.  `none` on a literal the
scanner does not accept. -/
def unquote (raw : Bytes) : Option Bytes := unquoteAux 0 raw

/-- The number a sequence of decimal digits stands for, continuing `acc`. -/
def parseDigits : Bytes → Nat → Option Nat
  | [], acc => some acc
  | c :: cs, acc => if isDigit c then parseDigits cs (acc * 10 + (c.toNat - 48)) else none

/-- The Go call `strconv.ParseInt(s, 10, 64)`: an optional sign and decimal
digits, in the range of a 64 bit integer. -/
def strconv_ParseInt (s : Bytes) : Option Int :=
  match s with
  | [] => none
  | c :: cs =>
    let ds := if c = 45 || c = 43 then cs else c :: cs
    match ds with
    | [] => none
    | _ :: _ =>
      match parseDigits ds 0 with
      | none => none
      | some n =>
        if c = 45 then (if n ≤ 9223372036854775808 then some (-(n : Int)) else none)
        else (if n < 9223372036854775808 then some (n : Int) else none)

/-- Upper case of an ASCII letter. -/
def upper (c : UInt8) : UInt8 := if 97 ≤ c && c ≤ 122 then c - 32 else c

/-- Whether an object key selects the field with the ASCII name `name`: the
two are equal under Unicode simple case folding.  Besides the ASCII letters,
U+017F folds to `s` and U+212A folds to `k`. -/
def foldEq : Bytes → Bytes → Bool
  | [], [] => true
  | _ :: _, [] => false
  | [], _ :: _ => false
  | c :: k, n :: ns =>
    if c < 128 then upper c = upper n && foldEq k ns
    else if c = 197 then
      match k with
      | b :: k1 => b = 191 && upper n = 83 && foldEq k1 ns
      | [] => false
    else if c = 226 then
      match k with
      | b1 :: b2 :: k2 => b1 = 132 && b2 = 170 && upper n = 75 && foldEq k2 ns
      | _ => false
    else false

/-! ## The response types (`types.go`) -/

/-- A Go slice that is not nil: its elements, and the elements of its backing
array beyond its length (they come back into view when a decoder extends the
slice again). -/
structure Slice (α : Type) where
  elems : List α
  spare : List α
  deriving DecidableEq, Repr

/-- Item IP item. -/
structure Item where
  O : Bytes
  Timestamp : Int
  deriving DecidableEq, Repr

/-- IPQueryResponse ipquery response type. -/
structure IPQueryResponse where
  Status : Bytes
  City : Bytes
  Country : Bytes
  AS : Int
  ASName : Bytes
  Whois : Bytes
  Route : Bytes
  BGPRoute : Bytes
  ActiveForwardDNS : Option (Slice Item)
  ActiveDNSHistory : Option (Slice Item)
  PassiveReverseDNS : Option (Slice Item)
  PassiveDNSHistory : Option (Slice Item)
  deriving DecidableEq, Repr

/-- Prefix AS prefix. -/
structure Prefix where
  N : Bytes
  InBGP : Int
  deriving DecidableEq, Repr

/-- ASQueryResponse asquery response type. -/
structure ASQueryResponse where
  Status : Bytes
  Nets : Option (Slice Prefix)
  deriving DecidableEq, Repr

/-- PassiveDNS pdns response type. -/
structure PassiveDNS where
  RRName : Bytes
  RRData : Bytes
  RRType : Bytes
  TimeFirst : Int
  TimeLast : Int
  Count : Int
  deriving DecidableEq, Repr

/-- The zero value of `Item`. -/
def Item.zero : Item := ⟨[], 0⟩

/-- The zero value of `Prefix`. -/
def Prefix.zero : Prefix := ⟨[], 0⟩

/-- The zero value of `IPQueryResponse` (`var r IPQueryResponse`). -/
def IPQueryResponse.zero : IPQueryResponse :=
  ⟨[], [], [], 0, [], [], [], [], none, none, none, none⟩

/-- The zero value of `ASQueryResponse`. -/
def ASQueryResponse.zero : ASQueryResponse := ⟨[], none⟩

/-- The zero value of `PassiveDNS`. -/
def PassiveDNS.zero : PassiveDNS := ⟨[], [], [], 0, 0, 0⟩

/-! ## encoding/json: storing a value into a Go value -/

/-- Store a JSON value into a `string`: a string is unquoted, `null` leaves
the field as it is, any other value is a type error. -/
def decodeString (v : JValue) (cur : Bytes) : Except Error Bytes :=
  match v with
  | .null => .ok cur
  | .str raw =>
    match unquote raw with
    | some s => .ok s
    | none => .error .badSyntax
  | _ => .error .unmarshalType

/-- Store a JSON value into an `int`: a number must be accepted by
`strconv.ParseInt`, `null` leaves the field as it is. -/
def decodeInt (v : JValue) (cur : Int) : Except Error Int :=
  match v with
  | .null => .ok cur
  | .num lit =>
    match strconv_ParseInt lit with
    | some n => .ok n
    | none => .error .unmarshalType
  | _ => .error .unmarshalType

/-- Store one object member into an `Item`. -/
def Item.setField (cur : Item) (m : Bytes × JValue) : Except Error Item :=
  match unquote m.1 with
  | none => .error .badSyntax
  | some key =>
    if foldEq key (ascii "o") then
      match decodeString m.2 cur.O with
      | .ok s => .ok { cur with O := s }
      | .error e => .error e
    else if foldEq key (ascii "t") then
      match decodeInt m.2 cur.Timestamp with
      | .ok n => .ok { cur with Timestamp := n }
      | .error e => .error e
    else .ok cur

/-- Store the members of an object one after the other. -/
def storeMembers {α : Type} (set : α → Bytes × JValue → Except Error α) :
    List (Bytes × JValue) → α → Except Error α
  | [], cur => .ok cur
  | m :: ms, cur =>
    match set cur m with
    | .ok next => storeMembers set ms next
    | .error e => .error e

/-- Store a JSON value into a struct: an object is stored member by member,
`null` leaves the struct as it is. -/
def decodeStruct {α : Type} (set : α → Bytes × JValue → Except Error α)
    (v : JValue) (cur : α) : Except Error α :=
  match v with
  | .null => .ok cur
  | .obj ms => storeMembers set ms cur
  | _ => .error .unmarshalType

/-- Store the elements of a JSON array into the elements of a backing array,
one by one: element `i` is stored into the value already at index `i`, or
into a zero value beyond the backing array. -/
def storeElems {α : Type} (zero : α) (dec : JValue → α → Except Error α) :
    List JValue → List α → Except Error (List α)
  | [], _ => .ok []
  | e :: es, backing =>
    match dec e (backing.headD zero) with
    | .error err => .error err
    | .ok x =>
      match storeElems zero dec es backing.tail with
      | .error err => .error err
      | .ok xs => .ok (x :: xs)

/-- Store a JSON value into a slice (`decodeState.array`): `null` gives the
nil slice, an array gives a slice of as many elements, an empty array a fresh
empty slice. -/
def decodeSlice {α : Type} (zero : α) (dec : JValue → α → Except Error α)
    (v : JValue) (cur : Option (Slice α)) : Except Error (Option (Slice α)) :=
  match v with
  | .null => .ok none
  | .arr es =>
    let backing : List α :=
      match cur with
      | none => []
      | some sl => sl.elems ++ sl.spare
    match storeElems zero dec es backing with
    | .error err => .error err
    | .ok xs =>
      match es with
      | [] => .ok (some ⟨[], []⟩)
      | _ :: _ => .ok (some ⟨xs, backing.drop xs.length⟩)
  | _ => .error .unmarshalType

/-- Store a JSON value into an `Item`. -/
def decodeItem (v : JValue) (cur : Item) : Except Error Item :=
  decodeStruct Item.setField v cur

/-- Store one object member into a `Prefix`. -/
def Prefix.setField (cur : Prefix) (m : Bytes × JValue) : Except Error Prefix :=
  match unquote m.1 with
  | none => .error .badSyntax
  | some key =>
    if foldEq key (ascii "n") then
      match decodeString m.2 cur.N with
      | .ok s => .ok { cur with N := s }
      | .error e => .error e
    else if foldEq key (ascii "inbgp") then
      match decodeInt m.2 cur.InBGP with
      | .ok n => .ok { cur with InBGP := n }
      | .error e => .error e
    else .ok cur

/-- Store a JSON value into a `Prefix`. -/
def decodePrefix (v : JValue) (cur : Prefix) : Except Error Prefix :=
  decodeStruct Prefix.setField v cur

/-- Store one object member into a `PassiveDNS`. -/
def PassiveDNS.setField (cur : PassiveDNS) (m : Bytes × JValue) : Except Error PassiveDNS :=
  match unquote m.1 with
  | none => .error .badSyntax
  | some key =>
    if foldEq key (ascii "rrname") then
      match decodeString m.2 cur.RRName with
      | .ok s => .ok { cur with RRName := s }
      | .error e => .error e
    else if foldEq key (ascii "rrdata") then
      match decodeString m.2 cur.RRData with
      | .ok s => .ok { cur with RRData := s }
      | .error e => .error e
    else if foldEq key (ascii "rrtype") then
      match decodeString m.2 cur.RRType with
      | .ok s => .ok { cur with RRType := s }
      | .error e => .error e
    else if foldEq key (ascii "time_first") then
      match decodeInt m.2 cur.TimeFirst with
      | .ok n => .ok { cur with TimeFirst := n }
      | .error e => .error e
    else if foldEq key (ascii "time_last") then
      match decodeInt m.2 cur.TimeLast with
      | .ok n => .ok { cur with TimeLast := n }
      | .error e => .error e
    else if foldEq key (ascii "count") then
      match decodeInt m.2 cur.Count with
      | .ok n => .ok { cur with Count := n }
      | .error e => .error e
    else .ok cur

/-- Store a JSON value into a `PassiveDNS`. -/
def decodePassiveDNS (v : JValue) (cur : PassiveDNS) : Except Error PassiveDNS :=
  decodeStruct PassiveDNS.setField v cur

/-- Store one object member into an `ASQueryResponse`. -/
def ASQueryResponse.setField (cur : ASQueryResponse) (m : Bytes × JValue) :
    Except Error ASQueryResponse :=
  match unquote m.1 with
  | none => .error .badSyntax
  | some key =>
    if foldEq key (ascii "status") then
      match decodeString m.2 cur.Status with
      | .ok s => .ok { cur with Status := s }
      | .error e => .error e
    else if foldEq key (ascii "nets") then
      match decodeSlice Prefix.zero decodePrefix m.2 cur.Nets with
      | .ok x => .ok { cur with Nets := x }
      | .error e => .error e
    else .ok cur

/-- Store a JSON value into an `ASQueryResponse`. -/
def decodeASQueryResponse (v : JValue) (cur : ASQueryResponse) : Except Error ASQueryResponse :=
  decodeStruct ASQueryResponse.setField v cur

/-- Store one object member into an `IPQueryResponse`. -/
def IPQueryResponse.setField (cur : IPQueryResponse) (m : Bytes × JValue) :
    Except Error IPQueryResponse :=
  match unquote m.1 with
  | none => .error .badSyntax
  | some key =>
    if foldEq key (ascii "status") then
      match decodeString m.2 cur.Status with
      | .ok s => .ok { cur with Status := s }
      | .error e => .error e
    else if foldEq key (ascii "city") then
      match decodeString m.2 cur.City with
      | .ok s => .ok { cur with City := s }
      | .error e => .error e
    else if foldEq key (ascii "country") then
      match decodeString m.2 cur.Country with
      | .ok s => .ok { cur with Country := s }
      | .error e => .error e
    else if foldEq key (ascii "as") then
      match decodeInt m.2 cur.AS with
      | .ok n => .ok { cur with AS := n }
      | .error e => .error e
    else if foldEq key (ascii "asname") then
      match decodeString m.2 cur.ASName with
      | .ok s => .ok { cur with ASName := s }
      | .error e => .error e
    else if foldEq key (ascii "whoisdesc") then
      match decodeString m.2 cur.Whois with
      | .ok s => .ok { cur with Whois := s }
      | .error e => .error e
    else if foldEq key (ascii "routedesc") then
      match decodeString m.2 cur.Route with
      | .ok s => .ok { cur with Route := s }
      | .error e => .error e
    else if foldEq key (ascii "bgproute") then
      match decodeString m.2 cur.BGPRoute with
      | .ok s => .ok { cur with BGPRoute := s }
      | .error e => .error e
    else if foldEq key (ascii "act") then
      match decodeSlice Item.zero decodeItem m.2 cur.ActiveForwardDNS with
      | .ok x => .ok { cur with ActiveForwardDNS := x }
      | .error e => .error e
    else if foldEq key (ascii "acth") then
      match decodeSlice Item.zero decodeItem m.2 cur.ActiveDNSHistory with
      | .ok x => .ok { cur with ActiveDNSHistory := x }
      | .error e => .error e
    else if foldEq key (ascii "pas") then
      match decodeSlice Item.zero decodeItem m.2 cur.PassiveReverseDNS with
      | .ok x => .ok { cur with PassiveReverseDNS := x }
      | .error e => .error e
    else if foldEq key (ascii "pash") then
      match decodeSlice Item.zero decodeItem m.2 cur.PassiveDNSHistory with
      | .ok x => .ok { cur with PassiveDNSHistory := x }
      | .error e => .error e
    else .ok cur

/-- Store a JSON value into an `IPQueryResponse`. -/
def decodeIPQueryResponse (v : JValue) (cur : IPQueryResponse) : Except Error IPQueryResponse :=
  decodeStruct IPQueryResponse.setField v cur

/-- The call `decoder.Decode(&r)`: read the next value of the stream, then
store it into `r`. -/
def Decoder.Decode {α : Type} (store : JValue → α → Except Error α) (dec : Decoder) (r : α) :
    Except Error (α × Decoder) :=
  match dec.readValue with
  | .error e => .error e
  | .ok (v, rest) =>
    match store v r with
    | .error e => .error e
    | .ok x => .ok (x, rest)

/-! ## strings and path -/

/-- The Go call `strings.Cut(s, sep)` for a one byte separator: the text
before the first separator, the text after it, and whether there is one. -/
def cut (sep : UInt8) : Bytes → Bytes × Bytes × Bool
  | [] => ([], [], false)
  | c :: cs =>
    if c = sep then ([], cs, true)
    else ((c :: (cut sep cs).1), (cut sep cs).2.1, (cut sep cs).2.2)

/-- The pieces of `s` between the occurrences of `sep` (`strings.Split`). -/
def splitBytes (sep : UInt8) : Bytes → List Bytes
  | [] => [[]]
  | c :: cs =>
    if c = sep then [] :: splitBytes sep cs
    else
      match splitBytes sep cs with
      | [] => [[c]]
      | x :: xs => (c :: x) :: xs

/-- Join pieces with a separator byte between them. -/
def joinBytes (sep : UInt8) : List Bytes → Bytes
  | [] => []
  | [x] => x
  | x :: y :: ys => x ++ sep :: joinBytes sep (y :: ys)

/-- One step of `path.Clean` on the stack of elements written so far; the
second component counts the leading `..` elements, which are never removed. -/
def cleanStep (rooted : Bool) (st : List Bytes × Nat) (comp : Bytes) : List Bytes × Nat :=
  if comp = [] || comp = [46] then st
  else if comp = [46, 46] then
    if st.2 < st.1.length then (st.1.dropLast, st.2)
    else if rooted then st
    else (st.1 ++ [comp], st.2 + 1)
  else (st.1 ++ [comp], st.2)

/-- The Go call `path.Clean(p)`: empty and `.` elements are dropped, an inner
`..` removes the element before it, a `..` at the start of a rooted path is
dropped; the empty result is written `.`. -/
def path_Clean (p : Bytes) : Bytes :=
  match p with
  | [] => [46]
  | c :: _ =>
    let rooted : Bool := c = 47
    let out := ((splitBytes 47 p).foldl (cleanStep rooted) ([], 0)).1
    let r := if rooted then 47 :: joinBytes 47 out else joinBytes 47 out
    match r with
    | [] => [46]
    | _ :: _ => r

/-- The buffer `path.Join` builds before cleaning it. -/
def joinStep (buf e : Bytes) : Bytes :=
  match buf, e with
  | [], [] => []
  | [], _ :: _ => e
  | _ :: _, _ => buf ++ 47 :: e

/-- The Go call `path.Join(elem...)`. -/
def path_Join (elem : List Bytes) : Bytes :=
  if elem.all (fun e => e.isEmpty) then [] else path_Clean (elem.foldl joinStep [])

/-! ## net/url -/

/-- A `*url.Userinfo`. -/
structure Userinfo where
  username : Bytes
  password : Bytes
  passwordSet : Bool
  deriving DecidableEq, Repr

/-- A `url.URL`. -/
structure URL where
  Scheme : Bytes
  Opaque : Bytes
  User : Option Userinfo
  Host : Bytes
  Path : Bytes
  RawPath : Bytes
  OmitHost : Bool
  ForceQuery : Bool
  RawQuery : Bytes
  Fragment : Bytes
  RawFragment : Bytes
  deriving DecidableEq, Repr

/-- The zero `url.URL`. -/
def URL.zero : URL := ⟨[], [], none, [], [], [], false, false, [], [], []⟩

/-- The part of a URL an escaping is for (`encoding` of `net/url`). -/
inductive Encoding where
  | path | pathSegment | host | zone | userPassword | queryComponent | fragment
  deriving DecidableEq, Repr

/-- An ASCII letter or digit. -/
def isAlnum (c : UInt8) : Bool :=
  (97 ≤ c && c ≤ 122) || (65 ≤ c && c ≤ 90) || (48 ≤ c && c ≤ 57)

/-- Whether byte `c` is written as `%XX` in the given part (`shouldEscape`). -/
def shouldEscape (c : UInt8) (mode : Encoding) : Bool :=
  if isAlnum c then false
  else if (mode = .host || mode = .zone) &&
      (c = 33 || c = 36 || c = 38 || c = 39 || c = 40 || c = 41 || c = 42 || c = 43 || c = 44
        || c = 59 || c = 61 || c = 58 || c = 91 || c = 93 || c = 60 || c = 62 || c = 34) then false
  else if c = 45 || c = 95 || c = 46 || c = 126 then false
  else if c = 36 || c = 38 || c = 43 || c = 44 || c = 47 || c = 58 || c = 59 || c = 61
      || c = 63 || c = 64 then
    match mode with
    | .path => c = 63
    | .pathSegment => c = 47 || c = 59 || c = 44 || c = 63
    | .userPassword => c = 64 || c = 47 || c = 63 || c = 58
    | .queryComponent => true
    | .fragment => false
    | _ => true
  else if mode = .fragment && (c = 33 || c = 40 || c = 41 || c = 42) then false
  else true

/-- The upper case hexadecimal digit for a value below 16. -/
def upperhex (n : Nat) : UInt8 := if n < 10 then UInt8.ofNat (48 + n) else UInt8.ofNat (55 + n)

/-- The function `escape(s, mode)` of `net/url`. -/
def escape (mode : Encoding) : Bytes → Bytes
  | [] => []
  | c :: cs =>
    if shouldEscape c mode then
      if c = 32 && mode = .queryComponent then 43 :: escape mode cs
      else 37 :: upperhex (c.toNat / 16) :: upperhex (c.toNat % 16) :: escape mode cs
    else c :: escape mode cs

/-- The function `unescape(s, mode)` of `net/url`. -/
def unescape (mode : Encoding) : Bytes → Except Error Bytes
  | [] => .ok []
  | c :: cs =>
    if c = 37 then
      match cs with
      | h1 :: h2 :: rest =>
        if isHex h1 && isHex h2 then
          let v : UInt8 := UInt8.ofNat (hexVal h1 * 16 + hexVal h2)
          if mode = .host && hexVal h1 < 8 && !(h1 = 50 && h2 = 53) then .error .urlParse
          else if mode = .zone && !(h1 = 50 && h2 = 53) && v != 32 && shouldEscape v .host then
            .error .urlParse
          else
            match unescape mode rest with
            | .ok t => .ok (v :: t)
            | .error e => .error e
        else .error .urlParse
      | _ => .error .urlParse
    else if c = 43 then
      match unescape mode cs with
      | .ok t => .ok ((if mode = .queryComponent then 32 else 43) :: t)
      | .error e => .error e
    else if (mode = .host || mode = .zone) && c < 128 && shouldEscape c .host then
      .error .urlParse
    else
      match unescape mode cs with
      | .ok t => .ok (c :: t)
      | .error e => .error e

/-- The Go call `url.QueryEscape(s)`. -/
def QueryEscape (s : Bytes) : Bytes := escape .queryComponent s

/-- The Go call `url.QueryUnescape(s)`. -/
def QueryUnescape (s : Bytes) : Except Error Bytes := unescape .queryComponent s

/-- Whether `s` is an acceptable encoding for the given part (`validEncoded`). -/
def validEncoded (mode : Encoding) (s : Bytes) : Bool :=
  s.all (fun c =>
    if c = 33 || c = 36 || c = 38 || c = 39 || c = 40 || c = 41 || c = 42 || c = 43 || c = 44
        || c = 59 || c = 61 || c = 58 || c = 64 || c = 91 || c = 93 || c = 37 then true
    else !shouldEscape c mode)

/-- The method `setPath`: `Path` is the unescaped path, `RawPath` is kept only
when it differs from the default escaping of `Path`. -/
def URL.setPath (u : URL) (p : Bytes) : Except Error URL :=
  match unescape .path p with
  | .error e => .error e
  | .ok path =>
    .ok { u with Path := path, RawPath := if p = escape .path path then [] else p }

/-- The method `EscapedPath`. -/
def URL.EscapedPath (u : URL) : Bytes :=
  if u.RawPath ≠ [] && validEncoded .path u.RawPath && unescape .path u.RawPath = .ok u.Path then
    u.RawPath
  else if u.Path = [42] then [42]
  else escape .path u.Path

/-- The method `setFragment`. -/
def URL.setFragment (u : URL) (f : Bytes) : Except Error URL :=
  match unescape .fragment f with
  | .error e => .error e
  | .ok frag =>
    .ok { u with Fragment := frag, RawFragment := if f = escape .fragment frag then [] else f }

/-- The method `EscapedFragment`. -/
def URL.EscapedFragment (u : URL) : Bytes :=
  if u.RawFragment ≠ [] && validEncoded .fragment u.RawFragment
      && unescape .fragment u.RawFragment = .ok u.Fragment then
    u.RawFragment
  else escape .fragment u.Fragment

/-- The function `getScheme`: the scheme and the text after its colon; an
input with no valid scheme is returned whole with an empty scheme.  `pre` is
the text read so far, in reverse. -/
def getSchemeAux (whole : Bytes) : Bytes → Bytes → Except Error (Bytes × Bytes)
  | _, [] => .ok ([], whole)
  | pre, c :: cs =>
    if (97 ≤ c && c ≤ 122) || (65 ≤ c && c ≤ 90) then getSchemeAux whole (c :: pre) cs
    else if (48 ≤ c && c ≤ 57) || c = 43 || c = 45 || c = 46 then
      if pre = [] then .ok ([], whole) else getSchemeAux whole (c :: pre) cs
    else if c = 58 then
      if pre = [] then .error .urlParse else .ok (pre.reverse, cs)
    else .ok ([], whole)

/-- The function `getScheme` of `net/url`. -/
def getScheme (rawURL : Bytes) : Except Error (Bytes × Bytes) := getSchemeAux rawURL [] rawURL

/-- Lower case of an ASCII letter (`strings.ToLower` on ASCII). -/
def lower (c : UInt8) : UInt8 := if 65 ≤ c && c ≤ 90 then c + 32 else c

/-- Whether the text holds an ASCII control byte (`stringContainsCTLByte`). -/
def stringContainsCTLByte (s : Bytes) : Bool := s.any (fun b => b < 32 || b = 127)

/-- The function `validOptionalPort`. -/
def validOptionalPort (port : Bytes) : Bool :=
  match port with
  | [] => true
  | c :: ds => c = 58 && ds.all isDigit

/-- The function `validUserinfo`. -/
def validUserinfo (s : Bytes) : Bool :=
  s.all (fun r => isAlnum r || r = 45 || r = 46 || r = 95 || r = 58 || r = 126 || r = 33
    || r = 36 || r = 38 || r = 39 || r = 40 || r = 41 || r = 42 || r = 43 || r = 44 || r = 59
    || r = 61 || r = 37 || r = 64)

/-- The text from the last occurrence of `sep` on (that byte included), when
there is one. -/
def fromLast (sep : UInt8) : Bytes → Option Bytes
  | [] => none
  | c :: cs =>
    match fromLast sep cs with
    | some t => some t
    | none => if c = sep then some (c :: cs) else none

/-- The text before the last occurrence of `sep`, when there is one. -/
def beforeLast (sep : UInt8) : Bytes → Option Bytes
  | [] => none
  | c :: cs =>
    match beforeLast sep cs with
    | some t => some (c :: t)
    | none => if c = sep then some [] else none

/-- The text before the first `%25`, and the text from it on, when there is
one (`strings.Index(s, "%25")`). -/
def splitZone : Bytes → Option (Bytes × Bytes)
  | [] => none
  | c :: cs =>
    if [37, 50, 53].isPrefixOf (c :: cs) then some ([], c :: cs)
    else
      match splitZone cs with
      | some (a, b) => some (c :: a, b)
      | none => none

/-- The function `parseHost`: a host with an optional port. -/
def parseHost (host : Bytes) : Except Error Bytes :=
  match host with
  | 91 :: _ =>
    match beforeLast 93 host, fromLast 93 host with
    | some inner, some (_ :: colonPort) =>
      if !validOptionalPort colonPort then .error .urlParse
      else
        match splitZone inner with
        | some (h1, z) =>
          match unescape .host h1, unescape .zone z, unescape .host (93 :: colonPort) with
          | .ok a, .ok b, .ok c => .ok (a ++ b ++ c)
          | _, _, _ => .error .urlParse
        | none => unescape .host host
    | _, _ => .error .urlParse
  | _ =>
    match fromLast 58 host with
    | some colonPort =>
      if validOptionalPort colonPort then unescape .host host else .error .urlParse
    | none => unescape .host host

/-- The function `parseAuthority`: optional user information, then the host. -/
def parseAuthority (authority : Bytes) : Except Error (Option Userinfo × Bytes) :=
  match beforeLast 64 authority, fromLast 64 authority with
  | some userinfo, some (_ :: hostpart) =>
    match parseHost hostpart with
    | .error e => .error e
    | .ok host =>
      if !validUserinfo userinfo then .error .urlParse
      else if (cut 58 userinfo).2.2 then
        match unescape .userPassword (cut 58 userinfo).1,
            unescape .userPassword (cut 58 userinfo).2.1 with
        | .ok name, .ok pw => .ok (some ⟨name, pw, true⟩, host)
        | _, _ => .error .urlParse
      else
        match unescape .userPassword userinfo with
        | .ok name => .ok (some ⟨name, [], false⟩, host)
        | .error e => .error e
  | _, _ =>
    match parseHost authority with
    | .error e => .error e
    | .ok host => .ok (none, host)

/-- The function `parse(rawURL, false)` of `net/url`: a URL without its
fragment. -/
def parseNoFragment (rawURL : Bytes) : Except Error URL :=
  if stringContainsCTLByte rawURL then .error .urlParse
  else if rawURL = [42] then .ok { URL.zero with Path := [42] }
  else
    match getScheme rawURL with
    | .error e => .error e
    | .ok (scheme0, rest0) =>
      let scheme := scheme0.map lower
      let force : Bool := rest0.getLast? = some 63 && rest0.count 63 = 1
      let rest := if force then rest0.dropLast else (cut 63 rest0).1
      let rawQuery := if force then [] else (cut 63 rest0).2.1
      let u0 : URL := { URL.zero with Scheme := scheme, ForceQuery := force, RawQuery := rawQuery }
      if rest.head? ≠ some 47 && scheme ≠ [] then .ok { u0 with Opaque := rest }
      else if rest.head? ≠ some 47 && (cut 47 rest).1.contains 58 then .error .urlParse
      else if (scheme ≠ [] || !([47, 47, 47].isPrefixOf rest)) && [47, 47].isPrefixOf rest then
        let auth := (cut 47 (rest.drop 2)).1
        let rest1 := (rest.drop 2).drop auth.length
        match parseAuthority auth with
        | .error e => .error e
        | .ok (user, host) => { u0 with User := user, Host := host }.setPath rest1
      else if scheme ≠ [] && rest.head? = some 47 then { u0 with OmitHost := true }.setPath rest
      else u0.setPath rest

/-- The Go call `url.Parse(rawURL)`. -/
def url_Parse (rawURL : Bytes) : Except Error URL :=
  match parseNoFragment (cut 35 rawURL).1 with
  | .error e => .error e
  | .ok u => if (cut 35 rawURL).2.1 = [] then .ok u else u.setFragment (cut 35 rawURL).2.1

/-- One round of the loop of `resolvePath` over the elements of the path:
the text written so far, and whether the next element is the first one. -/
def resolveStep (st : Bytes × Bool) (elem : Bytes) : Bytes × Bool :=
  if elem = [46] then (st.1, false)
  else if elem = [46, 46] then
    match beforeLast 47 (st.1.drop 1) with
    | none => ([47], true)
    | some pre => (47 :: pre, st.2)
  else ((if st.2 then st.1 else st.1 ++ [47]) ++ elem, false)

/-- The function `resolvePath(base, ref)` of `net/url`: the reference path
applied to the base path, without `.` and `..` elements. -/
def resolvePath (base ref : Bytes) : Bytes :=
  let full : Bytes :=
    match ref with
    | [] => base
    | c :: _ =>
      if c = 47 then ref
      else
        match beforeLast 47 base with
        | some pre => pre ++ 47 :: ref
        | none => ref
  match full with
  | [] => []
  | _ :: _ =>
    let elems := splitBytes 47 full
    let dst := (elems.foldl resolveStep ([47], true)).1
    let last := elems.getLast?.getD []
    let r := if last = [46] || last = [46, 46] then dst ++ [47] else dst
    match r with
    | _ :: 47 :: t => 47 :: t
    | _ => r

/-- A call of `setPath` whose error is dropped: on an error the URL is left
as it is. -/
def URL.setPathIgnore (u : URL) (p : Bytes) : URL :=
  match u.setPath p with
  | .ok v => v
  | .error _ => u

/-- The method `ResolveReference`. -/
def URL.ResolveReference (u ref : URL) : URL :=
  let url : URL := if ref.Scheme = [] then { ref with Scheme := u.Scheme } else ref
  if ref.Scheme ≠ [] || ref.Host ≠ [] || ref.User.isSome then
    url.setPathIgnore (resolvePath ref.EscapedPath [])
  else if ref.Opaque ≠ [] then { url with User := none, Host := [], Path := [] }
  else
    let url1 : URL :=
      if ref.Path = [] && !ref.ForceQuery && ref.RawQuery = [] then
        if ref.Fragment = [] then
          { url with RawQuery := u.RawQuery, Fragment := u.Fragment, RawFragment := u.RawFragment }
        else { url with RawQuery := u.RawQuery }
      else url
    if ref.Path = [] && u.Opaque ≠ [] then
      { url1 with Opaque := u.Opaque, User := none, Host := [], Path := [] }
    else
      { url1 with Host := u.Host, User := u.User }.setPathIgnore
        (resolvePath u.EscapedPath ref.EscapedPath)

/-- The method `(*URL).Parse`: parse a reference and resolve it against the
receiver. -/
def URL.Parse (u : URL) (ref : Bytes) : Except Error URL :=
  match url_Parse ref with
  | .error e => .error e
  | .ok refURL => .ok (u.ResolveReference refURL)

/-- The method `(*Userinfo).String`. -/
def Userinfo.String (ui : Userinfo) : Bytes :=
  if ui.passwordSet then
    escape .userPassword ui.username ++ 58 :: escape .userPassword ui.password
  else escape .userPassword ui.username

/-- The method `(*URL).String`. -/
def URL.String (u : URL) : Bytes :=
  let scheme : Bytes := if u.Scheme ≠ [] then u.Scheme ++ [58] else []
  let mid : Bytes :=
    if u.Opaque ≠ [] then u.Opaque
    else
      let auth : Bytes :=
        if u.Scheme ≠ [] || u.Host ≠ [] || u.User.isSome then
          if u.OmitHost && u.Host = [] && u.User.isNone then []
          else
            (if u.Host ≠ [] || u.Path ≠ [] || u.User.isSome then [47, 47] else [])
              ++ (match u.User with
                  | some ui => ui.String ++ [64]
                  | none => [])
              ++ (if u.Host ≠ [] then escape .host u.Host else [])
        else []
      let path := u.EscapedPath
      let slash : Bytes := if path ≠ [] && path.head? ≠ some 47 && u.Host ≠ [] then [47] else []
      let dot : Bytes :=
        if scheme = [] && auth = [] && slash = [] && (cut 47 path).1.contains 58 then [46, 47]
        else []
      auth ++ slash ++ dot ++ path
  scheme ++ mid
    ++ (if u.ForceQuery || u.RawQuery ≠ [] then 63 :: u.RawQuery else [])
    ++ (if u.Fragment ≠ [] then 35 :: u.EscapedFragment else [])

/-- A `url.Values`: the keys with their values, each key once. -/
abbrev Values := List (Bytes × List Bytes)

/-- The statement `m[key] = append(m[key], value)`. -/
def Values.add : Values → Bytes → Bytes → Values
  | [], key, value => [(key, [value])]
  | (k, vs) :: t, key, value =>
    if k = key then (k, vs ++ [value]) :: t else (k, vs) :: Values.add t key value

/-- The method `Values.Set`: the key gets the one value. -/
def Values.Set : Values → Bytes → Bytes → Values
  | [], key, value => [(key, [value])]
  | (k, vs) :: t, key, value =>
    if k = key then (k, [value]) :: t else (k, vs) :: Values.Set t key value

/-- The method `Values.Get`: the first value of the key, or the empty string. -/
def Values.Get (m : Values) (key : Bytes) : Bytes :=
  match m.lookup key with
  | some (v :: _) => v
  | _ => []

/-- The method `Values.Has`. -/
def Values.Has (m : Values) (key : Bytes) : Bool := (m.lookup key).isSome

/-- One round of the loop of `parseQuery`, on one piece of the query between
two `&`: a piece with a semicolon, an empty piece and a piece that does not
unescape are passed over. -/
def parseQueryStep (m : Values) (piece : Bytes) : Values :=
  if piece.contains 59 then m
  else if piece = [] then m
  else
    match QueryUnescape (cut 61 piece).1, QueryUnescape (cut 61 piece).2.1 with
    | .ok key, .ok value => m.add key value
    | _, _ => m

/-- The values of a query string (`url.ParseQuery`, its error dropped). -/
def parseQuery (query : Bytes) : Values := (splitBytes 38 query).foldl parseQueryStep []

/-- The method `(*URL).Query`. -/
def URL.Query (u : URL) : Values := parseQuery u.RawQuery

/-- Byte-wise lexicographic order on strings (Go string comparison). -/
def bytesLE : Bytes → Bytes → Bool
  | [], _ => true
  | _ :: _, [] => false
  | a :: as, b :: bs => a < b || (a = b && bytesLE as bs)

/-- The pairs `key=value` of the values in the order `Encode` writes them:
by sorted key. -/
def Values.pairs (m : Values) : List (Bytes × Bytes) :=
  (m.insertionSort (fun a b => bytesLE a.1 b.1 = true)).flatMap
    (fun kv => kv.2.map (fun v => (kv.1, v)))

/-- The method `Values.Encode`: `key=value` pairs, escaped, joined by `&`,
sorted by key. -/
def Values.Encode (m : Values) : Bytes :=
  joinBytes 38 (m.pairs.map (fun kv => QueryEscape kv.1 ++ 61 :: QueryEscape kv.2))

/-! ## net/http: building a request -/

/-- A `context.Context` that is not nil. -/
structure Context where
  id : Nat
  deriving DecidableEq, Repr

/-- The fields of an `http.Request` that `NewRequestWithContext` sets. -/
structure Request where
  ctx : Context
  Method : Bytes
  URL : URL
  Host : Bytes
  /-- Whether the body is `http.NoBody`. -/
  NoBody : Bool
  deriving DecidableEq, Repr

/-- An `http.Response`: its status code and the bytes of its body. -/
structure Response where
  StatusCode : Int
  Body : Bytes
  deriving DecidableEq, Repr

/-- The constant `http.MethodGet`. -/
def MethodGet : Bytes := ascii "GET"

/-- The constant `http.StatusOK`. -/
def StatusOK : Int := 200

/-- A byte allowed in an HTTP token (`httpguts.IsTokenRune`). -/
def isTokenByte (c : UInt8) : Bool :=
  isAlnum c || c = 33 || c = 35 || c = 36 || c = 37 || c = 38 || c = 39 || c = 42 || c = 43
    || c = 45 || c = 46 || c = 94 || c = 95 || c = 96 || c = 124 || c = 126

/-- The function `validMethod` of `net/http`. -/
def validMethod (method : Bytes) : Bool := !method.isEmpty && method.all isTokenByte

/-- The function `removeEmptyPort`: a host that ends in a colon loses it. -/
def removeEmptyPort (host : Bytes) : Bytes :=
  match fromLast 58 host with
  | some t => if !t.contains 93 && host.getLast? = some 58 then host.dropLast else host
  | none => host

/-- An error of `http.NewRequestWithContext` on a method that is not a token. -/
def invalidMethod : Error := .transport 0

/-- The Go call `http.NewRequestWithContext(ctx, method, url, http.NoBody)`;
`ctx` is `none` for a nil context. -/
def NewRequestWithContext (ctx : Option Context) (method url : Bytes) : Except Error Request :=
  let m := if method = [] then MethodGet else method
  if !validMethod m then .error invalidMethod
  else
    match ctx with
    | none => .error .nilContext
    | some cx =>
      match url_Parse url with
      | .error e => .error e
      | .ok u =>
        .ok { ctx := cx, Method := m, URL := { u with Host := removeEmptyPort u.Host },
              Host := removeEmptyPort u.Host, NoBody := true }

/-! ## The client (`robtex.go`) -/

/-- API endpoint of the free tier. -/
def FreeAPIBaseURL : Bytes := ascii "https://freeapi.robtex.com"

/-- API endpoint of the pro tier. -/
def ProAPIBaseURL : Bytes := ascii "https://proapi.robtex.com"

/-- Client a Robtex API client.  `httpClient` is the method `Do` of the
`*http.Client`. -/
structure Client where
  httpClient : Request → Except Error Response
  baseURL : URL
  apiKey : Bytes

/-- The result of `url.Parse` with its error dropped (`baseURL, _ := ...`). -/
def parsedOrZero (rawURL : Bytes) : URL :=
  match url_Parse rawURL with
  | .ok u => u
  | .error _ => URL.zero

/-- New created a new Client.  `transport` stands for the HTTP client with
its five second timeout. -/
def New (transport : Request → Except Error Response) (apiKey : Bytes) : Client :=
  { httpClient := transport
    baseURL := if apiKey ≠ [] then parsedOrZero ProAPIBaseURL else parsedOrZero FreeAPIBaseURL
    apiKey := apiKey }

/-- The method `newRequest`: the path elements are joined onto the path of
the base URL, the API key, when there is one, is set as the query parameter
`key`, and a GET request without body is built for the URL. -/
def Client.newRequest (c : Client) (ctx : Option Context) (k : List Bytes) :
    Except Error Request :=
  match c.baseURL.Parse (path_Join [c.baseURL.Path, path_Join k]) with
  | .error e => .error e
  | .ok endpoint =>
    let endpoint1 : URL :=
      if c.apiKey ≠ [] then
        { endpoint with RawQuery := (endpoint.Query.Set (ascii "key") c.apiKey).Encode }
      else endpoint
    NewRequestWithContext ctx MethodGet endpoint1.String

/-- The common part of the four operations: build the request, send it, and
turn a status other than 200 into an error that carries the status code and
the body; otherwise hand the body to `decode`. -/
def Client.roundTrip {α : Type} (c : Client) (ctx : Option Context) (k : List Bytes)
    (decode : Bytes → Except Error α) : Except Error α :=
  match c.newRequest ctx k with
  | .error e => .error e
  | .ok req =>
    match c.httpClient req with
    | .error e => .error e
    | .ok resp =>
      if resp.StatusCode ≠ StatusOK then .error (.status resp.StatusCode resp.Body)
      else decode resp.Body

/-- The statement `json.NewDecoder(resp.Body).Decode(&r)` on a zero `r`
followed by `return &r, nil`: the first value of the body, stored. -/
def decodeOne {α : Type} (store : JValue → α → Except Error α) (zero : α) (body : Bytes) :
    Except Error α :=
  match Decoder.Decode store body zero with
  | .error e => .error e
  | .ok (r, _) => .ok r

/-- The loop `for decoder.More() { ... decoder.Decode(&r) ... append }`.  The
result is `none` only when the fuel runs out. -/
def decodeLoop : Nat → Decoder → List PassiveDNS → Option (Except Error (List PassiveDNS))
  | 0, _, _ => none
  | fuel + 1, dec, results =>
    if dec.More then
      match Decoder.Decode decodePassiveDNS dec PassiveDNS.zero with
      | .error e => some (.error e)
      | .ok (r, dec1) => decodeLoop fuel dec1 (results ++ [r])
    else some (.ok results)

/-- The decoding of a passive DNS body: the loop over the whole body. -/
def decodeStream (body : Bytes) : Except Error (List PassiveDNS) :=
  match decodeLoop (body.length + 1) body [] with
  | some r => r
  | none => .error .badSyntax

/-- IPQuery This API returns the current forward and reverse of an IP number,
together with GEO-location data and network data. -/
def Client.IPQuery (c : Client) (ctx : Option Context) (ip : Bytes) :
    Except Error IPQueryResponse :=
  c.roundTrip ctx [ascii "ipquery", ip] (decodeOne decodeIPQueryResponse IPQueryResponse.zero)

/-- ASQuery Returns an array of networks related to a specific AS number. -/
def Client.ASQuery (c : Client) (ctx : Option Context) (number : Bytes) :
    Except Error ASQueryResponse :=
  c.roundTrip ctx [ascii "asquery", number] (decodeOne decodeASQueryResponse ASQueryResponse.zero)

/-- PassiveDNSForward This API returns ldjson format, that is one JSON object
per line. -/
def Client.PassiveDNSForward (c : Client) (ctx : Option Context) (domain : Bytes) :
    Except Error (List PassiveDNS) :=
  c.roundTrip ctx [ascii "pdns", ascii "forward", domain] decodeStream

/-- PassiveDNSReverse This API returns ldjson format, that is one JSON object
per line. -/
def Client.PassiveDNSReverse (c : Client) (ctx : Option Context) (ip : Bytes) :
    Except Error (List PassiveDNS) :=
  c.roundTrip ctx [ascii "pdns", ascii "reverse", ip] decodeStream

/-! ## Auxiliary definitions for the statements -/

/-- Put records in front of the result of a decoding. -/
def prepend (acc : List PassiveDNS) :
    Except Error (List PassiveDNS) → Except Error (List PassiveDNS)
  | .ok rs => .ok (acc ++ rs)
  | .error e => .error e

/-- A transport that answers every request with the given status and body. -/
def replyWith (code : Int) (body : Bytes) : Request → Except Error Response :=
  fun _ => .ok ⟨code, body⟩

/-- The request `New("")` builds for the IP lookup of `199.19.54.1`. -/
def sampleRequest : Request :=
  { ctx := ⟨0⟩, Method := ascii "GET",
    URL := { URL.zero with Scheme := ascii "https", Host := ascii "freeapi.robtex.com",
                           Path := ascii "/ipquery/199.19.54.1" },
    Host := ascii "freeapi.robtex.com", NoBody := true }


/-- A context that is not nil. -/
def background : Option Context := some ⟨0⟩

/-- A body of two lines that together hold one object. -/
def twoLineBody : Bytes := ascii "\x7b\"rrname\":\"a.net\",\n\"count\":1\x7d\n"

/-- An object followed by a closing brace too many. -/
def trailingBody : Bytes := ascii "\x7b\"status\":\"ok\"\x7d\x7d"

/-- The body of the example of the specification: an ipquery object without
the keys `acth`, `pas` and `pash`. -/
def exampleBody : Bytes :=
  ascii ("\x7b\"status\":\"ok\",\"city\":\"Toronto\",\"country\":\"Canada\",\"as\":12041,"
    ++ "\"act\":[\x7b\"o\":\"b0.org.afilias-nst.org\",\"t\":1498717654\x7d]\x7d")

/-- The result of decoding `exampleBody`. -/
def exampleResult : IPQueryResponse :=
  { IPQueryResponse.zero with
    Status := ascii "ok", City := ascii "Toronto", Country := ascii "Canada"
    ActiveForwardDNS := some ⟨[⟨ascii "b0.org.afilias-nst.org", 1498717654⟩], []⟩
    AS := 12041 }

/-! ## JSON texts -/

mutual
/-- A JSON text: a value together with its layout, the white space at each
place where the grammar allows it.  Strings and numbers are given by their
literal text. -/
inductive Doc where
  | null
  | bool (b : Bool)
  | num (lit : Bytes)
  | str (raw : Bytes)
  | arr0 (ws : Bytes)
  | arr (elems : DocElems)
  | obj0 (ws : Bytes)
  | obj (members : DocMembers)
/-- The elements of a non-empty array, each with the white space before and
after it. -/
inductive DocElems where
  | one (w1 : Bytes) (d : Doc) (w2 : Bytes)
  | cons (w1 : Bytes) (d : Doc) (w2 : Bytes) (tl : DocElems)
/-- The members of a non-empty object, each with the white space around its
key and around its value. -/
inductive DocMembers where
  | one (w1 key w2 w3 : Bytes) (d : Doc) (w4 : Bytes)
  | cons (w1 key w2 w3 : Bytes) (d : Doc) (w4 : Bytes) (tl : DocMembers)
end

mutual
/-- The bytes of a JSON text. -/
def Doc.render : Doc → Bytes
  | .null => [110, 117, 108, 108]
  | .bool true => [116, 114, 117, 101]
  | .bool false => [102, 97, 108, 115, 101]
  | .num lit => lit
  | .str raw => 34 :: raw ++ [34]
  | .arr0 ws => 91 :: ws ++ [93]
  | .arr es => 91 :: es.render
  | .obj0 ws => 123 :: ws ++ [125]
  | .obj ms => 123 :: ms.render
/-- The bytes of the elements of an array and its closing bracket. -/
def DocElems.render : DocElems → Bytes
  | .one w1 d w2 => w1 ++ d.render ++ w2 ++ [93]
  | .cons w1 d w2 tl => w1 ++ d.render ++ w2 ++ 44 :: tl.render
/-- The bytes of the members of an object and its closing brace. -/
def DocMembers.render : DocMembers → Bytes
  | .one w1 key w2 w3 d w4 => w1 ++ 34 :: key ++ 34 :: w2 ++ 58 :: w3 ++ d.render ++ w4 ++ [125]
  | .cons w1 key w2 w3 d w4 tl =>
    w1 ++ 34 :: key ++ 34 :: w2 ++ 58 :: w3 ++ d.render ++ w4 ++ 44 :: tl.render
end

mutual
/-- The value of a JSON text: the text without its layout. -/
def Doc.value : Doc → JValue
  | .null => .null
  | .bool b => .bool b
  | .num lit => .num lit
  | .str raw => .str raw
  | .arr0 _ => .arr []
  | .arr es => .arr es.values
  | .obj0 _ => .obj []
  | .obj ms => .obj ms.values
/-- The values of the elements of an array. -/
def DocElems.values : DocElems → List JValue
  | .one _ d _ => [d.value]
  | .cons _ d _ tl => d.value :: tl.values
/-- The keys and values of the members of an object. -/
def DocMembers.values : DocMembers → List (Bytes × JValue)
  | .one _ key _ _ d _ => [(key, d.value)]
  | .cons _ key _ _ d _ tl => (key, d.value) :: tl.values
end

mutual
/-- The nesting depth of a JSON text. -/
def Doc.depth : Doc → Nat
  | .arr0 _ => 1
  | .arr es => es.depth + 1
  | .obj0 _ => 1
  | .obj ms => ms.depth + 1
  | _ => 0
/-- The greatest nesting depth among the elements. -/
def DocElems.depth : DocElems → Nat
  | .one _ d _ => d.depth
  | .cons _ d _ tl => max d.depth tl.depth
/-- The greatest nesting depth among the member values. -/
def DocMembers.depth : DocMembers → Nat
  | .one _ _ _ _ d _ => d.depth
  | .cons _ _ _ _ d _ tl => max d.depth tl.depth
end

/-- White space only. -/
def allSpace (w : Bytes) : Bool := w.all isSpace

/-- The grammar of the text between the quotes of a JSON string: bytes from
`0x20` on other than the quote and the backslash, the two-byte escapes, and
`\u` with four hexadecimal digits. -/
def strBodyOK : Bytes → Bool
  | [] => true
  | c :: cs =>
    if c = 92 then
      match cs with
      | [] => false
      | e :: t =>
        if e = 117 then
          match t with
          | h1 :: h2 :: h3 :: h4 :: t1 =>
            isHex h1 && isHex h2 && isHex h3 && isHex h4 && strBodyOK t1
          | _ => false
        else
          (e = 98 || e = 102 || e = 110 || e = 114 || e = 116 || e = 92 || e = 47 || e = 34)
            && strBodyOK t
    else c != 34 && !(c < 32) && strBodyOK cs

/-- The state of the number automaton after the given bytes. -/
def numRun : NumState → Bytes → Option NumState
  | st, [] => some st
  | st, c :: cs =>
    match st.step c with
    | some st1 => numRun st1 cs
    | none => none

/-- The grammar of a JSON number: an optional minus sign, an integer part
without leading zero, an optional fraction, an optional exponent. -/
def numOK (lit : Bytes) : Bool :=
  match lit with
  | [] => false
  | c :: cs =>
    match (if c = 45 then numRun .neg cs else if c = 48 then numRun .zero cs
      else if 49 ≤ c && c ≤ 57 then numRun .int cs else none) with
    | some st => st.accepting
    | none => false

/-- A byte that cannot continue a number, or the end of the input. -/
def numEnd (rest : Bytes) : Bool :=
  match rest with
  | [] => true
  | c :: _ => !(isDigit c || c = 46 || c = 101 || c = 69 || c = 43 || c = 45)

mutual
/-- A JSON text that follows the grammar: white space at the places for white
space, string and number literals that follow their grammar. -/
def Doc.wf : Doc → Bool
  | .null => true
  | .bool _ => true
  | .num lit => numOK lit
  | .str raw => strBodyOK raw
  | .arr0 ws => allSpace ws
  | .arr es => es.wf
  | .obj0 ws => allSpace ws
  | .obj ms => ms.wf
/-- Elements that follow the grammar. -/
def DocElems.wf : DocElems → Bool
  | .one w1 d w2 => allSpace w1 && d.wf && allSpace w2
  | .cons w1 d w2 tl => allSpace w1 && d.wf && allSpace w2 && tl.wf
/-- Members that follow the grammar. -/
def DocMembers.wf : DocMembers → Bool
  | .one w1 key w2 w3 d w4 =>
    allSpace w1 && strBodyOK key && allSpace w2 && allSpace w3 && d.wf && allSpace w4
  | .cons w1 key w2 w3 d w4 tl =>
    allSpace w1 && strBodyOK key && allSpace w2 && allSpace w3 && d.wf && allSpace w4 && tl.wf
end

/-- What may follow a JSON text for the text to end where it ends: after a
number, a byte that does not continue it. -/
def Doc.endsBefore : Doc → Bytes → Bool
  | .num _, rest => numEnd rest
  | _, _ => true

/-- An object, empty or not. -/
def Doc.isObject : Doc → Bool
  | .obj0 _ => true
  | .obj _ => true
  | _ => false

/-- A JSON text that the decoder reads whole: it follows the grammar and is
nested no deeper than the scanner allows. -/
def Doc.ok (d : Doc) : Bool := d.wf && decide (d.depth ≤ maxNestingDepth)

/-- A stream of JSON texts: each text with the white space before it, then
the rest of the body. -/
def renderStream (items : List (Bytes × Doc)) (tail : Bytes) : Bytes :=
  (items.map (fun p => p.1 ++ p.2.render)).flatten ++ tail

/-- The texts of a stream follow the grammar: white space at the places for
white space, and every text an object the decoder reads whole. -/
def streamOK (items : List (Bytes × Doc)) : Bool :=
  items.all (fun p => allSpace p.1 && p.2.ok && p.2.isObject)

/-- The values of the texts of a stream. -/
def streamValues (items : List (Bytes × Doc)) : List JValue :=
  items.map (fun p => p.2.value)

/-- The decoding of the rest of a stream after the records of its first part. -/
def andThen (first : Except Error (List PassiveDNS)) (rest : Except Error (List PassiveDNS)) :
    Except Error (List PassiveDNS) :=
  match first with
  | .ok rs => prepend rs rest
  | .error e => .error e

/-- The body with one text per line: each text is followed by a line feed. -/
def lines (docs : List Doc) : Bytes := (docs.map (fun d => d.render ++ [10])).flatten

/-- The records of a sequence of values: each value is stored into a zero
record, the first error ends the decoding and is the result. -/
def storeAll : List JValue → Except Error (List PassiveDNS)
  | [] => .ok []
  | v :: vs =>
    match decodePassiveDNS v PassiveDNS.zero with
    | .error e => .error e
    | .ok r => prepend [r] (storeAll vs)

/-! ## Objects described by their members -/

/-- Store one member into the result so far, when there is one. -/
def storeStep {α : Type} (set : α → Bytes × JValue → Except Error α) (acc : Except Error α)
    (m : Bytes × JValue) : Except Error α :=
  match acc with
  | .ok r => set r m
  | .error e => .error e

/-- A raw key that selects none of the fields with the given names. -/
def selectsNone (names : List Bytes) (raw : Bytes) : Bool :=
  match unquote raw with
  | some key => names.all (fun n => !foldEq key n)
  | none => false

/-- The JSON keys of a `PassiveDNS`. -/
def PassiveDNS.keys : List Bytes :=
  [ascii "rrname", ascii "rrdata", ascii "rrtype", ascii "time_first", ascii "time_last",
    ascii "count"]

/-- The literals of the six members of a passive DNS object: three string
literals (the text between the quotes) and three number literals. -/
structure PdnsLiterals where
  rrname : Bytes
  rrdata : Bytes
  rrtype : Bytes
  time_first : Bytes
  time_last : Bytes
  count : Bytes

/-- The six members of a passive DNS object. -/
def PdnsLiterals.members (o : PdnsLiterals) : List (Bytes × JValue) :=
  [(ascii "rrname", .str o.rrname), (ascii "rrdata", .str o.rrdata),
    (ascii "rrtype", .str o.rrtype), (ascii "time_first", .num o.time_first),
    (ascii "time_last", .num o.time_last), (ascii "count", .num o.count)]

/-- The literals stand for the fields of the record: the strings by the rules
of JSON strings, the numbers as decimal integers of 64 bits. -/
def PdnsLiterals.denotes (o : PdnsLiterals) (r : PassiveDNS) : Prop :=
  unquote o.rrname = some r.RRName ∧ unquote o.rrdata = some r.RRData ∧
  unquote o.rrtype = some r.RRType ∧ strconv_ParseInt o.time_first = some r.TimeFirst ∧
  strconv_ParseInt o.time_last = some r.TimeLast ∧ strconv_ParseInt o.count = some r.Count

/-- A well-formed passive DNS object with the values of record `r`: an object
that has the six members, in any order, with literals that stand for the
fields of `r`, and possibly further members with other keys. -/
def IsPdnsObject (v : JValue) (r : PassiveDNS) : Prop :=
  ∃ (o : PdnsLiterals) (extras ms : List (Bytes × JValue)),
    v = .obj ms ∧ ms.Perm (o.members ++ extras) ∧ o.denotes r ∧
    ∀ m ∈ extras, selectsNone PassiveDNS.keys m.1 = true

/-- The JSON keys of an `Item`. -/
def Item.keys : List Bytes := [ascii "o", ascii "t"]

/-- The JSON keys of a `Prefix`. -/
def Prefix.keys : List Bytes := [ascii "n", ascii "inbgp"]

/-- The JSON keys of an `ASQueryResponse`. -/
def ASQueryResponse.keys : List Bytes := [ascii "status", ascii "nets"]

/-- The JSON keys of an `IPQueryResponse`. -/
def IPQueryResponse.keys : List Bytes :=
  [ascii "status", ascii "city", ascii "country", ascii "as", ascii "asname", ascii "whoisdesc",
    ascii "routedesc", ascii "bgproute", ascii "act", ascii "acth", ascii "pas", ascii "pash"]

/-- A well-formed element of one of the lists of an ipquery object, with the
values of `it`: an object with the members `o` and `t`, in any order, whose
literals stand for the fields of `it`, and possibly members with other keys. -/
def IsItemObject (v : JValue) (it : Item) : Prop :=
  ∃ (o t : Bytes) (extras ms : List (Bytes × JValue)),
    v = .obj ms ∧ ms.Perm ([(ascii "o", JValue.str o), (ascii "t", JValue.num t)] ++ extras) ∧
    unquote o = some it.O ∧ strconv_ParseInt t = some it.Timestamp ∧
    ∀ m ∈ extras, selectsNone Item.keys m.1 = true

/-- The literals of the members of an ipquery object; `none` for a key the
object does not have. -/
structure IPQueryLiterals where
  status : Option Bytes
  city : Option Bytes
  country : Option Bytes
  asn : Option Bytes
  asname : Option Bytes
  whoisdesc : Option Bytes
  routedesc : Option Bytes
  bgproute : Option Bytes
  act : Option (List JValue)
  acth : Option (List JValue)
  pas : Option (List JValue)
  pash : Option (List JValue)

/-- The member of a key, when the object has the key. -/
def memberOf (key : Bytes) (mk : α → JValue) (lit : Option α) : List (Bytes × JValue) :=
  match lit with
  | some x => [(key, mk x)]
  | none => []

/-- The members of an ipquery object. -/
def IPQueryLiterals.members (o : IPQueryLiterals) : List (Bytes × JValue) :=
  memberOf (ascii "status") JValue.str o.status ++ memberOf (ascii "city") JValue.str o.city
    ++ memberOf (ascii "country") JValue.str o.country ++ memberOf (ascii "as") JValue.num o.asn
    ++ memberOf (ascii "asname") JValue.str o.asname
    ++ memberOf (ascii "whoisdesc") JValue.str o.whoisdesc
    ++ memberOf (ascii "routedesc") JValue.str o.routedesc
    ++ memberOf (ascii "bgproute") JValue.str o.bgproute
    ++ memberOf (ascii "act") JValue.arr o.act ++ memberOf (ascii "acth") JValue.arr o.acth
    ++ memberOf (ascii "pas") JValue.arr o.pas ++ memberOf (ascii "pash") JValue.arr o.pash

/-- A string field holds the value of its literal; without the key it is the
empty string. -/
def strField (lit : Option Bytes) (field : Bytes) : Prop :=
  match lit with
  | some raw => unquote raw = some field
  | none => field = []

/-- An integer field holds the value of its literal; without the key it is 0. -/
def intField (lit : Option Bytes) (field : Int) : Prop :=
  match lit with
  | some l => strconv_ParseInt l = some field
  | none => field = 0

/-- A list field holds the values of the elements of its array, one by one,
in a slice that is not nil; without the key it is the nil slice. -/
def listField (lit : Option (List JValue)) (field : Option (Slice Item)) : Prop :=
  match lit with
  | some es => ∃ items, List.Forall₂ IsItemObject es items ∧ field = some ⟨items, []⟩
  | none => field = none

/-- The literals stand for the fields of the result. -/
def IPQueryLiterals.denotes (o : IPQueryLiterals) (r : IPQueryResponse) : Prop :=
  strField o.status r.Status ∧ strField o.city r.City ∧ strField o.country r.Country ∧
  intField o.asn r.AS ∧ strField o.asname r.ASName ∧ strField o.whoisdesc r.Whois ∧
  strField o.routedesc r.Route ∧ strField o.bgproute r.BGPRoute ∧
  listField o.act r.ActiveForwardDNS ∧ listField o.acth r.ActiveDNSHistory ∧
  listField o.pas r.PassiveReverseDNS ∧ listField o.pash r.PassiveDNSHistory

/-- A well-formed ipquery object with the values of `r`: an object whose
members are the members of the ipquery keys it has, each once and in any
order, with literals that stand for the fields of `r`, and possibly members
with other keys. -/
def IsIPQueryObject (v : JValue) (r : IPQueryResponse) : Prop :=
  ∃ (o : IPQueryLiterals) (extras ms : List (Bytes × JValue)),
    v = .obj ms ∧ ms.Perm (o.members ++ extras) ∧ o.denotes r ∧
    ∀ m ∈ extras, selectsNone IPQueryResponse.keys m.1 = true

/-! ## Sample texts -/

/-- The members of an object written without white space. -/
def compactMembers : Bytes × Doc → List (Bytes × Doc) → DocMembers
  | (k, d), [] => .one [] k [] [] d []
  | (k, d), m :: ms => .cons [] k [] [] d [] (compactMembers m ms)

/-- An object written without white space. -/
def compactObject : List (Bytes × Doc) → Doc
  | [] => .obj0 []
  | m :: ms => .obj (compactMembers m ms)

/-- The first record of the forward lookup of `a.iana-servers.net`. -/
def sampleRecord1 : PassiveDNS :=
  ⟨ascii "a.iana-servers.net", ascii "2001:500:8c::53", ascii "AAAA", 1441242410, 1460542918, 18⟩

/-- The third record of the forward lookup of `a.iana-servers.net`. -/
def sampleRecord2 : PassiveDNS :=
  ⟨ascii "a.iana-servers.net", ascii "199.43.132.53", ascii "A", 1441242410, 1460542918, 18⟩

/-- The literals of the first record. -/
def sampleLiterals1 : PdnsLiterals :=
  ⟨ascii "a.iana-servers.net", ascii "2001:500:8c::53", ascii "AAAA", ascii "1441242410",
    ascii "1460542918", ascii "18"⟩

/-- The literals of the second record. -/
def sampleLiterals2 : PdnsLiterals :=
  ⟨ascii "a.iana-servers.net", ascii "199.43.132.53", ascii "A", ascii "1441242410",
    ascii "1460542918", ascii "18"⟩

/-- The object of the first record, on one line without white space. -/
def sampleDoc1 : Doc :=
  compactObject
    [(ascii "rrname", .str sampleLiterals1.rrname), (ascii "rrdata", .str sampleLiterals1.rrdata),
      (ascii "rrtype", .str sampleLiterals1.rrtype),
      (ascii "time_first", .num sampleLiterals1.time_first),
      (ascii "time_last", .num sampleLiterals1.time_last),
      (ascii "count", .num sampleLiterals1.count)]

/-- The object of the second record, with one more member. -/
def sampleDoc2 : Doc :=
  compactObject
    [(ascii "rrname", .str sampleLiterals2.rrname), (ascii "rrdata", .str sampleLiterals2.rrdata),
      (ascii "rrtype", .str sampleLiterals2.rrtype),
      (ascii "time_first", .num sampleLiterals2.time_first),
      (ascii "time_last", .num sampleLiterals2.time_last),
      (ascii "count", .num sampleLiterals2.count), (ascii "zone", .bool true)]

/-- The object of the second record, spread over several lines. -/
def sampleDoc2Spread : Doc :=
  .obj (.cons [10, 32] (ascii "rrname") [] [32] (.str sampleLiterals2.rrname) []
    (.cons [10, 32] (ascii "rrdata") [] [32] (.str sampleLiterals2.rrdata) []
    (.cons [10, 32] (ascii "rrtype") [] [32] (.str sampleLiterals2.rrtype) []
    (.cons [10, 32] (ascii "time_first") [] [32] (.num sampleLiterals2.time_first) []
    (.cons [10, 32] (ascii "time_last") [] [32] (.num sampleLiterals2.time_last) []
    (.cons [10, 32] (ascii "count") [] [32] (.num sampleLiterals2.count) []
    (.one [10, 32] (ascii "zone") [] [32] (.bool true) [10])))))))

/-- The request `New("")` builds for the forward lookup of
`a.iana-servers.net`. -/
def sampleForwardRequest : Request :=
  { ctx := ⟨0⟩, Method := ascii "GET",
    URL := { URL.zero with Scheme := ascii "https", Host := ascii "freeapi.robtex.com",
                           Path := ascii "/pdns/forward/a.iana-servers.net" },
    Host := ascii "freeapi.robtex.com", NoBody := true }

/-- The members of an object; no members for any other value. -/
def JValue.members : JValue → List (Bytes × JValue)
  | .obj ms => ms
  | _ => []

/-- The object has a member with the key. -/
def hasKey (key : Bytes) (v : JValue) : Prop := ∃ m ∈ v.members, m.1 = key

/-- The element of the list `act` of the example. -/
def sampleItemDoc : Doc :=
  compactObject
    [(ascii "o", .str (ascii "b0.org.afilias-nst.org")), (ascii "t", .num (ascii "1498717654"))]

/-- The literals of the example: the keys `status`, `city`, `country`, `as`
and `act`. -/
def sampleIPLiterals : IPQueryLiterals :=
  { status := some (ascii "ok"), city := some (ascii "Toronto"), country := some (ascii "Canada"),
    asn := some (ascii "12041"), asname := none, whoisdesc := none, routedesc := none,
    bgproute := none, act := some [sampleItemDoc.value], acth := none, pas := none, pash := none }

/-- The object of the example, without white space. -/
def sampleIPDoc : Doc :=
  compactObject
    [(ascii "status", .str (ascii "ok")), (ascii "city", .str (ascii "Toronto")),
      (ascii "country", .str (ascii "Canada")), (ascii "as", .num (ascii "12041")),
      (ascii "act", .arr (.one [] sampleItemDoc []))]

/-- A result of the AS lookup with two networks. -/
def sampleASResult : ASQueryResponse :=
  { Status := ascii "ok",
    Nets := some ⟨[⟨ascii "8.8.4.0/24", 1⟩, ⟨ascii "8.8.8.0/24", 0⟩], []⟩ }

/-- The request `New("")` builds for the AS lookup of `15169`. -/
def sampleASRequest : Request :=
  { ctx := ⟨0⟩, Method := ascii "GET",
    URL := { URL.zero with Scheme := ascii "https", Host := ascii "freeapi.robtex.com",
                           Path := ascii "/asquery/15169" },
    Host := ascii "freeapi.robtex.com", NoBody := true }

/-! ## Identifiers and base URLs -/

/-- A byte of a path element that a URL writes as it is: a letter, a digit or
one of `- . _ ~ $ & + , : ; = @`. -/
def segByte (c : UInt8) : Bool := !shouldEscape c .path && c != 47

/-- A path element that stands for itself: not empty, not `.` or `..`, and
made of bytes that a URL writes as they are. -/
def goodSeg (s : Bytes) : Bool := !s.isEmpty && s != [46] && s != [46, 46] && s.all segByte

/-- A word of lower case letters, as the names of the operations are. -/
def plainWord (s : Bytes) : Bool := !s.isEmpty && s.all (fun c => 97 ≤ c && c ≤ 122)

/-- The path of the elements: each element after a slash. -/
def slashed (comps : List Bytes) : Bytes := (comps.map (fun c => 47 :: c)).flatten

/-- A scheme that `url.Parse` reads back as it is: a lower case letter, then
lower case letters, digits, `+`, `-` and `.`. -/
def schemeOK (s : Bytes) : Bool :=
  match s with
  | [] => false
  | c :: cs =>
    (97 ≤ c && c ≤ 122) &&
      cs.all (fun d => (97 ≤ d && d ≤ 122) || (48 ≤ d && d ≤ 57) || d = 43 || d = 45 || d = 46)

/-- A byte of a host name: a letter, a digit, `-` or `.`. -/
def hostByte (c : UInt8) : Bool := isAlnum c || c = 45 || c = 46

/-- A host that `url.Parse` reads back as it is: a name of letters, digits,
`-` and `.`, alone or with a colon and a port of one or more digits. -/
def hostOK (h : Bytes) : Bool :=
  !(cut 58 h).1.isEmpty && (cut 58 h).1.all hostByte &&
    (!(cut 58 h).2.2 || (!(cut 58 h).2.1.isEmpty && (cut 58 h).2.1.all isDigit))

/-- A byte of an escaped query component: a letter, a digit or one of
`- . _ ~ % +`. -/
def isQueryByte (c : UInt8) : Bool :=
  isAlnum c || c = 45 || c = 46 || c = 95 || c = 126 || c = 37 || c = 43

/-- An identifier that stands for itself in a URL path: one or more path
elements separated by slashes, each not empty, not `.` or `..`, and made of
letters, digits and `- . _ ~ $ & + , : ; = @`. -/
def goodId (id : Bytes) : Bool := (splitBytes 47 id).all goodSeg

/-- A GET request without body for the URL with the given scheme, host, path
and query. -/
def plainRequest (cx : Context) (scheme host path query : Bytes) : Request :=
  { ctx := cx, Method := MethodGet,
    URL := { URL.zero with Scheme := scheme, Host := host, Path := path, RawQuery := query },
    Host := host, NoBody := true }

/-- The query of a request of a client with the given API key. -/
def keyQuery (apiKey : Bytes) : Bytes :=
  if apiKey = [] then [] else ascii "key=" ++ QueryEscape apiKey

/-- The path elements of the four operations for an identifier: `IPQuery`,
`ASQuery`, `PassiveDNSForward` and `PassiveDNSReverse`. -/
def operations (id : Bytes) : List (List Bytes) :=
  [[ascii "ipquery", id], [ascii "asquery", id], [ascii "pdns", ascii "forward", id],
    [ascii "pdns", ascii "reverse", id]]

/-- A transport that answers every request with status 404 and the text of
the URL of the request as body. -/
def echoURL : Request → Except Error Response :=
  fun req => .ok ⟨404, req.URL.String⟩

/-- A client as the tests set it up: the client of `New("")` with the base
URL replaced by the parsed URL of a test server. -/
def testClient (serverURL : Bytes) : Client :=
  { New (replyWith 200 []) [] with baseURL := parsedOrZero serverURL }

/-! ## The first text of a body -/

/-- A value that a struct accepts: an object or `null`. -/
def JValue.fitsStruct : JValue → Bool
  | .null => true
  | .obj _ => true
  | _ => false

/-- The text `[1,2]`. -/
def sampleArrayDoc : Doc := .arr (.cons [] (.num [49]) [] (.one [] (.num [50]) []))

/-! ## The values of JSON literals

What a JSON string literal and a JSON integer literal stand for, stated from
the grammar of JSON (RFC 8259) and of UTF-8 (RFC 3629), without the functions
of the decoder. -/

/-- A Unicode scalar value: a code point up to U+10FFFF that is not a
surrogate. -/
def isScalar (cp : Nat) : Bool := cp ≤ 0x10FFFF && !(0xD800 ≤ cp && cp ≤ 0xDFFF)

/-- The UTF-8 encoding of a Unicode scalar value: one byte up to U+007F, two
up to U+07FF, three up to U+FFFF, four beyond. -/
def utf8 (cp : Nat) : Bytes :=
  if cp < 0x80 then [UInt8.ofNat cp]
  else if cp < 0x800 then [UInt8.ofNat (0xC0 + cp / 0x40), UInt8.ofNat (0x80 + cp % 0x40)]
  else if cp < 0x10000 then
    [UInt8.ofNat (0xE0 + cp / 0x1000), UInt8.ofNat (0x80 + cp / 0x40 % 0x40),
      UInt8.ofNat (0x80 + cp % 0x40)]
  else
    [UInt8.ofNat (0xF0 + cp / 0x40000), UInt8.ofNat (0x80 + cp / 0x1000 % 0x40),
      UInt8.ofNat (0x80 + cp / 0x40 % 0x40), UInt8.ofNat (0x80 + cp % 0x40)]

/-- The value of a hexadecimal digit, in either case. -/
def hexDigit (c : UInt8) : Option Nat :=
  if 48 ≤ c && c ≤ 57 then some (c.toNat - 48)
  else if 65 ≤ c && c ≤ 70 then some (c.toNat - 55)
  else if 97 ≤ c && c ≤ 102 then some (c.toNat - 87)
  else none

/-- The number written by four hexadecimal digits. -/
def hex4 (h1 h2 h3 h4 : UInt8) : Option Nat :=
  match hexDigit h1, hexDigit h2, hexDigit h3, hexDigit h4 with
  | some a, some b, some c, some d => some (4096 * a + 256 * b + 16 * c + d)
  | _, _, _, _ => none

/-- The character of a two-character escape: the quotation mark, the reverse
solidus and the solidus stand for themselves, `b f n r t` for backspace, form
feed, line feed, carriage return and tab. -/
def escapeChar (e : UInt8) : Option UInt8 :=
  if e = 34 then some 34
  else if e = 92 then some 92
  else if e = 47 then some 47
  else if e = 98 then some 8
  else if e = 102 then some 12
  else if e = 110 then some 10
  else if e = 114 then some 13
  else if e = 116 then some 9
  else none

/-- The text a JSON string literal stands for: `StrValue raw v` says that the
bytes `raw` between the quotes of a literal stand for the text `v` in UTF-8.
An ASCII character other than the quotation mark, the reverse solidus and the
control characters stands for itself, and so does a character beyond ASCII in
UTF-8; a two-character escape stands for its character, `\uXXXX` for the
character with that number, and a pair of `\u` escapes of a high and a low
surrogate for the character beyond U+FFFF that the pair encodes. -/
inductive StrValue : Bytes → Bytes → Prop
  | done : StrValue [] []
  | plain (c : UInt8) (raw v : Bytes) :
      32 ≤ c → c < 128 → c ≠ 34 → c ≠ 92 → StrValue raw v → StrValue (c :: raw) (c :: v)
  | wide (cp : Nat) (raw v : Bytes) :
      128 ≤ cp → isScalar cp = true → StrValue raw v → StrValue (utf8 cp ++ raw) (utf8 cp ++ v)
  | escape (e b : UInt8) (raw v : Bytes) :
      escapeChar e = some b → StrValue raw v → StrValue (92 :: e :: raw) (b :: v)
  | unicode (h1 h2 h3 h4 : UInt8) (cp : Nat) (raw v : Bytes) :
      hex4 h1 h2 h3 h4 = some cp → isScalar cp = true → StrValue raw v →
      StrValue (92 :: 117 :: h1 :: h2 :: h3 :: h4 :: raw) (utf8 cp ++ v)
  | pair (h1 h2 h3 h4 l1 l2 l3 l4 : UInt8) (hi lo : Nat) (raw v : Bytes) :
      hex4 h1 h2 h3 h4 = some hi → hex4 l1 l2 l3 l4 = some lo →
      0xD800 ≤ hi → hi ≤ 0xDBFF → 0xDC00 ≤ lo → lo ≤ 0xDFFF → StrValue raw v →
      StrValue (92 :: 117 :: h1 :: h2 :: h3 :: h4 :: 92 :: 117 :: l1 :: l2 :: l3 :: l4 :: raw)
        (utf8 (0x10000 + (hi - 0xD800) * 0x400 + (lo - 0xDC00)) ++ v)

/-- The number that decimal digits stand for, the digits given from the units
digit up. -/
def placeValue : List UInt8 → Nat
  | [] => 0
  | d :: higher => (d.toNat - 48) + 10 * placeValue higher

/-- The integer a JSON number literal stands for, when it is an integer
literal in the range of a 64 bit integer: decimal digits, after a minus sign
or not, without fraction and exponent. -/
def IntValue (lit : Bytes) (n : Int) : Prop :=
  ∃ ds : Bytes, ds ≠ [] ∧ (∀ c ∈ ds, (48 : UInt8) ≤ c ∧ c ≤ 57) ∧
    ((lit = ds ∧ n = (placeValue ds.reverse : Int)) ∨
      (lit = 45 :: ds ∧ n = -(placeValue ds.reverse : Int))) ∧
    -9223372036854775808 ≤ n ∧ n ≤ 9223372036854775807

/-- A string field holds the text of the literal of its key; without the key
it is the empty string. -/
def strHolds (lit : Option Bytes) (field : Bytes) : Prop :=
  match lit with
  | some raw => StrValue raw field
  | none => field = []

/-- An integer field holds the integer of the literal of its key; without the
key it is 0. -/
def intHolds (lit : Option Bytes) (field : Int) : Prop :=
  match lit with
  | some l => IntValue l field
  | none => field = 0

/-! ## Objects that hold a value -/

/-- The literals of the members of a passive DNS object; `none` for a key the
object does not have. -/
structure RecordLiterals where
  rrname : Option Bytes
  rrdata : Option Bytes
  rrtype : Option Bytes
  time_first : Option Bytes
  time_last : Option Bytes
  count : Option Bytes

/-- The members of a passive DNS object: three strings and three numbers. -/
def RecordLiterals.members (o : RecordLiterals) : List (Bytes × JValue) :=
  memberOf (ascii "rrname") JValue.str o.rrname ++ memberOf (ascii "rrdata") JValue.str o.rrdata
    ++ memberOf (ascii "rrtype") JValue.str o.rrtype
    ++ memberOf (ascii "time_first") JValue.num o.time_first
    ++ memberOf (ascii "time_last") JValue.num o.time_last
    ++ memberOf (ascii "count") JValue.num o.count

/-- A passive DNS object and the record it stands for: an object whose
members are those of the record keys it has, each at most once and in any
order, a string at `rrname`, `rrdata` and `rrtype` and an integer at
`time_first`, `time_last` and `count`, and possibly members with other keys.
Each field of the record is the value of the literal of its key, and the
zero value without the key. -/
def HoldsRecord (v : JValue) (r : PassiveDNS) : Prop :=
  ∃ (o : RecordLiterals) (extras ms : List (Bytes × JValue)),
    v = .obj ms ∧ ms.Perm (o.members ++ extras) ∧
    (strHolds o.rrname r.RRName ∧ strHolds o.rrdata r.RRData ∧ strHolds o.rrtype r.RRType ∧
      intHolds o.time_first r.TimeFirst ∧ intHolds o.time_last r.TimeLast ∧
      intHolds o.count r.Count) ∧
    ∀ m ∈ extras, selectsNone PassiveDNS.keys m.1 = true

/-- The literals of the members of a list element of an ipquery object. -/
structure ItemLiterals where
  o : Option Bytes
  t : Option Bytes

/-- The members of a list element of an ipquery object. -/
def ItemLiterals.members (x : ItemLiterals) : List (Bytes × JValue) :=
  memberOf (ascii "o") JValue.str x.o ++ memberOf (ascii "t") JValue.num x.t

/-- An element of a list of an ipquery object and the item it stands for: a
string at `o`, an integer at `t`, each at most once, and possibly members
with other keys. -/
def HoldsItem (v : JValue) (it : Item) : Prop :=
  ∃ (x : ItemLiterals) (extras ms : List (Bytes × JValue)),
    v = .obj ms ∧ ms.Perm (x.members ++ extras) ∧
    (strHolds x.o it.O ∧ intHolds x.t it.Timestamp) ∧
    ∀ m ∈ extras, selectsNone Item.keys m.1 = true

/-- The literals of the members of an element of `nets`. -/
structure PrefixLiterals where
  n : Option Bytes
  inbgp : Option Bytes

/-- The members of an element of `nets`. -/
def PrefixLiterals.members (x : PrefixLiterals) : List (Bytes × JValue) :=
  memberOf (ascii "n") JValue.str x.n ++ memberOf (ascii "inbgp") JValue.num x.inbgp

/-- An element of the list `nets` of an asquery object and the prefix it
stands for: a string at `n`, an integer at `inbgp`, each at most once, and
possibly members with other keys. -/
def HoldsPrefix (v : JValue) (p : Prefix) : Prop :=
  ∃ (x : PrefixLiterals) (extras ms : List (Bytes × JValue)),
    v = .obj ms ∧ ms.Perm (x.members ++ extras) ∧
    (strHolds x.n p.N ∧ intHolds x.inbgp p.InBGP) ∧
    ∀ m ∈ extras, selectsNone Prefix.keys m.1 = true

/-- A list field holds the items of the elements of the array of its key, one
for each element and in the order of the array; without the key it is the nil
slice. -/
def itemsHold (lit : Option (List JValue)) (field : Option (Slice Item)) : Prop :=
  match lit with
  | some es => ∃ items, List.Forall₂ HoldsItem es items ∧ field = some ⟨items, []⟩
  | none => field = none

/-- The list `Nets` holds the prefixes of the elements of the array of `nets`,
one for each element and in the order of the array; without the key it is the
nil slice. -/
def prefixesHold (lit : Option (List JValue)) (field : Option (Slice Prefix)) : Prop :=
  match lit with
  | some es => ∃ nets, List.Forall₂ HoldsPrefix es nets ∧ field = some ⟨nets, []⟩
  | none => field = none

/-- The literals of the members of an asquery object. -/
structure ASQueryLiterals where
  status : Option Bytes
  nets : Option (List JValue)

/-- The members of an asquery object. -/
def ASQueryLiterals.members (o : ASQueryLiterals) : List (Bytes × JValue) :=
  memberOf (ascii "status") JValue.str o.status ++ memberOf (ascii "nets") JValue.arr o.nets

/-- An asquery object and the result it stands for: a string at `status`, an
array of elements at `nets`, each at most once, and possibly members with
other keys. -/
def HoldsASQuery (v : JValue) (r : ASQueryResponse) : Prop :=
  ∃ (o : ASQueryLiterals) (extras ms : List (Bytes × JValue)),
    v = .obj ms ∧ ms.Perm (o.members ++ extras) ∧
    (strHolds o.status r.Status ∧ prefixesHold o.nets r.Nets) ∧
    ∀ m ∈ extras, selectsNone ASQueryResponse.keys m.1 = true

/-- An ipquery object and the result it stands for: a string at `status`,
`city`, `country`, `asname`, `whoisdesc`, `routedesc` and `bgproute`, an
integer at `as`, an array of elements at `act`, `acth`, `pas` and `pash`, each
at most once and in any order, and possibly members with other keys.  Each
field of the result is the value at its key, and the zero value without the
key. -/
def HoldsIPQuery (v : JValue) (r : IPQueryResponse) : Prop :=
  ∃ (o : IPQueryLiterals) (extras ms : List (Bytes × JValue)),
    v = .obj ms ∧ ms.Perm (o.members ++ extras) ∧
    (strHolds o.status r.Status ∧ strHolds o.city r.City ∧ strHolds o.country r.Country ∧
      intHolds o.asn r.AS ∧ strHolds o.asname r.ASName ∧ strHolds o.whoisdesc r.Whois ∧
      strHolds o.routedesc r.Route ∧ strHolds o.bgproute r.BGPRoute ∧
      itemsHold o.act r.ActiveForwardDNS ∧ itemsHold o.acth r.ActiveDNSHistory ∧
      itemsHold o.pas r.PassiveReverseDNS ∧ itemsHold o.pash r.PassiveDNSHistory) ∧
    ∀ m ∈ extras, selectsNone IPQueryResponse.keys m.1 = true

/-! ## Sample texts with escapes -/

/-- A passive DNS object whose strings have escapes and a character beyond
ASCII, with a negative number, without the keys `rrtype` and `time_last`, and
with a further member. -/
def escapedDoc : Doc :=
  compactObject
    [(ascii "rrname", .str (ascii "a\\u002eiana-servers\\u002Enet")),
      (ascii "rrdata", .str (ascii "\\\"v=spf1\\\"\\t\\ud83d\\ude00 caf" ++ [0xC3, 0xA9])),
      (ascii "time_first", .num (ascii "-1441242410")), (ascii "count", .num (ascii "18")),
      (ascii "zone", .bool true)]

/-- The record that `escapedDoc` stands for. -/
def escapedRecord : PassiveDNS :=
  ⟨ascii "a.iana-servers.net",
    ascii "\"v=spf1\"\t" ++ [0xF0, 0x9F, 0x98, 0x80] ++ ascii " caf" ++ [0xC3, 0xA9], [],
    -1441242410, 0, 18⟩

/-- The literals of `escapedDoc`. -/
def escapedLiterals : RecordLiterals :=
  { rrname := some (ascii "a\\u002eiana-servers\\u002Enet"),
    rrdata := some (ascii "\\\"v=spf1\\\"\\t\\ud83d\\ude00 caf" ++ [0xC3, 0xA9]),
    rrtype := none, time_first := some (ascii "-1441242410"), time_last := none,
    count := some (ascii "18") }

/-- The literals of `sampleDoc1`. -/
def sampleRecordLiterals : RecordLiterals :=
  { rrname := some (ascii "a.iana-servers.net"), rrdata := some (ascii "2001:500:8c::53"),
    rrtype := some (ascii "AAAA"), time_first := some (ascii "1441242410"),
    time_last := some (ascii "1460542918"), count := some (ascii "18") }

/-- A well-formed JSON object whose member `count` is a string. -/
def illTypedDoc : Doc :=
  compactObject [(ascii "rrname", .str (ascii "a.net")), (ascii "count", .str (ascii "18"))]

/-- A well-formed JSON object whose member `count` is a number with a
fraction. -/
def fractionDoc : Doc :=
  compactObject [(ascii "rrname", .str (ascii "a.net")), (ascii "count", .num (ascii "1.5"))]

/-- A line that is not JSON, then a line with an object. -/
def garbageTail : Bytes := ascii "\nnot json\n" ++ sampleDoc2.render ++ [10]

/-- A closing brace on a line of its own, then a line with an object. -/
def braceTail : Bytes := ascii "\n\x7d\n" ++ sampleDoc2.render ++ [10]

/-- An element of a list with an escape and a negative number. -/
def escapedItemDoc : Doc :=
  compactObject
    [(ascii "o", .str (ascii "b0.org\\u002eafilias-nst.org")), (ascii "t", .num (ascii "-1"))]

/-- An element of a list without the key `t`. -/
def sparseItemDoc : Doc := compactObject [(ascii "o", .str (ascii "x\\/y"))]

/-- An ipquery object with escapes, a negative number and a list of two
elements. -/
def escapedIPDoc : Doc :=
  compactObject
    [(ascii "status", .str (ascii "ok")), (ascii "city", .str (ascii "Montr\\u00e9al")),
      (ascii "as", .num (ascii "-12041")),
      (ascii "act", .arr (.cons [] escapedItemDoc [] (.one [] sparseItemDoc [])))]

/-- The literals of `escapedIPDoc`. -/
def escapedIPLiterals : IPQueryLiterals :=
  { status := some (ascii "ok"), city := some (ascii "Montr\\u00e9al"), country := none,
    asn := some (ascii "-12041"), asname := none, whoisdesc := none, routedesc := none,
    bgproute := none, act := some [escapedItemDoc.value, sparseItemDoc.value], acth := none,
    pas := none, pash := none }

/-- The result that `escapedIPDoc` stands for. -/
def escapedIPResult : IPQueryResponse :=
  { IPQueryResponse.zero with
    Status := ascii "ok", City := ascii "Montr" ++ [0xC3, 0xA9] ++ ascii "al", AS := -12041
    ActiveForwardDNS := some ⟨[⟨ascii "b0.org.afilias-nst.org", -1⟩, ⟨ascii "x/y", 0⟩], []⟩ }

/-- An asquery object with two networks, with escapes and an element without
the key `inbgp`. -/
def escapedASDoc : Doc :=
  compactObject
    [(ascii "status", .str (ascii "o\\u006b")),
      (ascii "nets", .arr (.cons [] (compactObject
          [(ascii "n", .str (ascii "8.8.4.0\\/24")), (ascii "inbgp", .num (ascii "1"))]) []
        (.one [] (compactObject [(ascii "n", .str (ascii "8.8.8.0/24"))]) [])))]

/-! ## The scanner consumes its input -/

theorem skipSpace_length_le (s : Bytes) : (skipSpace s).length ≤ s.length := by
  induction s with
  | nil => simp [skipSpace]
  | cons c cs ih =>
    unfold skipSpace
    split
    · simp only [List.length_cons]; omega
    · exact Nat.le_refl _

theorem skipSpace_cons_length {s : Bytes} {c : UInt8} {cs : Bytes} (h : skipSpace s = c :: cs) :
    cs.length < s.length := by
  have := skipSpace_length_le s
  rw [h] at this
  simp only [List.length_cons] at this
  omega

theorem consRaw_ok {c : UInt8} {r : Except Error (Bytes × Bytes)} {raw rest : Bytes}
    (h : consRaw c r = .ok (raw, rest)) : ∃ t, raw = c :: t ∧ r = .ok (t, rest) := by
  cases r with
  | error e => simp [consRaw] at h
  | ok p =>
    obtain ⟨a, b⟩ := p
    simp only [consRaw, Except.ok.injEq, Prod.mk.injEq] at h
    exact ⟨a, h.1.symm, by rw [h.2]⟩

/-- A scanned string literal: the input is the raw text, the closing quote and
the rest. -/
theorem scanStr_ok (st : StrState) (inp raw rest : Bytes)
    (h : scanStr st inp = .ok (raw, rest)) : inp = raw ++ 34 :: rest := by
  induction inp generalizing st raw with
  | nil => cases st <;> simp [scanStr] at h
  | cons c cs ih =>
    cases st <;> simp only [scanStr] at h <;> split at h
    all_goals
      first
      | (simp only [Except.ok.injEq, Prod.mk.injEq] at h
         obtain ⟨rfl, rfl⟩ := h
         simp_all)
      | (obtain ⟨t, rfl, ht⟩ := consRaw_ok h
         rw [ih _ _ ht]; simp)
      | (split at h
         all_goals
          first
          | (obtain ⟨t, rfl, ht⟩ := consRaw_ok h
             rw [ih _ _ ht]; simp)
          | (simp at h)
          | (split at h
             · simp at h
             · obtain ⟨t, rfl, ht⟩ := consRaw_ok h
               rw [ih _ _ ht]; simp))
      | (simp at h)

theorem scanNum_ok (st : NumState) (inp lit rest : Bytes)
    (h : scanNum st inp = .ok (lit, rest)) : inp = lit ++ rest := by
  induction inp generalizing st lit with
  | nil =>
    simp only [scanNum] at h
    split at h
    · simp only [Except.ok.injEq, Prod.mk.injEq] at h; obtain ⟨rfl, rfl⟩ := h; rfl
    · simp at h
  | cons c cs ih =>
    simp only [scanNum] at h
    split at h
    · obtain ⟨t, rfl, ht⟩ := consRaw_ok h
      rw [ih _ _ ht]; simp
    · split at h
      · simp only [Except.ok.injEq, Prod.mk.injEq] at h; obtain ⟨rfl, rfl⟩ := h; rfl
      · simp at h

theorem scanLit_ok (es inp rest : Bytes) (h : scanLit es inp = .ok rest) : inp = es ++ rest := by
  induction es generalizing inp with
  | nil => simp only [scanLit, Except.ok.injEq] at h; simp [h]
  | cons e es ih =>
    cases inp with
    | nil => simp [scanLit] at h
    | cons c cs =>
      simp only [scanLit] at h
      split at h
      · rename_i hc
        rw [ih _ h, hc]; simp
      · simp at h

theorem scanScalar_shorter (c : UInt8) (cs : Bytes) (v : JValue) (rest : Bytes)
    (h : scanScalar c cs = .ok (v, rest)) : rest.length ≤ cs.length := by
  unfold scanScalar at h
  repeat' split at h
  all_goals first
    | (simp at h; done)
    | (simp only [Except.ok.injEq, Prod.mk.injEq] at h
       obtain ⟨-, rfl⟩ := h
       rename_i heq
       first
       | (have hh := scanStr_ok _ _ _ _ heq; subst hh; simp only [List.length_append, List.length_cons]; omega)
       | (have hh := scanNum_ok _ _ _ _ heq; subst hh; simp only [List.length_append, List.length_cons]; omega)
       | (have hh := scanLit_ok _ _ _ heq; subst hh; simp only [List.length_append, List.length_cons]; omega))

/-- With fuel for twice the input the parser returns, and a value it returns
has consumed at least one byte. -/
theorem parse_total (F : Nat) :
    (∀ d inp, 2 * inp.length + 1 ≤ F →
      ∃ r, parseValue F d inp = some r ∧ ∀ v rest, r = .ok (v, rest) → rest.length < inp.length) ∧
    (∀ d inp, 2 * inp.length + 2 ≤ F →
      ∃ r, parseElems F d inp = some r ∧ ∀ v rest, r = .ok (v, rest) → rest.length < inp.length) ∧
    (∀ d inp, 2 * inp.length + 1 ≤ F →
      ∃ r, parseMembers F d inp = some r ∧
        ∀ v rest, r = .ok (v, rest) → rest.length < inp.length) := by
  induction F with
  | zero => exact ⟨fun d inp h => by omega, fun d inp h => by omega, fun d inp h => by omega⟩
  | succ F ih =>
    obtain ⟨ihV, ihE, ihM⟩ := ih
    refine ⟨?_, ?_, ?_⟩
    · intro d inp hF
      rw [parseValue]
      split
      · exact ⟨_, rfl, fun v rest h => by cases h⟩
      · rename_i c cs hsk
        have hlen := skipSpace_cons_length hsk
        split
        · split
          · exact ⟨_, rfl, fun v rest h => by cases h⟩
          · split
            · exact ⟨_, rfl, fun v rest h => by cases h⟩
            · rename_i c1 cs1 hsk1
              have hlen1 := skipSpace_cons_length hsk1
              split
              · refine ⟨_, rfl, fun v rest h => ?_⟩
                simp only [Except.ok.injEq, Prod.mk.injEq] at h
                obtain ⟨-, rfl⟩ := h
                omega
              · obtain ⟨r, hr, hs⟩ := ihM (d + 1) (c1 :: cs1)
                  (by simp only [List.length_cons]; omega)
                rw [hr]
                match r, hs with
                | .error e, _ => exact ⟨_, rfl, fun v rest h => by cases h⟩
                | .ok (ms, rest1), hs =>
                  refine ⟨_, rfl, fun v rest h => ?_⟩
                  simp only [Except.ok.injEq, Prod.mk.injEq] at h
                  obtain ⟨-, rfl⟩ := h
                  have := hs ms rest1 rfl
                  simp only [List.length_cons] at this
                  omega
        · split
          · split
            · exact ⟨_, rfl, fun v rest h => by cases h⟩
            · split
              · exact ⟨_, rfl, fun v rest h => by cases h⟩
              · rename_i c1 cs1 hsk1
                have hlen1 := skipSpace_cons_length hsk1
                split
                · refine ⟨_, rfl, fun v rest h => ?_⟩
                  simp only [Except.ok.injEq, Prod.mk.injEq] at h
                  obtain ⟨-, rfl⟩ := h
                  omega
                · obtain ⟨r, hr, hs⟩ := ihE (d + 1) (c1 :: cs1)
                    (by simp only [List.length_cons]; omega)
                  rw [hr]
                  match r, hs with
                  | .error e, _ => exact ⟨_, rfl, fun v rest h => by cases h⟩
                  | .ok (ms, rest1), hs =>
                    refine ⟨_, rfl, fun v rest h => ?_⟩
                    simp only [Except.ok.injEq, Prod.mk.injEq] at h
                    obtain ⟨-, rfl⟩ := h
                    have := hs ms rest1 rfl
                    simp only [List.length_cons] at this
                    omega
          · refine ⟨_, rfl, fun v rest h => ?_⟩
            have := scanScalar_shorter _ _ _ _ h
            omega
    · intro d inp hF
      rw [parseElems]
      obtain ⟨r, hr, hs⟩ := ihV d inp (by omega)
      rw [hr]
      match r, hs with
      | .error e, _ => exact ⟨_, rfl, fun v rest h => by cases h⟩
      | .ok (v1, r1), hs =>
        have h1 := hs v1 r1 rfl
        simp only
        split
        · exact ⟨_, rfl, fun v rest h => by cases h⟩
        · rename_i c cs hsk
          have hlen := skipSpace_cons_length hsk
          split
          · obtain ⟨r2, hr2, hs2⟩ := ihE d cs (by omega)
            rw [hr2]
            match r2, hs2 with
            | .error e, _ => exact ⟨_, rfl, fun v rest h => by cases h⟩
            | .ok (vs, rest2), hs2 =>
              refine ⟨_, rfl, fun v rest h => ?_⟩
              simp only [Except.ok.injEq, Prod.mk.injEq] at h
              obtain ⟨-, rfl⟩ := h
              have := hs2 vs rest2 rfl
              omega
          · split
            · refine ⟨_, rfl, fun v rest h => ?_⟩
              simp only [Except.ok.injEq, Prod.mk.injEq] at h
              obtain ⟨-, rfl⟩ := h
              omega
            · exact ⟨_, rfl, fun v rest h => by cases h⟩
    · intro d inp hF
      rw [parseMembers]
      split
      · exact ⟨_, rfl, fun v rest h => by cases h⟩
      · rename_i q r0 hsk0
        have hlen0 := skipSpace_cons_length hsk0
        split
        · split
          · exact ⟨_, rfl, fun v rest h => by cases h⟩
          · rename_i key r1 hkey
            have hk := scanStr_ok _ _ _ _ hkey
            have hlen1 : r1.length < r0.length := by
              rw [hk]; simp only [List.length_append, List.length_cons]; omega
            split
            · exact ⟨_, rfl, fun v rest h => by cases h⟩
            · rename_i c2 r2 hsk2
              have hlen2 := skipSpace_cons_length hsk2
              split
              · obtain ⟨r, hr, hs⟩ := ihV d r2 (by omega)
                rw [hr]
                match r, hs with
                | .error e, _ => exact ⟨_, rfl, fun v rest h => by cases h⟩
                | .ok (v1, r3), hs =>
                  have h3 := hs v1 r3 rfl
                  simp only
                  split
                  · exact ⟨_, rfl, fun v rest h => by cases h⟩
                  · rename_i c4 r4 hsk4
                    have hlen4 := skipSpace_cons_length hsk4
                    split
                    · obtain ⟨rm, hrm, hsm⟩ := ihM d r4 (by omega)
                      rw [hrm]
                      match rm, hsm with
                      | .error e, _ => exact ⟨_, rfl, fun v rest h => by cases h⟩
                      | .ok (ms, rest2), hsm =>
                        refine ⟨_, rfl, fun v rest h => ?_⟩
                        simp only [Except.ok.injEq, Prod.mk.injEq] at h
                        obtain ⟨-, rfl⟩ := h
                        have := hsm ms rest2 rfl
                        omega
                    · split
                      · refine ⟨_, rfl, fun v rest h => ?_⟩
                        simp only [Except.ok.injEq, Prod.mk.injEq] at h
                        obtain ⟨-, rfl⟩ := h
                        omega
                      · exact ⟨_, rfl, fun v rest h => by cases h⟩
              · exact ⟨_, rfl, fun v rest h => by cases h⟩
        · exact ⟨_, rfl, fun v rest h => by cases h⟩

/-- With the fuel `readValue` gives it the parser returns. -/
theorem parseValue_readValue (dec : Decoder) :
    ∃ r, parseValue (2 * dec.length + 2) 0 dec = some r ∧
      ∀ v rest, r = .ok (v, rest) → rest.length < dec.length :=
  (parse_total (2 * dec.length + 2)).1 0 dec (by omega)

/-- A value read from the stream has consumed at least one byte. -/
theorem readValue_shorter (dec : Decoder) (v : JValue) (rest : Decoder)
    (h : dec.readValue = .ok (v, rest)) : rest.length < dec.length := by
  unfold Decoder.readValue at h
  split at h
  · cases h
  · obtain ⟨r, hr, hs⟩ := parseValue_readValue dec
    rw [hr] at h
    exact hs v rest h

/-- A decoded value has consumed at least one byte. -/
theorem Decode_shorter {α : Type} (store : JValue → α → Except Error α) (dec : Decoder) (r x : α)
    (rest : Decoder) (h : Decoder.Decode store dec r = .ok (x, rest)) :
    rest.length < dec.length := by
  unfold Decoder.Decode at h
  split at h
  · cases h
  · rename_i v rest1 hv
    split at h
    · cases h
    · simp only [Except.ok.injEq, Prod.mk.injEq] at h
      obtain ⟨-, rfl⟩ := h
      exact readValue_shorter dec v _ hv

theorem prepend_nil (r : Except Error (List PassiveDNS)) : prepend [] r = r := by
  cases r <;> simp [prepend]

theorem prepend_prepend (a b : List PassiveDNS) (r : Except Error (List PassiveDNS)) :
    prepend a (prepend b r) = prepend (a ++ b) r := by
  cases r <;> simp [prepend]

/-- The loop does not depend on its fuel once the fuel exceeds the length of
the input, and the records found so far are passed through. -/
theorem decodeLoop_fuel (n : Nat) :
    ∀ (dec : Decoder) (f1 f2 : Nat) (acc : List PassiveDNS), dec.length ≤ n →
      dec.length < f1 → dec.length < f2 →
      ∃ r, decodeLoop f2 dec [] = some r ∧ decodeLoop f1 dec acc = some (prepend acc r) := by
  induction n with
  | zero =>
    intro dec f1 f2 acc hn h1 h2
    have hnil : dec = [] := List.length_eq_zero.mp (by omega)
    subst hnil
    obtain ⟨a, rfl⟩ : ∃ a, f1 = a + 1 := ⟨f1 - 1, by simp at h1; omega⟩
    obtain ⟨b, rfl⟩ : ∃ b, f2 = b + 1 := ⟨f2 - 1, by simp at h2; omega⟩
    refine ⟨.ok [], ?_, ?_⟩ <;> simp [decodeLoop, Decoder.More, skipSpace, prepend]
  | succ n ih =>
    intro dec f1 f2 acc hn h1 h2
    obtain ⟨a, rfl⟩ : ∃ a, f1 = a + 1 := ⟨f1 - 1, by omega⟩
    obtain ⟨b, rfl⟩ : ∃ b, f2 = b + 1 := ⟨f2 - 1, by omega⟩
    simp only [decodeLoop]
    by_cases hm : dec.More = true
    · simp only [hm, if_true]
      cases hd : Decoder.Decode decodePassiveDNS dec PassiveDNS.zero with
      | error e => exact ⟨.error e, rfl, rfl⟩
      | ok p =>
        obtain ⟨r, d1⟩ := p
        have hlt := Decode_shorter _ _ _ _ _ hd
        obtain ⟨r1, hr1, hr1b⟩ := ih d1 b b ([] ++ [r]) (by omega) (by omega) (by omega)
        obtain ⟨r2, hr2, hr2b⟩ := ih d1 a b (acc ++ [r]) (by omega) (by omega) (by omega)
        rw [hr1] at hr2
        cases hr2
        refine ⟨prepend [r] r1, ?_, ?_⟩
        · simpa using hr1b
        · simp only [hr2b, prepend_prepend, List.append_assoc]
    · simp only [hm]
      exact ⟨.ok [], by simp, by simp [prepend]⟩

/-- The decoding of a stream, one value at a time: when no value follows the
result is empty; otherwise the next value is decoded, an error ends the
decoding, and a record is put in front of the records of the rest. -/
theorem decodeStream_unfold (body : Bytes) :
    decodeStream body =
      if Decoder.More body then
        match Decoder.Decode decodePassiveDNS body PassiveDNS.zero with
        | .error e => .error e
        | .ok (r, rest) => prepend [r] (decodeStream rest)
      else .ok [] := by
  obtain ⟨r0, h0, -⟩ := decodeLoop_fuel body.length body (body.length + 1) (body.length + 1) []
    (Nat.le_refl _) (by omega) (by omega)
  unfold decodeStream
  by_cases hm : Decoder.More body = true
  · simp only [hm, if_true]
    cases hd : Decoder.Decode decodePassiveDNS body PassiveDNS.zero with
    | error e => simp [decodeLoop, hm, hd]
    | ok p =>
      obtain ⟨r, d1⟩ := p
      have hlt := Decode_shorter _ _ _ _ _ hd
      obtain ⟨r1, hr1, hr1b⟩ := decodeLoop_fuel d1.length d1 body.length (d1.length + 1) ([] ++ [r])
        (Nat.le_refl _) (by omega) (by omega)
      have e1 : decodeLoop (body.length + 1) body [] = decodeLoop body.length d1 ([] ++ [r]) := by
        simp only [decodeLoop, hm, hd, if_true]
      rw [e1, hr1b]
      simp only [hr1]
      rfl
  · simp [decodeLoop, hm]

/-! ## The scanner accepts the grammar -/

theorem byte_le_iff (a b : UInt8) : a ≤ b ↔ a.toNat ≤ b.toNat := Iff.rfl

theorem byte_lt_iff (a b : UInt8) : a < b ↔ a.toNat < b.toNat := Iff.rfl

theorem byte_eq_iff (a b : UInt8) : a = b ↔ a.toNat = b.toNat :=
  ⟨fun h => by rw [h], fun h => UInt8.eq_of_val_eq (Fin.ext h)⟩

theorem byte_toNat_lt (a : UInt8) : a.toNat < 256 := a.val.isLt

theorem skipSpace_append (w x : Bytes) (hw : allSpace w = true) :
    skipSpace (w ++ x) = skipSpace x := by
  induction w with
  | nil => rfl
  | cons c cs ih =>
    simp only [allSpace, List.all_cons, Bool.and_eq_true] at hw
    simp only [List.cons_append, skipSpace, hw.1, if_true]
    exact ih (by simpa [allSpace] using hw.2)

theorem skipSpace_cons_of_not_space (c : UInt8) (x : Bytes) (hc : isSpace c = false) :
    skipSpace (c :: x) = c :: x := by
  simp [skipSpace, hc]

theorem scanStr_complete (raw rest : Bytes) (h : strBodyOK raw = true) :
    scanStr .inString (raw ++ 34 :: rest) = .ok (raw, rest) := by
  induction raw using strBodyOK.induct with
  | case1 => simp [scanStr]
  | case2 => simp [strBodyOK] at h
  | case3 h1 h2 h3 h4 t1 ih =>
    simp only [strBodyOK, if_true, Bool.and_eq_true] at h
    obtain ⟨⟨⟨⟨a1, a2⟩, a3⟩, a4⟩, a5⟩ := h
    simp [scanStr, a1, a2, a3, a4, ih a5, consRaw]
  | case4 t hne =>
    simp only [strBodyOK, if_true] at h
    cases h
  | case5 e t hu ih =>
    unfold strBodyOK at h
    simp only [if_true, hu, if_false, Bool.and_eq_true] at h
    have he := h.1
    simp only [Bool.or_eq_true, decide_eq_true_eq] at he
    simp [scanStr, he, ih h.2, consRaw]
  | case6 c cs hc ih =>
    unfold strBodyOK at h
    simp only [hc, if_false, Bool.and_eq_true, bne_iff_ne, ne_eq,
      Bool.not_eq_true', decide_eq_false_iff_not] at h
    obtain ⟨⟨h34, h32⟩, hcs⟩ := h
    simp [scanStr, h34, hc, h32, ih hcs, consRaw]

theorem step_none_of_numEnd (st : NumState) (c : UInt8) (rest : Bytes)
    (h : numEnd (c :: rest) = true) : st.step c = none := by
  simp only [numEnd, isDigit, Bool.not_eq_true', Bool.or_eq_false_iff, Bool.and_eq_false_iff,
    decide_eq_false_iff_not, byte_le_iff, byte_eq_iff, UInt8.toNat_ofNat, UInt8.size] at h
  cases st <;>
    simp only [NumState.step, isDigit, byte_le_iff, byte_eq_iff, UInt8.toNat_ofNat, UInt8.size,
      Bool.and_eq_true, Bool.or_eq_true, decide_eq_true_eq] <;>
    (repeat' split) <;> first | rfl | omega

theorem scanNum_complete (st st1 : NumState) (cs rest : Bytes) (hrun : numRun st cs = some st1)
    (hacc : st1.accepting = true) (hend : numEnd rest = true) :
    scanNum st (cs ++ rest) = .ok (cs, rest) := by
  induction cs generalizing st with
  | nil =>
    simp only [numRun, Option.some.injEq] at hrun
    subst hrun
    cases rest with
    | nil => simp [scanNum, hacc]
    | cons c r => simp [scanNum, step_none_of_numEnd st c r hend, hacc]
  | cons c cs ih =>
    simp only [numRun] at hrun
    cases hs : st.step c with
    | none => simp [hs] at hrun
    | some st2 =>
      simp only [hs] at hrun
      simp [scanNum, hs, ih st2 hrun, consRaw]

theorem numEnd_append_space (w : Bytes) (c : UInt8) (rest : Bytes) (hw : allSpace w = true)
    (hc : c = 44 ∨ c = 93 ∨ c = 125) : numEnd (w ++ c :: rest) = true := by
  cases w with
  | nil => rcases hc with rfl | rfl | rfl <;> simp [numEnd, isDigit]
  | cons a w =>
    simp only [allSpace, List.all_cons, Bool.and_eq_true] at hw
    have ha := hw.1
    simp only [isSpace, Bool.or_eq_true, decide_eq_true_eq] at ha
    rcases ha with ((rfl | rfl) | rfl) | rfl <;> simp [numEnd, isDigit]

/-! ## The parser accepts every JSON text -/

theorem parseValue_skip (F depth : Nat) (w x : Bytes) (hw : allSpace w = true) :
    parseValue F depth (w ++ x) = parseValue F depth x := by
  cases F with
  | zero => simp [parseValue]
  | succ F => simp only [parseValue, skipSpace_append w x hw]

theorem parseMembers_skip (F depth : Nat) (w x : Bytes) (hw : allSpace w = true) :
    parseMembers F depth (w ++ x) = parseMembers F depth x := by
  cases F with
  | zero => simp [parseMembers]
  | succ F => simp only [parseMembers, skipSpace_append w x hw]

theorem parseElems_skip (F depth : Nat) (w x : Bytes) (hw : allSpace w = true) :
    parseElems F depth (w ++ x) = parseElems F depth x := by
  cases F with
  | zero => simp [parseElems]
  | succ F => simp only [parseElems, parseValue_skip F depth w x hw]

/-- A number literal is read whole when a byte that ends it follows. -/
theorem scanScalar_num (c : UInt8) (cs rest : Bytes) (hok : numOK (c :: cs) = true)
    (hend : numEnd rest = true) :
    scanScalar c (cs ++ rest) = .ok (.num (c :: cs), rest) ∧ isSpace c = false ∧ c ≠ 123 ∧ c ≠ 91
      ∧ c ≠ 93 ∧ c ≠ 125 := by
  simp only [numOK] at hok
  by_cases h45 : c = 45
  · subst h45
    simp only [if_true] at hok
    cases hr : numRun .neg cs with
    | none => simp [hr] at hok
    | some st =>
      simp only [hr] at hok
      refine ⟨?_, by decide, by decide, by decide, by decide, by decide⟩
      simp [scanScalar, scanNum_complete _ _ _ _ hr hok hend]
  · by_cases h48 : c = 48
    · subst h48
      simp only [show ¬ ((48 : UInt8) = 45) from by decide, if_false, if_true] at hok
      cases hr : numRun .zero cs with
      | none => simp [hr] at hok
      | some st =>
        simp only [hr] at hok
        refine ⟨?_, by decide, by decide, by decide, by decide, by decide⟩
        simp [scanScalar, scanNum_complete _ _ _ _ hr hok hend]
    · simp only [h45, h48, if_false] at hok
      by_cases h19 : (decide (49 ≤ c) && decide (c ≤ 57)) = true
      · simp only [h19, if_true] at hok
        cases hr : numRun .int cs with
        | none => simp [hr] at hok
        | some st =>
          simp only [hr] at hok
          have h34 : c ≠ 34 := by
            simp only [Bool.and_eq_true, decide_eq_true_eq, byte_le_iff, byte_eq_iff, ne_eq,
              UInt8.toNat_ofNat, UInt8.size] at *
            omega
          refine ⟨?_, ?_, ?_, ?_, ?_, ?_⟩
          · simp [scanScalar, h34, h45, h48, h19, scanNum_complete _ _ _ _ hr hok hend]
          all_goals
            simp only [isSpace, Bool.and_eq_true, Bool.or_eq_false_iff, decide_eq_true_eq,
              decide_eq_false_iff_not, byte_le_iff, byte_eq_iff, ne_eq,
              UInt8.toNat_ofNat, UInt8.size] at *
            omega
      · simp [h19] at hok


theorem skipSpace_idem (x : Bytes) : skipSpace (skipSpace x) = skipSpace x := by
  induction x with
  | nil => rfl
  | cons c cs ih =>
    by_cases hc : isSpace c = true
    · simp only [skipSpace, hc, if_true, ih]
    · simp only [skipSpace, hc, if_false]

theorem parseElems_skipSpace (F depth : Nat) (x : Bytes) :
    parseElems F depth (skipSpace x) = parseElems F depth x := by
  cases F with
  | zero => simp [parseElems]
  | succ F =>
    simp only [parseElems]
    cases F with
    | zero => simp [parseValue]
    | succ F => simp only [parseValue, skipSpace_idem]

theorem parseMembers_skipSpace (F depth : Nat) (x : Bytes) :
    parseMembers F depth (skipSpace x) = parseMembers F depth x := by
  cases F with
  | zero => simp [parseMembers]
  | succ F => simp only [parseMembers, skipSpace_idem]

/-- A JSON text starts with a byte that is not white space and not a closing
bracket or brace. -/
theorem renderHead (d : Doc) (h : d.wf = true) :
    ∃ c cs, d.render = c :: cs ∧ isSpace c = false ∧ c ≠ 93 ∧ c ≠ 125 := by
  cases d with
  | null => exact ⟨110, _, rfl, by decide, by decide, by decide⟩
  | bool b =>
    cases b
    · exact ⟨102, _, rfl, by decide, by decide, by decide⟩
    · exact ⟨116, _, rfl, by decide, by decide, by decide⟩
  | num lit =>
    simp only [Doc.wf] at h
    cases lit with
    | nil => simp [numOK] at h
    | cons c cs =>
      have := scanScalar_num c cs [] h rfl
      exact ⟨c, cs, rfl, this.2.1, this.2.2.2.2.1, this.2.2.2.2.2⟩
  | str raw => exact ⟨34, _, rfl, by decide, by decide, by decide⟩
  | arr0 ws => exact ⟨91, _, rfl, by decide, by decide, by decide⟩
  | arr es => exact ⟨91, _, rfl, by decide, by decide, by decide⟩
  | obj0 ws => exact ⟨123, _, rfl, by decide, by decide, by decide⟩
  | obj ms => exact ⟨123, _, rfl, by decide, by decide, by decide⟩

theorem skipHead_elems (es : DocElems) (rest : Bytes) (h : es.wf = true) :
    ∃ c cs, skipSpace (es.render ++ rest) = c :: cs ∧ c ≠ 93 := by
  cases es with
  | one w1 d w2 =>
    simp only [DocElems.wf, Bool.and_eq_true] at h
    obtain ⟨c, cs, hd, hsp, h93, -⟩ := renderHead d h.1.2
    refine ⟨c, cs ++ (w2 ++ [93]) ++ rest, ?_, h93⟩
    simp only [DocElems.render, List.append_assoc, hd, List.cons_append,
      skipSpace_append _ _ h.1.1, skipSpace_cons_of_not_space _ _ hsp]
  | cons w1 d w2 tl =>
    simp only [DocElems.wf, Bool.and_eq_true] at h
    obtain ⟨c, cs, hd, hsp, h93, -⟩ := renderHead d h.1.1.2
    refine ⟨c, cs ++ (w2 ++ 44 :: tl.render) ++ rest, ?_, h93⟩
    simp only [DocElems.render, List.append_assoc, hd, List.cons_append,
      skipSpace_append _ _ h.1.1.1, skipSpace_cons_of_not_space _ _ hsp]

theorem skipHead_members (ms : DocMembers) (rest : Bytes) (h : ms.wf = true) :
    ∃ cs, skipSpace (ms.render ++ rest) = 34 :: cs := by
  cases ms with
  | one w1 key w2 w3 d w4 =>
    simp only [DocMembers.wf, Bool.and_eq_true] at h
    simp only [DocMembers.render, List.append_assoc, List.cons_append]
    rw [skipSpace_append w1 _ h.1.1.1.1.1]
    exact ⟨_, skipSpace_cons_of_not_space _ _ (by decide)⟩
  | cons w1 key w2 w3 d w4 tl =>
    simp only [DocMembers.wf, Bool.and_eq_true] at h
    simp only [DocMembers.render, List.append_assoc, List.cons_append]
    rw [skipSpace_append w1 _ h.1.1.1.1.1.1]
    exact ⟨_, skipSpace_cons_of_not_space _ _ (by decide)⟩

mutual
/-- The parser reads a JSON text whole and returns its value. -/
theorem parseValue_render : ∀ (d : Doc) (F depth : Nat) (rest : Bytes),
    d.wf = true → depth + d.depth ≤ maxNestingDepth →
    2 * (d.render ++ rest).length + 1 ≤ F → d.endsBefore rest = true →
    parseValue F depth (d.render ++ rest) = some (.ok (d.value, rest))
  | .null, F, depth, rest, _, _, hF, _ => by
    obtain ⟨F, rfl⟩ : ∃ k, F = k + 1 := ⟨F - 1, by omega⟩
    simp [parseValue, Doc.render, skipSpace, isSpace, scanScalar, scanLit, Doc.value]
  | .bool true, F, depth, rest, _, _, hF, _ => by
    obtain ⟨F, rfl⟩ : ∃ k, F = k + 1 := ⟨F - 1, by omega⟩
    simp [parseValue, Doc.render, skipSpace, isSpace, scanScalar, scanLit, Doc.value]
  | .bool false, F, depth, rest, _, _, hF, _ => by
    obtain ⟨F, rfl⟩ : ∃ k, F = k + 1 := ⟨F - 1, by omega⟩
    simp [parseValue, Doc.render, skipSpace, isSpace, scanScalar, scanLit, Doc.value]
  | .str raw, F, depth, rest, hwf, _, hF, _ => by
    obtain ⟨F, rfl⟩ : ∃ k, F = k + 1 := ⟨F - 1, by omega⟩
    simp only [Doc.wf] at hwf
    simp [parseValue, Doc.render, skipSpace, isSpace, scanScalar, Doc.value,
      scanStr_complete raw rest hwf]
  | .num lit, F, depth, rest, hwf, _, hF, hend => by
    obtain ⟨F, rfl⟩ : ∃ k, F = k + 1 := ⟨F - 1, by omega⟩
    simp only [Doc.wf] at hwf
    simp only [Doc.endsBefore] at hend
    cases lit with
    | nil => simp [numOK] at hwf
    | cons c cs =>
      obtain ⟨h1, h2, h3, h4, -, -⟩ := scanScalar_num c cs rest hwf hend
      simp only [Doc.render, List.cons_append, parseValue, skipSpace_cons_of_not_space _ _ h2,
        h3, h4, if_false, h1, Doc.value]
  | .arr0 ws, F, depth, rest, hwf, hdep, hF, _ => by
    obtain ⟨F, rfl⟩ : ∃ k, F = k + 1 := ⟨F - 1, by omega⟩
    simp only [Doc.wf] at hwf
    simp only [Doc.depth] at hdep
    have hd : ¬ maxNestingDepth ≤ depth := by omega
    simp only [Doc.render, List.cons_append, List.append_assoc, parseValue,
      skipSpace_cons_of_not_space 91 _ (by decide), skipSpace_append ws _ hwf,
      skipSpace_cons_of_not_space 93 _ (by decide), Doc.value, hd]
    simp
  | .obj0 ws, F, depth, rest, hwf, hdep, hF, _ => by
    obtain ⟨F, rfl⟩ : ∃ k, F = k + 1 := ⟨F - 1, by omega⟩
    simp only [Doc.wf] at hwf
    simp only [Doc.depth] at hdep
    have hd : ¬ maxNestingDepth ≤ depth := by omega
    simp only [Doc.render, List.cons_append, List.append_assoc, parseValue,
      skipSpace_cons_of_not_space 123 _ (by decide), skipSpace_append ws _ hwf,
      skipSpace_cons_of_not_space 125 _ (by decide), Doc.value, hd]
    simp
  | .arr es, F, depth, rest, hwf, hdep, hF, _ => by
    obtain ⟨F, rfl⟩ : ∃ k, F = k + 1 := ⟨F - 1, by omega⟩
    simp only [Doc.wf] at hwf
    simp only [Doc.depth] at hdep
    have hd : ¬ maxNestingDepth ≤ depth := by omega
    obtain ⟨c1, cs1, hsk, h93⟩ := skipHead_elems es rest hwf
    have ih := parseElems_render es F (depth + 1) rest hwf (by omega)
      (by simp only [Doc.render, List.cons_append, List.length_cons] at hF; omega)
    have ih2 : parseElems F (depth + 1) (c1 :: cs1) = some (.ok (es.values, rest)) := by
      rw [← hsk, parseElems_skipSpace]; exact ih
    simp only [Doc.render, List.cons_append, parseValue,
      skipSpace_cons_of_not_space 91 _ (by decide), hsk, h93, ih2, Doc.value, hd]
    simp
  | .obj ms, F, depth, rest, hwf, hdep, hF, _ => by
    obtain ⟨F, rfl⟩ : ∃ k, F = k + 1 := ⟨F - 1, by omega⟩
    simp only [Doc.wf] at hwf
    simp only [Doc.depth] at hdep
    have hd : ¬ maxNestingDepth ≤ depth := by omega
    obtain ⟨cs1, hsk⟩ := skipHead_members ms rest hwf
    have ih := parseMembers_render ms F (depth + 1) rest hwf (by omega)
      (by simp only [Doc.render, List.cons_append, List.length_cons] at hF; omega)
    have ih2 : parseMembers F (depth + 1) (34 :: cs1) = some (.ok (ms.values, rest)) := by
      rw [← hsk, parseMembers_skipSpace]; exact ih
    simp only [Doc.render, List.cons_append, parseValue,
      skipSpace_cons_of_not_space 123 _ (by decide), hsk, ih2, Doc.value, hd]
    simp
/-- The parser reads the elements of an array up to its closing bracket. -/
theorem parseElems_render : ∀ (es : DocElems) (F depth : Nat) (rest : Bytes),
    es.wf = true → depth + es.depth ≤ maxNestingDepth →
    2 * (es.render ++ rest).length + 2 ≤ F →
    parseElems F depth (es.render ++ rest) = some (.ok (es.values, rest))
  | .one w1 d w2, F, depth, rest, hwf, hdep, hF => by
    obtain ⟨F, rfl⟩ : ∃ k, F = k + 1 := ⟨F - 1, by omega⟩
    simp only [DocElems.wf, Bool.and_eq_true] at hwf
    obtain ⟨⟨hw1, hd⟩, hw2⟩ := hwf
    simp only [DocElems.depth] at hdep
    simp only [DocElems.render, List.append_assoc, List.length_append, List.length_cons,
      List.length_nil, List.singleton_append] at hF ⊢
    have ih := parseValue_render d F depth (w2 ++ 93 :: rest) hd hdep
      (by simp only [List.length_append, List.length_cons]; omega)
      (by cases d <;> first | rfl | exact numEnd_append_space w2 93 rest hw2 (Or.inr (Or.inl rfl)))
    simp only [parseElems, parseValue_skip F depth w1 _ hw1, ih, skipSpace_append w2 _ hw2,
      skipSpace_cons_of_not_space 93 _ (by decide), DocElems.values]
    simp
  | .cons w1 d w2 tl, F, depth, rest, hwf, hdep, hF => by
    obtain ⟨F, rfl⟩ : ∃ k, F = k + 1 := ⟨F - 1, by omega⟩
    simp only [DocElems.wf, Bool.and_eq_true] at hwf
    obtain ⟨⟨⟨hw1, hd⟩, hw2⟩, htl⟩ := hwf
    simp only [DocElems.depth] at hdep
    simp only [DocElems.render, List.append_assoc, List.length_append, List.length_cons,
      List.cons_append] at hF ⊢
    obtain ⟨c, cs, hhead, -⟩ := renderHead d hd
    have hlen : 1 ≤ d.render.length := by rw [hhead]; simp
    have ih := parseValue_render d F depth (w2 ++ 44 :: (tl.render ++ rest)) hd (by omega)
      (by simp only [List.length_append, List.length_cons]; omega)
      (by cases d <;> first | rfl | exact numEnd_append_space w2 44 _ hw2 (Or.inl rfl))
    have ih2 := parseElems_render tl F depth rest htl (by omega)
      (by simp only [List.length_append]; omega)
    simp only [parseElems, parseValue_skip F depth w1 _ hw1, ih, skipSpace_append w2 _ hw2,
      skipSpace_cons_of_not_space 44 _ (by decide), ih2, DocElems.values]
    simp
/-- The parser reads the members of an object up to its closing brace. -/
theorem parseMembers_render : ∀ (ms : DocMembers) (F depth : Nat) (rest : Bytes),
    ms.wf = true → depth + ms.depth ≤ maxNestingDepth →
    2 * (ms.render ++ rest).length + 1 ≤ F →
    parseMembers F depth (ms.render ++ rest) = some (.ok (ms.values, rest))
  | .one w1 key w2 w3 d w4, F, depth, rest, hwf, hdep, hF => by
    obtain ⟨F, rfl⟩ : ∃ k, F = k + 1 := ⟨F - 1, by omega⟩
    simp only [DocMembers.wf, Bool.and_eq_true] at hwf
    obtain ⟨⟨⟨⟨⟨hw1, hkey⟩, hw2⟩, hw3⟩, hd⟩, hw4⟩ := hwf
    simp only [DocMembers.depth] at hdep
    simp only [DocMembers.render, List.append_assoc, List.length_append, List.length_cons,
      List.length_nil, List.cons_append, List.singleton_append, List.nil_append] at hF ⊢
    have ih := parseValue_render d F depth (w4 ++ 125 :: rest) hd hdep
      (by simp only [List.length_append, List.length_cons]; omega)
      (by cases d <;> first | rfl | exact numEnd_append_space w4 125 rest hw4 (Or.inr (Or.inr rfl)))
    simp only [parseMembers, skipSpace_append w1 _ hw1,
      skipSpace_cons_of_not_space 34 _ (by decide), scanStr_complete key _ hkey,
      skipSpace_append w2 _ hw2, skipSpace_cons_of_not_space 58 _ (by decide),
      parseValue_skip F depth w3 _ hw3, ih, skipSpace_append w4 _ hw4,
      skipSpace_cons_of_not_space 125 _ (by decide), DocMembers.values]
    simp
  | .cons w1 key w2 w3 d w4 tl, F, depth, rest, hwf, hdep, hF => by
    obtain ⟨F, rfl⟩ : ∃ k, F = k + 1 := ⟨F - 1, by omega⟩
    simp only [DocMembers.wf, Bool.and_eq_true] at hwf
    obtain ⟨⟨⟨⟨⟨⟨hw1, hkey⟩, hw2⟩, hw3⟩, hd⟩, hw4⟩, htl⟩ := hwf
    simp only [DocMembers.depth] at hdep
    simp only [DocMembers.render, List.append_assoc, List.length_append, List.length_cons,
      List.cons_append] at hF ⊢
    have ih := parseValue_render d F depth (w4 ++ 44 :: (tl.render ++ rest)) hd (by omega)
      (by simp only [List.length_append, List.length_cons]; omega)
      (by cases d <;> first | rfl | exact numEnd_append_space w4 44 _ hw4 (Or.inl rfl))
    have ih2 := parseMembers_render tl F depth rest htl (by omega)
      (by simp only [List.length_append]; omega)
    simp only [parseMembers, skipSpace_append w1 _ hw1,
      skipSpace_cons_of_not_space 34 _ (by decide), scanStr_complete key _ hkey,
      skipSpace_append w2 _ hw2, skipSpace_cons_of_not_space 58 _ (by decide),
      parseValue_skip F depth w3 _ hw3, ih, skipSpace_append w4 _ hw4,
      skipSpace_cons_of_not_space 44 _ (by decide), ih2, DocMembers.values]
    simp
end

/-! ## Storing the members of an object -/

theorem foldl_storeStep_error {α : Type} (set : α → Bytes × JValue → Except Error α)
    (ms : List (Bytes × JValue)) (e : Error) :
    ms.foldl (storeStep set) (.error e) = .error e := by
  induction ms with
  | nil => rfl
  | cons m ms ih => simpa [storeStep] using ih

theorem storeMembers_eq_foldl {α : Type} (set : α → Bytes × JValue → Except Error α)
    (ms : List (Bytes × JValue)) (cur : α) :
    storeMembers set ms cur = ms.foldl (storeStep set) (.ok cur) := by
  induction ms generalizing cur with
  | nil => rfl
  | cons m ms ih =>
    simp only [storeMembers, List.foldl_cons, storeStep]
    cases h : set cur m with
    | error e => simp [foldl_storeStep_error]
    | ok next => simp [ih]

/-- The order of the members of an object does not matter when the members
commute. -/
theorem storeMembers_perm {α : Type} (set : α → Bytes × JValue → Except Error α)
    (l ms : List (Bytes × JValue)) (cur : α) (hperm : ms.Perm l)
    (hcomm : ∀ x ∈ l, ∀ y ∈ l, ∀ r,
      storeStep set (set r x) y = storeStep set (set r y) x) :
    storeMembers set ms cur = storeMembers set l cur := by
  rw [storeMembers_eq_foldl, storeMembers_eq_foldl]
  apply List.Perm.foldl_eq' hperm
  intro x hx y hy z
  cases z with
  | error e => rfl
  | ok r => exact hcomm x (hperm.mem_iff.mp hx) y (hperm.mem_iff.mp hy) r

theorem storeMembers_append {α : Type} (set : α → Bytes × JValue → Except Error α)
    (a b : List (Bytes × JValue)) (cur : α) :
    storeMembers set (a ++ b) cur =
      match storeMembers set a cur with
      | .ok r => storeMembers set b r
      | .error e => .error e := by
  induction a generalizing cur with
  | nil => rfl
  | cons m a ih =>
    simp only [List.cons_append, storeMembers]
    cases set cur m with
    | error e => rfl
    | ok next => exact ih next

/-- Members that leave the record as it is. -/
theorem storeMembers_noop {α : Type} (set : α → Bytes × JValue → Except Error α)
    (ms : List (Bytes × JValue)) (cur : α) (h : ∀ m ∈ ms, ∀ r, set r m = .ok r) :
    storeMembers set ms cur = .ok cur := by
  induction ms with
  | nil => rfl
  | cons m ms ih =>
    simp only [storeMembers, h m (List.mem_cons_self _ _) cur]
    exact ih (fun m' hm' => h m' (List.mem_cons_of_mem _ hm'))

/-! ## The keys of the response types -/

/-! ### The keys of `Item` -/

/-- The key `o` selects the field `O`. -/
theorem setField_Item_o (cur : Item) (v : JValue) :
    Item.setField cur (ascii "o", v) =
      match decodeString v cur.O with
      | .ok x => .ok { cur with O := x }
      | .error e => .error e := by
  unfold Item.setField
  simp only [(show unquote (ascii "o") = some (ascii "o") from by decide),
    (show foldEq (ascii "o") (ascii "o") = true from by decide)]
  rfl

/-- The key `t` selects the field `Timestamp`. -/
theorem setField_Item_t (cur : Item) (v : JValue) :
    Item.setField cur (ascii "t", v) =
      match decodeInt v cur.Timestamp with
      | .ok x => .ok { cur with Timestamp := x }
      | .error e => .error e := by
  unfold Item.setField
  simp only [(show unquote (ascii "t") = some (ascii "t") from by decide),
    (show foldEq (ascii "t") (ascii "o") = false from by decide),
    (show foldEq (ascii "t") (ascii "t") = true from by decide)]
  rfl

/-- A key that selects no field leaves the value as it is. -/
theorem setField_Item_unknown (cur : Item) (m : Bytes × JValue)
    (h : selectsNone Item.keys m.1 = true) : Item.setField cur m = .ok cur := by
  unfold selectsNone at h
  unfold Item.setField
  cases hk : unquote m.1 with
  | none => simp [hk] at h
  | some key =>
    simp only [hk, Item.keys, List.all_cons, List.all_nil, Bool.and_true, Bool.and_eq_true,
      Bool.not_eq_true'] at h
    simp [h]

/-! ### The keys of `Prefix` -/

/-- The key `n` selects the field `N`. -/
theorem setField_Prefix_n (cur : Prefix) (v : JValue) :
    Prefix.setField cur (ascii "n", v) =
      match decodeString v cur.N with
      | .ok x => .ok { cur with N := x }
      | .error e => .error e := by
  unfold Prefix.setField
  simp only [(show unquote (ascii "n") = some (ascii "n") from by decide),
    (show foldEq (ascii "n") (ascii "n") = true from by decide)]
  rfl

/-- The key `inbgp` selects the field `InBGP`. -/
theorem setField_Prefix_inbgp (cur : Prefix) (v : JValue) :
    Prefix.setField cur (ascii "inbgp", v) =
      match decodeInt v cur.InBGP with
      | .ok x => .ok { cur with InBGP := x }
      | .error e => .error e := by
  unfold Prefix.setField
  simp only [(show unquote (ascii "inbgp") = some (ascii "inbgp") from by decide),
    (show foldEq (ascii "inbgp") (ascii "n") = false from by decide),
    (show foldEq (ascii "inbgp") (ascii "inbgp") = true from by decide)]
  rfl

/-- A key that selects no field leaves the value as it is. -/
theorem setField_Prefix_unknown (cur : Prefix) (m : Bytes × JValue)
    (h : selectsNone Prefix.keys m.1 = true) : Prefix.setField cur m = .ok cur := by
  unfold selectsNone at h
  unfold Prefix.setField
  cases hk : unquote m.1 with
  | none => simp [hk] at h
  | some key =>
    simp only [hk, Prefix.keys, List.all_cons, List.all_nil, Bool.and_true, Bool.and_eq_true,
      Bool.not_eq_true'] at h
    simp [h]

/-! ### The keys of `PassiveDNS` -/

/-- The key `rrname` selects the field `RRName`. -/
theorem setField_PassiveDNS_rrname (cur : PassiveDNS) (v : JValue) :
    PassiveDNS.setField cur (ascii "rrname", v) =
      match decodeString v cur.RRName with
      | .ok x => .ok { cur with RRName := x }
      | .error e => .error e := by
  unfold PassiveDNS.setField
  simp only [(show unquote (ascii "rrname") = some (ascii "rrname") from by decide),
    (show foldEq (ascii "rrname") (ascii "rrname") = true from by decide)]
  rfl

/-- The key `rrdata` selects the field `RRData`. -/
theorem setField_PassiveDNS_rrdata (cur : PassiveDNS) (v : JValue) :
    PassiveDNS.setField cur (ascii "rrdata", v) =
      match decodeString v cur.RRData with
      | .ok x => .ok { cur with RRData := x }
      | .error e => .error e := by
  unfold PassiveDNS.setField
  simp only [(show unquote (ascii "rrdata") = some (ascii "rrdata") from by decide),
    (show foldEq (ascii "rrdata") (ascii "rrname") = false from by decide),
    (show foldEq (ascii "rrdata") (ascii "rrdata") = true from by decide)]
  rfl

/-- The key `rrtype` selects the field `RRType`. -/
theorem setField_PassiveDNS_rrtype (cur : PassiveDNS) (v : JValue) :
    PassiveDNS.setField cur (ascii "rrtype", v) =
      match decodeString v cur.RRType with
      | .ok x => .ok { cur with RRType := x }
      | .error e => .error e := by
  unfold PassiveDNS.setField
  simp only [(show unquote (ascii "rrtype") = some (ascii "rrtype") from by decide),
    (show foldEq (ascii "rrtype") (ascii "rrname") = false from by decide),
    (show foldEq (ascii "rrtype") (ascii "rrdata") = false from by decide),
    (show foldEq (ascii "rrtype") (ascii "rrtype") = true from by decide)]
  rfl

/-- The key `time_first` selects the field `TimeFirst`. -/
theorem setField_PassiveDNS_time_first (cur : PassiveDNS) (v : JValue) :
    PassiveDNS.setField cur (ascii "time_first", v) =
      match decodeInt v cur.TimeFirst with
      | .ok x => .ok { cur with TimeFirst := x }
      | .error e => .error e := by
  unfold PassiveDNS.setField
  simp only [(show unquote (ascii "time_first") = some (ascii "time_first") from by decide),
    (show foldEq (ascii "time_first") (ascii "rrname") = false from by decide),
    (show foldEq (ascii "time_first") (ascii "rrdata") = false from by decide),
    (show foldEq (ascii "time_first") (ascii "rrtype") = false from by decide),
    (show foldEq (ascii "time_first") (ascii "time_first") = true from by decide)]
  rfl

/-- The key `time_last` selects the field `TimeLast`. -/
theorem setField_PassiveDNS_time_last (cur : PassiveDNS) (v : JValue) :
    PassiveDNS.setField cur (ascii "time_last", v) =
      match decodeInt v cur.TimeLast with
      | .ok x => .ok { cur with TimeLast := x }
      | .error e => .error e := by
  unfold PassiveDNS.setField
  simp only [(show unquote (ascii "time_last") = some (ascii "time_last") from by decide),
    (show foldEq (ascii "time_last") (ascii "rrname") = false from by decide),
    (show foldEq (ascii "time_last") (ascii "rrdata") = false from by decide),
    (show foldEq (ascii "time_last") (ascii "rrtype") = false from by decide),
    (show foldEq (ascii "time_last") (ascii "time_first") = false from by decide),
    (show foldEq (ascii "time_last") (ascii "time_last") = true from by decide)]
  rfl

/-- The key `count` selects the field `Count`. -/
theorem setField_PassiveDNS_count (cur : PassiveDNS) (v : JValue) :
    PassiveDNS.setField cur (ascii "count", v) =
      match decodeInt v cur.Count with
      | .ok x => .ok { cur with Count := x }
      | .error e => .error e := by
  unfold PassiveDNS.setField
  simp only [(show unquote (ascii "count") = some (ascii "count") from by decide),
    (show foldEq (ascii "count") (ascii "rrname") = false from by decide),
    (show foldEq (ascii "count") (ascii "rrdata") = false from by decide),
    (show foldEq (ascii "count") (ascii "rrtype") = false from by decide),
    (show foldEq (ascii "count") (ascii "time_first") = false from by decide),
    (show foldEq (ascii "count") (ascii "time_last") = false from by decide),
    (show foldEq (ascii "count") (ascii "count") = true from by decide)]
  rfl

/-- A key that selects no field leaves the value as it is. -/
theorem setField_PassiveDNS_unknown (cur : PassiveDNS) (m : Bytes × JValue)
    (h : selectsNone PassiveDNS.keys m.1 = true) : PassiveDNS.setField cur m = .ok cur := by
  unfold selectsNone at h
  unfold PassiveDNS.setField
  cases hk : unquote m.1 with
  | none => simp [hk] at h
  | some key =>
    simp only [hk, PassiveDNS.keys, List.all_cons, List.all_nil, Bool.and_true, Bool.and_eq_true,
      Bool.not_eq_true'] at h
    simp [h]

/-! ### The keys of `ASQueryResponse` -/

/-- The key `status` selects the field `Status`. -/
theorem setField_ASQueryResponse_status (cur : ASQueryResponse) (v : JValue) :
    ASQueryResponse.setField cur (ascii "status", v) =
      match decodeString v cur.Status with
      | .ok x => .ok { cur with Status := x }
      | .error e => .error e := by
  unfold ASQueryResponse.setField
  simp only [(show unquote (ascii "status") = some (ascii "status") from by decide),
    (show foldEq (ascii "status") (ascii "status") = true from by decide)]
  rfl

/-- The key `nets` selects the field `Nets`. -/
theorem setField_ASQueryResponse_nets (cur : ASQueryResponse) (v : JValue) :
    ASQueryResponse.setField cur (ascii "nets", v) =
      match decodeSlice Prefix.zero decodePrefix v cur.Nets with
      | .ok x => .ok { cur with Nets := x }
      | .error e => .error e := by
  unfold ASQueryResponse.setField
  simp only [(show unquote (ascii "nets") = some (ascii "nets") from by decide),
    (show foldEq (ascii "nets") (ascii "status") = false from by decide),
    (show foldEq (ascii "nets") (ascii "nets") = true from by decide)]
  rfl

/-- A key that selects no field leaves the value as it is. -/
theorem setField_ASQueryResponse_unknown (cur : ASQueryResponse) (m : Bytes × JValue)
    (h : selectsNone ASQueryResponse.keys m.1 = true) : ASQueryResponse.setField cur m = .ok cur := by
  unfold selectsNone at h
  unfold ASQueryResponse.setField
  cases hk : unquote m.1 with
  | none => simp [hk] at h
  | some key =>
    simp only [hk, ASQueryResponse.keys, List.all_cons, List.all_nil, Bool.and_true, Bool.and_eq_true,
      Bool.not_eq_true'] at h
    simp [h]

/-! ### The keys of `IPQueryResponse` -/

/-- The key `status` selects the field `Status`. -/
theorem setField_IPQueryResponse_status (cur : IPQueryResponse) (v : JValue) :
    IPQueryResponse.setField cur (ascii "status", v) =
      match decodeString v cur.Status with
      | .ok x => .ok { cur with Status := x }
      | .error e => .error e := by
  unfold IPQueryResponse.setField
  simp only [(show unquote (ascii "status") = some (ascii "status") from by decide),
    (show foldEq (ascii "status") (ascii "status") = true from by decide)]
  rfl

/-- The key `city` selects the field `City`. -/
theorem setField_IPQueryResponse_city (cur : IPQueryResponse) (v : JValue) :
    IPQueryResponse.setField cur (ascii "city", v) =
      match decodeString v cur.City with
      | .ok x => .ok { cur with City := x }
      | .error e => .error e := by
  unfold IPQueryResponse.setField
  simp only [(show unquote (ascii "city") = some (ascii "city") from by decide),
    (show foldEq (ascii "city") (ascii "status") = false from by decide),
    (show foldEq (ascii "city") (ascii "city") = true from by decide)]
  rfl

/-- The key `country` selects the field `Country`. -/
theorem setField_IPQueryResponse_country (cur : IPQueryResponse) (v : JValue) :
    IPQueryResponse.setField cur (ascii "country", v) =
      match decodeString v cur.Country with
      | .ok x => .ok { cur with Country := x }
      | .error e => .error e := by
  unfold IPQueryResponse.setField
  simp only [(show unquote (ascii "country") = some (ascii "country") from by decide),
    (show foldEq (ascii "country") (ascii "status") = false from by decide),
    (show foldEq (ascii "country") (ascii "city") = false from by decide),
    (show foldEq (ascii "country") (ascii "country") = true from by decide)]
  rfl

/-- The key `as` selects the field `AS`. -/
theorem setField_IPQueryResponse_as (cur : IPQueryResponse) (v : JValue) :
    IPQueryResponse.setField cur (ascii "as", v) =
      match decodeInt v cur.AS with
      | .ok x => .ok { cur with AS := x }
      | .error e => .error e := by
  unfold IPQueryResponse.setField
  simp only [(show unquote (ascii "as") = some (ascii "as") from by decide),
    (show foldEq (ascii "as") (ascii "status") = false from by decide),
    (show foldEq (ascii "as") (ascii "city") = false from by decide),
    (show foldEq (ascii "as") (ascii "country") = false from by decide),
    (show foldEq (ascii "as") (ascii "as") = true from by decide)]
  rfl

/-- The key `asname` selects the field `ASName`. -/
theorem setField_IPQueryResponse_asname (cur : IPQueryResponse) (v : JValue) :
    IPQueryResponse.setField cur (ascii "asname", v) =
      match decodeString v cur.ASName with
      | .ok x => .ok { cur with ASName := x }
      | .error e => .error e := by
  unfold IPQueryResponse.setField
  simp only [(show unquote (ascii "asname") = some (ascii "asname") from by decide),
    (show foldEq (ascii "asname") (ascii "status") = false from by decide),
    (show foldEq (ascii "asname") (ascii "city") = false from by decide),
    (show foldEq (ascii "asname") (ascii "country") = false from by decide),
    (show foldEq (ascii "asname") (ascii "as") = false from by decide),
    (show foldEq (ascii "asname") (ascii "asname") = true from by decide)]
  rfl

/-- The key `whoisdesc` selects the field `Whois`. -/
theorem setField_IPQueryResponse_whoisdesc (cur : IPQueryResponse) (v : JValue) :
    IPQueryResponse.setField cur (ascii "whoisdesc", v) =
      match decodeString v cur.Whois with
      | .ok x => .ok { cur with Whois := x }
      | .error e => .error e := by
  unfold IPQueryResponse.setField
  simp only [(show unquote (ascii "whoisdesc") = some (ascii "whoisdesc") from by decide),
    (show foldEq (ascii "whoisdesc") (ascii "status") = false from by decide),
    (show foldEq (ascii "whoisdesc") (ascii "city") = false from by decide),
    (show foldEq (ascii "whoisdesc") (ascii "country") = false from by decide),
    (show foldEq (ascii "whoisdesc") (ascii "as") = false from by decide),
    (show foldEq (ascii "whoisdesc") (ascii "asname") = false from by decide),
    (show foldEq (ascii "whoisdesc") (ascii "whoisdesc") = true from by decide)]
  rfl

/-- The key `routedesc` selects the field `Route`. -/
theorem setField_IPQueryResponse_routedesc (cur : IPQueryResponse) (v : JValue) :
    IPQueryResponse.setField cur (ascii "routedesc", v) =
      match decodeString v cur.Route with
      | .ok x => .ok { cur with Route := x }
      | .error e => .error e := by
  unfold IPQueryResponse.setField
  simp only [(show unquote (ascii "routedesc") = some (ascii "routedesc") from by decide),
    (show foldEq (ascii "routedesc") (ascii "status") = false from by decide),
    (show foldEq (ascii "routedesc") (ascii "city") = false from by decide),
    (show foldEq (ascii "routedesc") (ascii "country") = false from by decide),
    (show foldEq (ascii "routedesc") (ascii "as") = false from by decide),
    (show foldEq (ascii "routedesc") (ascii "asname") = false from by decide),
    (show foldEq (ascii "routedesc") (ascii "whoisdesc") = false from by decide),
    (show foldEq (ascii "routedesc") (ascii "routedesc") = true from by decide)]
  rfl

/-- The key `bgproute` selects the field `BGPRoute`. -/
theorem setField_IPQueryResponse_bgproute (cur : IPQueryResponse) (v : JValue) :
    IPQueryResponse.setField cur (ascii "bgproute", v) =
      match decodeString v cur.BGPRoute with
      | .ok x => .ok { cur with BGPRoute := x }
      | .error e => .error e := by
  unfold IPQueryResponse.setField
  simp only [(show unquote (ascii "bgproute") = some (ascii "bgproute") from by decide),
    (show foldEq (ascii "bgproute") (ascii "status") = false from by decide),
    (show foldEq (ascii "bgproute") (ascii "city") = false from by decide),
    (show foldEq (ascii "bgproute") (ascii "country") = false from by decide),
    (show foldEq (ascii "bgproute") (ascii "as") = false from by decide),
    (show foldEq (ascii "bgproute") (ascii "asname") = false from by decide),
    (show foldEq (ascii "bgproute") (ascii "whoisdesc") = false from by decide),
    (show foldEq (ascii "bgproute") (ascii "routedesc") = false from by decide),
    (show foldEq (ascii "bgproute") (ascii "bgproute") = true from by decide)]
  rfl

/-- The key `act` selects the field `ActiveForwardDNS`. -/
theorem setField_IPQueryResponse_act (cur : IPQueryResponse) (v : JValue) :
    IPQueryResponse.setField cur (ascii "act", v) =
      match decodeSlice Item.zero decodeItem v cur.ActiveForwardDNS with
      | .ok x => .ok { cur with ActiveForwardDNS := x }
      | .error e => .error e := by
  unfold IPQueryResponse.setField
  simp only [(show unquote (ascii "act") = some (ascii "act") from by decide),
    (show foldEq (ascii "act") (ascii "status") = false from by decide),
    (show foldEq (ascii "act") (ascii "city") = false from by decide),
    (show foldEq (ascii "act") (ascii "country") = false from by decide),
    (show foldEq (ascii "act") (ascii "as") = false from by decide),
    (show foldEq (ascii "act") (ascii "asname") = false from by decide),
    (show foldEq (ascii "act") (ascii "whoisdesc") = false from by decide),
    (show foldEq (ascii "act") (ascii "routedesc") = false from by decide),
    (show foldEq (ascii "act") (ascii "bgproute") = false from by decide),
    (show foldEq (ascii "act") (ascii "act") = true from by decide)]
  rfl

/-- The key `acth` selects the field `ActiveDNSHistory`. -/
theorem setField_IPQueryResponse_acth (cur : IPQueryResponse) (v : JValue) :
    IPQueryResponse.setField cur (ascii "acth", v) =
      match decodeSlice Item.zero decodeItem v cur.ActiveDNSHistory with
      | .ok x => .ok { cur with ActiveDNSHistory := x }
      | .error e => .error e := by
  unfold IPQueryResponse.setField
  simp only [(show unquote (ascii "acth") = some (ascii "acth") from by decide),
    (show foldEq (ascii "acth") (ascii "status") = false from by decide),
    (show foldEq (ascii "acth") (ascii "city") = false from by decide),
    (show foldEq (ascii "acth") (ascii "country") = false from by decide),
    (show foldEq (ascii "acth") (ascii "as") = false from by decide),
    (show foldEq (ascii "acth") (ascii "asname") = false from by decide),
    (show foldEq (ascii "acth") (ascii "whoisdesc") = false from by decide),
    (show foldEq (ascii "acth") (ascii "routedesc") = false from by decide),
    (show foldEq (ascii "acth") (ascii "bgproute") = false from by decide),
    (show foldEq (ascii "acth") (ascii "act") = false from by decide),
    (show foldEq (ascii "acth") (ascii "acth") = true from by decide)]
  rfl

/-- The key `pas` selects the field `PassiveReverseDNS`. -/
theorem setField_IPQueryResponse_pas (cur : IPQueryResponse) (v : JValue) :
    IPQueryResponse.setField cur (ascii "pas", v) =
      match decodeSlice Item.zero decodeItem v cur.PassiveReverseDNS with
      | .ok x => .ok { cur with PassiveReverseDNS := x }
      | .error e => .error e := by
  unfold IPQueryResponse.setField
  simp only [(show unquote (ascii "pas") = some (ascii "pas") from by decide),
    (show foldEq (ascii "pas") (ascii "status") = false from by decide),
    (show foldEq (ascii "pas") (ascii "city") = false from by decide),
    (show foldEq (ascii "pas") (ascii "country") = false from by decide),
    (show foldEq (ascii "pas") (ascii "as") = false from by decide),
    (show foldEq (ascii "pas") (ascii "asname") = false from by decide),
    (show foldEq (ascii "pas") (ascii "whoisdesc") = false from by decide),
    (show foldEq (ascii "pas") (ascii "routedesc") = false from by decide),
    (show foldEq (ascii "pas") (ascii "bgproute") = false from by decide),
    (show foldEq (ascii "pas") (ascii "act") = false from by decide),
    (show foldEq (ascii "pas") (ascii "acth") = false from by decide),
    (show foldEq (ascii "pas") (ascii "pas") = true from by decide)]
  rfl

/-- The key `pash` selects the field `PassiveDNSHistory`. -/
theorem setField_IPQueryResponse_pash (cur : IPQueryResponse) (v : JValue) :
    IPQueryResponse.setField cur (ascii "pash", v) =
      match decodeSlice Item.zero decodeItem v cur.PassiveDNSHistory with
      | .ok x => .ok { cur with PassiveDNSHistory := x }
      | .error e => .error e := by
  unfold IPQueryResponse.setField
  simp only [(show unquote (ascii "pash") = some (ascii "pash") from by decide),
    (show foldEq (ascii "pash") (ascii "status") = false from by decide),
    (show foldEq (ascii "pash") (ascii "city") = false from by decide),
    (show foldEq (ascii "pash") (ascii "country") = false from by decide),
    (show foldEq (ascii "pash") (ascii "as") = false from by decide),
    (show foldEq (ascii "pash") (ascii "asname") = false from by decide),
    (show foldEq (ascii "pash") (ascii "whoisdesc") = false from by decide),
    (show foldEq (ascii "pash") (ascii "routedesc") = false from by decide),
    (show foldEq (ascii "pash") (ascii "bgproute") = false from by decide),
    (show foldEq (ascii "pash") (ascii "act") = false from by decide),
    (show foldEq (ascii "pash") (ascii "acth") = false from by decide),
    (show foldEq (ascii "pash") (ascii "pas") = false from by decide),
    (show foldEq (ascii "pash") (ascii "pash") = true from by decide)]
  rfl

/-- A key that selects no field leaves the value as it is. -/
theorem setField_IPQueryResponse_unknown (cur : IPQueryResponse) (m : Bytes × JValue)
    (h : selectsNone IPQueryResponse.keys m.1 = true) : IPQueryResponse.setField cur m = .ok cur := by
  unfold selectsNone at h
  unfold IPQueryResponse.setField
  cases hk : unquote m.1 with
  | none => simp [hk] at h
  | some key =>
    simp only [hk, IPQueryResponse.keys, List.all_cons, List.all_nil, Bool.and_true, Bool.and_eq_true,
      Bool.not_eq_true'] at h
    simp [h]


/-- Members that each update the value in a way that commutes with the
others can be stored in any order. -/
theorem storeStep_comm_of_updates {α : Type} (set : α → Bytes × JValue → Except Error α)
    (l : List (Bytes × JValue)) (U : List (α → α))
    (hA : ∀ x ∈ l, ∃ u ∈ U, ∀ r, set r x = .ok (u r))
    (hB : ∀ u ∈ U, ∀ v ∈ U, ∀ r, u (v r) = v (u r)) :
    ∀ x ∈ l, ∀ y ∈ l, ∀ r, storeStep set (set r x) y = storeStep set (set r y) x := by
  intro x hx y hy r
  obtain ⟨u, hu, hux⟩ := hA x hx
  obtain ⟨v, hv, hvy⟩ := hA y hy
  simp only [hux, hvy, storeStep, hB u hu v hv r]

/-- A well-formed passive DNS object with the values of `r` is stored as `r`. -/
theorem decodePassiveDNS_object (v : JValue) (r : PassiveDNS) (h : IsPdnsObject v r)
    (cur : PassiveDNS) : decodePassiveDNS v cur = .ok r := by
  obtain ⟨o, extras, ms, rfl, hperm, hden, hext⟩ := h
  obtain ⟨h1, h2, h3, h4, h5, h6⟩ := hden
  have hcomm := storeStep_comm_of_updates PassiveDNS.setField (o.members ++ extras)
    [fun x => { x with RRName := r.RRName }, fun x => { x with RRData := r.RRData },
     fun x => { x with RRType := r.RRType }, fun x => { x with TimeFirst := r.TimeFirst },
     fun x => { x with TimeLast := r.TimeLast }, fun x => { x with Count := r.Count },
     fun x => x]
    (by
      intro x hx
      simp only [List.mem_append, PdnsLiterals.members, List.mem_cons, List.mem_singleton,
        List.not_mem_nil, or_false] at hx
      rcases hx with (rfl | rfl | rfl | rfl | rfl | rfl) | hx
      · exact ⟨_, List.mem_cons_self _ _, fun r' => by
          rw [setField_PassiveDNS_rrname]; simp [decodeString, h1]⟩
      · exact ⟨_, List.mem_cons_of_mem _ (List.mem_cons_self _ _), fun r' => by
          rw [setField_PassiveDNS_rrdata]; simp [decodeString, h2]⟩
      · exact ⟨_, List.mem_cons_of_mem _ (List.mem_cons_of_mem _ (List.mem_cons_self _ _)),
          fun r' => by rw [setField_PassiveDNS_rrtype]; simp [decodeString, h3]⟩
      · exact ⟨fun x => { x with TimeFirst := r.TimeFirst }, by simp, fun r' => by
          rw [setField_PassiveDNS_time_first]; simp [decodeInt, h4]⟩
      · exact ⟨fun x => { x with TimeLast := r.TimeLast }, by simp, fun r' => by
          rw [setField_PassiveDNS_time_last]; simp [decodeInt, h5]⟩
      · exact ⟨fun x => { x with Count := r.Count }, by simp, fun r' => by
          rw [setField_PassiveDNS_count]; simp [decodeInt, h6]⟩
      · exact ⟨fun x => x, by simp, fun r' => setField_PassiveDNS_unknown r' x (hext x hx)⟩)
    (by
      intro u hu v hv r'
      simp only [List.mem_cons, List.mem_singleton, List.not_mem_nil, or_false] at hu hv
      rcases hu with rfl | rfl | rfl | rfl | rfl | rfl | rfl <;>
        rcases hv with rfl | rfl | rfl | rfl | rfl | rfl | rfl <;> rfl)
  unfold decodePassiveDNS decodeStruct
  simp only
  rw [storeMembers_perm _ _ ms cur hperm hcomm, storeMembers_append]
  simp only [PdnsLiterals.members, storeMembers, setField_PassiveDNS_rrname,
    setField_PassiveDNS_rrdata, setField_PassiveDNS_rrtype, setField_PassiveDNS_time_first,
    setField_PassiveDNS_time_last, setField_PassiveDNS_count, decodeString, decodeInt,
    h1, h2, h3, h4, h5, h6]
  exact storeMembers_noop _ extras _ (fun m hm r' => setField_PassiveDNS_unknown r' m (hext m hm))

/-! ## Decoding a stream of JSON texts -/

/-- The decoder reads a JSON text that stands at the front of the stream,
after optional white space, and stops right after it. -/
theorem readValue_render (w : Bytes) (d : Doc) (rest : Bytes) (hw : allSpace w = true)
    (hd : d.ok = true) (hend : d.endsBefore rest = true) :
    Decoder.readValue (w ++ d.render ++ rest) = .ok (d.value, rest) := by
  simp only [Doc.ok, Bool.and_eq_true, decide_eq_true_eq] at hd
  obtain ⟨c, cs, hhead, hsp, -, -⟩ := renderHead d hd.1
  have hsk : skipSpace (w ++ d.render ++ rest) = c :: (cs ++ rest) := by
    rw [List.append_assoc, skipSpace_append w _ hw, hhead]
    exact skipSpace_cons_of_not_space _ _ hsp
  unfold Decoder.readValue
  rw [hsk]
  simp only
  rw [List.append_assoc, parseValue_skip _ _ w _ hw,
    parseValue_render d _ 0 rest hd.1 (by omega)
      (by simp only [List.length_append]; omega) hend]

/-- A JSON text at the front of the stream is a further value. -/
theorem More_render (w : Bytes) (d : Doc) (rest : Bytes) (hw : allSpace w = true)
    (hd : d.ok = true) : Decoder.More (w ++ d.render ++ rest) = true := by
  simp only [Doc.ok, Bool.and_eq_true, decide_eq_true_eq] at hd
  obtain ⟨c, cs, hhead, hsp, h93, h125⟩ := renderHead d hd.1
  have hsk : skipSpace (w ++ d.render ++ rest) = c :: (cs ++ rest) := by
    rw [List.append_assoc, skipSpace_append w _ hw, hhead]
    exact skipSpace_cons_of_not_space _ _ hsp
  unfold Decoder.More
  rw [hsk]
  simp [h93, h125]

/-- White space alone holds no further value. -/
theorem More_space (w : Bytes) (hw : allSpace w = true) : Decoder.More w = false := by
  have : skipSpace w = [] := by
    have := skipSpace_append w [] hw
    simpa [skipSpace] using this
  unfold Decoder.More
  rw [this]

theorem decodeStream_space (w : Bytes) (hw : allSpace w = true) : decodeStream w = .ok [] := by
  rw [decodeStream_unfold, More_space w hw]
  rfl

theorem allSpace_append (a b : Bytes) (ha : allSpace a = true) (hb : allSpace b = true) :
    allSpace (a ++ b) = true := by
  simp only [allSpace, List.all_append, Bool.and_eq_true] at *
  exact ⟨ha, hb⟩

theorem isObject_endsBefore (d : Doc) (h : d.isObject = true) (rest : Bytes) :
    d.endsBefore rest = true := by
  cases d <;> first | rfl | simp [Doc.isObject] at h

/-- One round of the decoding loop on an object at the front of the stream:
its value is stored, an error ends the decoding, a record is put in front of
the records of the rest. -/
theorem decodeStream_cons (w : Bytes) (d : Doc) (rest : Bytes) (hw : allSpace w = true)
    (hd : d.ok = true) (hobj : d.isObject = true) :
    decodeStream (w ++ d.render ++ rest) =
      match decodePassiveDNS d.value PassiveDNS.zero with
      | .error e => .error e
      | .ok r => prepend [r] (decodeStream rest) := by
  rw [decodeStream_unfold, More_render w d _ hw hd]
  simp only [if_true, Decoder.Decode,
    readValue_render w d _ hw hd (isObject_endsBefore d hobj _)]
  cases decodePassiveDNS d.value PassiveDNS.zero <;> rfl

/-- The decoding of a stream of JSON objects, whatever its layout: the values
of the objects are stored one after the other, then the rest of the body is
decoded. -/
theorem decodeStream_render (items : List (Bytes × Doc)) (tail : Bytes)
    (h : streamOK items = true) :
    decodeStream (renderStream items tail)
      = andThen (storeAll (streamValues items)) (decodeStream tail) := by
  induction items with
  | nil => simp [renderStream, streamValues, storeAll, andThen, prepend_nil]
  | cons p ps ih =>
    obtain ⟨w, d⟩ := p
    simp only [streamOK, List.all_cons, Bool.and_eq_true] at h
    obtain ⟨⟨⟨hw, hd⟩, hobj⟩, hps⟩ := h
    have hbody : renderStream ((w, d) :: ps) tail = w ++ d.render ++ renderStream ps tail := by
      simp [renderStream, List.append_assoc]
    rw [hbody, decodeStream_cons w d _ hw hd hobj, ih hps]
    simp only [streamValues, List.map_cons, storeAll]
    cases decodePassiveDNS d.value PassiveDNS.zero with
    | error e => rfl
    | ok r =>
      simp only
      cases storeAll (List.map (fun p => p.2.value) ps) with
      | error e => rfl
      | ok rs => cases decodeStream tail <;> simp [andThen, prepend]

/-- The body with one text per line, after optional white space, decodes to
the records of the values of its texts. -/
theorem decodeStream_lines (docs : List Doc) (w : Bytes) (hw : allSpace w = true)
    (h : ∀ d ∈ docs, d.ok = true ∧ d.isObject = true) :
    decodeStream (w ++ lines docs) = storeAll (docs.map Doc.value) := by
  induction docs generalizing w with
  | nil => simpa [lines, storeAll] using decodeStream_space w hw
  | cons d ds ih =>
    have hd := h d (List.mem_cons_self _ _)
    have hbody : w ++ lines (d :: ds) = w ++ d.render ++ ([10] ++ lines ds) := by
      simp [lines, List.append_assoc]
    rw [hbody, decodeStream_cons w d _ hw hd.1 hd.2,
      ih [10] (by decide) (fun d' hd' => h d' (List.mem_cons_of_mem _ hd'))]
    rfl

/-- Records of well-formed passive DNS objects: one record for each object,
in order. -/
theorem storeAll_objects (vs : List JValue) (recs : List PassiveDNS)
    (h : List.Forall₂ IsPdnsObject vs recs) : storeAll vs = .ok recs := by
  induction h with
  | nil => rfl
  | cons hv _ ih =>
    simp only [storeAll, decodePassiveDNS_object _ _ hv, ih, prepend]
    rfl

/-! ## Status errors -/

/-- A response with a status other than 200 ends the round trip with the
status error, whatever the decoding of the body would give. -/
theorem roundTrip_status {α : Type} (c : Client) (ctx : Option Context) (k : List Bytes)
    (decode : Bytes → Except Error α) (req : Request) (resp : Response)
    (hreq : c.newRequest ctx k = .ok req) (hresp : c.httpClient req = .ok resp)
    (hcode : resp.StatusCode ≠ 200) :
    c.roundTrip ctx k decode = .error (.status resp.StatusCode resp.Body) := by
  unfold Client.roundTrip
  simp only [hreq, hresp]
  have h : resp.StatusCode ≠ StatusOK := hcode
  simp [h]

/-- C1: for each of the four operations and every response whose status code
is not 200, whatever its body, the operation returns no result and the error
whose message is the decimal status code, a colon and a blank, and the whole
body; the decoding of the body plays no part. -/
theorem status_not_ok_is_error (c : Client) (ctx : Option Context) (id : Bytes) (resp : Response)
    (hcode : resp.StatusCode ≠ 200) :
    (∀ req, c.newRequest ctx [ascii "ipquery", id] = .ok req → c.httpClient req = .ok resp →
      c.IPQuery ctx id = .error (.status resp.StatusCode resp.Body)) ∧
    (∀ req, c.newRequest ctx [ascii "asquery", id] = .ok req → c.httpClient req = .ok resp →
      c.ASQuery ctx id = .error (.status resp.StatusCode resp.Body)) ∧
    (∀ req, c.newRequest ctx [ascii "pdns", ascii "forward", id] = .ok req →
      c.httpClient req = .ok resp →
      c.PassiveDNSForward ctx id = .error (.status resp.StatusCode resp.Body)) ∧
    (∀ req, c.newRequest ctx [ascii "pdns", ascii "reverse", id] = .ok req →
      c.httpClient req = .ok resp →
      c.PassiveDNSReverse ctx id = .error (.status resp.StatusCode resp.Body)) ∧
    (∀ (β : Type) (decode : Bytes → Except Error β) (k : List Bytes) (req : Request),
      c.newRequest ctx k = .ok req → c.httpClient req = .ok resp →
      c.roundTrip ctx k decode = .error (.status resp.StatusCode resp.Body)) ∧
    (Error.status resp.StatusCode resp.Body).message
      = some (formatInt resp.StatusCode ++ ascii ": " ++ resp.Body) := by
  refine ⟨?_, ?_, ?_, ?_, ?_, rfl⟩
  · intro req hreq hresp
    exact roundTrip_status c ctx _ _ req resp hreq hresp hcode
  · intro req hreq hresp
    exact roundTrip_status c ctx _ _ req resp hreq hresp hcode
  · intro req hreq hresp
    exact roundTrip_status c ctx _ _ req resp hreq hresp hcode
  · intro req hreq hresp
    exact roundTrip_status c ctx _ _ req resp hreq hresp hcode
  · intro β decode k req hreq hresp
    exact roundTrip_status c ctx k decode req resp hreq hresp hcode

/-- C1 at status 500 with body `boom`: the IP lookup returns the error whose
message is `500: boom`. -/
theorem status_not_ok_is_error_witness :
    (500 : Int) ≠ 200 ∧
    (New (replyWith 500 (ascii "boom")) []).IPQuery (some ⟨0⟩) (ascii "199.19.54.1")
      = .error (.status 500 (ascii "boom")) ∧
    (Error.status 500 (ascii "boom")).message = some (ascii "500: boom") :=
  ⟨by decide,
   (status_not_ok_is_error (New (replyWith 500 (ascii "boom")) []) (some ⟨0⟩) (ascii "199.19.54.1")
      ⟨500, ascii "boom"⟩ (by decide)).1 sampleRequest (by decide!) rfl,
   by decide!⟩

/-! ## The passive DNS operations -/

/-- A response with status 200 hands its body to the decoder. -/
theorem roundTrip_ok {α : Type} (c : Client) (ctx : Option Context) (k : List Bytes)
    (decode : Bytes → Except Error α) (req : Request) (body : Bytes)
    (hreq : c.newRequest ctx k = .ok req) (hresp : c.httpClient req = .ok ⟨200, body⟩) :
    c.roundTrip ctx k decode = decode body := by
  unfold Client.roundTrip
  simp only [hreq, hresp]
  simp [StatusOK]

theorem isObject_of_value (d : Doc) (ms : List (Bytes × JValue)) (h : d.value = .obj ms) :
    d.isObject = true := by
  cases d <;> simp [Doc.value] at h <;> rfl

theorem isObject_of_pdns (d : Doc) (r : PassiveDNS) (h : IsPdnsObject d.value r) :
    d.isObject = true := by
  obtain ⟨o, extras, ms, hv, -⟩ := h
  exact isObject_of_value d ms hv

theorem forall₂_left {α β : Type} (R : α → β → Prop) (l₁ : List α) (l₂ : List β)
    (h : List.Forall₂ R l₁ l₂) : ∀ a ∈ l₁, ∃ b, R a b := by
  induction h with
  | nil => intro a ha; cases ha
  | cons hab _ ih =>
    intro a ha
    rcases List.mem_cons.mp ha with rfl | ha
    · exact ⟨_, hab⟩
    · exact ih a ha

theorem forall₂_map_left {α β γ : Type} (R : γ → β → Prop) (f : α → γ) (l₁ : List α)
    (l₂ : List β) : List.Forall₂ R (l₁.map f) l₂ ↔ List.Forall₂ (fun a b => R (f a) b) l₁ l₂ := by
  induction l₁ generalizing l₂ with
  | nil => cases l₂ <;> simp
  | cons a l₁ ih => cases l₂ <;> simp [ih]

/-- The decoding of a stream of objects does not depend on its layout: a
stream and a body with one text per line that hold the same values decode to
the same result, error or not. -/
theorem layout_same_outcome (items : List (Bytes × Doc)) (tail : Bytes) (docs : List Doc)
    (hitems : streamOK items = true) (htail : allSpace tail = true)
    (hdocs : ∀ d ∈ docs, d.ok = true ∧ d.isObject = true)
    (hsame : docs.map Doc.value = streamValues items) :
    decodeStream (renderStream items tail) = decodeStream (lines docs) := by
  have h := decodeStream_lines docs [] rfl hdocs
  rw [List.nil_append] at h
  rw [h, hsame, decodeStream_render items tail hitems, decodeStream_space tail htail]
  cases storeAll (streamValues items) <;> simp [andThen, prepend]

/-- C10: the result of the passive DNS operations depends on the sequence of
JSON values of the body only.  A body that lays out well-formed passive DNS
objects in any way (several on a line, one over several lines, any white
space between them) decodes without error to the same records as the body
that holds the same values one per line. -/
theorem layout_does_not_matter (c : Client) (ctx : Option Context) (id : Bytes)
    (items : List (Bytes × Doc)) (tail : Bytes) (docs : List Doc) (recs : List PassiveDNS)
    (hitems : streamOK items = true) (htail : allSpace tail = true)
    (hdocs : ∀ d ∈ docs, d.ok = true)
    (hsame : docs.map Doc.value = streamValues items)
    (hvals : List.Forall₂ IsPdnsObject (streamValues items) recs) :
    decodeStream (renderStream items tail) = .ok recs ∧
    decodeStream (lines docs) = .ok recs ∧
    (∀ req body, c.newRequest ctx [ascii "pdns", ascii "forward", id] = .ok req →
      c.httpClient req = .ok ⟨200, body⟩ → body = renderStream items tail ∨ body = lines docs →
      c.PassiveDNSForward ctx id = .ok recs) ∧
    (∀ req body, c.newRequest ctx [ascii "pdns", ascii "reverse", id] = .ok req →
      c.httpClient req = .ok ⟨200, body⟩ → body = renderStream items tail ∨ body = lines docs →
      c.PassiveDNSReverse ctx id = .ok recs) := by
  have hobj : ∀ d ∈ docs, d.ok = true ∧ d.isObject = true := by
    intro d hd
    have hmem : d.value ∈ streamValues items := by
      rw [← hsame]; exact List.mem_map_of_mem _ hd
    obtain ⟨r, hr⟩ := forall₂_left _ _ _ hvals _ hmem
    exact ⟨hdocs d hd, isObject_of_pdns d r hr⟩
  have h1 : decodeStream (renderStream items tail) = .ok recs := by
    rw [decodeStream_render items tail hitems, decodeStream_space tail htail,
      storeAll_objects _ _ hvals]
    simp [andThen, prepend]
  have h2 : decodeStream (lines docs) = .ok recs := by
    rw [← layout_same_outcome items tail docs hitems htail hobj hsame]; exact h1
  refine ⟨h1, h2, ?_, ?_⟩
  · intro req body hreq hresp hbody
    unfold Client.PassiveDNSForward
    rw [roundTrip_ok c ctx _ _ req _ hreq hresp]
    rcases hbody with rfl | rfl
    · exact h1
    · exact h2
  · intro req body hreq hresp hbody
    unfold Client.PassiveDNSReverse
    rw [roundTrip_ok c ctx _ _ req _ hreq hresp]
    rcases hbody with rfl | rfl
    · exact h1
    · exact h2

/-- C10 on two objects: written on one line with a blank between them, the
second spread over several lines, they decode to the same two records as one
per line. -/
theorem layout_does_not_matter_witness :
    streamOK [([], sampleDoc1), ([32], sampleDoc2Spread)] = true ∧
    (New (replyWith 200 (renderStream [([], sampleDoc1), ([32], sampleDoc2Spread)] [10, 10]))
      []).PassiveDNSForward background (ascii "a.iana-servers.net")
      = .ok [sampleRecord1, sampleRecord2] ∧
    decodeStream (lines [sampleDoc1, sampleDoc2]) = .ok [sampleRecord1, sampleRecord2] :=
  have h := layout_does_not_matter
    (New (replyWith 200 (renderStream [([], sampleDoc1), ([32], sampleDoc2Spread)] [10, 10])) [])
    background (ascii "a.iana-servers.net") [([], sampleDoc1), ([32], sampleDoc2Spread)] [10, 10]
    [sampleDoc1, sampleDoc2] [sampleRecord1, sampleRecord2] (by decide!) (by decide!)
    (by decide!) rfl
    (.cons ⟨sampleLiterals1, [], _, rfl, List.Perm.refl _,
        ⟨by decide!, by decide!, by decide!, by decide!, by decide!, by decide!⟩, by simp⟩
      (.cons ⟨sampleLiterals2, [(ascii "zone", .bool true)], _, rfl, List.Perm.refl _,
        ⟨by decide!, by decide!, by decide!, by decide!, by decide!, by decide!⟩,
        by intro m hm; rw [List.mem_singleton.mp hm]; decide!⟩ .nil))
  ⟨by decide!, h.2.2.1 sampleForwardRequest _ (by decide!) rfl (Or.inl rfl), h.2.1⟩

/-! ## Objects of the lookup operations -/

/-- A well-formed list element with the values of `it` is stored as `it`,
whatever the element held before. -/
theorem decodeItem_object (v : JValue) (it : Item) (h : IsItemObject v it) (cur : Item) :
    decodeItem v cur = .ok it := by
  obtain ⟨o, t, extras, ms, rfl, hperm, h1, h2, hext⟩ := h
  have hcomm := storeStep_comm_of_updates Item.setField
    ([(ascii "o", JValue.str o), (ascii "t", JValue.num t)] ++ extras)
    [fun x => { x with O := it.O }, fun x => { x with Timestamp := it.Timestamp }, fun x => x]
    (by
      intro x hx
      simp only [List.mem_append, List.mem_cons, List.mem_singleton, List.not_mem_nil,
        or_false] at hx
      rcases hx with (rfl | rfl) | hx
      · exact ⟨fun x => { x with O := it.O }, by simp, fun r' => by
          rw [setField_Item_o]; simp [decodeString, h1]⟩
      · exact ⟨fun x => { x with Timestamp := it.Timestamp }, by simp, fun r' => by
          rw [setField_Item_t]; simp [decodeInt, h2]⟩
      · exact ⟨fun x => x, by simp, fun r' => setField_Item_unknown r' x (hext x hx)⟩)
    (by
      intro u hu v hv r'
      simp only [List.mem_cons, List.mem_singleton, List.not_mem_nil, or_false] at hu hv
      rcases hu with rfl | rfl | rfl <;> rcases hv with rfl | rfl | rfl <;> rfl)
  unfold decodeItem decodeStruct
  simp only
  rw [storeMembers_perm _ _ ms cur hperm hcomm, storeMembers_append]
  simp only [storeMembers, setField_Item_o, setField_Item_t, decodeString, decodeInt, h1, h2]
  exact storeMembers_noop _ extras _ (fun m hm r' => setField_Item_unknown r' m (hext m hm))

/-- The elements of an array are stored one by one, in order. -/
theorem storeElems_forall₂ {α : Type} (zero : α) (dec : JValue → α → Except Error α)
    (es : List JValue) (xs : List α) (h : List.Forall₂ (fun e x => ∀ cur, dec e cur = .ok x) es xs)
    (backing : List α) : storeElems zero dec es backing = .ok xs := by
  induction h generalizing backing with
  | nil => rfl
  | cons hx _ ih => simp only [storeElems, hx, ih]

/-- An array is stored into a slice as the slice of its elements; the slice
is not nil. -/
theorem decodeSlice_forall₂ {α : Type} (zero : α) (dec : JValue → α → Except Error α)
    (es : List JValue) (xs : List α) (h : List.Forall₂ (fun e x => ∀ cur, dec e cur = .ok x) es xs)
    (cur : Option (Slice α)) :
    ∃ spare, decodeSlice zero dec (.arr es) cur = .ok (some ⟨xs, spare⟩) ∧
      (cur = none → spare = []) := by
  unfold decodeSlice
  simp only [storeElems_forall₂ zero dec es xs h]
  cases h with
  | nil => exact ⟨[], rfl, fun _ => rfl⟩
  | cons hx ht =>
    refine ⟨_, rfl, ?_⟩
    rintro rfl
    rfl

theorem mem_memberOf {α : Type} (key : Bytes) (mk : α → JValue) (lit : Option α)
    (x : Bytes × JValue) : x ∈ memberOf key mk lit ↔ ∃ a, lit = some a ∧ x = (key, mk a) := by
  cases lit <;> simp [memberOf]

theorem storeMembers_append_ok {α : Type} (set : α → Bytes × JValue → Except Error α)
    (a b : List (Bytes × JValue)) (cur mid : α) (h : storeMembers set a cur = .ok mid) :
    storeMembers set (a ++ b) cur = storeMembers set b mid := by
  rw [storeMembers_append, h]

/-- An array of well-formed elements is stored as the slice of their values. -/
theorem decodeSlice_items (es : List JValue) (items : List Item)
    (h : List.Forall₂ IsItemObject es items) (cur : Option (Slice Item)) :
    ∃ spare, decodeSlice Item.zero decodeItem (.arr es) cur = .ok (some ⟨items, spare⟩) ∧
      (cur = none → spare = []) :=
  decodeSlice_forall₂ Item.zero decodeItem es items
    (List.Forall₂.imp (fun _ _ hx cur => decodeItem_object _ _ hx cur) h) cur

/-- A well-formed ipquery object with the values of `r` is stored into the
zero value as `r`. -/
theorem decodeIPQueryResponse_object (v : JValue) (r : IPQueryResponse)
    (h : IsIPQueryObject v r) : decodeIPQueryResponse v IPQueryResponse.zero = .ok r := by
  obtain ⟨o, extras, ms, rfl, hperm, hden, hext⟩ := h
  obtain ⟨h_status, h_city, h_country, h_asn, h_asname, h_whoisdesc, h_routedesc, h_bgproute, h_act, h_acth, h_pas, h_pash⟩ := hden
  let gActiveForwardDNS : Option (Slice Item) → Option (Slice Item) := fun cur =>
    match o.act with
    | some es =>
      match decodeSlice Item.zero decodeItem (.arr es) cur with
      | .ok s => s
      | .error _ => cur
    | none => cur
  let gActiveDNSHistory : Option (Slice Item) → Option (Slice Item) := fun cur =>
    match o.acth with
    | some es =>
      match decodeSlice Item.zero decodeItem (.arr es) cur with
      | .ok s => s
      | .error _ => cur
    | none => cur
  let gPassiveReverseDNS : Option (Slice Item) → Option (Slice Item) := fun cur =>
    match o.pas with
    | some es =>
      match decodeSlice Item.zero decodeItem (.arr es) cur with
      | .ok s => s
      | .error _ => cur
    | none => cur
  let gPassiveDNSHistory : Option (Slice Item) → Option (Slice Item) := fun cur =>
    match o.pash with
    | some es =>
      match decodeSlice Item.zero decodeItem (.arr es) cur with
      | .ok s => s
      | .error _ => cur
    | none => cur
  have hcomm := storeStep_comm_of_updates IPQueryResponse.setField (o.members ++ extras)
    [fun x => { x with Status := r.Status },
     fun x => { x with City := r.City },
     fun x => { x with Country := r.Country },
     fun x => { x with AS := r.AS },
     fun x => { x with ASName := r.ASName },
     fun x => { x with Whois := r.Whois },
     fun x => { x with Route := r.Route },
     fun x => { x with BGPRoute := r.BGPRoute },
     fun x => { x with ActiveForwardDNS := gActiveForwardDNS x.ActiveForwardDNS },
     fun x => { x with ActiveDNSHistory := gActiveDNSHistory x.ActiveDNSHistory },
     fun x => { x with PassiveReverseDNS := gPassiveReverseDNS x.PassiveReverseDNS },
     fun x => { x with PassiveDNSHistory := gPassiveDNSHistory x.PassiveDNSHistory },
     fun x => x]
    (by
      intro x hx
      simp only [List.mem_append, IPQueryLiterals.members, mem_memberOf, or_assoc] at hx
      rcases hx with ⟨a, ha, rfl⟩ | ⟨a, ha, rfl⟩ | ⟨a, ha, rfl⟩ | ⟨a, ha, rfl⟩ | ⟨a, ha, rfl⟩ | ⟨a, ha, rfl⟩ | ⟨a, ha, rfl⟩ | ⟨a, ha, rfl⟩ | ⟨a, ha, rfl⟩ | ⟨a, ha, rfl⟩ | ⟨a, ha, rfl⟩ | ⟨a, ha, rfl⟩ | hx
      · rw [ha] at h_status
        exact ⟨fun x => { x with Status := r.Status }, by simp, fun r' => by
          rw [setField_IPQueryResponse_status]; simp [decodeString, strField] at h_status ⊢; simp [h_status]⟩
      · rw [ha] at h_city
        exact ⟨fun x => { x with City := r.City }, by simp, fun r' => by
          rw [setField_IPQueryResponse_city]; simp [decodeString, strField] at h_city ⊢; simp [h_city]⟩
      · rw [ha] at h_country
        exact ⟨fun x => { x with Country := r.Country }, by simp, fun r' => by
          rw [setField_IPQueryResponse_country]; simp [decodeString, strField] at h_country ⊢; simp [h_country]⟩
      · rw [ha] at h_asn
        exact ⟨fun x => { x with AS := r.AS }, by simp, fun r' => by
          rw [setField_IPQueryResponse_as]; simp [decodeInt, intField] at h_asn ⊢; simp [h_asn]⟩
      · rw [ha] at h_asname
        exact ⟨fun x => { x with ASName := r.ASName }, by simp, fun r' => by
          rw [setField_IPQueryResponse_asname]; simp [decodeString, strField] at h_asname ⊢; simp [h_asname]⟩
      · rw [ha] at h_whoisdesc
        exact ⟨fun x => { x with Whois := r.Whois }, by simp, fun r' => by
          rw [setField_IPQueryResponse_whoisdesc]; simp [decodeString, strField] at h_whoisdesc ⊢; simp [h_whoisdesc]⟩
      · rw [ha] at h_routedesc
        exact ⟨fun x => { x with Route := r.Route }, by simp, fun r' => by
          rw [setField_IPQueryResponse_routedesc]; simp [decodeString, strField] at h_routedesc ⊢; simp [h_routedesc]⟩
      · rw [ha] at h_bgproute
        exact ⟨fun x => { x with BGPRoute := r.BGPRoute }, by simp, fun r' => by
          rw [setField_IPQueryResponse_bgproute]; simp [decodeString, strField] at h_bgproute ⊢; simp [h_bgproute]⟩
      · rw [ha] at h_act
        obtain ⟨items, hitems, -⟩ := h_act
        refine ⟨fun x => { x with ActiveForwardDNS := gActiveForwardDNS x.ActiveForwardDNS }, by simp, fun r' => ?_⟩
        obtain ⟨spare, hs, -⟩ := decodeSlice_items a items hitems r'.ActiveForwardDNS
        rw [setField_IPQueryResponse_act, hs]
        simp only [gActiveForwardDNS, ha, hs]
      · rw [ha] at h_acth
        obtain ⟨items, hitems, -⟩ := h_acth
        refine ⟨fun x => { x with ActiveDNSHistory := gActiveDNSHistory x.ActiveDNSHistory }, by simp, fun r' => ?_⟩
        obtain ⟨spare, hs, -⟩ := decodeSlice_items a items hitems r'.ActiveDNSHistory
        rw [setField_IPQueryResponse_acth, hs]
        simp only [gActiveDNSHistory, ha, hs]
      · rw [ha] at h_pas
        obtain ⟨items, hitems, -⟩ := h_pas
        refine ⟨fun x => { x with PassiveReverseDNS := gPassiveReverseDNS x.PassiveReverseDNS }, by simp, fun r' => ?_⟩
        obtain ⟨spare, hs, -⟩ := decodeSlice_items a items hitems r'.PassiveReverseDNS
        rw [setField_IPQueryResponse_pas, hs]
        simp only [gPassiveReverseDNS, ha, hs]
      · rw [ha] at h_pash
        obtain ⟨items, hitems, -⟩ := h_pash
        refine ⟨fun x => { x with PassiveDNSHistory := gPassiveDNSHistory x.PassiveDNSHistory }, by simp, fun r' => ?_⟩
        obtain ⟨spare, hs, -⟩ := decodeSlice_items a items hitems r'.PassiveDNSHistory
        rw [setField_IPQueryResponse_pash, hs]
        simp only [gPassiveDNSHistory, ha, hs]
      · exact ⟨fun x => x, by simp, fun r' => setField_IPQueryResponse_unknown r' x (hext x hx)⟩)
    (by
      intro u hu v hv r'
      simp only [List.mem_cons, List.mem_singleton, List.not_mem_nil, or_false] at hu hv
      rcases hu with rfl | rfl | rfl | rfl | rfl | rfl | rfl | rfl | rfl | rfl | rfl | rfl | rfl <;>
        rcases hv with rfl | rfl | rfl | rfl | rfl | rfl | rfl | rfl | rfl | rfl | rfl | rfl | rfl <;> rfl)
  unfold decodeIPQueryResponse decodeStruct
  simp only
  rw [storeMembers_perm _ _ ms _ hperm hcomm]
  have s_status : ∀ cur : IPQueryResponse, cur.Status = IPQueryResponse.zero.Status →
      storeMembers IPQueryResponse.setField (memberOf (ascii "status") JValue.str o.status) cur
        = .ok { cur with Status := r.Status } := by
    intro cur hcur
    cases ho : o.status with
    | none =>
      rw [ho] at h_status
      simp only [strField] at h_status
      simp only [memberOf, storeMembers, h_status]
      rw [show cur = { cur with Status := cur.Status } from rfl, hcur]; rfl
    | some a =>
      rw [ho] at h_status
      simp only [strField] at h_status
      simp only [memberOf, storeMembers, setField_IPQueryResponse_status, decodeString, h_status]
  have s_city : ∀ cur : IPQueryResponse, cur.City = IPQueryResponse.zero.City →
      storeMembers IPQueryResponse.setField (memberOf (ascii "city") JValue.str o.city) cur
        = .ok { cur with City := r.City } := by
    intro cur hcur
    cases ho : o.city with
    | none =>
      rw [ho] at h_city
      simp only [strField] at h_city
      simp only [memberOf, storeMembers, h_city]
      rw [show cur = { cur with City := cur.City } from rfl, hcur]; rfl
    | some a =>
      rw [ho] at h_city
      simp only [strField] at h_city
      simp only [memberOf, storeMembers, setField_IPQueryResponse_city, decodeString, h_city]
  have s_country : ∀ cur : IPQueryResponse, cur.Country = IPQueryResponse.zero.Country →
      storeMembers IPQueryResponse.setField (memberOf (ascii "country") JValue.str o.country) cur
        = .ok { cur with Country := r.Country } := by
    intro cur hcur
    cases ho : o.country with
    | none =>
      rw [ho] at h_country
      simp only [strField] at h_country
      simp only [memberOf, storeMembers, h_country]
      rw [show cur = { cur with Country := cur.Country } from rfl, hcur]; rfl
    | some a =>
      rw [ho] at h_country
      simp only [strField] at h_country
      simp only [memberOf, storeMembers, setField_IPQueryResponse_country, decodeString, h_country]
  have s_asn : ∀ cur : IPQueryResponse, cur.AS = IPQueryResponse.zero.AS →
      storeMembers IPQueryResponse.setField (memberOf (ascii "as") JValue.num o.asn) cur
        = .ok { cur with AS := r.AS } := by
    intro cur hcur
    cases ho : o.asn with
    | none =>
      rw [ho] at h_asn
      simp only [intField] at h_asn
      simp only [memberOf, storeMembers, h_asn]
      rw [show cur = { cur with AS := cur.AS } from rfl, hcur]; rfl
    | some a =>
      rw [ho] at h_asn
      simp only [intField] at h_asn
      simp only [memberOf, storeMembers, setField_IPQueryResponse_as, decodeInt, h_asn]
  have s_asname : ∀ cur : IPQueryResponse, cur.ASName = IPQueryResponse.zero.ASName →
      storeMembers IPQueryResponse.setField (memberOf (ascii "asname") JValue.str o.asname) cur
        = .ok { cur with ASName := r.ASName } := by
    intro cur hcur
    cases ho : o.asname with
    | none =>
      rw [ho] at h_asname
      simp only [strField] at h_asname
      simp only [memberOf, storeMembers, h_asname]
      rw [show cur = { cur with ASName := cur.ASName } from rfl, hcur]; rfl
    | some a =>
      rw [ho] at h_asname
      simp only [strField] at h_asname
      simp only [memberOf, storeMembers, setField_IPQueryResponse_asname, decodeString, h_asname]
  have s_whoisdesc : ∀ cur : IPQueryResponse, cur.Whois = IPQueryResponse.zero.Whois →
      storeMembers IPQueryResponse.setField (memberOf (ascii "whoisdesc") JValue.str o.whoisdesc) cur
        = .ok { cur with Whois := r.Whois } := by
    intro cur hcur
    cases ho : o.whoisdesc with
    | none =>
      rw [ho] at h_whoisdesc
      simp only [strField] at h_whoisdesc
      simp only [memberOf, storeMembers, h_whoisdesc]
      rw [show cur = { cur with Whois := cur.Whois } from rfl, hcur]; rfl
    | some a =>
      rw [ho] at h_whoisdesc
      simp only [strField] at h_whoisdesc
      simp only [memberOf, storeMembers, setField_IPQueryResponse_whoisdesc, decodeString, h_whoisdesc]
  have s_routedesc : ∀ cur : IPQueryResponse, cur.Route = IPQueryResponse.zero.Route →
      storeMembers IPQueryResponse.setField (memberOf (ascii "routedesc") JValue.str o.routedesc) cur
        = .ok { cur with Route := r.Route } := by
    intro cur hcur
    cases ho : o.routedesc with
    | none =>
      rw [ho] at h_routedesc
      simp only [strField] at h_routedesc
      simp only [memberOf, storeMembers, h_routedesc]
      rw [show cur = { cur with Route := cur.Route } from rfl, hcur]; rfl
    | some a =>
      rw [ho] at h_routedesc
      simp only [strField] at h_routedesc
      simp only [memberOf, storeMembers, setField_IPQueryResponse_routedesc, decodeString, h_routedesc]
  have s_bgproute : ∀ cur : IPQueryResponse, cur.BGPRoute = IPQueryResponse.zero.BGPRoute →
      storeMembers IPQueryResponse.setField (memberOf (ascii "bgproute") JValue.str o.bgproute) cur
        = .ok { cur with BGPRoute := r.BGPRoute } := by
    intro cur hcur
    cases ho : o.bgproute with
    | none =>
      rw [ho] at h_bgproute
      simp only [strField] at h_bgproute
      simp only [memberOf, storeMembers, h_bgproute]
      rw [show cur = { cur with BGPRoute := cur.BGPRoute } from rfl, hcur]; rfl
    | some a =>
      rw [ho] at h_bgproute
      simp only [strField] at h_bgproute
      simp only [memberOf, storeMembers, setField_IPQueryResponse_bgproute, decodeString, h_bgproute]
  have s_act : ∀ cur : IPQueryResponse, cur.ActiveForwardDNS = none →
      storeMembers IPQueryResponse.setField (memberOf (ascii "act") JValue.arr o.act) cur
        = .ok { cur with ActiveForwardDNS := r.ActiveForwardDNS } := by
    intro cur hcur
    cases ho : o.act with
    | none =>
      rw [ho] at h_act
      simp only [listField] at h_act
      simp only [memberOf, storeMembers, h_act]
      rw [show cur = { cur with ActiveForwardDNS := cur.ActiveForwardDNS } from rfl, hcur]
    | some a =>
      rw [ho] at h_act
      obtain ⟨items, hitems, hr⟩ := h_act
      obtain ⟨spare, hs, hnil⟩ := decodeSlice_items a items hitems cur.ActiveForwardDNS
      simp only [memberOf, storeMembers, setField_IPQueryResponse_act, hs, hr, hnil hcur]
  have s_acth : ∀ cur : IPQueryResponse, cur.ActiveDNSHistory = none →
      storeMembers IPQueryResponse.setField (memberOf (ascii "acth") JValue.arr o.acth) cur
        = .ok { cur with ActiveDNSHistory := r.ActiveDNSHistory } := by
    intro cur hcur
    cases ho : o.acth with
    | none =>
      rw [ho] at h_acth
      simp only [listField] at h_acth
      simp only [memberOf, storeMembers, h_acth]
      rw [show cur = { cur with ActiveDNSHistory := cur.ActiveDNSHistory } from rfl, hcur]
    | some a =>
      rw [ho] at h_acth
      obtain ⟨items, hitems, hr⟩ := h_acth
      obtain ⟨spare, hs, hnil⟩ := decodeSlice_items a items hitems cur.ActiveDNSHistory
      simp only [memberOf, storeMembers, setField_IPQueryResponse_acth, hs, hr, hnil hcur]
  have s_pas : ∀ cur : IPQueryResponse, cur.PassiveReverseDNS = none →
      storeMembers IPQueryResponse.setField (memberOf (ascii "pas") JValue.arr o.pas) cur
        = .ok { cur with PassiveReverseDNS := r.PassiveReverseDNS } := by
    intro cur hcur
    cases ho : o.pas with
    | none =>
      rw [ho] at h_pas
      simp only [listField] at h_pas
      simp only [memberOf, storeMembers, h_pas]
      rw [show cur = { cur with PassiveReverseDNS := cur.PassiveReverseDNS } from rfl, hcur]
    | some a =>
      rw [ho] at h_pas
      obtain ⟨items, hitems, hr⟩ := h_pas
      obtain ⟨spare, hs, hnil⟩ := decodeSlice_items a items hitems cur.PassiveReverseDNS
      simp only [memberOf, storeMembers, setField_IPQueryResponse_pas, hs, hr, hnil hcur]
  have s_pash : ∀ cur : IPQueryResponse, cur.PassiveDNSHistory = none →
      storeMembers IPQueryResponse.setField (memberOf (ascii "pash") JValue.arr o.pash) cur
        = .ok { cur with PassiveDNSHistory := r.PassiveDNSHistory } := by
    intro cur hcur
    cases ho : o.pash with
    | none =>
      rw [ho] at h_pash
      simp only [listField] at h_pash
      simp only [memberOf, storeMembers, h_pash]
      rw [show cur = { cur with PassiveDNSHistory := cur.PassiveDNSHistory } from rfl, hcur]
    | some a =>
      rw [ho] at h_pash
      obtain ⟨items, hitems, hr⟩ := h_pash
      obtain ⟨spare, hs, hnil⟩ := decodeSlice_items a items hitems cur.PassiveDNSHistory
      simp only [memberOf, storeMembers, setField_IPQueryResponse_pash, hs, hr, hnil hcur]
  have e0 := s_status IPQueryResponse.zero rfl
  have e1 := (storeMembers_append_ok _ _ _ _ _ e0).trans (s_city _ rfl)
  have e2 := (storeMembers_append_ok _ _ _ _ _ e1).trans (s_country _ rfl)
  have e3 := (storeMembers_append_ok _ _ _ _ _ e2).trans (s_asn _ rfl)
  have e4 := (storeMembers_append_ok _ _ _ _ _ e3).trans (s_asname _ rfl)
  have e5 := (storeMembers_append_ok _ _ _ _ _ e4).trans (s_whoisdesc _ rfl)
  have e6 := (storeMembers_append_ok _ _ _ _ _ e5).trans (s_routedesc _ rfl)
  have e7 := (storeMembers_append_ok _ _ _ _ _ e6).trans (s_bgproute _ rfl)
  have e8 := (storeMembers_append_ok _ _ _ _ _ e7).trans (s_act _ rfl)
  have e9 := (storeMembers_append_ok _ _ _ _ _ e8).trans (s_acth _ rfl)
  have e10 := (storeMembers_append_ok _ _ _ _ _ e9).trans (s_pas _ rfl)
  have e11 := (storeMembers_append_ok _ _ _ _ _ e10).trans (s_pash _ rfl)
  rw [IPQueryLiterals.members, storeMembers_append_ok _ _ _ _ _ e11]
  exact storeMembers_noop _ extras _
    (fun m hm r' => setField_IPQueryResponse_unknown r' m (hext m hm))

/-! ## The lists of an ipquery object -/

/-- A member of the literals whose value is an array is the member of one of
the four list keys. -/
theorem IPQueryLiterals.mem_arr (o : IPQueryLiterals) (key : Bytes) (es : List JValue)
    (h : (key, JValue.arr es) ∈ o.members) :
    (key = ascii "act" ∧ o.act = some es) ∨ (key = ascii "acth" ∧ o.acth = some es) ∨
    (key = ascii "pas" ∧ o.pas = some es) ∨ (key = ascii "pash" ∧ o.pash = some es) := by
  simp only [IPQueryLiterals.members, List.mem_append, mem_memberOf, or_assoc, Prod.mk.injEq] at h
  rcases h with ⟨a, ha, hk, hv⟩ | ⟨a, ha, hk, hv⟩ | ⟨a, ha, hk, hv⟩ | ⟨a, ha, hk, hv⟩ | ⟨a, ha, hk, hv⟩ | ⟨a, ha, hk, hv⟩ | ⟨a, ha, hk, hv⟩ | ⟨a, ha, hk, hv⟩ | ⟨a, ha, hk, hv⟩ | ⟨a, ha, hk, hv⟩ | ⟨a, ha, hk, hv⟩ | ⟨a, ha, hk, hv⟩
  all_goals first
    | (cases hv; simp [ha, hk])
    | (exact absurd hv (by simp))

theorem selectsNone_list_keys :
    selectsNone IPQueryResponse.keys (ascii "act") = false ∧
    selectsNone IPQueryResponse.keys (ascii "acth") = false ∧
    selectsNone IPQueryResponse.keys (ascii "pas") = false ∧
    selectsNone IPQueryResponse.keys (ascii "pash") = false := by
  decide!

/-- The literal of the key `act` of a well-formed ipquery object: the array of
the member with that key, and nothing when there is no such member. -/
theorem ipquery_literal_act (o : IPQueryLiterals) (extras ms : List (Bytes × JValue))
    (hperm : ms.Perm (o.members ++ extras))
    (hext : ∀ m ∈ extras, selectsNone IPQueryResponse.keys m.1 = true) :
    (∀ es, (ascii "act", JValue.arr es) ∈ ms → o.act = some es) ∧
    (¬ hasKey (ascii "act") (.obj ms) → o.act = none) := by
  constructor
  · intro es hes
    rcases List.mem_append.mp (hperm.mem_iff.mp hes) with hm | hx
    · rcases o.mem_arr _ es hm with ⟨hk, h⟩ | ⟨hk, h⟩ | ⟨hk, h⟩ | ⟨hk, h⟩
      all_goals first
        | exact h
        | exact absurd hk (by decide)
    · have h1 := hext _ hx
      rw [selectsNone_list_keys.1] at h1
      cases h1
  · intro hno
    cases ho : o.act with
    | none => rfl
    | some es =>
      exfalso
      apply hno
      refine ⟨(ascii "act", JValue.arr es), ?_, rfl⟩
      apply hperm.mem_iff.mpr
      apply List.mem_append_left
      simp [IPQueryLiterals.members, mem_memberOf, ho]

/-- The literal of the key `acth` of a well-formed ipquery object: the array of
the member with that key, and nothing when there is no such member. -/
theorem ipquery_literal_acth (o : IPQueryLiterals) (extras ms : List (Bytes × JValue))
    (hperm : ms.Perm (o.members ++ extras))
    (hext : ∀ m ∈ extras, selectsNone IPQueryResponse.keys m.1 = true) :
    (∀ es, (ascii "acth", JValue.arr es) ∈ ms → o.acth = some es) ∧
    (¬ hasKey (ascii "acth") (.obj ms) → o.acth = none) := by
  constructor
  · intro es hes
    rcases List.mem_append.mp (hperm.mem_iff.mp hes) with hm | hx
    · rcases o.mem_arr _ es hm with ⟨hk, h⟩ | ⟨hk, h⟩ | ⟨hk, h⟩ | ⟨hk, h⟩
      all_goals first
        | exact h
        | exact absurd hk (by decide)
    · have h1 := hext _ hx
      rw [selectsNone_list_keys.2.1] at h1
      cases h1
  · intro hno
    cases ho : o.acth with
    | none => rfl
    | some es =>
      exfalso
      apply hno
      refine ⟨(ascii "acth", JValue.arr es), ?_, rfl⟩
      apply hperm.mem_iff.mpr
      apply List.mem_append_left
      simp [IPQueryLiterals.members, mem_memberOf, ho]

/-- The literal of the key `pas` of a well-formed ipquery object: the array of
the member with that key, and nothing when there is no such member. -/
theorem ipquery_literal_pas (o : IPQueryLiterals) (extras ms : List (Bytes × JValue))
    (hperm : ms.Perm (o.members ++ extras))
    (hext : ∀ m ∈ extras, selectsNone IPQueryResponse.keys m.1 = true) :
    (∀ es, (ascii "pas", JValue.arr es) ∈ ms → o.pas = some es) ∧
    (¬ hasKey (ascii "pas") (.obj ms) → o.pas = none) := by
  constructor
  · intro es hes
    rcases List.mem_append.mp (hperm.mem_iff.mp hes) with hm | hx
    · rcases o.mem_arr _ es hm with ⟨hk, h⟩ | ⟨hk, h⟩ | ⟨hk, h⟩ | ⟨hk, h⟩
      all_goals first
        | exact h
        | exact absurd hk (by decide)
    · have h1 := hext _ hx
      rw [selectsNone_list_keys.2.2.1] at h1
      cases h1
  · intro hno
    cases ho : o.pas with
    | none => rfl
    | some es =>
      exfalso
      apply hno
      refine ⟨(ascii "pas", JValue.arr es), ?_, rfl⟩
      apply hperm.mem_iff.mpr
      apply List.mem_append_left
      simp [IPQueryLiterals.members, mem_memberOf, ho]

/-- The literal of the key `pash` of a well-formed ipquery object: the array of
the member with that key, and nothing when there is no such member. -/
theorem ipquery_literal_pash (o : IPQueryLiterals) (extras ms : List (Bytes × JValue))
    (hperm : ms.Perm (o.members ++ extras))
    (hext : ∀ m ∈ extras, selectsNone IPQueryResponse.keys m.1 = true) :
    (∀ es, (ascii "pash", JValue.arr es) ∈ ms → o.pash = some es) ∧
    (¬ hasKey (ascii "pash") (.obj ms) → o.pash = none) := by
  constructor
  · intro es hes
    rcases List.mem_append.mp (hperm.mem_iff.mp hes) with hm | hx
    · rcases o.mem_arr _ es hm with ⟨hk, h⟩ | ⟨hk, h⟩ | ⟨hk, h⟩ | ⟨hk, h⟩
      all_goals first
        | exact h
        | exact absurd hk (by decide)
    · have h1 := hext _ hx
      rw [selectsNone_list_keys.2.2.2] at h1
      cases h1
  · intro hno
    cases ho : o.pash with
    | none => rfl
    | some es =>
      exfalso
      apply hno
      refine ⟨(ascii "pash", JValue.arr es), ?_, rfl⟩
      apply hperm.mem_iff.mpr
      apply List.mem_append_left
      simp [IPQueryLiterals.members, mem_memberOf, ho]

/-- The lists of the result of a well-formed ipquery object: each has as many
elements as the array of its key, in the order of the array. -/
theorem ipquery_lists (v : JValue) (r : IPQueryResponse) (h : IsIPQueryObject v r) :
    (∀ es, (ascii "act", JValue.arr es) ∈ v.members → listField (some es) r.ActiveForwardDNS) ∧
    (∀ es, (ascii "acth", JValue.arr es) ∈ v.members → listField (some es) r.ActiveDNSHistory) ∧
    (∀ es, (ascii "pas", JValue.arr es) ∈ v.members → listField (some es) r.PassiveReverseDNS) ∧
    (∀ es, (ascii "pash", JValue.arr es) ∈ v.members → listField (some es) r.PassiveDNSHistory) := by
  obtain ⟨o, extras, ms, rfl, hperm, hden, hext⟩ := h
  obtain ⟨-, -, -, -, -, -, -, -, h9, h10, h11, h12⟩ := hden
  refine ⟨fun es hes => ?_, fun es hes => ?_, fun es hes => ?_, fun es hes => ?_⟩
  · rw [← (ipquery_literal_act o extras ms hperm hext).1 es hes]; exact h9
  · rw [← (ipquery_literal_acth o extras ms hperm hext).1 es hes]; exact h10
  · rw [← (ipquery_literal_pas o extras ms hperm hext).1 es hes]; exact h11
  · rw [← (ipquery_literal_pash o extras ms hperm hext).1 es hes]; exact h12

/-- The list of a key that a well-formed ipquery object does not have is the
nil slice. -/
theorem ipquery_absent (v : JValue) (r : IPQueryResponse) (h : IsIPQueryObject v r) :
    (¬ hasKey (ascii "act") v → r.ActiveForwardDNS = none) ∧
    (¬ hasKey (ascii "acth") v → r.ActiveDNSHistory = none) ∧
    (¬ hasKey (ascii "pas") v → r.PassiveReverseDNS = none) ∧
    (¬ hasKey (ascii "pash") v → r.PassiveDNSHistory = none) := by
  obtain ⟨o, extras, ms, rfl, hperm, hden, hext⟩ := h
  obtain ⟨-, -, -, -, -, -, -, -, h9, h10, h11, h12⟩ := hden
  refine ⟨fun hno => ?_, fun hno => ?_, fun hno => ?_, fun hno => ?_⟩
  · rw [(ipquery_literal_act o extras ms hperm hext).2 hno] at h9; exact h9
  · rw [(ipquery_literal_acth o extras ms hperm hext).2 hno] at h10; exact h10
  · rw [(ipquery_literal_pas o extras ms hperm hext).2 hno] at h11; exact h11
  · rw [(ipquery_literal_pash o extras ms hperm hext).2 hno] at h12; exact h12

/-- Decoding one value from a body that starts with a JSON text stores the
value of that text; what follows the text is not read. -/
theorem decodeOne_render {α : Type} (store : JValue → α → Except Error α) (zero : α)
    (w : Bytes) (d : Doc) (rest : Bytes) (hw : allSpace w = true) (hd : d.ok = true)
    (hend : d.endsBefore rest = true) :
    decodeOne store zero (w ++ d.render ++ rest) = store d.value zero := by
  unfold decodeOne Decoder.Decode
  rw [readValue_render w d rest hw hd hend]
  simp only
  cases h : store d.value zero <;> simp only [h]

/-- The IP lookup on a well-formed ipquery object. -/
theorem IPQuery_object (c : Client) (ctx : Option Context) (id w : Bytes) (d : Doc)
    (rest : Bytes) (r : IPQueryResponse) (req : Request) (hw : allSpace w = true)
    (hd : d.ok = true) (hobj : IsIPQueryObject d.value r)
    (hreq : c.newRequest ctx [ascii "ipquery", id] = .ok req)
    (hresp : c.httpClient req = .ok ⟨200, w ++ d.render ++ rest⟩) :
    c.IPQuery ctx id = .ok r := by
  have hisobj : d.isObject = true := by
    obtain ⟨o, extras, ms, hv, -⟩ := hobj
    exact isObject_of_value d ms hv
  unfold Client.IPQuery
  rw [roundTrip_ok c ctx _ _ req _ hreq hresp,
    decodeOne_render _ _ w d rest hw hd (isObject_endsBefore d hisobj rest)]
  exact decodeIPQueryResponse_object _ _ hobj

theorem sampleItem_object :
    IsItemObject sampleItemDoc.value ⟨ascii "b0.org.afilias-nst.org", 1498717654⟩ :=
  ⟨ascii "b0.org.afilias-nst.org", ascii "1498717654", [], _, rfl, List.Perm.refl _,
    by decide!, by decide!, by simp⟩

theorem sampleIP_object : IsIPQueryObject sampleIPDoc.value exampleResult :=
  ⟨sampleIPLiterals, [], _, rfl, List.Perm.refl _,
    ⟨show unquote (ascii "ok") = some _ by decide!,
      show unquote (ascii "Toronto") = some _ by decide!,
      show unquote (ascii "Canada") = some _ by decide!,
      show strconv_ParseInt (ascii "12041") = some _ by decide!, rfl, rfl, rfl, rfl,
      ⟨_, .cons sampleItem_object .nil, rfl⟩, rfl, rfl, rfl⟩, by simp⟩

/-- C6, amended: on a response with status 200 whose body is a well-formed
ipquery object, the IP lookup returns a result, and the list of a list key
that the object does not have is the nil slice, which has no elements; the
list of a list key whose array is empty is an empty slice that is not nil. -/
theorem absent_list_decodes_nil (c : Client) (ctx : Option Context) (id w : Bytes) (d : Doc)
    (rest : Bytes) (r : IPQueryResponse) (req : Request) (hw : allSpace w = true)
    (hd : d.ok = true) (hobj : IsIPQueryObject d.value r)
    (hreq : c.newRequest ctx [ascii "ipquery", id] = .ok req)
    (hresp : c.httpClient req = .ok ⟨200, w ++ d.render ++ rest⟩) :
    c.IPQuery ctx id = .ok r ∧
    (¬ hasKey (ascii "act") d.value → r.ActiveForwardDNS = none) ∧
    (¬ hasKey (ascii "acth") d.value → r.ActiveDNSHistory = none) ∧
    (¬ hasKey (ascii "pas") d.value → r.PassiveReverseDNS = none) ∧
    (¬ hasKey (ascii "pash") d.value → r.PassiveDNSHistory = none) ∧
    ((ascii "act", JValue.arr []) ∈ d.value.members → r.ActiveForwardDNS = some ⟨[], []⟩) ∧
    ((ascii "acth", JValue.arr []) ∈ d.value.members → r.ActiveDNSHistory = some ⟨[], []⟩) ∧
    ((ascii "pas", JValue.arr []) ∈ d.value.members → r.PassiveReverseDNS = some ⟨[], []⟩) ∧
    ((ascii "pash", JValue.arr []) ∈ d.value.members → r.PassiveDNSHistory = some ⟨[], []⟩) := by
  obtain ⟨a1, a2, a3, a4⟩ := ipquery_absent _ _ hobj
  obtain ⟨l1, l2, l3, l4⟩ := ipquery_lists _ _ hobj
  have hnil : ∀ field, listField (some []) field → field = some ⟨[], []⟩ := by
    intro field ⟨items, h1, h2⟩
    cases h1
    exact h2
  exact ⟨IPQuery_object c ctx id w d rest r req hw hd hobj hreq hresp, a1, a2, a3, a4,
    fun h => hnil _ (l1 _ h), fun h => hnil _ (l2 _ h), fun h => hnil _ (l3 _ h),
    fun h => hnil _ (l4 _ h)⟩

/-- C6, amended, on the example: the object has no key `acth`, and the list
`ActiveDNSHistory` of the result is the nil slice. -/
theorem absent_list_decodes_nil_witness :
    allSpace [] = true ∧ sampleIPDoc.ok = true ∧ ¬ hasKey (ascii "acth") sampleIPDoc.value ∧
    (New (replyWith 200 ([] ++ sampleIPDoc.render ++ [])) []).IPQuery background
      (ascii "199.19.54.1") = .ok exampleResult ∧
    exampleResult.ActiveDNSHistory = none :=
  have hno : ¬ hasKey (ascii "acth") sampleIPDoc.value := by
    rintro ⟨m, hm, hk⟩
    have hall : ∀ m ∈ sampleIPDoc.value.members, m.1 ≠ ascii "acth" := by decide!
    exact hall m hm hk
  have h := absent_list_decodes_nil (New (replyWith 200 ([] ++ sampleIPDoc.render ++ [])) [])
    background (ascii "199.19.54.1") [] sampleIPDoc [] exampleResult sampleRequest rfl
    (by decide!) sampleIP_object (by decide!) rfl
  ⟨rfl, by decide!, hno, h.1, h.2.2.1 hno⟩

/-! ## Bodies the decoders accept -/

/-- C3 fails as stated: a body of two lines, neither of which is a JSON object
on its own, decodes to one record without error, for both operations. -/
theorem two_line_object_decodes :
    decodeStream (ascii "\x7b\"rrname\":\"a.net\",") = .error .unexpectedEOF ∧
    decodeStream (ascii "\"count\":1\x7d") = .error .unmarshalType ∧
    (New (replyWith 200 twoLineBody) []).PassiveDNSForward background (ascii "a.net")
      = .ok [⟨ascii "a.net", [], [], 0, 0, 1⟩] ∧
    (New (replyWith 200 twoLineBody) []).PassiveDNSReverse background (ascii "199.43.132.53")
      = .ok [⟨ascii "a.net", [], [], 0, 0, 1⟩] := by
  decide!

/-- C4 fails as stated: a body that is not a JSON document, an object followed
by one more closing brace, is decoded without error; and the body `null`,
which is not an object, gives the zero result without error. -/
theorem trailing_text_is_not_read :
    (New (replyWith 200 trailingBody) []).IPQuery background (ascii "199.19.54.1")
      = .ok { IPQueryResponse.zero with Status := ascii "ok" } ∧
    (New (replyWith 200 trailingBody) []).ASQuery background (ascii "1234")
      = .ok { ASQueryResponse.zero with Status := ascii "ok" } ∧
    (New (replyWith 200 (ascii "null")) []).IPQuery background (ascii "199.19.54.1")
      = .ok IPQueryResponse.zero := by
  decide!

/-- C6 fails as stated: on the body of the example, which has no key `acth`,
the list `ActiveDNSHistory` of the result is the nil slice, not an empty
slice. -/
theorem absent_list_is_nil :
    (New (replyWith 200 exampleBody) []).IPQuery background (ascii "199.19.54.1")
      = .ok exampleResult ∧
    exampleResult.ActiveDNSHistory = none ∧
    exampleResult.ActiveDNSHistory ≠ some ⟨[], []⟩ := by
  decide!

/-! ## Requests for identifiers that do not stand for themselves -/

/-- C7 fails as stated: for the identifier `../http:x` the request of the IP
lookup on the client of `New("K")` is built, and it is a request for the URL
`http:x?key=K`, which has no host. -/
theorem scheme_identifier_has_no_host :
    (New (replyWith 200 []) (ascii "K")).newRequest background [ascii "ipquery", ascii "../http:x"]
      = .ok { ctx := ⟨0⟩, Method := ascii "GET",
              URL := { URL.zero with
                       Scheme := ascii "http", Opaque := ascii "x", RawQuery := ascii "key=K" },
              Host := [], NoBody := true } ∧
    (New echoURL (ascii "K")).IPQuery background (ascii "../http:x")
      = .error (.status 404 (ascii "http:x?key=K")) ∧
    ([] : Bytes) ≠ ascii "proapi.robtex.com" := by
  decide!

/-- C8 fails as stated: for the identifier `x?key=abc` the request of the IP
lookup on the client of `New("")` has the query parameter `key`. -/
theorem key_in_identifier_is_sent :
    (New (replyWith 200 []) []).newRequest background [ascii "ipquery", ascii "x?key=abc"]
      = .ok (plainRequest ⟨0⟩ (ascii "https") (ascii "freeapi.robtex.com") (ascii "/ipquery/x")
          (ascii "key=abc")) ∧
    (plainRequest ⟨0⟩ (ascii "https") (ascii "freeapi.robtex.com") (ascii "/ipquery/x")
      (ascii "key=abc")).URL.Query.Has (ascii "key") = true ∧
    (New echoURL []).IPQuery background (ascii "x?key=abc")
      = .error (.status 404 (ascii "https://freeapi.robtex.com/ipquery/x?key=abc")) := by
  decide!

/-- C9 fails as stated: for the identifier `..` the path of the request of
the IP lookup is `/`, not `/ipquery/..`; for the identifier `a?b` it is
`/ipquery/a`, and `b` is the query. -/
theorem dot_dot_identifier_path :
    (New (replyWith 200 []) []).newRequest background [ascii "ipquery", ascii ".."]
      = .ok (plainRequest ⟨0⟩ (ascii "https") (ascii "freeapi.robtex.com") (ascii "/") []) ∧
    (New (replyWith 200 []) []).newRequest background [ascii "ipquery", ascii "a?b"]
      = .ok (plainRequest ⟨0⟩ (ascii "https") (ascii "freeapi.robtex.com") (ascii "/ipquery/a")
          (ascii "b")) ∧
    ascii "/" ≠ ascii "/ipquery/.." ∧ ascii "/ipquery/a" ≠ ascii "/ipquery/a?b" := by
  decide!

/-! ## Well-formed objects the decoder rejects -/

/-- C2 fails as stated: on a body of two lines, each a well-formed JSON
object, where the member `count` of the second object is the string `"18"`,
both passive DNS operations return an error and no records; so they do on a
line whose member `count` is a number with a fraction. -/
theorem ill_typed_member_is_error :
    sampleDoc1.ok = true ∧ illTypedDoc.ok = true ∧ fractionDoc.ok = true ∧
    sampleDoc1.isObject = true ∧ illTypedDoc.isObject = true ∧ fractionDoc.isObject = true ∧
    lines [illTypedDoc] = ascii "\x7b\"rrname\":\"a.net\",\"count\":\"18\"\x7d\n" ∧
    lines [fractionDoc] = ascii "\x7b\"rrname\":\"a.net\",\"count\":1.5\x7d\n" ∧
    (New (replyWith 200 (lines [sampleDoc1, illTypedDoc])) []).PassiveDNSForward background
      (ascii "a.net") = .error .unmarshalType ∧
    (New (replyWith 200 (lines [sampleDoc1, illTypedDoc])) []).PassiveDNSReverse background
      (ascii "199.43.132.53") = .error .unmarshalType ∧
    (New (replyWith 200 (lines [fractionDoc])) []).PassiveDNSForward background
      (ascii "a.net") = .error .unmarshalType ∧
    (New (replyWith 200 (lines [fractionDoc])) []).PassiveDNSReverse background
      (ascii "199.43.132.53") = .error .unmarshalType := by
  decide!

/-! ## Cutting, splitting and joining -/

theorem cut_of_not_mem (sep : UInt8) (s : Bytes) (h : sep ∉ s) : cut sep s = (s, [], false) := by
  induction s with
  | nil => rfl
  | cons c cs ih =>
    have hc : c ≠ sep := fun e => h (by simp [e])
    have hcs : sep ∉ cs := fun e => h (by simp [e])
    simp [cut, hc, ih hcs]

theorem cut_append (sep : UInt8) (a b : Bytes) (h : sep ∉ a) :
    cut sep (a ++ sep :: b) = (a, b, true) := by
  induction a with
  | nil => simp [cut]
  | cons c cs ih =>
    have hc : c ≠ sep := fun e => h (by simp [e])
    have hcs : sep ∉ cs := fun e => h (by simp [e])
    simp [cut, hc, ih hcs]

theorem splitBytes_of_not_mem (sep : UInt8) (s : Bytes) (h : sep ∉ s) :
    splitBytes sep s = [s] := by
  induction s with
  | nil => rfl
  | cons c cs ih =>
    have hc : c ≠ sep := fun e => h (by simp [e])
    have hcs : sep ∉ cs := fun e => h (by simp [e])
    simp [splitBytes, hc, ih hcs]

theorem splitBytes_append (sep : UInt8) (a b : Bytes) (h : sep ∉ a) :
    splitBytes sep (a ++ sep :: b) = a :: splitBytes sep b := by
  induction a with
  | nil => simp [splitBytes]
  | cons c cs ih =>
    have hc : c ≠ sep := fun e => h (by simp [e])
    have hcs : sep ∉ cs := fun e => h (by simp [e])
    simp [splitBytes, hc, ih hcs]

theorem joinBytes_cons (sep : UInt8) (x y : Bytes) (ys : List Bytes) :
    joinBytes sep (x :: y :: ys) = x ++ sep :: joinBytes sep (y :: ys) := rfl

theorem splitBytes_joinBytes (sep : UInt8) (comps : List Bytes) (hne : comps ≠ [])
    (h : ∀ c ∈ comps, sep ∉ c) : splitBytes sep (joinBytes sep comps) = comps := by
  induction comps with
  | nil => exact absurd rfl hne
  | cons x xs ih =>
    cases xs with
    | nil => exact splitBytes_of_not_mem sep x (h x (by simp))
    | cons y ys =>
      rw [joinBytes_cons, splitBytes_append sep x _ (h x (by simp)),
        ih (by simp) (fun c hc => h c (by simp [hc]))]

/-- The elements joined by slashes, after a slash: each element after a
slash. -/
theorem slash_joinBytes (comps : List Bytes) (hne : comps ≠ []) :
    47 :: joinBytes 47 comps = slashed comps := by
  induction comps with
  | nil => exact absurd rfl hne
  | cons x xs ih =>
    cases xs with
    | nil => simp [joinBytes, slashed]
    | cons y ys =>
      rw [joinBytes_cons]
      have := ih (by simp)
      simp only [slashed, List.map_cons, List.flatten_cons] at this ⊢
      rw [← this]
      simp

theorem slashed_append (a b : List Bytes) : slashed (a ++ b) = slashed a ++ slashed b := by
  simp [slashed]

/-! ## path.Clean and path.Join on good elements -/

theorem goodSeg_iff (s : Bytes) :
    goodSeg s = true ↔ s ≠ [] ∧ s ≠ [46] ∧ s ≠ [46, 46] ∧ ∀ c ∈ s, segByte c = true := by
  simp [goodSeg, List.isEmpty_iff]
  tauto

theorem segByte_ne_slash (c : UInt8) (h : segByte c = true) : c ≠ 47 := by
  simp [segByte] at h
  exact h.2

theorem goodSeg_no_slash (s : Bytes) (h : goodSeg s = true) : (47 : UInt8) ∉ s := by
  intro hm
  exact segByte_ne_slash 47 (((goodSeg_iff s).mp h).2.2.2 47 hm) rfl

theorem cleanStep_good (rooted : Bool) (st : List Bytes × Nat) (comp : Bytes)
    (h : goodSeg comp = true) : cleanStep rooted st comp = (st.1 ++ [comp], st.2) := by
  obtain ⟨h1, h2, h3, -⟩ := (goodSeg_iff comp).mp h
  simp [cleanStep, h1, h2, h3]

theorem cleanFold_good (rooted : Bool) (comps : List Bytes)
    (h : ∀ c ∈ comps, goodSeg c = true) (st : List Bytes × Nat) :
    comps.foldl (cleanStep rooted) st = (st.1 ++ comps, st.2) := by
  induction comps generalizing st with
  | nil => simp
  | cons x xs ih =>
    rw [List.foldl_cons, cleanStep_good rooted st x (h x (by simp)),
      ih (fun c hc => h c (by simp [hc]))]
    simp

/-- A relative path of good elements is clean. -/
theorem path_Clean_relative (comps : List Bytes) (hne : comps ≠ [])
    (h : ∀ c ∈ comps, goodSeg c = true) :
    path_Clean (joinBytes 47 comps) = joinBytes 47 comps := by
  have hsplit := splitBytes_joinBytes 47 comps hne (fun c hc => goodSeg_no_slash c (h c hc))
  obtain ⟨x, xs, rfl⟩ := List.exists_cons_of_ne_nil hne
  obtain ⟨hx1, -, -, hx4⟩ := (goodSeg_iff x).mp (h x (by simp))
  obtain ⟨c, x1, rfl⟩ := List.exists_cons_of_ne_nil hx1
  have hc : c ≠ 47 := segByte_ne_slash c (hx4 c (by simp))
  have hhead : joinBytes 47 ((c :: x1) :: xs) = c :: joinBytes 47 (x1 :: xs) := by
    cases xs <;> rfl
  rw [hhead] at hsplit ⊢
  simp only [path_Clean, hsplit, cleanFold_good _ _ h, hc, decide_False, List.nil_append,
    Bool.false_eq_true, if_false]
  rw [hhead]

/-- A rooted path of good elements is clean. -/
theorem path_Clean_rooted (comps : List Bytes) (hne : comps ≠ [])
    (h : ∀ c ∈ comps, goodSeg c = true) : path_Clean (slashed comps) = slashed comps := by
  have hsplit := splitBytes_joinBytes 47 comps hne (fun c hc => goodSeg_no_slash c (h c hc))
  rw [← slash_joinBytes comps hne]
  have hs : splitBytes 47 (47 :: joinBytes 47 comps) = [] :: comps := by
    simp [splitBytes, hsplit]
  simp only [path_Clean, hs, List.foldl_cons, decide_True, if_true]
  have h0 : cleanStep true ([], 0) [] = ([], 0) := by simp [cleanStep]
  rw [h0, cleanFold_good _ _ h]
  rfl

theorem joinFold (k : List Bytes) (hk : ∀ e ∈ k, e ≠ []) (buf : Bytes) (hbuf : buf ≠ [])
    : k.foldl joinStep buf = buf ++ slashed k := by
  induction k generalizing buf with
  | nil => simp [slashed]
  | cons x xs ih =>
    obtain ⟨b, bs, rfl⟩ := List.exists_cons_of_ne_nil hbuf
    rw [List.foldl_cons]
    have : joinStep (b :: bs) x = (b :: bs) ++ 47 :: x := rfl
    rw [this, ih (fun e he => hk e (by simp [he])) _ (by simp)]
    simp [slashed]

/-! ## Escaping -/

/-- A property of bytes that holds for each of the 256 bytes holds for all. -/
theorem byte_forall (P : UInt8 → Prop) (h : ∀ n : Fin 256, P (UInt8.ofNat n.val)) (c : UInt8) :
    P c := by
  have e : UInt8.ofNat c.toNat = c := by
    rw [byte_eq_iff]
    show c.toNat % 256 = c.toNat
    exact Nat.mod_eq_of_lt (byte_toNat_lt c)
  rw [← e]
  exact h ⟨c.toNat, byte_toNat_lt c⟩

theorem hex_roundtrip (c : UInt8) :
    isHex (upperhex (c.toNat / 16)) = true ∧ isHex (upperhex (c.toNat % 16)) = true ∧
    UInt8.ofNat (hexVal (upperhex (c.toNat / 16)) * 16 + hexVal (upperhex (c.toNat % 16))) = c :=
  byte_forall (fun c => isHex (upperhex (c.toNat / 16)) = true ∧
    isHex (upperhex (c.toNat % 16)) = true ∧
    UInt8.ofNat (hexVal (upperhex (c.toNat / 16)) * 16 + hexVal (upperhex (c.toNat % 16))) = c)
    (by decide!) c

theorem escape_of_safe (mode : Encoding) (s : Bytes)
    (h : ∀ c ∈ s, shouldEscape c mode = false) : escape mode s = s := by
  induction s with
  | nil => rfl
  | cons c cs ih =>
    simp [escape, h c (by simp), ih (fun d hd => h d (by simp [hd]))]

theorem unescape_cons_plain (mode : Encoding) (c : UInt8) (cs : Bytes) (h37 : c ≠ 37)
    (h43 : c ≠ 43) (hhost : ¬ ((mode = .host ∨ mode = .zone) ∧ c < 128 ∧ shouldEscape c .host = true)) :
    unescape mode (c :: cs) = (unescape mode cs).map (fun t => c :: t) := by
  conv => lhs; unfold unescape
  simp only [h37, h43, if_false]
  rw [if_neg (by simpa using hhost)]
  cases unescape mode cs <;> rfl

theorem unescape_cons_plus (mode : Encoding) (cs : Bytes) :
    unescape mode (43 :: cs) =
      (unescape mode cs).map (fun t => (if mode = .queryComponent then 32 else 43) :: t) := by
  conv => lhs; unfold unescape
  simp only [show (43 : UInt8) ≠ 37 by decide, if_false, if_true]
  cases unescape mode cs <;> rfl

theorem unescape_cons_percent (mode : Encoding) (h1 h2 : UInt8) (cs : Bytes)
    (hm : mode = .path ∨ mode = .queryComponent) (hx1 : isHex h1 = true) (hx2 : isHex h2 = true) :
    unescape mode (37 :: h1 :: h2 :: cs) =
      (unescape mode cs).map (fun t => UInt8.ofNat (hexVal h1 * 16 + hexVal h2) :: t) := by
  conv => lhs; unfold unescape
  rcases hm with rfl | rfl <;> simp [hx1, hx2] <;> cases unescape _ cs <;> rfl

theorem unescape_path_of_no_percent (s : Bytes) (h : (37 : UInt8) ∉ s) :
    unescape .path s = .ok s := by
  induction s with
  | nil => rfl
  | cons c cs ih =>
    have hc : c ≠ 37 := fun e => h (by simp [e])
    have ih1 := ih (fun e => h (by simp [e]))
    by_cases h43 : c = 43
    · subst h43
      rw [unescape_cons_plus, ih1]
      rfl
    · rw [unescape_cons_plain _ c cs hc h43 (by simp), ih1]
      rfl

/-- What the escaping for a query leaves of a byte unescapes to the byte. -/
theorem query_roundtrip (s : Bytes) : QueryUnescape (QueryEscape s) = .ok s := by
  unfold QueryUnescape QueryEscape
  induction s with
  | nil => rfl
  | cons c cs ih =>
    rw [escape]
    by_cases hesc : shouldEscape c .queryComponent = true
    · by_cases hsp : c = 32
      · subst hsp
        simp only [hesc, if_true, decide_True, Bool.and_self]
        rw [unescape_cons_plus, ih]
        rfl
      · obtain ⟨h1, h2, h3⟩ := hex_roundtrip c
        simp only [hesc, hsp, if_true, decide_False, Bool.false_and, Bool.false_eq_true, if_false]
        rw [unescape_cons_percent _ _ _ _ (Or.inr rfl) h1 h2, ih, h3]
        rfl
    · have hc : c ≠ 37 ∧ c ≠ 43 := by
        have := byte_forall (fun c => shouldEscape c .queryComponent = false → c ≠ 37 ∧ c ≠ 43)
          (by decide!) c
        exact this (by simpa using hesc)
      simp only [hesc, Bool.false_eq_true, if_false]
      rw [unescape_cons_plain _ c _ hc.1 hc.2 (by simp), ih]
      rfl

theorem queryEscape_bytes (s : Bytes) : ∀ c ∈ QueryEscape s, isQueryByte c = true := by
  unfold QueryEscape
  induction s with
  | nil => simp [escape]
  | cons c cs ih =>
    rw [escape]
    have hup : ∀ _ : Nat, isQueryByte (upperhex (c.toNat / 16)) = true ∧
        isQueryByte (upperhex (c.toNat % 16)) = true :=
      fun _ => byte_forall (fun c => isQueryByte (upperhex (c.toNat / 16)) = true ∧
        isQueryByte (upperhex (c.toNat % 16)) = true) (by decide!) c
    have hplain := byte_forall (fun c => shouldEscape c .queryComponent = false →
          isQueryByte c = true) (by decide!) c
    intro d hd
    split at hd
    · split at hd
      · rcases List.mem_cons.mp hd with rfl | hd
        · rfl
        · exact ih d hd
      · rcases List.mem_cons.mp hd with rfl | hd
        · rfl
        · rcases List.mem_cons.mp hd with rfl | hd
          · exact (hup 0).1
          · rcases List.mem_cons.mp hd with rfl | hd
            · exact (hup 0).2
            · exact ih d hd
    · rename_i hesc
      rcases List.mem_cons.mp hd with rfl | hd
      · exact hplain (by simpa using hesc)
      · exact ih d hd

/-! ## Parsing a joined path -/

theorem plainWord_iff (s : Bytes) :
    plainWord s = true ↔ s ≠ [] ∧ ∀ c ∈ s, (97 : UInt8) ≤ c ∧ c ≤ 122 := by
  simp [plainWord, List.isEmpty_iff]

theorem shouldEscape_path_facts (c : UInt8) (h : shouldEscape c .path = false) :
    c ≠ 35 ∧ c ≠ 63 ∧ c ≠ 37 ∧ c ≠ 42 ∧ ¬ c < 32 ∧ c ≠ 127 :=
  byte_forall (fun c => shouldEscape c .path = false →
    c ≠ 35 ∧ c ≠ 63 ∧ c ≠ 37 ∧ c ≠ 42 ∧ ¬ c < 32 ∧ c ≠ 127) (by decide!) c h

theorem plain_segByte (c : UInt8) (h : (97 : UInt8) ≤ c ∧ c ≤ 122) : segByte c = true ∧ c ≠ 58 :=
  byte_forall (fun c => (97 : UInt8) ≤ c ∧ c ≤ 122 → segByte c = true ∧ c ≠ 58) (by decide!) c h

theorem plainWord_good (s : Bytes) (h : plainWord s = true) : goodSeg s = true := by
  obtain ⟨h1, h2⟩ := (plainWord_iff s).mp h
  rw [goodSeg_iff]
  refine ⟨h1, ?_, ?_, fun c hc => (plain_segByte c (h2 c hc)).1⟩
  · rintro rfl
    have := h2 46 (by simp)
    revert this
    decide
  · rintro rfl
    have := h2 46 (by simp)
    revert this
    decide

theorem getSchemeAux_plain (whole pre s tail : Bytes) (hs : ∀ c ∈ s, (97 : UInt8) ≤ c ∧ c ≤ 122)
    (htail : tail = [] ∨ ∃ t, tail = 47 :: t) :
    getSchemeAux whole pre (s ++ tail) = .ok ([], whole) := by
  induction s generalizing pre with
  | nil =>
    rcases htail with rfl | ⟨t, rfl⟩
    · rfl
    · simp [getSchemeAux]
  | cons c cs ih =>
    have hc := hs c (by simp)
    rw [List.cons_append, getSchemeAux]
    simp only [hc.1, hc.2, decide_True, Bool.and_self, Bool.true_or, if_true]
    exact ih _ (fun d hd => hs d (by simp [hd]))

theorem slashed_cons (c : Bytes) (cs : List Bytes) : slashed (c :: cs) = 47 :: c ++ slashed cs := by
  simp [slashed]

theorem slashed_nil : slashed [] = [] := rfl

theorem joinBytes_eq (x : Bytes) (xs : List Bytes) : joinBytes 47 (x :: xs) = x ++ slashed xs := by
  cases xs with
  | nil => simp [joinBytes, slashed]
  | cons y ys => rw [joinBytes_cons, slash_joinBytes _ (by simp)]

/-- The bytes of a path of good elements are bytes a URL writes as they are. -/
theorem slashed_bytes (comps : List Bytes) (h : ∀ c ∈ comps, goodSeg c = true) :
    ∀ b ∈ slashed comps, shouldEscape b .path = false := by
  intro b hb
  simp only [slashed, List.mem_flatten, List.mem_map] at hb
  obtain ⟨l, ⟨c, hc, rfl⟩, hb⟩ := hb
  rcases List.mem_cons.mp hb with rfl | hb
  · decide
  · have := ((goodSeg_iff c).mp (h c hc)).2.2.2 b hb
    simp only [segByte, Bool.and_eq_true, Bool.not_eq_true'] at this
    exact this.1

theorem goodSeg_bytes (c : Bytes) (h : goodSeg c = true) :
    ∀ b ∈ c, shouldEscape b .path = false := by
  intro b hb
  have := ((goodSeg_iff c).mp h).2.2.2 b hb
  simp only [segByte, Bool.and_eq_true, Bool.not_eq_true'] at this
  exact this.1

theorem getLast?_mem {α : Type} (l : List α) (x : α) (h : l.getLast? = some x) : x ∈ l := by
  exact List.mem_of_getLast?_eq_some h

/-- A path without a scheme, made of bytes a URL writes as they are, parses
to a URL that has this path and nothing else. -/
theorem url_Parse_path (j : Bytes) (hb : ∀ c ∈ j, shouldEscape c .path = false)
    (hscheme : getScheme j = .ok ([], j))
    (hcolon : j.head? = some 47 ∨ (cut 47 j).1.contains 58 = false)
    (hdouble : ([47, 47] : Bytes).isPrefixOf j = false) :
    url_Parse j = .ok { URL.zero with Path := j } := by
  have h35 : (35 : UInt8) ∉ j := fun hm => (shouldEscape_path_facts 35 (hb 35 hm)).1 rfl
  have h63 : (63 : UInt8) ∉ j := fun hm => (shouldEscape_path_facts 63 (hb 63 hm)).2.1 rfl
  have h37 : (37 : UInt8) ∉ j := fun hm => (shouldEscape_path_facts 37 (hb 37 hm)).2.2.1 rfl
  have h42 : j ≠ [42] := by
    rintro rfl
    exact (shouldEscape_path_facts 42 (hb 42 (by simp))).2.2.2.1 rfl
  have hctl : stringContainsCTLByte j = false := by
    simp only [stringContainsCTLByte, List.any_eq_false, Bool.or_eq_true, decide_eq_true_eq,
      not_or]
    intro c hc
    exact ⟨(shouldEscape_path_facts c (hb c hc)).2.2.2.2.1,
      (shouldEscape_path_facts c (hb c hc)).2.2.2.2.2⟩
  have hlast : j.getLast? ≠ some 63 := fun h => h63 (getLast?_mem j 63 h)
  have hset : ∀ u : URL, u.setPath j = .ok { u with Path := j, RawPath := [] } := by
    intro u
    simp [URL.setPath, unescape_path_of_no_percent j h37, escape_of_safe .path j hb]
  unfold url_Parse
  rw [cut_of_not_mem 35 j h35]
  simp only
  unfold parseNoFragment
  rw [hctl, hscheme]
  simp only [Bool.false_eq_true, if_false, h42, hlast, cut_of_not_mem 63 j h63, List.map_nil,
    decide_False, Bool.false_and, ne_eq, not_true_eq_false, Bool.and_false, Bool.or_false,
    hdouble, Bool.and_self, hset]
  rcases hcolon with hc | hc
  · simp [hc, URL.zero]
  · have hc1 : (58 : UInt8) ∉ (cut 47 j).1 := by simpa using hc
    simp [hc1, URL.zero]

theorem goodSeg_head (x : Bytes) (h : goodSeg x = true) :
    ∃ c x1, x = c :: x1 ∧ c ≠ 47 := by
  obtain ⟨h1, -, -, h4⟩ := (goodSeg_iff x).mp h
  obtain ⟨c, x1, rfl⟩ := List.exists_cons_of_ne_nil h1
  exact ⟨c, x1, rfl, segByte_ne_slash c (h4 c (by simp))⟩

/-- The joined path of the elements of an operation, without a base path:
it parses to a URL with this path. -/
theorem url_Parse_relative (first : Bytes) (more : List Bytes) (hfirst : plainWord first = true)
    (hmore : ∀ c ∈ more, goodSeg c = true) :
    url_Parse (first ++ slashed more) = .ok { URL.zero with Path := first ++ slashed more } := by
  obtain ⟨hne, hplain⟩ := (plainWord_iff first).mp hfirst
  have hgood := plainWord_good first hfirst
  have h47 : (47 : UInt8) ∉ first := goodSeg_no_slash first hgood
  have h58 : (58 : UInt8) ∉ first := fun hm => (plain_segByte 58 (hplain 58 hm)).2 rfl
  have htail : slashed more = [] ∨ ∃ t, slashed more = 47 :: t := by
    cases more with
    | nil => exact Or.inl rfl
    | cons y ys => exact Or.inr ⟨_, slashed_cons y ys⟩
  apply url_Parse_path
  · intro c hc
    rcases List.mem_append.mp hc with hc | hc
    · exact goodSeg_bytes first hgood c hc
    · exact slashed_bytes more hmore c hc
  · exact getSchemeAux_plain _ [] first _ hplain htail
  · right
    have hcut : (cut 47 (first ++ slashed more)).1 = first := by
      rcases htail with h | ⟨t, h⟩
      · rw [h, List.append_nil, cut_of_not_mem 47 first h47]
      · rw [h, cut_append 47 first t h47]
    rw [hcut]
    simpa using h58
  · obtain ⟨c, x1, rfl, hc⟩ := goodSeg_head first hgood
    simp [List.isPrefixOf, hc.symm]

/-- The joined path under a base path: it parses to a URL with this path. -/
theorem url_Parse_rooted (comps : List Bytes) (hne : comps ≠ [])
    (h : ∀ c ∈ comps, goodSeg c = true) :
    url_Parse (slashed comps) = .ok { URL.zero with Path := slashed comps } := by
  obtain ⟨x, xs, rfl⟩ := List.exists_cons_of_ne_nil hne
  obtain ⟨c, x1, rfl, hc⟩ := goodSeg_head x (h x (by simp))
  apply url_Parse_path
  · exact slashed_bytes _ h
  · simp [slashed_cons, getScheme, getSchemeAux]
  · left
    simp [slashed_cons]
  · simp [slashed_cons, List.isPrefixOf, hc.symm]

/-! ## Resolving the joined path -/

theorem resolveStep_good (st : Bytes × Bool) (x : Bytes) (h : goodSeg x = true) :
    resolveStep st x = ((if st.2 then st.1 else st.1 ++ [47]) ++ x, false) := by
  obtain ⟨-, h2, h3, -⟩ := (goodSeg_iff x).mp h
  simp [resolveStep, h2, h3]

theorem resolveFold_good (comps : List Bytes) (h : ∀ c ∈ comps, goodSeg c = true) (acc : Bytes) :
    comps.foldl resolveStep (acc, false) = (acc ++ slashed comps, false) := by
  induction comps generalizing acc with
  | nil => simp [slashed]
  | cons x xs ih =>
    rw [List.foldl_cons, resolveStep_good _ x (h x (by simp))]
    simp only [Bool.false_eq_true, if_false]
    rw [ih (fun c hc => h c (by simp [hc])), slashed_cons]
    simp

theorem getLast_good (comps : List Bytes) (hne : comps ≠ [])
    (h : ∀ c ∈ comps, goodSeg c = true) :
    comps.getLast?.getD [] ≠ [46] ∧ comps.getLast?.getD [] ≠ [46, 46] := by
  obtain ⟨x, hx⟩ : ∃ x, comps.getLast? = some x := by
    cases hl : comps.getLast? with
    | none => exact absurd (List.getLast?_eq_none_iff.mp hl) hne
    | some x => exact ⟨x, rfl⟩
  have hg := (goodSeg_iff x).mp (h x (getLast?_mem comps x hx))
  rw [hx]
  exact ⟨hg.2.1, hg.2.2.1⟩

/-- A relative path of good elements, resolved against the empty base path,
is the path of these elements. -/
theorem resolvePath_relative (comps : List Bytes) (hne : comps ≠ [])
    (h : ∀ c ∈ comps, goodSeg c = true) :
    resolvePath [] (joinBytes 47 comps) = slashed comps := by
  have hsplit := splitBytes_joinBytes 47 comps hne (fun c hc => goodSeg_no_slash c (h c hc))
  obtain ⟨hl1, hl2⟩ := getLast_good comps hne h
  obtain ⟨x, xs, rfl⟩ := List.exists_cons_of_ne_nil hne
  obtain ⟨c, x1, rfl, hc⟩ := goodSeg_head x (h x (by simp))
  have hhead : joinBytes 47 ((c :: x1) :: xs) = c :: (x1 ++ slashed xs) := by
    rw [joinBytes_eq]; rfl
  rw [hhead] at hsplit ⊢
  simp only [resolvePath, hc, if_false, beforeLast, hsplit, hl1, hl2, List.foldl_cons,
    Bool.or_self, decide_False, Bool.false_eq_true]
  rw [resolveStep_good _ _ (h _ (by simp))]
  simp only [if_true]
  rw [resolveFold_good xs (fun d hd => h d (by simp [hd]))]
  simp only [List.cons_append, List.nil_append, slashed_cons]
  split
  · rename_i heq
    simp only [List.cons.injEq] at heq
    exact absurd heq.2.1 hc
  · rfl

/-- A rooted path of good elements resolves to itself. -/
theorem resolvePath_rooted (base : Bytes) (comps : List Bytes) (hne : comps ≠ [])
    (h : ∀ c ∈ comps, goodSeg c = true) :
    resolvePath base (slashed comps) = slashed comps := by
  have hsplit := splitBytes_joinBytes 47 comps hne (fun c hc => goodSeg_no_slash c (h c hc))
  obtain ⟨hl1, hl2⟩ := getLast_good comps hne h
  have hs : splitBytes 47 (47 :: joinBytes 47 comps) = [] :: comps := by
    simp [splitBytes, hsplit]
  have hlast : ([] :: comps).getLast?.getD [] = comps.getLast?.getD [] := by
    obtain ⟨x, xs, rfl⟩ := List.exists_cons_of_ne_nil hne
    simp [List.getLast?_cons_cons]
  rw [← slash_joinBytes comps hne]
  simp only [resolvePath, if_true, hs, hlast, hl1, hl2, List.foldl_cons, Bool.or_self,
    decide_False, Bool.false_eq_true, if_false]
  have h0 : resolveStep ([47], true) [] = ([47], false) := by simp [resolveStep]
  rw [h0, resolveFold_good comps h, slash_joinBytes comps hne]
  obtain ⟨x, xs, rfl⟩ := List.exists_cons_of_ne_nil hne
  simp [slashed_cons]

/-! ## Schemes and hosts -/

theorem schemeByte_facts (c : UInt8)
    (h : ((97 ≤ c && c ≤ 122) || (48 ≤ c && c ≤ 57) || c = 43 || c = 45 || c = 46) = true) :
    lower c = c ∧ c ≠ 35 ∧ c ≠ 63 ∧ ¬ c < 32 ∧ c ≠ 127 ∧ c ≠ 58 ∧
    (((97 ≤ c && c ≤ 122) || (65 ≤ c && c ≤ 90)) = false →
      ((48 ≤ c && c ≤ 57) || c = 43 || c = 45 || c = 46) = true) :=
  byte_forall (fun c =>
    ((97 ≤ c && c ≤ 122) || (48 ≤ c && c ≤ 57) || c = 43 || c = 45 || c = 46) = true →
    lower c = c ∧ c ≠ 35 ∧ c ≠ 63 ∧ ¬ c < 32 ∧ c ≠ 127 ∧ c ≠ 58 ∧
    (((97 ≤ c && c ≤ 122) || (65 ≤ c && c ≤ 90)) = false →
      ((48 ≤ c && c ≤ 57) || c = 43 || c = 45 || c = 46) = true)) (by decide!) c h

theorem getSchemeAux_scheme (whole pre s rest : Bytes) (hpre : pre ≠ [])
    (hs : ∀ c ∈ s,
      ((97 ≤ c && c ≤ 122) || (48 ≤ c && c ≤ 57) || c = 43 || c = 45 || c = 46) = true) :
    getSchemeAux whole pre (s ++ 58 :: rest) = .ok (pre.reverse ++ s, rest) := by
  induction s generalizing pre with
  | nil => simp [getSchemeAux, hpre]
  | cons c cs ih =>
    have hc := schemeByte_facts c (hs c (by simp))
    have ih1 := ih (c :: pre) (by simp) (fun d hd => hs d (by simp [hd]))
    rw [List.cons_append, getSchemeAux]
    by_cases hl : ((97 ≤ c && c ≤ 122) || (65 ≤ c && c ≤ 90)) = true
    · rw [if_pos hl, ih1]
      simp
    · rw [if_neg hl, if_pos (hc.2.2.2.2.2.2 (by simpa using hl)), if_neg hpre, ih1]
      simp

theorem schemeOK_iff (s : Bytes) :
    schemeOK s = true ↔ ∃ c cs, s = c :: cs ∧ ((97 : UInt8) ≤ c ∧ c ≤ 122) ∧
      ∀ d ∈ cs, ((97 ≤ d && d ≤ 122) || (48 ≤ d && d ≤ 57) || d = 43 || d = 45 || d = 46) = true := by
  cases s with
  | nil => simp [schemeOK]
  | cons c cs =>
    constructor
    · intro h
      simp only [schemeOK, Bool.and_eq_true, decide_eq_true_eq, List.all_eq_true] at h
      exact ⟨c, cs, rfl, h.1, h.2⟩
    · rintro ⟨c1, cs1, e, h1, h2⟩
      cases e
      simp only [schemeOK, Bool.and_eq_true, decide_eq_true_eq, List.all_eq_true]
      exact ⟨h1, h2⟩

theorem schemeOK_bytes (s : Bytes) (h : schemeOK s = true) :
    ∀ c ∈ s, ((97 ≤ c && c ≤ 122) || (48 ≤ c && c ≤ 57) || c = 43 || c = 45 || c = 46) = true := by
  obtain ⟨c, cs, rfl, hc, hcs⟩ := (schemeOK_iff s).mp h
  intro d hd
  rcases List.mem_cons.mp hd with rfl | hd
  · simp [hc.1, hc.2]
  · exact hcs d hd

theorem getScheme_scheme (s rest : Bytes) (h : schemeOK s = true) :
    getScheme (s ++ 58 :: rest) = .ok (s, rest) := by
  obtain ⟨c, cs, rfl, hc, hcs⟩ := (schemeOK_iff s).mp h
  unfold getScheme
  rw [List.cons_append, getSchemeAux]
  simp only [hc.1, hc.2, decide_True, Bool.and_self, Bool.true_or, if_true]
  rw [getSchemeAux_scheme _ [c] cs rest (by simp) hcs]
  rfl

theorem schemeOK_lower (s : Bytes) (h : schemeOK s = true) : s.map lower = s := by
  have hb := schemeOK_bytes s h
  clear h
  induction s with
  | nil => rfl
  | cons c cs ih =>
    rw [List.map_cons, (schemeByte_facts c (hb c (by simp))).1,
      ih (fun d hd => hb d (by simp [hd]))]

theorem cut_spec (sep : UInt8) (s : Bytes) :
    ((cut sep s).2.2 = false → sep ∉ s ∧ (cut sep s).1 = s) ∧
    ((cut sep s).2.2 = true → s = (cut sep s).1 ++ sep :: (cut sep s).2.1 ∧ sep ∉ (cut sep s).1) := by
  induction s with
  | nil => simp [cut]
  | cons c cs ih =>
    by_cases hc : c = sep
    · subst hc
      simp [cut]
    · have hc1 : sep ≠ c := fun e => hc e.symm
      simp only [cut, hc, if_false, List.mem_cons, not_or, List.cons_append, List.cons.injEq,
        true_and]
      exact ⟨fun h => ⟨⟨hc1, (ih.1 h).1⟩, (ih.1 h).2⟩, fun h => ⟨(ih.2 h).1, hc1, (ih.2 h).2⟩⟩

theorem fromLast_of_not_mem (sep : UInt8) (s : Bytes) (h : sep ∉ s) : fromLast sep s = none := by
  induction s with
  | nil => rfl
  | cons c cs ih =>
    have hc : c ≠ sep := fun e => h (by simp [e])
    simp [fromLast, ih (fun e => h (by simp [e])), hc]

theorem fromLast_append (sep : UInt8) (a b : Bytes) (h : sep ∉ b) :
    fromLast sep (a ++ sep :: b) = some (sep :: b) := by
  induction a with
  | nil => simp [fromLast, fromLast_of_not_mem sep b h]
  | cons c cs ih => simp [fromLast, ih]

theorem beforeLast_of_not_mem (sep : UInt8) (s : Bytes) (h : sep ∉ s) :
    beforeLast sep s = none := by
  induction s with
  | nil => rfl
  | cons c cs ih =>
    have hc : c ≠ sep := fun e => h (by simp [e])
    simp [beforeLast, ih (fun e => h (by simp [e])), hc]

theorem hostByte_facts (c : UInt8) (h : hostByte c = true ∨ c = 58) :
    shouldEscape c .host = false ∧ c ≠ 37 ∧ c ≠ 43 ∧ c ≠ 47 ∧ c ≠ 64 ∧ c ≠ 35 ∧ c ≠ 63 ∧
    c ≠ 91 ∧ c ≠ 93 ∧ ¬ c < 32 ∧ c ≠ 127 :=
  byte_forall (fun c => hostByte c = true ∨ c = 58 →
    shouldEscape c .host = false ∧ c ≠ 37 ∧ c ≠ 43 ∧ c ≠ 47 ∧ c ≠ 64 ∧ c ≠ 35 ∧ c ≠ 63 ∧
    c ≠ 91 ∧ c ≠ 93 ∧ ¬ c < 32 ∧ c ≠ 127) (by decide!) c h

theorem digit_facts (c : UInt8) (h : isDigit c = true) : hostByte c = true ∧ c ≠ 58 :=
  byte_forall (fun c => isDigit c = true → hostByte c = true ∧ c ≠ 58) (by decide!) c h

/-- The two shapes of a host: a name, or a name with a port. -/
theorem hostOK_shape (h : Bytes) (hh : hostOK h = true) :
    h ≠ [] ∧ (∀ c ∈ h, hostByte c = true ∨ c = 58) ∧
    ((58 : UInt8) ∉ h ∨ ∃ name port, h = name ++ 58 :: port ∧ port ≠ [] ∧
      ∀ c ∈ port, isDigit c = true) := by
  simp only [hostOK, Bool.and_eq_true, Bool.not_eq_true', List.isEmpty_eq_false,
    List.all_eq_true, Bool.or_eq_true] at hh
  obtain ⟨⟨h1, h2⟩, h3⟩ := hh
  by_cases hc : (cut 58 h).2.2 = true
  · obtain ⟨e, -⟩ := (cut_spec 58 h).2 hc
    rcases h3 with h3 | ⟨h3, h4⟩
    · rw [h3] at hc; cases hc
    · refine ⟨?_, ?_, Or.inr ⟨_, _, e, h3, h4⟩⟩
      · rw [e]; simp
      · intro c hm
        rw [e] at hm
        rcases List.mem_append.mp hm with hm | hm
        · exact Or.inl (h2 c hm)
        · rcases List.mem_cons.mp hm with rfl | hm
          · exact Or.inr rfl
          · exact Or.inl (digit_facts c (h4 c hm)).1
  · have hc1 : (cut 58 h).2.2 = false := by simpa using hc
    obtain ⟨hn, e⟩ := (cut_spec 58 h).1 hc1
    rw [e] at h1 h2
    exact ⟨h1, fun c hm => Or.inl (h2 c hm), Or.inl hn⟩

theorem unescape_host_ok (h : Bytes) (hb : ∀ c ∈ h, hostByte c = true ∨ c = 58) :
    unescape .host h = .ok h := by
  induction h with
  | nil => rfl
  | cons c cs ih =>
    have hc := hostByte_facts c (hb c (by simp))
    rw [unescape_cons_plain _ c cs hc.2.1 hc.2.2.1 (by simp [hc.1]),
      ih (fun d hd => hb d (by simp [hd]))]
    rfl

theorem parseHost_ok (h : Bytes) (hh : hostOK h = true) : parseHost h = .ok h := by
  obtain ⟨hne, hb, hshape⟩ := hostOK_shape h hh
  obtain ⟨c, cs, rfl⟩ := List.exists_cons_of_ne_nil hne
  have hc : c ≠ 91 := (hostByte_facts c (hb c (by simp))).2.2.2.2.2.2.2.1
  have hun := unescape_host_ok _ hb
  unfold parseHost
  split
  · rename_i heq
    simp only [List.cons.injEq] at heq
    exact absurd heq.1 hc
  · rcases hshape with hno | ⟨name, port, e, hp, hd⟩
    · rw [fromLast_of_not_mem 58 _ hno]
      exact hun
    · have h58 : (58 : UInt8) ∉ port := fun hm => (digit_facts 58 (hd 58 hm)).2 rfl
      rw [e, fromLast_append 58 name port h58, ← e]
      have hv : validOptionalPort (58 :: port) = true := by
        simpa [validOptionalPort] using hd
      simp only [hv, if_true]
      exact hun

theorem parseAuthority_ok (h : Bytes) (hh : hostOK h = true) :
    parseAuthority h = .ok (none, h) := by
  obtain ⟨-, hb, -⟩ := hostOK_shape h hh
  have h64 : (64 : UInt8) ∉ h := fun hm => (hostByte_facts 64 (hb 64 hm)).2.2.2.2.1 rfl
  unfold parseAuthority
  rw [beforeLast_of_not_mem 64 h h64, parseHost_ok h hh]

theorem removeEmptyPort_ok (h : Bytes) (hh : hostOK h = true) : removeEmptyPort h = h := by
  obtain ⟨-, -, hshape⟩ := hostOK_shape h hh
  unfold removeEmptyPort
  rcases hshape with hno | ⟨name, port, e, hp, hd⟩
  · rw [fromLast_of_not_mem 58 _ hno]
  · have h58 : (58 : UInt8) ∉ port := fun hm => (digit_facts 58 (hd 58 hm)).2 rfl
    have hlast : h.getLast? ≠ some 58 := by
      intro hl
      obtain ⟨d, ds, rfl⟩ := List.exists_cons_of_ne_nil hp
      rw [e, List.getLast?_append_of_ne_nil _ (by simp), List.getLast?_cons_cons] at hl
      exact h58 (getLast?_mem _ _ hl)
    rw [e, fromLast_append 58 name port h58, ← e]
    simp [hlast]

/-! ## Writing a URL and reading it back -/

theorem slashed_ne_nil (comps : List Bytes) (hne : comps ≠ []) :
    ∃ t, slashed comps = 47 :: t := by
  obtain ⟨x, xs, rfl⟩ := List.exists_cons_of_ne_nil hne
  exact ⟨_, slashed_cons x xs⟩

/-- The text of a URL that has a scheme, a host, a path of good elements and
possibly a query. -/
theorem String_plain (s h q : Bytes) (comps : List Bytes) (hs : schemeOK s = true)
    (hh : hostOK h = true) (hne : comps ≠ []) (hgood : ∀ c ∈ comps, goodSeg c = true) :
    ({ URL.zero with Scheme := s, Host := h, Path := slashed comps, RawQuery := q } : URL).String
      = s ++ 58 :: 47 :: 47 :: (h ++ slashed comps ++ (if q = [] then [] else 63 :: q)) := by
  obtain ⟨c, cs, rfl, -, -⟩ := (schemeOK_iff s).mp hs
  obtain ⟨hhne, hhb, -⟩ := hostOK_shape h hh
  obtain ⟨t, ht⟩ := slashed_ne_nil comps hne
  have hesc : escape .host h = h :=
    escape_of_safe .host h (fun c hc => (hostByte_facts c (hhb c hc)).1)
  have hpath : escape .path (slashed comps) = slashed comps :=
    escape_of_safe .path _ (slashed_bytes comps hgood)
  have h42 : slashed comps ≠ [42] := by rw [ht]; simp
  have hp0 : slashed comps ≠ [] := by rw [ht]; simp
  have hhead : (slashed comps).head? = some 47 := by rw [ht]; rfl
  simp only [URL.String, URL.EscapedPath, URL.zero, hhne, hesc, hpath, h42, hp0, hhead, ne_eq,
    not_true_eq_false, not_false_eq_true, decide_True, decide_False, Bool.false_and,
    Bool.true_and, Bool.false_eq_true, if_false, if_true, Bool.or_false, Bool.true_or,
    Bool.or_true, Bool.and_false, Bool.and_true, Option.isSome_none, Option.isNone_none,
    List.append_nil, List.nil_append, Bool.false_or, reduceCtorEq, Bool.not_true, Bool.not_false,
    Bool.and_self, Bool.or_self]
  by_cases hq : q = []
  · simp [hq]
  · simp [hq]

/-- The text of a URL with a scheme, a host, a path of good elements and
possibly a query is read back as that URL. -/
theorem url_Parse_plain (s h q : Bytes) (comps : List Bytes) (hs : schemeOK s = true)
    (hh : hostOK h = true) (hne : comps ≠ []) (hgood : ∀ c ∈ comps, goodSeg c = true)
    (hq : ∀ c ∈ q, c ≠ 35 ∧ c ≠ 63 ∧ ¬ c < 32 ∧ c ≠ 127) :
    url_Parse (s ++ 58 :: 47 :: 47 :: (h ++ slashed comps ++ (if q = [] then [] else 63 :: q)))
      = .ok { URL.zero with Scheme := s, Host := h, Path := slashed comps, RawQuery := q } := by
  obtain ⟨hhne, hhb, -⟩ := hostOK_shape h hh
  obtain ⟨t, ht⟩ := slashed_ne_nil comps hne
  have hsb := schemeOK_bytes s hs
  have hpb := slashed_bytes comps hgood
  -- the bytes of the whole text
  have hall : ∀ c ∈ s ++ 58 :: 47 :: 47 :: (h ++ slashed comps ++ (if q = [] then [] else 63 :: q)),
      c ≠ 35 ∧ ¬ c < 32 ∧ c ≠ 127 := by
    intro c hc
    simp only [List.mem_append, List.mem_cons] at hc
    rcases hc with hc | rfl | rfl | rfl | (hc | hc) | hc
    · have := schemeByte_facts c (hsb c hc)
      exact ⟨this.2.1, this.2.2.2.1, this.2.2.2.2.1⟩
    · decide
    · decide
    · decide
    · have := hostByte_facts c (hhb c hc)
      exact ⟨this.2.2.2.2.2.1, this.2.2.2.2.2.2.2.2.2.1, this.2.2.2.2.2.2.2.2.2.2⟩
    · have := shouldEscape_path_facts c (hpb c hc)
      exact ⟨this.1, this.2.2.2.2.1, this.2.2.2.2.2⟩
    · by_cases hq0 : q = []
      · simp [hq0] at hc
      · simp only [hq0, if_false, List.mem_cons] at hc
        rcases hc with rfl | hc
        · decide
        · exact ⟨(hq c hc).1, (hq c hc).2.2.1, (hq c hc).2.2.2⟩
  have h35 : (35 : UInt8) ∉ s ++ 58 :: 47 :: 47 ::
      (h ++ slashed comps ++ (if q = [] then [] else 63 :: q)) := fun hm => (hall 35 hm).1 rfl
  have hctl : stringContainsCTLByte (s ++ 58 :: 47 :: 47 ::
      (h ++ slashed comps ++ (if q = [] then [] else 63 :: q))) = false := by
    simp only [stringContainsCTLByte, List.any_eq_false, Bool.or_eq_true, decide_eq_true_eq,
      not_or]
    intro c hc
    exact ⟨(hall c hc).2.1, (hall c hc).2.2⟩
  have h42 : s ++ 58 :: 47 :: 47 :: (h ++ slashed comps ++ (if q = [] then [] else 63 :: q))
      ≠ [42] := by
    intro e
    have := congrArg List.length e
    simp at this
    omega
  -- the text before the query
  have h63 : (63 : UInt8) ∉ 47 :: 47 :: (h ++ slashed comps) := by
    intro hm
    simp only [List.mem_cons, List.mem_append] at hm
    rcases hm with hm | hm | hm | hm
    · revert hm; decide
    · revert hm; decide
    · exact (hostByte_facts 63 (hhb 63 hm)).2.2.2.2.2.2.1 rfl
    · exact (shouldEscape_path_facts 63 (hpb 63 hm)).2.1 rfl
  have hcut : cut 63 (47 :: 47 :: (h ++ slashed comps ++ (if q = [] then [] else 63 :: q)))
      = (47 :: 47 :: (h ++ slashed comps), q, !decide (q = [])) := by
    by_cases hq0 : q = []
    · simp only [hq0, if_true, List.append_nil, decide_True, Bool.not_true]
      exact cut_of_not_mem 63 _ h63
    · simp only [hq0, if_false, decide_False, Bool.not_false]
      have := cut_append 63 (47 :: 47 :: (h ++ slashed comps)) q h63
      simpa using this
  have hlast : (47 :: 47 :: (h ++ slashed comps ++ (if q = [] then [] else 63 :: q))).getLast?
      ≠ some 63 := by
    intro hl
    by_cases hq0 : q = []
    · simp only [hq0, if_true, List.append_nil] at hl
      exact h63 (getLast?_mem _ _ hl)
    · simp only [hq0, if_false] at hl
      obtain ⟨d, ds, rfl⟩ := List.exists_cons_of_ne_nil hq0
      have e : 47 :: 47 :: (h ++ slashed comps ++ 63 :: d :: ds)
          = (47 :: 47 :: (h ++ slashed comps ++ [63])) ++ (d :: ds) := by simp
      rw [e, List.getLast?_append_of_ne_nil _ (by simp)] at hl
      exact (hq 63 (getLast?_mem _ _ hl)).2.1 rfl
  -- the authority and the path
  have h47 : (47 : UInt8) ∉ h := fun hm => (hostByte_facts 47 (hhb 47 hm)).2.2.2.1 rfl
  have hauth : cut 47 (h ++ slashed comps) = (h, t, true) := by
    rw [ht]; exact cut_append 47 h t h47
  have h37 : (37 : UInt8) ∉ slashed comps :=
    fun hm => (shouldEscape_path_facts 37 (hpb 37 hm)).2.2.1 rfl
  have hset : ∀ u : URL, u.setPath (slashed comps)
      = .ok { u with Path := slashed comps, RawPath := [] } := by
    intro u
    simp [URL.setPath, unescape_path_of_no_percent _ h37, escape_of_safe .path _ hpb]
  have hsne : s ≠ [] := by
    obtain ⟨c, cs, rfl, -, -⟩ := (schemeOK_iff s).mp hs
    simp
  unfold url_Parse
  rw [cut_of_not_mem 35 _ h35]
  simp only
  unfold parseNoFragment
  rw [hctl, getScheme_scheme s _ hs]
  simp only [Bool.false_eq_true, if_false, h42, hlast, hcut, schemeOK_lower s hs, hsne,
    decide_False, Bool.false_and, ne_eq, not_true_eq_false, not_false_eq_true, decide_True,
    Bool.and_true, Bool.true_and, Bool.true_or, List.head?_cons, List.isPrefixOf, List.drop,
    hauth, parseAuthority_ok h hh, List.drop_left, hset, Bool.and_self, beq_self_eq_true,
    Bool.not_true, List.drop_succ_cons, List.drop_zero, if_true, decide_not, Bool.not_eq_true',
    decide_eq_false_iff_not]
  simp [URL.zero]

/-! ## The query of the API key -/

theorem key_query (k : Bytes) :
    ((parseQuery []).Set (ascii "key") k).Encode = ascii "key=" ++ QueryEscape k := by
  have h1 : parseQuery [] = [] := by decide
  have h2 : QueryEscape (ascii "key") = ascii "key" := by decide
  rw [h1]
  simp only [Values.Set, Values.Encode, Values.pairs, List.insertionSort, List.orderedInsert,
    List.flatMap_cons, List.flatMap_nil, List.map_cons, List.map_nil, List.append_nil, joinBytes,
    h2]
  rfl

theorem key_query_bytes (k : Bytes) :
    ∀ c ∈ ascii "key=" ++ QueryEscape k, c ≠ 35 ∧ c ≠ 63 ∧ ¬ c < 32 ∧ c ≠ 127 ∧ c ≠ 38 ∧ c ≠ 59 := by
  have hb := byte_forall (fun c => isQueryByte c = true ∨ c = 61 →
    c ≠ 35 ∧ c ≠ 63 ∧ ¬ c < 32 ∧ c ≠ 127 ∧ c ≠ 38 ∧ c ≠ 59) (by decide!)
  intro c hc
  rcases List.mem_append.mp hc with hc | hc
  · have hall : ∀ d ∈ ascii "key=", isQueryByte d = true ∨ d = 61 := by decide
    exact hb c (hall c hc)
  · exact hb c (Or.inl (queryEscape_bytes k c hc))

/-- The query of the API key holds the parameter `key` once, with the key as
its value. -/
theorem parseQuery_key (k : Bytes) :
    parseQuery (ascii "key=" ++ QueryEscape k) = [(ascii "key", [k])] := by
  have h38 : (38 : UInt8) ∉ ascii "key=" ++ QueryEscape k :=
    fun hm => (key_query_bytes k 38 hm).2.2.2.2.1 rfl
  have h59 : (59 : UInt8) ∉ ascii "key=" ++ QueryEscape k :=
    fun hm => (key_query_bytes k 59 hm).2.2.2.2.2 rfl
  have hcut : cut 61 (ascii "key=" ++ QueryEscape k) = (ascii "key", QueryEscape k, true) := by
    have := cut_append 61 (ascii "key") (QueryEscape k) (by decide)
    exact this
  have hkey : QueryUnescape (ascii "key") = .ok (ascii "key") := by decide
  have hne : ascii "key=" ++ QueryEscape k ≠ [] := by
    intro e
    have := congrArg List.length e
    simp [ascii] at this
  unfold parseQuery
  rw [splitBytes_of_not_mem 38 _ h38]
  simp only [List.foldl_cons, List.foldl_nil, parseQueryStep, hcut, hkey, query_roundtrip k,
    hne, if_false]
  have h59' : (ascii "key=" ++ QueryEscape k).contains 59 = false := by simpa using h59
  rw [h59']
  rfl

/-! ## The request of an operation -/

theorem joinBytes_splitBytes (sep : UInt8) (s : Bytes) :
    joinBytes sep (splitBytes sep s) = s ∧ splitBytes sep s ≠ [] := by
  induction s with
  | nil => simp [splitBytes, joinBytes]
  | cons c cs ih =>
    by_cases hc : c = sep
    · subst hc
      obtain ⟨x, xs, hx⟩ := List.exists_cons_of_ne_nil ih.2
      simp only [splitBytes, if_true, ne_eq, reduceCtorEq, not_false_eq_true, and_true]
      rw [hx, joinBytes_cons, ← hx, ih.1]
      rfl
    · obtain ⟨x, xs, hx⟩ := List.exists_cons_of_ne_nil ih.2
      have ih1 := ih.1
      rw [hx] at ih1
      simp only [splitBytes, hc, if_false, hx, ne_eq, reduceCtorEq, not_false_eq_true, and_true]
      cases xs with
      | nil =>
        simp only [joinBytes] at ih1 ⊢
        rw [ih1]
      | cons y ys =>
        rw [joinBytes_cons] at ih1 ⊢
        rw [← ih1]
        rfl

/-- A good identifier is its elements joined by slashes. -/
theorem goodId_elems (id : Bytes) (h : goodId id = true) :
    ∃ ids, ids ≠ [] ∧ (∀ c ∈ ids, goodSeg c = true) ∧ id = joinBytes 47 ids ∧
      47 :: id = slashed ids :=
  ⟨splitBytes 47 id, (joinBytes_splitBytes 47 id).2, by simpa [goodId] using h,
    (joinBytes_splitBytes 47 id).1.symm, by
      rw [← slash_joinBytes _ (joinBytes_splitBytes 47 id).2, (joinBytes_splitBytes 47 id).1]⟩

/-- The joined path of a word and good elements. -/
theorem path_Join_word (first : Bytes) (more : List Bytes) (k : List Bytes)
    (hfirst : plainWord first = true) (hmore : ∀ c ∈ more, goodSeg c = true)
    (hk : k.foldl joinStep [] = first ++ slashed more) (hkne : k.all (fun e => e.isEmpty) = false) :
    path_Join k = first ++ slashed more := by
  unfold path_Join
  rw [hkne, hk, ← joinBytes_eq]
  simp only [Bool.false_eq_true, if_false]
  apply path_Clean_relative _ (by simp)
  intro c hc
  rcases List.mem_cons.mp hc with rfl | hc
  · exact plainWord_good _ hfirst
  · exact hmore c hc

/-- The reference that `newRequest` resolves: the joined path of the
operation under the path of the base URL. -/
theorem endpoint_plain (s h : Bytes) (pre : List Bytes) (first : Bytes) (more : List Bytes)
    (hpre : ∀ c ∈ pre, goodSeg c = true) (hfirst : plainWord first = true)
    (hmore : ∀ c ∈ more, goodSeg c = true) :
    ({ URL.zero with Scheme := s, Host := h, Path := slashed pre } : URL).Parse
        (path_Join [slashed pre, first ++ slashed more])
      = .ok { URL.zero with Scheme := s, Host := h, Path := slashed (pre ++ first :: more) } := by
  have hgood : ∀ c ∈ first :: more, goodSeg c = true := by
    intro c hc
    rcases List.mem_cons.mp hc with rfl | hc
    · exact plainWord_good _ hfirst
    · exact hmore c hc
  have hall : ∀ c ∈ pre ++ first :: more, goodSeg c = true := by
    intro c hc
    rcases List.mem_append.mp hc with hc | hc
    · exact hpre c hc
    · exact hgood c hc
  obtain ⟨c0, f1, hf, hc0⟩ := goodSeg_head first (plainWord_good _ hfirst)
  have hxne : first ++ slashed more ≠ [] := by rw [hf]; simp
  have hset : ∀ (u : URL) (comps : List Bytes), (∀ c ∈ comps, goodSeg c = true) →
      u.setPathIgnore (slashed comps) = { u with Path := slashed comps, RawPath := [] } := by
    intro u comps hc
    have h37 : (37 : UInt8) ∉ slashed comps :=
      fun hm => (shouldEscape_path_facts 37 (slashed_bytes comps hc 37 hm)).2.2.1 rfl
    simp [URL.setPathIgnore, URL.setPath, unescape_path_of_no_percent _ h37,
      escape_of_safe .path _ (slashed_bytes comps hc)]
  cases pre with
  | nil =>
    have hj : path_Join [slashed [], first ++ slashed more] = first ++ slashed more := by
      have hfold : [slashed [], first ++ slashed more].foldl joinStep []
          = first ++ slashed more := by
        rw [hf]; rfl
      have hne : [slashed [], first ++ slashed more].all (fun e => e.isEmpty) = false := by
        rw [hf]; rfl
      unfold path_Join
      rw [hne, hfold, ← joinBytes_eq]
      exact path_Clean_relative _ (by simp) hgood
    rw [hj]
    unfold URL.Parse
    rw [url_Parse_relative first more hfirst hmore]
    have hesc : escape .path (first ++ slashed more) = first ++ slashed more := by
      rw [← joinBytes_eq]
      apply escape_of_safe
      rw [joinBytes_eq]
      intro c hc
      rcases List.mem_append.mp hc with hc | hc
      · exact goodSeg_bytes first (plainWord_good _ hfirst) c hc
      · exact slashed_bytes more hmore c hc
    have h42 : first ++ slashed more ≠ [42] := by
      intro e
      have := hesc
      rw [e] at this
      revert this
      decide
    have hres : resolvePath [] (first ++ slashed more) = slashed (first :: more) := by
      rw [← joinBytes_eq]
      exact resolvePath_relative _ (by simp) hgood
    simp only [URL.ResolveReference, URL.EscapedPath, URL.zero, hxne, h42, hesc, hres, ne_eq,
      not_true_eq_false, decide_False, Bool.false_and, Bool.false_eq_true, if_false, if_true,
      Bool.or_self, Option.isSome_none, decide_True, Bool.and_false, Bool.not_false,
      Bool.and_true, slashed_nil, escape, hset _ _ hgood, List.nil_append, not_false_eq_true,
      Bool.true_and, reduceCtorEq]
  | cons p ps =>
    obtain ⟨t, ht⟩ := slashed_ne_nil (p :: ps) (by simp)
    have hj : path_Join [slashed (p :: ps), first ++ slashed more]
        = slashed ((p :: ps) ++ first :: more) := by
      have hfold : [slashed (p :: ps), first ++ slashed more].foldl joinStep []
          = slashed ((p :: ps) ++ first :: more) := by
        rw [slashed_append, slashed_cons first more, ht]
        rfl
      have hne : [slashed (p :: ps), first ++ slashed more].all (fun e => e.isEmpty) = false := by
        rw [ht]; rfl
      unfold path_Join
      rw [hne, hfold]
      exact path_Clean_rooted _ (by simp) hall
    rw [hj]
    unfold URL.Parse
    rw [url_Parse_rooted _ (by simp) hall]
    obtain ⟨t2, ht2⟩ := slashed_ne_nil ((p :: ps) ++ first :: more) (by simp)
    have hp0 : slashed ((p :: ps) ++ first :: more) ≠ [] := by rw [ht2]; simp
    have h42 : slashed ((p :: ps) ++ first :: more) ≠ [42] := by rw [ht2]; simp
    have h42b : slashed (p :: ps) ≠ [42] := by rw [ht]; simp
    have hesc := escape_of_safe .path _ (slashed_bytes _ hall)
    have hescb := escape_of_safe .path _ (slashed_bytes _ hpre)
    simp only [URL.ResolveReference, URL.EscapedPath, URL.zero, hp0, h42, h42b, hesc, hescb,
      resolvePath_rooted _ _ (by simp) hall, ne_eq,
      not_true_eq_false, decide_False, Bool.false_and, Bool.false_eq_true, if_false, if_true,
      Bool.or_self, Option.isSome_none, decide_True, Bool.and_false, Bool.not_false,
      Bool.and_true, hset _ _ hall, not_false_eq_true,
      Bool.true_and, reduceCtorEq]

/-- The request that `newRequest` builds from a base URL with a scheme, a
host and a path of good elements, for the joined path of a word and good
elements: a GET without body for the base URL with the joined path under its
path, and with the API key, if there is one, as its query. -/
theorem newRequest_plain (c : Client) (cx : Context) (s h : Bytes) (pre : List Bytes)
    (k : List Bytes) (first : Bytes) (more : List Bytes)
    (hbase : c.baseURL = { URL.zero with Scheme := s, Host := h, Path := slashed pre })
    (hs : schemeOK s = true) (hh : hostOK h = true) (hpre : ∀ p ∈ pre, goodSeg p = true)
    (hfirst : plainWord first = true) (hmore : ∀ p ∈ more, goodSeg p = true)
    (hk : path_Join k = first ++ slashed more) :
    c.newRequest (some cx) k = .ok
      { ctx := cx, Method := ascii "GET",
        URL := { URL.zero with
          Scheme := s, Host := h, Path := slashed (pre ++ first :: more),
          RawQuery := if c.apiKey = [] then [] else ascii "key=" ++ QueryEscape c.apiKey },
        Host := h, NoBody := true } := by
  have hgood : ∀ p ∈ pre ++ first :: more, goodSeg p = true := by
    intro p hp
    rcases List.mem_append.mp hp with hp | hp
    · exact hpre p hp
    · rcases List.mem_cons.mp hp with rfl | hp
      · exact plainWord_good _ hfirst
      · exact hmore p hp
  have hvalid : validMethod MethodGet = true := by decide
  have hget : MethodGet ≠ [] := by decide
  have hend := endpoint_plain s h pre first more hpre hfirst hmore
  have hpath : c.baseURL.Path = slashed pre := by rw [hbase]
  unfold Client.newRequest
  rw [hpath, hk, hbase, hend]
  by_cases hk0 : c.apiKey = []
  · have hS := String_plain s h [] (pre ++ first :: more) hs hh (by simp) hgood
    have hP := url_Parse_plain s h [] (pre ++ first :: more) hs hh (by simp) hgood (by simp)
    simp only [if_true] at hS hP
    simp only [URL.zero] at hS hP ⊢
    simp only [hk0, ne_eq, not_true_eq_false, if_false, if_true, hS, NewRequestWithContext, hget,
      hvalid, Bool.not_true, Bool.false_eq_true, hP, removeEmptyPort_ok h hh]
    rfl
  · have hq : ∀ b ∈ ascii "key=" ++ QueryEscape c.apiKey, b ≠ 35 ∧ b ≠ 63 ∧ ¬ b < 32 ∧ b ≠ 127 := by
      intro b hb
      have := key_query_bytes c.apiKey b hb
      exact ⟨this.1, this.2.1, this.2.2.1, this.2.2.2.1⟩
    have hqne : ascii "key=" ++ QueryEscape c.apiKey ≠ [] := by
      intro e
      have := congrArg List.length e
      simp [ascii] at this
    have hS := String_plain s h (ascii "key=" ++ QueryEscape c.apiKey) (pre ++ first :: more)
      hs hh (by simp) hgood
    have hP := url_Parse_plain s h (ascii "key=" ++ QueryEscape c.apiKey) (pre ++ first :: more)
      hs hh (by simp) hgood hq
    have hkq := key_query c.apiKey
    simp only [hqne, if_false] at hS hP
    simp only [URL.Query, URL.zero] at hkq hS hP ⊢
    simp only [hk0, ne_eq, not_false_eq_true, if_false, if_true, hkq, hS, NewRequestWithContext,
      hget, hvalid, Bool.not_true, Bool.false_eq_true, hP, removeEmptyPort_ok h hh]
    rfl

/-! ## The requests of the four operations -/

/-- The joined path of the name of an operation and a good identifier. -/
theorem path_Join_two (a id : Bytes) (ha : plainWord a = true) (hid : goodId id = true) :
    ∃ ids, (∀ c ∈ ids, goodSeg c = true) ∧ path_Join [a, id] = a ++ slashed ids ∧
      slashed ids = 47 :: id := by
  obtain ⟨ids, hne, hgood, -, hsl⟩ := goodId_elems id hid
  obtain ⟨c, a1, rfl, -⟩ := goodSeg_head a (plainWord_good a ha)
  refine ⟨ids, hgood, ?_, hsl.symm⟩
  apply path_Join_word _ _ _ ha hgood
  · rw [← hsl]; rfl
  · rfl

/-- The joined path of the two names of an operation and a good identifier. -/
theorem path_Join_three (a b id : Bytes) (ha : plainWord a = true) (hb : plainWord b = true)
    (hid : goodId id = true) :
    ∃ ids, (∀ c ∈ ids, goodSeg c = true) ∧ path_Join [a, b, id] = a ++ slashed (b :: ids) ∧
      slashed (b :: ids) = 47 :: b ++ 47 :: id := by
  obtain ⟨ids, hne, hgood, -, hsl⟩ := goodId_elems id hid
  obtain ⟨c, a1, rfl, -⟩ := goodSeg_head a (plainWord_good a ha)
  have hgood2 : ∀ x ∈ b :: ids, goodSeg x = true := by
    intro x hx
    rcases List.mem_cons.mp hx with rfl | hx
    · exact plainWord_good _ hb
    · exact hgood x hx
  refine ⟨ids, hgood, ?_, by rw [slashed_cons, ← hsl]⟩
  apply path_Join_word _ _ _ ha hgood2
  · rw [slashed_cons, ← hsl]
    simp [joinStep]
  · rfl

/-- The requests of the four operations of a client whose base URL has a
scheme, a host and a path of good elements, for a good identifier. -/
theorem requests_plain (c : Client) (cx : Context) (s h : Bytes) (pre : List Bytes) (id : Bytes)
    (hbase : c.baseURL = { URL.zero with Scheme := s, Host := h, Path := slashed pre })
    (hs : schemeOK s = true) (hh : hostOK h = true) (hpre : ∀ p ∈ pre, goodSeg p = true)
    (hid : goodId id = true) :
    c.newRequest (some cx) [ascii "ipquery", id]
      = .ok (plainRequest cx s h (slashed pre ++ ascii "/ipquery/" ++ id) (keyQuery c.apiKey)) ∧
    c.newRequest (some cx) [ascii "asquery", id]
      = .ok (plainRequest cx s h (slashed pre ++ ascii "/asquery/" ++ id) (keyQuery c.apiKey)) ∧
    c.newRequest (some cx) [ascii "pdns", ascii "forward", id]
      = .ok (plainRequest cx s h (slashed pre ++ ascii "/pdns/forward/" ++ id)
          (keyQuery c.apiKey)) ∧
    c.newRequest (some cx) [ascii "pdns", ascii "reverse", id]
      = .ok (plainRequest cx s h (slashed pre ++ ascii "/pdns/reverse/" ++ id)
          (keyQuery c.apiKey)) := by
  refine ⟨?_, ?_, ?_, ?_⟩
  · obtain ⟨ids, hgood, hj, hsl⟩ := path_Join_two (ascii "ipquery") id (by decide) hid
    rw [newRequest_plain c cx s h pre _ _ ids hbase hs hh hpre (by decide) hgood hj,
      slashed_append, slashed_cons, hsl]
    simp [plainRequest, keyQuery, MethodGet, ascii]
  · obtain ⟨ids, hgood, hj, hsl⟩ := path_Join_two (ascii "asquery") id (by decide) hid
    rw [newRequest_plain c cx s h pre _ _ ids hbase hs hh hpre (by decide) hgood hj,
      slashed_append, slashed_cons, hsl]
    simp [plainRequest, keyQuery, MethodGet, ascii]
  · obtain ⟨ids, hgood, hj, hsl⟩ :=
      path_Join_three (ascii "pdns") (ascii "forward") id (by decide) (by decide) hid
    have hg2 : ∀ x ∈ ascii "forward" :: ids, goodSeg x = true := by
      intro x hx
      rcases List.mem_cons.mp hx with rfl | hx
      · decide
      · exact hgood x hx
    rw [newRequest_plain c cx s h pre _ _ _ hbase hs hh hpre (by decide) hg2 hj,
      slashed_append, slashed_cons, hsl]
    simp [plainRequest, keyQuery, MethodGet, ascii]
  · obtain ⟨ids, hgood, hj, hsl⟩ :=
      path_Join_three (ascii "pdns") (ascii "reverse") id (by decide) (by decide) hid
    have hg2 : ∀ x ∈ ascii "reverse" :: ids, goodSeg x = true := by
      intro x hx
      rcases List.mem_cons.mp hx with rfl | hx
      · decide
      · exact hgood x hx
    rw [newRequest_plain c cx s h pre _ _ _ hbase hs hh hpre (by decide) hg2 hj,
      slashed_append, slashed_cons, hsl]
    simp [plainRequest, keyQuery, MethodGet, ascii]

/-! ## The clients of `New` -/

theorem New_free (t : Request → Except Error Response) :
    (New t []).baseURL =
      { URL.zero with
        Scheme := ascii "https", Host := ascii "freeapi.robtex.com", Path := slashed [] } ∧
    (New t []).apiKey = [] := by
  have h : parsedOrZero FreeAPIBaseURL =
      { URL.zero with
        Scheme := ascii "https", Host := ascii "freeapi.robtex.com", Path := slashed [] } := by
    decide!
  exact ⟨by simp [New, h], rfl⟩

theorem New_pro (t : Request → Except Error Response) (key : Bytes) (hkey : key ≠ []) :
    (New t key).baseURL =
      { URL.zero with
        Scheme := ascii "https", Host := ascii "proapi.robtex.com", Path := slashed [] } ∧
    (New t key).apiKey = key := by
  have h : parsedOrZero ProAPIBaseURL =
      { URL.zero with
        Scheme := ascii "https", Host := ascii "proapi.robtex.com", Path := slashed [] } := by
    decide!
  exact ⟨by simp [New, hkey, h], rfl⟩

theorem mem_operations (id : Bytes) (k : List Bytes) (h : k ∈ operations id) :
    k = [ascii "ipquery", id] ∨ k = [ascii "asquery", id] ∨
    k = [ascii "pdns", ascii "forward", id] ∨ k = [ascii "pdns", ascii "reverse", id] := by
  simpa [operations] using h

/-- C7, amended: for every API key that is not empty and every identifier
made of path elements that stand for themselves (an IP address, a domain name
and an AS number are such identifiers), each of the four operations on the
client of `New(key)` builds its request, the request targets the host
`proapi.robtex.com`, and its query holds the parameter `key` exactly once,
with a value that unescapes to the API key. -/
theorem pro_client_requests (t : Request → Except Error Response) (cx : Context)
    (key id : Bytes) (hkey : key ≠ []) (hid : goodId id = true) :
    ∀ k ∈ operations id, ∃ req, (New t key).newRequest (some cx) k = .ok req ∧
      req.Host = ascii "proapi.robtex.com" ∧ req.URL.Host = ascii "proapi.robtex.com" ∧
      req.URL.RawQuery = ascii "key=" ++ QueryEscape key ∧
      req.URL.Query = [(ascii "key", [key])] ∧
      QueryUnescape (QueryEscape key) = .ok key := by
  obtain ⟨hbase, hk⟩ := New_pro t key hkey
  obtain ⟨h1, h2, h3, h4⟩ := requests_plain (New t key) cx (ascii "https")
    (ascii "proapi.robtex.com") [] id hbase (by decide) (by decide) (by simp) hid
  have hq : keyQuery (New t key).apiKey = ascii "key=" ++ QueryEscape key := by
    rw [hk]; simp [keyQuery, hkey]
  rw [hq] at h1 h2 h3 h4
  intro k hmem
  rcases mem_operations id k hmem with rfl | rfl | rfl | rfl
  · exact ⟨_, h1, rfl, rfl, rfl, parseQuery_key key, query_roundtrip key⟩
  · exact ⟨_, h2, rfl, rfl, rfl, parseQuery_key key, query_roundtrip key⟩
  · exact ⟨_, h3, rfl, rfl, rfl, parseQuery_key key, query_roundtrip key⟩
  · exact ⟨_, h4, rfl, rfl, rfl, parseQuery_key key, query_roundtrip key⟩

/-- C7, amended, on a key with bytes that are escaped, for the forward lookup
of a domain name. -/
theorem pro_client_requests_witness :
    ascii "a&b=c d+%#" ≠ [] ∧ goodId (ascii "a.iana-servers.net") = true ∧
    QueryEscape (ascii "a&b=c d+%#") = ascii "a%26b%3Dc+d%2B%25%23" ∧
    ∃ req, (New (replyWith 200 []) (ascii "a&b=c d+%#")).newRequest background
        [ascii "pdns", ascii "forward", ascii "a.iana-servers.net"] = .ok req ∧
      req.Host = ascii "proapi.robtex.com" ∧ req.URL.Host = ascii "proapi.robtex.com" ∧
      req.URL.RawQuery = ascii "key=" ++ QueryEscape (ascii "a&b=c d+%#") ∧
      req.URL.Query = [(ascii "key", [ascii "a&b=c d+%#"])] ∧
      QueryUnescape (QueryEscape (ascii "a&b=c d+%#")) = .ok (ascii "a&b=c d+%#") :=
  ⟨by decide, by decide!, by decide!,
    pro_client_requests (replyWith 200 []) ⟨0⟩ (ascii "a&b=c d+%#") (ascii "a.iana-servers.net")
      (by decide) (by decide!) _ (by simp [operations])⟩

/-- C8, amended: for every identifier made of path elements that stand for
themselves (an IP address, a domain name and an AS number are such
identifiers), each of the four operations on the client of `New("")` builds
its request, the request targets the host `freeapi.robtex.com`, and its URL
has no query, so no parameter `key`. -/
theorem free_client_requests (t : Request → Except Error Response) (cx : Context) (id : Bytes)
    (hid : goodId id = true) :
    ∀ k ∈ operations id, ∃ req, (New t []).newRequest (some cx) k = .ok req ∧
      req.Host = ascii "freeapi.robtex.com" ∧ req.URL.Host = ascii "freeapi.robtex.com" ∧
      req.URL.RawQuery = [] ∧ req.URL.ForceQuery = false ∧
      req.URL.Query.Has (ascii "key") = false := by
  obtain ⟨hbase, hk⟩ := New_free t
  obtain ⟨h1, h2, h3, h4⟩ := requests_plain (New t []) cx (ascii "https")
    (ascii "freeapi.robtex.com") [] id hbase (by decide) (by decide) (by simp) hid
  have hq : keyQuery (New t []).apiKey = [] := rfl
  rw [hq] at h1 h2 h3 h4
  intro k hmem
  rcases mem_operations id k hmem with rfl | rfl | rfl | rfl
  · exact ⟨_, h1, rfl, rfl, rfl, rfl, rfl⟩
  · exact ⟨_, h2, rfl, rfl, rfl, rfl, rfl⟩
  · exact ⟨_, h3, rfl, rfl, rfl, rfl, rfl⟩
  · exact ⟨_, h4, rfl, rfl, rfl, rfl, rfl⟩

/-- C8, amended, on the AS lookup of `15169`. -/
theorem free_client_requests_witness :
    goodId (ascii "15169") = true ∧
    ∃ req, (New (replyWith 200 []) []).newRequest background [ascii "asquery", ascii "15169"]
        = .ok req ∧
      req.Host = ascii "freeapi.robtex.com" ∧ req.URL.Host = ascii "freeapi.robtex.com" ∧
      req.URL.RawQuery = [] ∧ req.URL.ForceQuery = false ∧
      req.URL.Query.Has (ascii "key") = false :=
  ⟨by decide!, free_client_requests (replyWith 200 []) ⟨0⟩ (ascii "15169") (by decide!) _
    (by simp [operations])⟩

/-- C9, amended: for every base URL that has a scheme, a host (a name, or a
name with a port) and as its path either nothing or a prefix `P` of path
elements that stand for themselves, and for every identifier made of such
elements, `newRequest` builds, for each of the four operations, a GET request
without body whose scheme and host are those of the base URL and whose path
is `P` followed by `/ipquery/id`, `/asquery/id`, `/pdns/forward/id` or
`/pdns/reverse/id`; its query is the API key of the client, if it has one. -/
theorem request_path_under_base (c : Client) (cx : Context) (s h : Bytes) (pre : List Bytes)
    (id : Bytes)
    (hbase : c.baseURL = { URL.zero with Scheme := s, Host := h, Path := slashed pre })
    (hs : schemeOK s = true) (hh : hostOK h = true) (hpre : ∀ p ∈ pre, goodSeg p = true)
    (hid : goodId id = true) :
    c.newRequest (some cx) [ascii "ipquery", id]
      = .ok (plainRequest cx s h (slashed pre ++ ascii "/ipquery/" ++ id) (keyQuery c.apiKey)) ∧
    c.newRequest (some cx) [ascii "asquery", id]
      = .ok (plainRequest cx s h (slashed pre ++ ascii "/asquery/" ++ id) (keyQuery c.apiKey)) ∧
    c.newRequest (some cx) [ascii "pdns", ascii "forward", id]
      = .ok (plainRequest cx s h (slashed pre ++ ascii "/pdns/forward/" ++ id)
          (keyQuery c.apiKey)) ∧
    c.newRequest (some cx) [ascii "pdns", ascii "reverse", id]
      = .ok (plainRequest cx s h (slashed pre ++ ascii "/pdns/reverse/" ++ id)
          (keyQuery c.apiKey)) :=
  requests_plain c cx s h pre id hbase hs hh hpre hid

/-- C9, amended, on the client of the tests with a test server under the
path `/api/v1`, and on the client of `New("")`, for the identifier
`199.19.54.1`. -/
theorem request_path_under_base_witness :
    (testClient (ascii "http://127.0.0.1:8080/api/v1")).baseURL
      = { URL.zero with
          Scheme := ascii "http", Host := ascii "127.0.0.1:8080",
          Path := slashed [ascii "api", ascii "v1"] } ∧
    schemeOK (ascii "http") = true ∧ hostOK (ascii "127.0.0.1:8080") = true ∧
    (∀ p ∈ [ascii "api", ascii "v1"], goodSeg p = true) ∧ goodId (ascii "199.19.54.1") = true ∧
    (testClient (ascii "http://127.0.0.1:8080/api/v1")).newRequest background
        [ascii "ipquery", ascii "199.19.54.1"]
      = .ok (plainRequest ⟨0⟩ (ascii "http") (ascii "127.0.0.1:8080")
          (ascii "/api/v1/ipquery/199.19.54.1") []) :=
  have hbase : (testClient (ascii "http://127.0.0.1:8080/api/v1")).baseURL
      = { URL.zero with
          Scheme := ascii "http", Host := ascii "127.0.0.1:8080",
          Path := slashed [ascii "api", ascii "v1"] } := by decide!
  have hpre : ∀ p ∈ [ascii "api", ascii "v1"], goodSeg p = true := by decide!
  ⟨hbase, by decide!, by decide!, hpre, by decide!,
    (request_path_under_base (testClient (ascii "http://127.0.0.1:8080/api/v1")) ⟨0⟩
      (ascii "http") (ascii "127.0.0.1:8080") [ascii "api", ascii "v1"] (ascii "199.19.54.1")
      hbase (by decide!) (by decide!) hpre (by decide!)).1⟩

/-! ## What the scanner accepts follows the grammar -/

theorem skipSpace_split (inp : Bytes) : ∃ w, allSpace w = true ∧ inp = w ++ skipSpace inp := by
  induction inp with
  | nil => exact ⟨[], rfl, rfl⟩
  | cons c cs ih =>
    by_cases hc : isSpace c = true
    · obtain ⟨w, hw, e⟩ := ih
      refine ⟨c :: w, ?_, ?_⟩
      · simp only [allSpace, List.all_cons, hc, Bool.true_and] at hw ⊢
        exact hw
      · simp only [skipSpace, hc, if_true, List.cons_append]
        rw [← e]
    · exact ⟨[], rfl, by simp [skipSpace, hc]⟩

/-- The text between the quotes of a scanned string literal follows the
grammar, whatever part of an escape the scan starts in. -/
theorem scanStr_sound (inp : Bytes) : ∀ (raw rest : Bytes),
    (scanStr .inString inp = .ok (raw, rest) → strBodyOK raw = true) ∧
    (scanStr .esc inp = .ok (raw, rest) → strBodyOK (92 :: raw) = true) ∧
    (scanStr .escU inp = .ok (raw, rest) → strBodyOK (92 :: 117 :: raw) = true) ∧
    (scanStr .escU1 inp = .ok (raw, rest) →
      ∀ h1, isHex h1 = true → strBodyOK (92 :: 117 :: h1 :: raw) = true) ∧
    (scanStr .escU12 inp = .ok (raw, rest) →
      ∀ h1 h2, isHex h1 = true → isHex h2 = true →
        strBodyOK (92 :: 117 :: h1 :: h2 :: raw) = true) ∧
    (scanStr .escU123 inp = .ok (raw, rest) →
      ∀ h1 h2 h3, isHex h1 = true → isHex h2 = true → isHex h3 = true →
        strBodyOK (92 :: 117 :: h1 :: h2 :: h3 :: raw) = true) := by
  induction inp with
  | nil => intro raw rest; simp [scanStr]
  | cons c cs ih =>
    intro raw rest
    refine ⟨?_, ?_, ?_, ?_, ?_, ?_⟩
    · intro h
      simp only [scanStr] at h
      by_cases h34 : c = 34
      · simp only [h34, if_true, Except.ok.injEq, Prod.mk.injEq] at h
        rw [← h.1]; rfl
      · by_cases h92 : c = 92
        · simp only [h34, h92, if_false, if_true] at h
          obtain ⟨t, rfl, ht⟩ := consRaw_ok h
          exact (ih t rest).2.1 ht
        · by_cases h32 : c < 32
          · simp [h34, h92, h32] at h
          · simp only [h34, h92, h32, if_false] at h
            obtain ⟨t, rfl, ht⟩ := consRaw_ok h
            have := (ih t rest).1 ht
            unfold strBodyOK
            simp [h34, h92, h32, this]
    · intro h
      simp only [scanStr] at h
      split at h
      · rename_i hc
        obtain ⟨t, rfl, ht⟩ := consRaw_ok h
        have := (ih t rest).1 ht
        have h117 : c ≠ 117 := by
          rintro rfl
          revert hc
          decide
        unfold strBodyOK
        simp only [if_true, h117, if_false, this, Bool.and_true]
        simpa using hc
      · split at h
        · rename_i h117
          obtain ⟨t, rfl, ht⟩ := consRaw_ok h
          rw [h117]
          exact (ih t rest).2.2.1 ht
        · simp at h
    · intro h
      simp only [scanStr] at h
      split at h
      · rename_i hc
        obtain ⟨t, rfl, ht⟩ := consRaw_ok h
        exact (ih t rest).2.2.2.1 ht c hc
      · simp at h
    · intro h h1 hh1
      simp only [scanStr] at h
      split at h
      · rename_i hc
        obtain ⟨t, rfl, ht⟩ := consRaw_ok h
        exact (ih t rest).2.2.2.2.1 ht h1 c hh1 hc
      · simp at h
    · intro h h1 h2 hh1 hh2
      simp only [scanStr] at h
      split at h
      · rename_i hc
        obtain ⟨t, rfl, ht⟩ := consRaw_ok h
        exact (ih t rest).2.2.2.2.2 ht h1 h2 c hh1 hh2 hc
      · simp at h
    · intro h h1 h2 h3 hh1 hh2 hh3
      simp only [scanStr] at h
      split at h
      · rename_i hc
        obtain ⟨t, rfl, ht⟩ := consRaw_ok h
        have := (ih t rest).1 ht
        unfold strBodyOK
        simp [hh1, hh2, hh3, hc, this]
      · simp at h

/-- The bytes of a scanned number run the automaton into a state in which a
number may end. -/
theorem scanNum_sound (inp : Bytes) : ∀ (st : NumState) (lit rest : Bytes),
    scanNum st inp = .ok (lit, rest) → ∃ st1, numRun st lit = some st1 ∧ st1.accepting = true := by
  induction inp with
  | nil =>
    intro st lit rest h
    simp only [scanNum] at h
    split at h
    · rename_i hacc
      simp only [Except.ok.injEq, Prod.mk.injEq] at h
      exact ⟨st, by rw [← h.1]; rfl, hacc⟩
    · simp at h
  | cons c cs ih =>
    intro st lit rest h
    simp only [scanNum] at h
    split at h
    · rename_i st1 hstep
      obtain ⟨t, rfl, ht⟩ := consRaw_ok h
      obtain ⟨st2, hrun, hacc⟩ := ih st1 t rest ht
      exact ⟨st2, by simp [numRun, hstep, hrun], hacc⟩
    · split at h
      · rename_i hacc
        simp only [Except.ok.injEq, Prod.mk.injEq] at h
        exact ⟨st, by rw [← h.1]; rfl, hacc⟩
      · simp at h

/-- A value that is not an array or an object is read from a text that
follows the grammar. -/
theorem scanScalar_sound (c : UInt8) (cs : Bytes) (v : JValue) (rest : Bytes)
    (h : scanScalar c cs = .ok (v, rest)) :
    ∃ d : Doc, d.wf = true ∧ d.value = v ∧ c :: cs = d.render ++ rest := by
  unfold scanScalar at h
  split at h
  · rename_i hc
    cases hs : scanStr .inString cs with
    | error e => simp [hs] at h
    | ok p =>
      obtain ⟨raw, r⟩ := p
      simp only [hs, Except.ok.injEq, Prod.mk.injEq] at h
      obtain ⟨rfl, rfl⟩ := h
      refine ⟨.str raw, (scanStr_sound cs raw r).1 hs, rfl, ?_⟩
      rw [hc, scanStr_ok _ _ _ _ hs]
      simp [Doc.render]
  · split at h
    · rename_i hc
      cases hs : scanNum .neg cs with
      | error e => simp [hs] at h
      | ok p =>
        obtain ⟨lit, r⟩ := p
        simp only [hs, Except.ok.injEq, Prod.mk.injEq] at h
        obtain ⟨rfl, rfl⟩ := h
        obtain ⟨st1, hrun, hacc⟩ := scanNum_sound cs _ lit r hs
        refine ⟨.num (c :: lit), ?_, rfl, ?_⟩
        · simp [Doc.wf, numOK, hc, hrun, hacc]
        · rw [scanNum_ok _ _ _ _ hs]; simp [Doc.render]
    · split at h
      · rename_i h45 hc
        cases hs : scanNum .zero cs with
        | error e => simp [hs] at h
        | ok p =>
          obtain ⟨lit, r⟩ := p
          simp only [hs, Except.ok.injEq, Prod.mk.injEq] at h
          obtain ⟨rfl, rfl⟩ := h
          obtain ⟨st1, hrun, hacc⟩ := scanNum_sound cs _ lit r hs
          refine ⟨.num (c :: lit), ?_, rfl, ?_⟩
          · simp [Doc.wf, numOK, hc, hrun, hacc]
          · rw [scanNum_ok _ _ _ _ hs]; simp [Doc.render]
      · split at h
        · rename_i h45 h48 hc
          cases hs : scanNum .int cs with
          | error e => simp [hs] at h
          | ok p =>
            obtain ⟨lit, r⟩ := p
            simp only [hs, Except.ok.injEq, Prod.mk.injEq] at h
            obtain ⟨rfl, rfl⟩ := h
            obtain ⟨st1, hrun, hacc⟩ := scanNum_sound cs _ lit r hs
            refine ⟨.num (c :: lit), ?_, rfl, ?_⟩
            · simp only [Doc.wf, numOK, h45, h48, hc, if_false, if_true, hrun, hacc]
            · rw [scanNum_ok _ _ _ _ hs]; simp [Doc.render]
        · split at h
          · rename_i hc
            cases hs : scanLit [114, 117, 101] cs with
            | error e => simp [hs] at h
            | ok r =>
              simp only [hs, Except.ok.injEq, Prod.mk.injEq] at h
              obtain ⟨rfl, rfl⟩ := h
              refine ⟨.bool true, rfl, rfl, ?_⟩
              rw [hc, scanLit_ok _ _ _ hs]; simp [Doc.render]
          · split at h
            · rename_i hc
              cases hs : scanLit [97, 108, 115, 101] cs with
              | error e => simp [hs] at h
              | ok r =>
                simp only [hs, Except.ok.injEq, Prod.mk.injEq] at h
                obtain ⟨rfl, rfl⟩ := h
                refine ⟨.bool false, rfl, rfl, ?_⟩
                rw [hc, scanLit_ok _ _ _ hs]; simp [Doc.render]
            · split at h
              · rename_i hc
                cases hs : scanLit [117, 108, 108] cs with
                | error e => simp [hs] at h
                | ok r =>
                  simp only [hs, Except.ok.injEq, Prod.mk.injEq] at h
                  obtain ⟨rfl, rfl⟩ := h
                  refine ⟨.null, rfl, rfl, ?_⟩
                  rw [hc, scanLit_ok _ _ _ hs]; simp [Doc.render]
              · simp at h

/-- What the parser reads is a text that follows the grammar: a value is
read from white space and a JSON text, the elements of an array and the
members of an object from their texts up to the closing bracket or brace. -/
theorem parse_sound (fuel : Nat) :
    (∀ depth inp v rest, parseValue fuel depth inp = some (.ok (v, rest)) →
      ∃ (w : Bytes) (d : Doc), allSpace w = true ∧ d.wf = true ∧ d.value = v ∧
        inp = w ++ d.render ++ rest) ∧
    (∀ depth inp vs rest, parseElems fuel depth inp = some (.ok (vs, rest)) →
      ∃ es : DocElems, es.wf = true ∧ es.values = vs ∧ inp = es.render ++ rest) ∧
    (∀ depth inp ms rest, parseMembers fuel depth inp = some (.ok (ms, rest)) →
      ∃ dm : DocMembers, dm.wf = true ∧ dm.values = ms ∧ inp = dm.render ++ rest) := by
  induction fuel with
  | zero => simp [parseValue, parseElems, parseMembers]
  | succ fuel ih =>
    obtain ⟨ihV, ihE, ihM⟩ := ih
    refine ⟨?_, ?_, ?_⟩
    · intro depth inp v rest h
      obtain ⟨w, hw, e⟩ := skipSpace_split inp
      simp only [parseValue] at h
      cases hsk : skipSpace inp with
      | nil => simp [hsk] at h
      | cons c cs =>
        rw [hsk] at e
        simp only [hsk] at h
        by_cases h123 : c = 123
        · simp only [h123, if_true] at h
          by_cases hdep : maxNestingDepth ≤ depth
          · simp [hdep] at h
          · simp only [hdep, if_false] at h
            obtain ⟨w1, hw1, e1⟩ := skipSpace_split cs
            cases hsk1 : skipSpace cs with
            | nil => simp [hsk1] at h
            | cons c1 cs1 =>
              simp only [hsk1] at h
              rw [hsk1] at e1
              by_cases h125 : c1 = 125
              · simp only [h125, if_true, Option.some.injEq, Except.ok.injEq, Prod.mk.injEq] at h
                obtain ⟨rfl, rfl⟩ := h
                refine ⟨w, .obj0 w1, hw, hw1, rfl, ?_⟩
                rw [e, e1, h123, h125]
                simp [Doc.render]
              · simp only [h125, if_false] at h
                rw [← hsk1, parseMembers_skipSpace] at h
                cases hp : parseMembers fuel (depth + 1) cs with
                | none => simp [hp] at h
                | some r =>
                  cases r with
                  | error err => simp [hp] at h
                  | ok p =>
                    obtain ⟨ms, r⟩ := p
                    simp only [hp, Option.some.injEq, Except.ok.injEq, Prod.mk.injEq] at h
                    obtain ⟨rfl, rfl⟩ := h
                    obtain ⟨dm, hwf, hval, hin⟩ := ihM _ _ _ _ hp
                    refine ⟨w, .obj dm, hw, hwf, by simp [Doc.value, hval], ?_⟩
                    rw [e, hin, h123]
                    simp [Doc.render]
        · by_cases h91 : c = 91
          · subst h91
            simp only [show ¬ ((91 : UInt8) = 123) by decide, if_false, if_true] at h
            by_cases hdep : maxNestingDepth ≤ depth
            · simp [hdep] at h
            · simp only [hdep, if_false] at h
              obtain ⟨w1, hw1, e1⟩ := skipSpace_split cs
              cases hsk1 : skipSpace cs with
              | nil => simp [hsk1] at h
              | cons c1 cs1 =>
                simp only [hsk1] at h
                rw [hsk1] at e1
                by_cases h93 : c1 = 93
                · simp only [h93, if_true, Option.some.injEq, Except.ok.injEq, Prod.mk.injEq] at h
                  obtain ⟨rfl, rfl⟩ := h
                  refine ⟨w, .arr0 w1, hw, hw1, rfl, ?_⟩
                  rw [e, e1, h93]
                  simp [Doc.render]
                · simp only [h93, if_false] at h
                  rw [← hsk1, parseElems_skipSpace] at h
                  cases hp : parseElems fuel (depth + 1) cs with
                  | none => simp [hp] at h
                  | some r =>
                    cases r with
                    | error err => simp [hp] at h
                    | ok p =>
                      obtain ⟨es, r⟩ := p
                      simp only [hp, Option.some.injEq, Except.ok.injEq, Prod.mk.injEq] at h
                      obtain ⟨rfl, rfl⟩ := h
                      obtain ⟨de, hwf, hval, hin⟩ := ihE _ _ _ _ hp
                      refine ⟨w, .arr de, hw, hwf, by simp [Doc.value, hval], ?_⟩
                      rw [e, hin]
                      simp [Doc.render]
          · simp only [h123, h91, if_false, Option.some.injEq] at h
            obtain ⟨d, hwf, hval, hin⟩ := scanScalar_sound c cs v rest h
            exact ⟨w, d, hw, hwf, hval, by rw [e, hin, List.append_assoc]⟩
    · intro depth inp vs rest h
      simp only [parseElems] at h
      cases hp : parseValue fuel depth inp with
      | none => simp [hp] at h
      | some r =>
        cases r with
        | error err => simp [hp] at h
        | ok p =>
          obtain ⟨v, r1⟩ := p
          simp only [hp] at h
          obtain ⟨w1, d, hw1, hwf, hval, hin⟩ := ihV _ _ _ _ hp
          obtain ⟨w2, hw2, e2⟩ := skipSpace_split r1
          cases hsk : skipSpace r1 with
          | nil => simp [hsk] at h
          | cons c cs =>
            simp only [hsk] at h
            rw [hsk] at e2
            by_cases h44 : c = 44
            · simp only [h44, if_true] at h
              cases hp2 : parseElems fuel depth cs with
              | none => simp [hp2] at h
              | some r =>
                cases r with
                | error err => simp [hp2] at h
                | ok p =>
                  obtain ⟨vs1, r2⟩ := p
                  simp only [hp2, Option.some.injEq, Except.ok.injEq, Prod.mk.injEq] at h
                  obtain ⟨rfl, rfl⟩ := h
                  obtain ⟨tl, htl, hvals, hin2⟩ := ihE _ _ _ _ hp2
                  refine ⟨.cons w1 d w2 tl, ?_, ?_, ?_⟩
                  · simp [DocElems.wf, hw1, hwf, hw2, htl]
                  · simp [DocElems.values, hval, hvals]
                  · rw [hin, e2, hin2, h44]
                    simp [DocElems.render]
            · by_cases h93 : c = 93
              · simp only [h44, h93, if_false, if_true, Option.some.injEq, Except.ok.injEq,
                  Prod.mk.injEq] at h
                obtain ⟨rfl, rfl⟩ := h
                refine ⟨.one w1 d w2, ?_, ?_, ?_⟩
                · simp [DocElems.wf, hw1, hwf, hw2]
                · simp [DocElems.values, hval]
                · rw [hin, e2, h93]
                  simp [DocElems.render]
              · simp [h44, h93] at h
    · intro depth inp ms rest h
      simp only [parseMembers] at h
      obtain ⟨w1, hw1, e1⟩ := skipSpace_split inp
      cases hsk : skipSpace inp with
      | nil => simp [hsk] at h
      | cons q r0 =>
        simp only [hsk] at h
        rw [hsk] at e1
        by_cases hq : q = 34
        · simp only [hq, if_true] at h
          cases hs : scanStr .inString r0 with
          | error err => simp [hs] at h
          | ok p =>
            obtain ⟨key, r1⟩ := p
            simp only [hs] at h
            have hkey := (scanStr_sound r0 key r1).1 hs
            have hr0 := scanStr_ok _ _ _ _ hs
            obtain ⟨w2, hw2, e2⟩ := skipSpace_split r1
            cases hsk2 : skipSpace r1 with
            | nil => simp [hsk2] at h
            | cons c2 r2 =>
              simp only [hsk2] at h
              rw [hsk2] at e2
              by_cases h58 : c2 = 58
              · simp only [h58, if_true] at h
                cases hp : parseValue fuel depth r2 with
                | none => simp [hp] at h
                | some r =>
                  cases r with
                  | error err => simp [hp] at h
                  | ok p =>
                    obtain ⟨v, r3⟩ := p
                    simp only [hp] at h
                    obtain ⟨w3, d, hw3, hwf, hval, hin⟩ := ihV _ _ _ _ hp
                    obtain ⟨w4, hw4, e4⟩ := skipSpace_split r3
                    cases hsk4 : skipSpace r3 with
                    | nil => simp [hsk4] at h
                    | cons c4 r4 =>
                      simp only [hsk4] at h
                      rw [hsk4] at e4
                      by_cases h44 : c4 = 44
                      · simp only [h44, if_true] at h
                        cases hp2 : parseMembers fuel depth r4 with
                        | none => simp [hp2] at h
                        | some r =>
                          cases r with
                          | error err => simp [hp2] at h
                          | ok p =>
                            obtain ⟨ms1, r5⟩ := p
                            simp only [hp2, Option.some.injEq, Except.ok.injEq,
                              Prod.mk.injEq] at h
                            obtain ⟨rfl, rfl⟩ := h
                            obtain ⟨tl, htl, hvals, hin2⟩ := ihM _ _ _ _ hp2
                            refine ⟨.cons w1 key w2 w3 d w4 tl, ?_, ?_, ?_⟩
                            · simp [DocMembers.wf, hw1, hkey, hw2, hw3, hwf, hw4, htl]
                            · simp [DocMembers.values, hval, hvals]
                            · rw [e1, hq, hr0, e2, h58, hin, e4, h44, hin2]
                              simp [DocMembers.render]
                      · by_cases h125 : c4 = 125
                        · simp only [h44, h125, if_false, if_true, Option.some.injEq,
                            Except.ok.injEq, Prod.mk.injEq] at h
                          obtain ⟨rfl, rfl⟩ := h
                          refine ⟨.one w1 key w2 w3 d w4, ?_, ?_, ?_⟩
                          · simp [DocMembers.wf, hw1, hkey, hw2, hw3, hwf, hw4]
                          · simp [DocMembers.values, hval]
                          · rw [e1, hq, hr0, e2, h58, hin, e4, h125]
                            simp [DocMembers.render]
                        · simp [h44, h125] at h
              · simp [h58] at h
        · simp [hq] at h

/-- What the decoder reads from a body is a JSON text that follows the
grammar, after optional white space; the decoder goes on after the text. -/
theorem readValue_sound (body : Bytes) (v : JValue) (rest : Bytes)
    (h : Decoder.readValue body = .ok (v, rest)) :
    ∃ (w : Bytes) (d : Doc), allSpace w = true ∧ d.wf = true ∧ d.value = v ∧
      body = w ++ d.render ++ rest := by
  unfold Decoder.readValue at h
  cases hsk : skipSpace body with
  | nil => simp [hsk] at h
  | cons c cs =>
    simp only [hsk] at h
    cases hp : parseValue (2 * body.length + 2) 0 body with
    | none => simp [hp] at h
    | some r =>
      simp only [hp] at h
      rw [h] at hp
      exact (parse_sound _).1 _ _ _ _ hp

/-! ## The lookup operations decode the first text of the body -/

theorem decodeStruct_fits {α : Type} (set : α → Bytes × JValue → Except Error α) (v : JValue)
    (cur : α) :
    (v.fitsStruct = false → decodeStruct set v cur = .error .unmarshalType) ∧
    (v = .null → decodeStruct set v cur = .ok cur) := by
  cases v <;> simp [JValue.fitsStruct, decodeStruct]

/-- A text whose value is an object or `null` starts with `n` or with an
opening brace. -/
theorem struct_text_head (w : Bytes) (d : Doc) (rest : Bytes) (hw : allSpace w = true)
    (hfit : d.value.fitsStruct = true) :
    (skipSpace (w ++ d.render ++ rest)).head? = some 110 ∨
    (skipSpace (w ++ d.render ++ rest)).head? = some 123 := by
  rw [List.append_assoc, skipSpace_append _ _ hw]
  cases d <;> simp [Doc.value, JValue.fitsStruct] at hfit
  · exact Or.inl (by simp [Doc.render, skipSpace, isSpace])
  · exact Or.inr (by simp [Doc.render, skipSpace, isSpace])
  · exact Or.inr (by simp [Doc.render, skipSpace, isSpace])

/-- The decoding of one value fails on a body that does not start with a
JSON text for a struct. -/
theorem decodeOne_error {α : Type} (set : α → Bytes × JValue → Except Error α) (zero : α)
    (body : Bytes)
    (h : ∀ w d rest, allSpace w = true → Doc.wf d = true → d.value.fitsStruct = true →
      body ≠ w ++ d.render ++ rest) :
    ∃ e, decodeOne (decodeStruct set) zero body = .error e := by
  cases hres : decodeOne (decodeStruct set) zero body with
  | error e => exact ⟨e, rfl⟩
  | ok r =>
    exfalso
    unfold decodeOne Decoder.Decode at hres
    cases hr : Decoder.readValue body with
    | error e => simp [hr] at hres
    | ok p =>
      obtain ⟨v, rest⟩ := p
      obtain ⟨w, d, hw, hwf, hval, hbody⟩ := readValue_sound body v rest hr
      have hfit : d.value.fitsStruct = true := by
        cases hf : d.value.fitsStruct with
        | true => rfl
        | false =>
          rw [hval] at hf
          simp [hr, (decodeStruct_fits set v zero).1 hf] at hres
      exact h w d rest hw hwf hfit hbody

/-- C4, amended: on a response with status 200 whose body does not start,
after optional white space, with a JSON text that follows the grammar and is
an object or `null`, the IP lookup and the AS lookup return an error and no
result.  Only the first JSON text of the body is decoded: the result is that
of storing this text, whatever follows it; a first text that is an array, a
string, a number or a boolean gives a type error, the first text `null` gives
the zero result without error. -/
theorem lookup_decodes_first_text (c : Client) (ctx : Option Context) (id body : Bytes) :
    (∀ req, c.newRequest ctx [ascii "ipquery", id] = .ok req →
      c.httpClient req = .ok ⟨200, body⟩ →
      ((∀ w d rest, allSpace w = true → Doc.wf d = true → d.value.fitsStruct = true →
          body ≠ w ++ d.render ++ rest) → ∃ e, c.IPQuery ctx id = .error e) ∧
      (∀ w d rest, body = w ++ Doc.render d ++ rest → allSpace w = true → d.ok = true →
        d.endsBefore rest = true →
        c.IPQuery ctx id = decodeIPQueryResponse d.value IPQueryResponse.zero ∧
        (d.value.fitsStruct = false → c.IPQuery ctx id = .error .unmarshalType) ∧
        (d.value = .null → c.IPQuery ctx id = .ok IPQueryResponse.zero))) ∧
    (∀ req, c.newRequest ctx [ascii "asquery", id] = .ok req →
      c.httpClient req = .ok ⟨200, body⟩ →
      ((∀ w d rest, allSpace w = true → Doc.wf d = true → d.value.fitsStruct = true →
          body ≠ w ++ d.render ++ rest) → ∃ e, c.ASQuery ctx id = .error e) ∧
      (∀ w d rest, body = w ++ Doc.render d ++ rest → allSpace w = true → d.ok = true →
        d.endsBefore rest = true →
        c.ASQuery ctx id = decodeASQueryResponse d.value ASQueryResponse.zero ∧
        (d.value.fitsStruct = false → c.ASQuery ctx id = .error .unmarshalType) ∧
        (d.value = .null → c.ASQuery ctx id = .ok ASQueryResponse.zero))) := by
  constructor
  · intro req hreq hresp
    have hop : c.IPQuery ctx id = decodeOne decodeIPQueryResponse IPQueryResponse.zero body := by
      unfold Client.IPQuery
      exact roundTrip_ok c ctx _ _ req _ hreq hresp
    refine ⟨fun h => ?_, fun w d rest hbody hw hd hend => ?_⟩
    · rw [hop]
      exact decodeOne_error IPQueryResponse.setField _ body h
    · have hdec : c.IPQuery ctx id = decodeIPQueryResponse d.value IPQueryResponse.zero := by
        rw [hop, hbody, decodeOne_render _ _ w d rest hw hd hend]
      refine ⟨hdec, fun hf => ?_, fun hn => ?_⟩
      · rw [hdec]; exact (decodeStruct_fits _ _ _).1 hf
      · rw [hdec]; exact (decodeStruct_fits _ _ _).2 hn
  · intro req hreq hresp
    have hop : c.ASQuery ctx id = decodeOne decodeASQueryResponse ASQueryResponse.zero body := by
      unfold Client.ASQuery
      exact roundTrip_ok c ctx _ _ req _ hreq hresp
    refine ⟨fun h => ?_, fun w d rest hbody hw hd hend => ?_⟩
    · rw [hop]
      exact decodeOne_error ASQueryResponse.setField _ body h
    · have hdec : c.ASQuery ctx id = decodeASQueryResponse d.value ASQueryResponse.zero := by
        rw [hop, hbody, decodeOne_render _ _ w d rest hw hd hend]
      refine ⟨hdec, fun hf => ?_, fun hn => ?_⟩
      · rw [hdec]; exact (decodeStruct_fits _ _ _).1 hf
      · rw [hdec]; exact (decodeStruct_fits _ _ _).2 hn

/-- C4, amended, on the body `[1,2]`, a JSON text that is not an object: the
IP lookup returns an error, and it is the type error. -/
theorem lookup_decodes_first_text_witness :
    (∀ w d rest, allSpace w = true → Doc.wf d = true → d.value.fitsStruct = true →
      ascii "[1,2]" ≠ w ++ d.render ++ rest) ∧
    ascii "[1,2]" = [] ++ sampleArrayDoc.render ++ [] ∧ sampleArrayDoc.ok = true ∧
    sampleArrayDoc.value.fitsStruct = false ∧
    (∃ e, (New (replyWith 200 (ascii "[1,2]")) []).IPQuery background (ascii "199.19.54.1")
      = .error e) ∧
    (New (replyWith 200 (ascii "[1,2]")) []).IPQuery background (ascii "199.19.54.1")
      = .error .unmarshalType :=
  have hno : ∀ w d rest, allSpace w = true → Doc.wf d = true → d.value.fitsStruct = true →
      ascii "[1,2]" ≠ w ++ d.render ++ rest := by
    intro w d rest hw _ hfit e
    have ht := struct_text_head w d rest hw hfit
    rw [← e] at ht
    have h91 : (skipSpace (ascii "[1,2]")).head? = some 91 := by decide
    rw [h91] at ht
    rcases ht with ht | ht <;> simp at ht
  have hbody : ascii "[1,2]" = [] ++ sampleArrayDoc.render ++ [] := by decide
  have h := (lookup_decodes_first_text (New (replyWith 200 (ascii "[1,2]")) []) background
    (ascii "199.19.54.1") (ascii "[1,2]")).1 sampleRequest (by decide!) rfl
  ⟨hno, hbody, by decide!, rfl, h.1 hno,
    (h.2 [] sampleArrayDoc [] hbody rfl (by decide!) rfl).2.1 rfl⟩

/-! ## The decoder computes the values of the literals -/

theorem toNat_ofNat_byte (n : Nat) : (UInt8.ofNat n).toNat = n % 256 := rfl

theorem hexDigit_spec (c : UInt8) (n : Nat) (h : hexDigit c = some n) :
    isHex c = true ∧ hexVal c = n ∧ n < 16 := by
  have := byte_forall (fun c => ∀ n, hexDigit c = some n → isHex c = true ∧ hexVal c = n ∧ n < 16)
    (by decide!) c
  exact this n h

theorem getu4_hex4 (h1 h2 h3 h4 : UInt8) (cp : Nat) (rest : Bytes)
    (h : hex4 h1 h2 h3 h4 = some cp) :
    getu4 (92 :: 117 :: h1 :: h2 :: h3 :: h4 :: rest) = some cp ∧ cp < 65536 := by
  unfold hex4 at h
  cases e1 : hexDigit h1 with
  | none => simp [e1] at h
  | some a =>
    cases e2 : hexDigit h2 with
    | none => simp [e1, e2] at h
    | some b =>
      cases e3 : hexDigit h3 with
      | none => simp [e1, e2, e3] at h
      | some c =>
        cases e4 : hexDigit h4 with
        | none => simp [e1, e2, e3, e4] at h
        | some d =>
          simp only [e1, e2, e3, e4, Option.some.injEq] at h
          obtain ⟨i1, v1, b1⟩ := hexDigit_spec _ _ e1
          obtain ⟨i2, v2, b2⟩ := hexDigit_spec _ _ e2
          obtain ⟨i3, v3, b3⟩ := hexDigit_spec _ _ e3
          obtain ⟨i4, v4, b4⟩ := hexDigit_spec _ _ e4
          refine ⟨?_, by omega⟩
          simp only [getu4, i1, i2, i3, i4, v1, v2, v3, v4, Bool.and_self, decide_True,
            if_true]
          congr 1
          omega

theorem escapeChar_spec (e b : UInt8) (h : escapeChar e = some b) :
    e ≠ 117 ∧ simpleEscape e = some b := by
  have := byte_forall (fun e => escapeChar e = none ∨ (e ≠ 117 ∧ simpleEscape e = escapeChar e))
    (by decide!) e
  rcases this with h0 | ⟨h1, h2⟩
  · rw [h0] at h; cases h
  · exact ⟨h1, h2.trans h⟩

theorem encodeRune_scalar (cp : Nat) (h : isScalar cp = true) : encodeRune cp = utf8 cp := by
  simp only [isScalar, Bool.and_eq_true, decide_eq_true_eq, Bool.not_eq_true', Bool.and_eq_false_imp,
    decide_eq_false_iff_not] at h
  unfold encodeRune utf8
  by_cases h1 : cp < 128
  · simp [h1]
  · by_cases h2 : cp < 2048
    · simp [h1, h2]
    · have h3 : ¬ (1114111 < cp) := by omega
      have h4 : ¬ (55296 ≤ cp ∧ cp ≤ 57343) := by
        intro ⟨a, b⟩
        have := h.2 a
        omega
      simp [h1, h2, h3, h4]

/-- An ASCII character that stands for itself. -/
theorem unquoteAux_plain (c : UInt8) (raw : Bytes) (h32 : 32 ≤ c) (h128 : c < 128)
    (h34 : c ≠ 34) (h92 : c ≠ 92) :
    unquoteAux 0 (c :: raw) = (unquoteAux 0 raw).map (fun t => c :: t) := by
  have h1 : ¬ (c < 32) := by
    simp only [byte_le_iff, byte_lt_iff] at *; omega
  conv => lhs; unfold unquoteAux
  simp [h92, h34, h1, h128]

/-- A two-character escape. -/
theorem unquoteAux_escape (e b : UInt8) (raw : Bytes) (h : escapeChar e = some b) :
    unquoteAux 0 (92 :: e :: raw) = (unquoteAux 0 raw).map (fun t => b :: t) := by
  obtain ⟨h1, h2⟩ := escapeChar_spec e b h
  rw [unquoteAux]
  simp [h1, h2, unquoteAux]

/-- A `\u` escape of a character that is not a surrogate. -/
theorem unquoteAux_unicode (h1 h2 h3 h4 : UInt8) (cp : Nat) (raw : Bytes)
    (h : hex4 h1 h2 h3 h4 = some cp) (hs : isScalar cp = true) :
    unquoteAux 0 (92 :: 117 :: h1 :: h2 :: h3 :: h4 :: raw)
      = (unquoteAux 0 raw).map (fun t => utf8 cp ++ t) := by
  obtain ⟨hg, -⟩ := getu4_hex4 h1 h2 h3 h4 cp raw h
  have hns : ¬ (55296 ≤ cp ∧ cp ≤ 57343) := by
    simp only [isScalar, Bool.and_eq_true, decide_eq_true_eq, Bool.not_eq_true',
      Bool.and_eq_false_imp, decide_eq_false_iff_not] at hs
    intro ⟨a, b⟩
    have := hs.2 a
    omega
  rw [unquoteAux]
  simp only [hg, encodeRune_scalar cp hs]
  simp [hns, unquoteAux]

/-- A pair of `\u` escapes of a high and a low surrogate. -/
theorem unquoteAux_pair (h1 h2 h3 h4 l1 l2 l3 l4 : UInt8) (hi lo : Nat) (raw : Bytes)
    (hh : hex4 h1 h2 h3 h4 = some hi) (hl : hex4 l1 l2 l3 l4 = some lo)
    (a1 : 0xD800 ≤ hi) (a2 : hi ≤ 0xDBFF) (a3 : 0xDC00 ≤ lo) (a4 : lo ≤ 0xDFFF) :
    unquoteAux 0 (92 :: 117 :: h1 :: h2 :: h3 :: h4 :: 92 :: 117 :: l1 :: l2 :: l3 :: l4 :: raw)
      = (unquoteAux 0 raw).map
          (fun t => utf8 (0x10000 + (hi - 0xD800) * 0x400 + (lo - 0xDC00)) ++ t) := by
  obtain ⟨hg, -⟩ := getu4_hex4 h1 h2 h3 h4 hi (92 :: 117 :: l1 :: l2 :: l3 :: l4 :: raw) hh
  obtain ⟨hg2, -⟩ := getu4_hex4 l1 l2 l3 l4 lo raw hl
  have hs : isScalar (0x10000 + (hi - 0xD800) * 0x400 + (lo - 0xDC00)) = true := by
    simp only [isScalar, Bool.and_eq_true, decide_eq_true_eq, Bool.not_eq_true',
      Bool.and_eq_false_imp, decide_eq_false_iff_not]
    constructor
    · omega
    · intro; omega
  have e : (hi - 55296) * 1024 + (lo - 56320) + 65536
      = 0x10000 + (hi - 0xD800) * 0x400 + (lo - 0xDC00) := by omega
  conv => lhs; unfold unquoteAux
  simp only [hg, List.drop, hg2, e, encodeRune_scalar _ hs]
  have c1 : (55296 ≤ hi) := a1
  have c2 : hi ≤ 57343 := by omega
  have c3 : hi ≤ 56319 := a2
  have c4 : 56320 ≤ lo := a3
  have c5 : lo ≤ 57343 := a4
  simp [c1, c2, c3, c4, c5, unquoteAux]

theorem unquoteAux_two (b0 b1 : UInt8) (raw : Bytes) (h0 : 194 ≤ b0.toNat) (h0' : b0.toNat ≤ 223)
    (h1 : 128 ≤ b1.toNat) (h1' : b1.toNat ≤ 191) :
    unquoteAux 0 (b0 :: b1 :: raw) = (unquoteAux 0 raw).map (fun t => [b0, b1] ++ t) := by
  have e1 : b0 ≠ 92 := by simp only [ne_eq, byte_eq_iff]; intro h; rw [h] at h0; revert h0; decide
  have e2 : b0 ≠ 34 := by simp only [ne_eq, byte_eq_iff]; intro h; rw [h] at h0; revert h0; decide
  have e3 : ¬ (b0 < 32) := by simp only [byte_lt_iff]; intro h; have : (32 : UInt8).toNat = 32 := rfl; omega
  have e4 : ¬ (b0 < 128) := by simp only [byte_lt_iff]; intro h; have : (128 : UInt8).toNat = 128 := rfl; omega
  have e5 : ¬ (b0 < 194) := by simp only [byte_lt_iff]; intro h; have : (194 : UInt8).toNat = 194 := rfl; omega
  have e6 : b0 ≤ 223 := by simp only [byte_le_iff]; have : (223 : UInt8).toNat = 223 := rfl; omega
  have e7 : isCont b1 = true := by
    simp only [isCont, Bool.and_eq_true, decide_eq_true_eq, byte_le_iff]
    have : (128 : UInt8).toNat = 128 := rfl
    have : (191 : UInt8).toNat = 191 := rfl
    omega
  conv => lhs; unfold unquoteAux
  simp [e1, e2, e3, e4, e5, e6, e7, utf8SeqLen, unquoteAux]

theorem unquoteAux_three (b0 b1 b2 : UInt8) (raw : Bytes) (h0 : 224 ≤ b0.toNat)
    (h0' : b0.toNat ≤ 239) (h1 : 128 ≤ b1.toNat) (h1' : b1.toNat ≤ 191)
    (hlo : b0.toNat = 224 → 160 ≤ b1.toNat) (hhi : b0.toNat = 237 → b1.toNat ≤ 159)
    (h2 : 128 ≤ b2.toNat) (h2' : b2.toNat ≤ 191) :
    unquoteAux 0 (b0 :: b1 :: b2 :: raw) = (unquoteAux 0 raw).map (fun t => [b0, b1, b2] ++ t) := by
  have n32 : (32 : UInt8).toNat = 32 := rfl
  have n128 : (128 : UInt8).toNat = 128 := rfl
  have n194 : (194 : UInt8).toNat = 194 := rfl
  have n223 : (223 : UInt8).toNat = 223 := rfl
  have n239 : (239 : UInt8).toNat = 239 := rfl
  have n191 : (191 : UInt8).toNat = 191 := rfl
  have n160 : (160 : UInt8).toNat = 160 := rfl
  have n159 : (159 : UInt8).toNat = 159 := rfl
  have n224 : (224 : UInt8).toNat = 224 := rfl
  have n237 : (237 : UInt8).toNat = 237 := rfl
  have e1 : b0 ≠ 92 := by simp only [ne_eq, byte_eq_iff]; intro h; rw [h] at h0; revert h0; decide
  have e2 : b0 ≠ 34 := by simp only [ne_eq, byte_eq_iff]; intro h; rw [h] at h0; revert h0; decide
  have e3 : ¬ (b0 < 32) := by simp only [byte_lt_iff]; omega
  have e4 : ¬ (b0 < 128) := by simp only [byte_lt_iff]; omega
  have e5 : ¬ (b0 < 194) := by simp only [byte_lt_iff]; omega
  have e6 : ¬ (b0 ≤ 223) := by simp only [byte_le_iff]; omega
  have e7 : b0 ≤ 239 := by simp only [byte_le_iff]; omega
  have e8 : isCont b2 = true := by
    simp only [isCont, Bool.and_eq_true, decide_eq_true_eq, byte_le_iff]; omega
  have e9 : (if b0 = 224 then (160 : UInt8) else 128) ≤ b1 := by
    by_cases h : b0 = 224
    · rw [if_pos h]; simp only [byte_le_iff]
      have := hlo (by rw [h]; rfl); omega
    · rw [if_neg h]; simp only [byte_le_iff]; omega
  have e10 : b1 ≤ (if b0 = 237 then (159 : UInt8) else 191) := by
    by_cases h : b0 = 237
    · rw [if_pos h]; simp only [byte_le_iff]
      have := hhi (by rw [h]; rfl); omega
    · rw [if_neg h]; simp only [byte_le_iff]; omega
  conv => lhs; unfold unquoteAux
  simp [e1, e2, e3, e4, e5, e6, e7, e8, e9, e10, utf8SeqLen, unquoteAux]

theorem unquoteAux_four (b0 b1 b2 b3 : UInt8) (raw : Bytes) (h0 : 240 ≤ b0.toNat)
    (h0' : b0.toNat ≤ 244) (h1 : 128 ≤ b1.toNat) (h1' : b1.toNat ≤ 191)
    (hlo : b0.toNat = 240 → 144 ≤ b1.toNat) (hhi : b0.toNat = 244 → b1.toNat ≤ 143)
    (h2 : 128 ≤ b2.toNat) (h2' : b2.toNat ≤ 191) (h3 : 128 ≤ b3.toNat) (h3' : b3.toNat ≤ 191) :
    unquoteAux 0 (b0 :: b1 :: b2 :: b3 :: raw)
      = (unquoteAux 0 raw).map (fun t => [b0, b1, b2, b3] ++ t) := by
  have n32 : (32 : UInt8).toNat = 32 := rfl
  have n128 : (128 : UInt8).toNat = 128 := rfl
  have n194 : (194 : UInt8).toNat = 194 := rfl
  have n223 : (223 : UInt8).toNat = 223 := rfl
  have n239 : (239 : UInt8).toNat = 239 := rfl
  have n244 : (244 : UInt8).toNat = 244 := rfl
  have n191 : (191 : UInt8).toNat = 191 := rfl
  have n144 : (144 : UInt8).toNat = 144 := rfl
  have n143 : (143 : UInt8).toNat = 143 := rfl
  have e1 : b0 ≠ 92 := by simp only [ne_eq, byte_eq_iff]; intro h; rw [h] at h0; revert h0; decide
  have e2 : b0 ≠ 34 := by simp only [ne_eq, byte_eq_iff]; intro h; rw [h] at h0; revert h0; decide
  have e3 : ¬ (b0 < 32) := by simp only [byte_lt_iff]; omega
  have e4 : ¬ (b0 < 128) := by simp only [byte_lt_iff]; omega
  have e5 : ¬ (b0 < 194) := by simp only [byte_lt_iff]; omega
  have e6 : ¬ (b0 ≤ 223) := by simp only [byte_le_iff]; omega
  have e7 : ¬ (b0 ≤ 239) := by simp only [byte_le_iff]; omega
  have e7' : b0 ≤ 244 := by simp only [byte_le_iff]; omega
  have e8 : isCont b2 = true := by
    simp only [isCont, Bool.and_eq_true, decide_eq_true_eq, byte_le_iff]; omega
  have e8' : isCont b3 = true := by
    simp only [isCont, Bool.and_eq_true, decide_eq_true_eq, byte_le_iff]; omega
  have e9 : (if b0 = 240 then (144 : UInt8) else 128) ≤ b1 := by
    by_cases h : b0 = 240
    · rw [if_pos h]; simp only [byte_le_iff]
      have := hlo (by rw [h]; rfl); omega
    · rw [if_neg h]; simp only [byte_le_iff]; omega
  have e10 : b1 ≤ (if b0 = 244 then (143 : UInt8) else 191) := by
    by_cases h : b0 = 244
    · rw [if_pos h]; simp only [byte_le_iff]
      have := hhi (by rw [h]; rfl); omega
    · rw [if_neg h]; simp only [byte_le_iff]; omega
  conv => lhs; unfold unquoteAux
  simp [e1, e2, e3, e4, e5, e6, e7, e7', e8, e8', e9, e10, utf8SeqLen, unquoteAux]

/-- A character beyond ASCII written in UTF-8. -/
theorem unquoteAux_wide (cp : Nat) (raw : Bytes) (h128 : 128 ≤ cp) (hs : isScalar cp = true) :
    unquoteAux 0 (utf8 cp ++ raw) = (unquoteAux 0 raw).map (fun t => utf8 cp ++ t) := by
  simp only [isScalar, Bool.and_eq_true, decide_eq_true_eq, Bool.not_eq_true',
    Bool.and_eq_false_imp, decide_eq_false_iff_not] at hs
  obtain ⟨hmax, hsur⟩ := hs
  have hsur' : 55296 ≤ cp → 57343 < cp := fun a => by have := hsur a; omega
  unfold utf8
  have c1 : ¬ cp < 128 := by omega
  rw [if_neg c1]
  by_cases c2 : cp < 2048
  · rw [if_pos c2]
    exact unquoteAux_two _ _ raw (by rw [toNat_ofNat_byte]; omega) (by rw [toNat_ofNat_byte]; omega)
      (by rw [toNat_ofNat_byte]; omega) (by rw [toNat_ofNat_byte]; omega)
  · rw [if_neg c2]
    by_cases c3 : cp < 65536
    · rw [if_pos c3]
      exact unquoteAux_three _ _ _ raw (by rw [toNat_ofNat_byte]; omega)
        (by rw [toNat_ofNat_byte]; omega) (by rw [toNat_ofNat_byte]; omega)
        (by rw [toNat_ofNat_byte]; omega)
        (by rw [toNat_ofNat_byte, toNat_ofNat_byte]; omega)
        (by rw [toNat_ofNat_byte, toNat_ofNat_byte]; omega)
        (by rw [toNat_ofNat_byte]; omega) (by rw [toNat_ofNat_byte]; omega)
    · rw [if_neg c3]
      exact unquoteAux_four _ _ _ _ raw (by rw [toNat_ofNat_byte]; omega)
        (by rw [toNat_ofNat_byte]; omega) (by rw [toNat_ofNat_byte]; omega)
        (by rw [toNat_ofNat_byte]; omega)
        (by rw [toNat_ofNat_byte, toNat_ofNat_byte]; omega)
        (by rw [toNat_ofNat_byte, toNat_ofNat_byte]; omega)
        (by rw [toNat_ofNat_byte]; omega) (by rw [toNat_ofNat_byte]; omega)
        (by rw [toNat_ofNat_byte]; omega) (by rw [toNat_ofNat_byte]; omega)

/-- The decoder turns a string literal into the text it stands for. -/
theorem StrValue_unquote (raw v : Bytes) (h : StrValue raw v) : unquote raw = some v := by
  unfold unquote
  induction h with
  | done => rfl
  | plain c raw v h32 h128 h34 h92 _ ih =>
    rw [unquoteAux_plain c raw h32 h128 h34 h92, ih]; rfl
  | wide cp raw v h128 hs _ ih =>
    rw [unquoteAux_wide cp raw h128 hs, ih]; rfl
  | escape e b raw v he _ ih =>
    rw [unquoteAux_escape e b raw he, ih]; rfl
  | unicode h1 h2 h3 h4 cp raw v hh hs _ ih =>
    rw [unquoteAux_unicode h1 h2 h3 h4 cp raw hh hs, ih]; rfl
  | pair h1 h2 h3 h4 l1 l2 l3 l4 hi lo raw v hh hl a1 a2 a3 a4 _ ih =>
    rw [unquoteAux_pair h1 h2 h3 h4 l1 l2 l3 l4 hi lo raw hh hl a1 a2 a3 a4, ih]; rfl

theorem placeValue_snoc (xs : List UInt8) (c : UInt8) :
    placeValue (xs ++ [c]) = placeValue xs + 10 ^ xs.length * (c.toNat - 48) := by
  induction xs with
  | nil => simp [placeValue]
  | cons x xs ih =>
    show (x.toNat - 48) + 10 * placeValue (xs ++ [c])
      = ((x.toNat - 48) + 10 * placeValue xs) + 10 ^ (xs.length + 1) * (c.toNat - 48)
    rw [ih, pow_succ]
    ring

theorem parseDigits_value (ds : Bytes) (h : ∀ c ∈ ds, (48 : UInt8) ≤ c ∧ c ≤ 57) (acc : Nat) :
    parseDigits ds acc = some (acc * 10 ^ ds.length + placeValue ds.reverse) := by
  induction ds generalizing acc with
  | nil => simp [parseDigits, placeValue]
  | cons c cs ih =>
    have hc := h c (List.mem_cons_self _ _)
    have hd : isDigit c = true := by
      simp only [isDigit, Bool.and_eq_true, decide_eq_true_eq]; exact hc
    rw [parseDigits, if_pos hd, ih (fun x hx => h x (List.mem_cons_of_mem _ hx)),
      List.reverse_cons, placeValue_snoc, List.length_reverse, List.length_cons, pow_succ]
    congr 1
    ring

/-- The decoder turns an integer literal into the integer it stands for. -/
theorem IntValue_ParseInt (lit : Bytes) (n : Int) (h : IntValue lit n) :
    strconv_ParseInt lit = some n := by
  obtain ⟨ds, hne, hdig, hlit, hlo, hhi⟩ := h
  have hp := parseDigits_value ds hdig 0
  rw [Nat.zero_mul, Nat.zero_add] at hp
  obtain ⟨c, cs, rfl⟩ : ∃ c cs, ds = c :: cs := by
    cases ds with
    | nil => exact absurd rfl hne
    | cons c cs => exact ⟨c, cs, rfl⟩
  rcases hlit with ⟨rfl, rfl⟩ | ⟨rfl, rfl⟩
  · have hc := hdig c (List.mem_cons_self _ _)
    have h45 : c ≠ 45 := by
      intro e; rw [e] at hc; exact absurd hc.1 (by decide)
    have h43 : c ≠ 43 := by
      intro e; rw [e] at hc; exact absurd hc.1 (by decide)
    have hlt : placeValue (c :: cs).reverse < 9223372036854775808 := by omega
    simp only [strconv_ParseInt, h45, h43, decide_False, Bool.or_self, Bool.false_eq_true,
      if_false, hp, hlt, if_true]
  · have hle : placeValue (c :: cs).reverse ≤ 9223372036854775808 := by omega
    simp only [strconv_ParseInt, decide_True, Bool.true_or, if_true, hp, hle]

/-- A text of ASCII characters other than the quotation mark, the reverse
solidus and the control characters stands for itself. -/
theorem StrValue_plain (s : Bytes)
    (h : ∀ c ∈ s, (32 : UInt8) ≤ c ∧ c < 128 ∧ c ≠ 34 ∧ c ≠ 92) : StrValue s s := by
  induction s with
  | nil => exact .done
  | cons c cs ih =>
    obtain ⟨h1, h2, h3, h4⟩ := h c (List.mem_cons_self _ _)
    exact .plain c cs cs h1 h2 h3 h4 (ih (fun x hx => h x (List.mem_cons_of_mem _ hx)))

/-- The value of a literal in two parts is the value of the first part, then
the value of the second. -/
theorem StrValue_append (a x b y : Bytes) (h1 : StrValue a x) (h2 : StrValue b y) :
    StrValue (a ++ b) (x ++ y) := by
  induction h1 with
  | done => exact h2
  | plain c raw v h32 h128 h34 h92 _ ih => exact .plain c _ _ h32 h128 h34 h92 ih
  | wide cp raw v h128 hs _ ih =>
    rw [List.append_assoc, List.append_assoc]
    exact .wide cp _ _ h128 hs ih
  | escape e b raw v he _ ih => exact .escape e b _ _ he ih
  | unicode h1 h2 h3 h4 cp raw v hh hs _ ih =>
    rw [List.append_assoc]
    exact .unicode h1 h2 h3 h4 cp _ _ hh hs ih
  | pair h1 h2 h3 h4 l1 l2 l3 l4 hi lo raw v hh hl a1 a2 a3 a4 _ ih =>
    rw [List.append_assoc]
    exact .pair h1 h2 h3 h4 l1 l2 l3 l4 hi lo _ _ hh hl a1 a2 a3 a4 ih

/-! ## Objects that hold a value are decoded to it -/

theorem strField_of_holds (lit : Option Bytes) (field : Bytes) (h : strHolds lit field) :
    strField lit field := by
  cases lit with
  | none => exact h
  | some raw => exact StrValue_unquote raw field h

theorem intField_of_holds (lit : Option Bytes) (field : Int) (h : intHolds lit field) :
    intField lit field := by
  cases lit with
  | none => exact h
  | some l => exact IntValue_ParseInt l field h

/-- Members that are each stored without error are stored without error one
after the other. -/
theorem storeMembers_total {α : Type} (set : α → Bytes × JValue → Except Error α)
    (ms : List (Bytes × JValue)) (h : ∀ m ∈ ms, ∀ r, ∃ y, set r m = .ok y) (cur : α) :
    ∃ y, storeMembers set ms cur = .ok y := by
  induction ms generalizing cur with
  | nil => exact ⟨cur, rfl⟩
  | cons m ms ih =>
    obtain ⟨y, hy⟩ := h m (List.mem_cons_self _ _) cur
    simp only [storeMembers, hy]
    exact ih (fun m' hm' => h m' (List.mem_cons_of_mem _ hm')) y

/-- The elements of an array are stored into fresh elements one by one, in
order; into a backing array they are stored without error. -/
theorem storeElems_holds {α : Type} (zero : α) (dec : JValue → α → Except Error α)
    (es : List JValue) (xs : List α)
    (h : List.Forall₂ (fun e x => dec e zero = .ok x ∧ ∀ cur, ∃ y, dec e cur = .ok y) es xs) :
    storeElems zero dec es [] = .ok xs ∧
    ∀ backing, ∃ ys, storeElems zero dec es backing = .ok ys := by
  induction h with
  | nil => exact ⟨rfl, fun _ => ⟨[], rfl⟩⟩
  | cons hx _ ih =>
    constructor
    · simp only [storeElems, List.headD_nil, hx.1, List.tail_nil, ih.1]
    · intro backing
      obtain ⟨y, hy⟩ := hx.2 (backing.headD zero)
      obtain ⟨ys, hys⟩ := ih.2 backing.tail
      exact ⟨y :: ys, by simp only [storeElems, hy, hys]⟩

/-- An array is stored into the nil slice as the slice of its elements, which
is not nil; into any slice it is stored without error. -/
theorem decodeSlice_holds {α : Type} (zero : α) (dec : JValue → α → Except Error α)
    (es : List JValue) (xs : List α)
    (h : List.Forall₂ (fun e x => dec e zero = .ok x ∧ ∀ cur, ∃ y, dec e cur = .ok y) es xs) :
    decodeSlice zero dec (.arr es) none = .ok (some ⟨xs, []⟩) ∧
    ∀ cur, ∃ s, decodeSlice zero dec (.arr es) cur = .ok s := by
  obtain ⟨h1, h2⟩ := storeElems_holds zero dec es xs h
  constructor
  · unfold decodeSlice
    simp only [h1]
    cases h with
    | nil => rfl
    | cons _ _ => simp
  · intro cur
    cases cur with
    | none =>
      obtain ⟨ys, hys⟩ := h2 []
      unfold decodeSlice
      simp only [hys]
      cases es with
      | nil => exact ⟨_, rfl⟩
      | cons _ _ => exact ⟨_, rfl⟩
    | some sl =>
      obtain ⟨ys, hys⟩ := h2 (sl.elems ++ sl.spare)
      unfold decodeSlice
      simp only [hys]
      cases es with
      | nil => exact ⟨_, rfl⟩
      | cons _ _ => exact ⟨_, rfl⟩

/-- An element that holds an item is stored into the zero item as this item, and
it is stored without error into any item. -/
theorem decodeItem_holds (v : JValue) (r : Item) (h : HoldsItem v r) :
    decodeItem v Item.zero = .ok r ∧ ∀ cur, ∃ y, decodeItem v cur = .ok y := by
  obtain ⟨o, extras, ms, rfl, hperm, hden, hext⟩ := h
  obtain ⟨h_o, h_t⟩ := hden
  have h_o := strField_of_holds _ _ h_o
  have h_t := intField_of_holds _ _ h_t
  have hupd : ∀ x ∈ o.members ++ extras, ∃ u ∈ ([fun x => { x with O := r.O },
     fun x => { x with Timestamp := r.Timestamp },
     fun x => x] : List (Item → Item)),
      ∀ r', Item.setField r' x = .ok (u r') := by
    intro x hx
    simp only [List.mem_append, ItemLiterals.members, mem_memberOf, or_assoc] at hx
    rcases hx with ⟨a, ha, rfl⟩ | ⟨a, ha, rfl⟩ | hx
    · rw [ha] at h_o
      exact ⟨fun x => { x with O := r.O }, by simp, fun r' => by
        rw [setField_Item_o]; simp [decodeString, strField] at h_o ⊢; simp [h_o]⟩
    · rw [ha] at h_t
      exact ⟨fun x => { x with Timestamp := r.Timestamp }, by simp, fun r' => by
        rw [setField_Item_t]; simp [decodeInt, intField] at h_t ⊢; simp [h_t]⟩
    · exact ⟨fun x => x, by simp, fun r' => setField_Item_unknown r' x (hext x hx)⟩
  have hcomm := storeStep_comm_of_updates Item.setField (o.members ++ extras) _ hupd
    (by
      intro u hu v hv r'
      simp only [List.mem_cons, List.mem_singleton, List.not_mem_nil, or_false] at hu hv
      rcases hu with rfl | rfl | rfl <;>
        rcases hv with rfl | rfl | rfl <;> rfl)
  have htotal : ∀ cur, ∃ y, storeMembers Item.setField ms cur = .ok y := by
    intro cur
    rw [storeMembers_perm _ _ ms cur hperm hcomm]
    exact storeMembers_total _ _ (fun m hm r' => by
      obtain ⟨u, -, hu⟩ := hupd m hm
      exact ⟨_, hu r'⟩) cur
  unfold decodeItem decodeStruct
  simp only
  refine ⟨?_, htotal⟩
  rw [storeMembers_perm _ _ ms _ hperm hcomm]
  have s_o : ∀ cur : Item, cur.O = Item.zero.O →
      storeMembers Item.setField (memberOf (ascii "o") JValue.str o.o) cur
        = .ok { cur with O := r.O } := by
    intro cur hcur
    cases ho : o.o with
    | none =>
      rw [ho] at h_o
      simp only [strField] at h_o
      simp only [memberOf, storeMembers, h_o]
      rw [show cur = { cur with O := cur.O } from rfl, hcur]; rfl
    | some a =>
      rw [ho] at h_o
      simp only [strField] at h_o
      simp only [memberOf, storeMembers, setField_Item_o, decodeString, h_o]
  have s_t : ∀ cur : Item, cur.Timestamp = Item.zero.Timestamp →
      storeMembers Item.setField (memberOf (ascii "t") JValue.num o.t) cur
        = .ok { cur with Timestamp := r.Timestamp } := by
    intro cur hcur
    cases ho : o.t with
    | none =>
      rw [ho] at h_t
      simp only [intField] at h_t
      simp only [memberOf, storeMembers, h_t]
      rw [show cur = { cur with Timestamp := cur.Timestamp } from rfl, hcur]; rfl
    | some a =>
      rw [ho] at h_t
      simp only [intField] at h_t
      simp only [memberOf, storeMembers, setField_Item_t, decodeInt, h_t]
  have e0 := s_o Item.zero rfl
  have e1 := (storeMembers_append_ok _ _ _ _ _ e0).trans (s_t _ rfl)
  rw [ItemLiterals.members, storeMembers_append_ok _ _ _ _ _ e1]
  exact storeMembers_noop _ extras _
    (fun m hm r' => setField_Item_unknown r' m (hext m hm))

/-- An array of elements that hold items is stored into the nil slice as the
slice of these items, and into any slice without error. -/
theorem decodeSlice_Item_holds (es : List JValue) (xs : List Item)
    (h : List.Forall₂ HoldsItem es xs) :
    decodeSlice Item.zero decodeItem (.arr es) none = .ok (some ⟨xs, []⟩) ∧
    ∀ cur, ∃ s, decodeSlice Item.zero decodeItem (.arr es) cur = .ok s :=
  decodeSlice_holds Item.zero decodeItem es xs
    (List.Forall₂.imp (fun _ _ hx => decodeItem_holds _ _ hx) h)

/-- An element that holds a prefix is stored into the zero prefix as this
prefix, and it is stored without error into any prefix. -/
theorem decodePrefix_holds (v : JValue) (r : Prefix) (h : HoldsPrefix v r) :
    decodePrefix v Prefix.zero = .ok r ∧ ∀ cur, ∃ y, decodePrefix v cur = .ok y := by
  obtain ⟨o, extras, ms, rfl, hperm, hden, hext⟩ := h
  obtain ⟨h_n, h_inbgp⟩ := hden
  have h_n := strField_of_holds _ _ h_n
  have h_inbgp := intField_of_holds _ _ h_inbgp
  have hupd : ∀ x ∈ o.members ++ extras, ∃ u ∈ ([fun x => { x with N := r.N },
     fun x => { x with InBGP := r.InBGP },
     fun x => x] : List (Prefix → Prefix)),
      ∀ r', Prefix.setField r' x = .ok (u r') := by
    intro x hx
    simp only [List.mem_append, PrefixLiterals.members, mem_memberOf, or_assoc] at hx
    rcases hx with ⟨a, ha, rfl⟩ | ⟨a, ha, rfl⟩ | hx
    · rw [ha] at h_n
      exact ⟨fun x => { x with N := r.N }, by simp, fun r' => by
        rw [setField_Prefix_n]; simp [decodeString, strField] at h_n ⊢; simp [h_n]⟩
    · rw [ha] at h_inbgp
      exact ⟨fun x => { x with InBGP := r.InBGP }, by simp, fun r' => by
        rw [setField_Prefix_inbgp]; simp [decodeInt, intField] at h_inbgp ⊢; simp [h_inbgp]⟩
    · exact ⟨fun x => x, by simp, fun r' => setField_Prefix_unknown r' x (hext x hx)⟩
  have hcomm := storeStep_comm_of_updates Prefix.setField (o.members ++ extras) _ hupd
    (by
      intro u hu v hv r'
      simp only [List.mem_cons, List.mem_singleton, List.not_mem_nil, or_false] at hu hv
      rcases hu with rfl | rfl | rfl <;>
        rcases hv with rfl | rfl | rfl <;> rfl)
  have htotal : ∀ cur, ∃ y, storeMembers Prefix.setField ms cur = .ok y := by
    intro cur
    rw [storeMembers_perm _ _ ms cur hperm hcomm]
    exact storeMembers_total _ _ (fun m hm r' => by
      obtain ⟨u, -, hu⟩ := hupd m hm
      exact ⟨_, hu r'⟩) cur
  unfold decodePrefix decodeStruct
  simp only
  refine ⟨?_, htotal⟩
  rw [storeMembers_perm _ _ ms _ hperm hcomm]
  have s_n : ∀ cur : Prefix, cur.N = Prefix.zero.N →
      storeMembers Prefix.setField (memberOf (ascii "n") JValue.str o.n) cur
        = .ok { cur with N := r.N } := by
    intro cur hcur
    cases ho : o.n with
    | none =>
      rw [ho] at h_n
      simp only [strField] at h_n
      simp only [memberOf, storeMembers, h_n]
      rw [show cur = { cur with N := cur.N } from rfl, hcur]; rfl
    | some a =>
      rw [ho] at h_n
      simp only [strField] at h_n
      simp only [memberOf, storeMembers, setField_Prefix_n, decodeString, h_n]
  have s_inbgp : ∀ cur : Prefix, cur.InBGP = Prefix.zero.InBGP →
      storeMembers Prefix.setField (memberOf (ascii "inbgp") JValue.num o.inbgp) cur
        = .ok { cur with InBGP := r.InBGP } := by
    intro cur hcur
    cases ho : o.inbgp with
    | none =>
      rw [ho] at h_inbgp
      simp only [intField] at h_inbgp
      simp only [memberOf, storeMembers, h_inbgp]
      rw [show cur = { cur with InBGP := cur.InBGP } from rfl, hcur]; rfl
    | some a =>
      rw [ho] at h_inbgp
      simp only [intField] at h_inbgp
      simp only [memberOf, storeMembers, setField_Prefix_inbgp, decodeInt, h_inbgp]
  have e0 := s_n Prefix.zero rfl
  have e1 := (storeMembers_append_ok _ _ _ _ _ e0).trans (s_inbgp _ rfl)
  rw [PrefixLiterals.members, storeMembers_append_ok _ _ _ _ _ e1]
  exact storeMembers_noop _ extras _
    (fun m hm r' => setField_Prefix_unknown r' m (hext m hm))

/-- An array of elements that hold prefixes is stored into the nil slice as the
slice of these prefixes, and into any slice without error. -/
theorem decodeSlice_Prefix_holds (es : List JValue) (xs : List Prefix)
    (h : List.Forall₂ HoldsPrefix es xs) :
    decodeSlice Prefix.zero decodePrefix (.arr es) none = .ok (some ⟨xs, []⟩) ∧
    ∀ cur, ∃ s, decodeSlice Prefix.zero decodePrefix (.arr es) cur = .ok s :=
  decodeSlice_holds Prefix.zero decodePrefix es xs
    (List.Forall₂.imp (fun _ _ hx => decodePrefix_holds _ _ hx) h)

/-- An object that holds a record is stored into the zero record as this record. -/
theorem decodePassiveDNS_holds (v : JValue) (r : PassiveDNS) (h : HoldsRecord v r) :
    decodePassiveDNS v PassiveDNS.zero = .ok r := by
  obtain ⟨o, extras, ms, rfl, hperm, hden, hext⟩ := h
  obtain ⟨h_rrname, h_rrdata, h_rrtype, h_time_first, h_time_last, h_count⟩ := hden
  have h_rrname := strField_of_holds _ _ h_rrname
  have h_rrdata := strField_of_holds _ _ h_rrdata
  have h_rrtype := strField_of_holds _ _ h_rrtype
  have h_time_first := intField_of_holds _ _ h_time_first
  have h_time_last := intField_of_holds _ _ h_time_last
  have h_count := intField_of_holds _ _ h_count
  have hupd : ∀ x ∈ o.members ++ extras, ∃ u ∈ ([fun x => { x with RRName := r.RRName },
     fun x => { x with RRData := r.RRData },
     fun x => { x with RRType := r.RRType },
     fun x => { x with TimeFirst := r.TimeFirst },
     fun x => { x with TimeLast := r.TimeLast },
     fun x => { x with Count := r.Count },
     fun x => x] : List (PassiveDNS → PassiveDNS)),
      ∀ r', PassiveDNS.setField r' x = .ok (u r') := by
    intro x hx
    simp only [List.mem_append, RecordLiterals.members, mem_memberOf, or_assoc] at hx
    rcases hx with ⟨a, ha, rfl⟩ | ⟨a, ha, rfl⟩ | ⟨a, ha, rfl⟩ | ⟨a, ha, rfl⟩ | ⟨a, ha, rfl⟩ | ⟨a, ha, rfl⟩ | hx
    · rw [ha] at h_rrname
      exact ⟨fun x => { x with RRName := r.RRName }, by simp, fun r' => by
        rw [setField_PassiveDNS_rrname]; simp [decodeString, strField] at h_rrname ⊢; simp [h_rrname]⟩
    · rw [ha] at h_rrdata
      exact ⟨fun x => { x with RRData := r.RRData }, by simp, fun r' => by
        rw [setField_PassiveDNS_rrdata]; simp [decodeString, strField] at h_rrdata ⊢; simp [h_rrdata]⟩
    · rw [ha] at h_rrtype
      exact ⟨fun x => { x with RRType := r.RRType }, by simp, fun r' => by
        rw [setField_PassiveDNS_rrtype]; simp [decodeString, strField] at h_rrtype ⊢; simp [h_rrtype]⟩
    · rw [ha] at h_time_first
      exact ⟨fun x => { x with TimeFirst := r.TimeFirst }, by simp, fun r' => by
        rw [setField_PassiveDNS_time_first]; simp [decodeInt, intField] at h_time_first ⊢; simp [h_time_first]⟩
    · rw [ha] at h_time_last
      exact ⟨fun x => { x with TimeLast := r.TimeLast }, by simp, fun r' => by
        rw [setField_PassiveDNS_time_last]; simp [decodeInt, intField] at h_time_last ⊢; simp [h_time_last]⟩
    · rw [ha] at h_count
      exact ⟨fun x => { x with Count := r.Count }, by simp, fun r' => by
        rw [setField_PassiveDNS_count]; simp [decodeInt, intField] at h_count ⊢; simp [h_count]⟩
    · exact ⟨fun x => x, by simp, fun r' => setField_PassiveDNS_unknown r' x (hext x hx)⟩
  have hcomm := storeStep_comm_of_updates PassiveDNS.setField (o.members ++ extras) _ hupd
    (by
      intro u hu v hv r'
      simp only [List.mem_cons, List.mem_singleton, List.not_mem_nil, or_false] at hu hv
      rcases hu with rfl | rfl | rfl | rfl | rfl | rfl | rfl <;>
        rcases hv with rfl | rfl | rfl | rfl | rfl | rfl | rfl <;> rfl)
  unfold decodePassiveDNS decodeStruct
  simp only
  rw [storeMembers_perm _ _ ms _ hperm hcomm]
  have s_rrname : ∀ cur : PassiveDNS, cur.RRName = PassiveDNS.zero.RRName →
      storeMembers PassiveDNS.setField (memberOf (ascii "rrname") JValue.str o.rrname) cur
        = .ok { cur with RRName := r.RRName } := by
    intro cur hcur
    cases ho : o.rrname with
    | none =>
      rw [ho] at h_rrname
      simp only [strField] at h_rrname
      simp only [memberOf, storeMembers, h_rrname]
      rw [show cur = { cur with RRName := cur.RRName } from rfl, hcur]; rfl
    | some a =>
      rw [ho] at h_rrname
      simp only [strField] at h_rrname
      simp only [memberOf, storeMembers, setField_PassiveDNS_rrname, decodeString, h_rrname]
  have s_rrdata : ∀ cur : PassiveDNS, cur.RRData = PassiveDNS.zero.RRData →
      storeMembers PassiveDNS.setField (memberOf (ascii "rrdata") JValue.str o.rrdata) cur
        = .ok { cur with RRData := r.RRData } := by
    intro cur hcur
    cases ho : o.rrdata with
    | none =>
      rw [ho] at h_rrdata
      simp only [strField] at h_rrdata
      simp only [memberOf, storeMembers, h_rrdata]
      rw [show cur = { cur with RRData := cur.RRData } from rfl, hcur]; rfl
    | some a =>
      rw [ho] at h_rrdata
      simp only [strField] at h_rrdata
      simp only [memberOf, storeMembers, setField_PassiveDNS_rrdata, decodeString, h_rrdata]
  have s_rrtype : ∀ cur : PassiveDNS, cur.RRType = PassiveDNS.zero.RRType →
      storeMembers PassiveDNS.setField (memberOf (ascii "rrtype") JValue.str o.rrtype) cur
        = .ok { cur with RRType := r.RRType } := by
    intro cur hcur
    cases ho : o.rrtype with
    | none =>
      rw [ho] at h_rrtype
      simp only [strField] at h_rrtype
      simp only [memberOf, storeMembers, h_rrtype]
      rw [show cur = { cur with RRType := cur.RRType } from rfl, hcur]; rfl
    | some a =>
      rw [ho] at h_rrtype
      simp only [strField] at h_rrtype
      simp only [memberOf, storeMembers, setField_PassiveDNS_rrtype, decodeString, h_rrtype]
  have s_time_first : ∀ cur : PassiveDNS, cur.TimeFirst = PassiveDNS.zero.TimeFirst →
      storeMembers PassiveDNS.setField (memberOf (ascii "time_first") JValue.num o.time_first) cur
        = .ok { cur with TimeFirst := r.TimeFirst } := by
    intro cur hcur
    cases ho : o.time_first with
    | none =>
      rw [ho] at h_time_first
      simp only [intField] at h_time_first
      simp only [memberOf, storeMembers, h_time_first]
      rw [show cur = { cur with TimeFirst := cur.TimeFirst } from rfl, hcur]; rfl
    | some a =>
      rw [ho] at h_time_first
      simp only [intField] at h_time_first
      simp only [memberOf, storeMembers, setField_PassiveDNS_time_first, decodeInt, h_time_first]
  have s_time_last : ∀ cur : PassiveDNS, cur.TimeLast = PassiveDNS.zero.TimeLast →
      storeMembers PassiveDNS.setField (memberOf (ascii "time_last") JValue.num o.time_last) cur
        = .ok { cur with TimeLast := r.TimeLast } := by
    intro cur hcur
    cases ho : o.time_last with
    | none =>
      rw [ho] at h_time_last
      simp only [intField] at h_time_last
      simp only [memberOf, storeMembers, h_time_last]
      rw [show cur = { cur with TimeLast := cur.TimeLast } from rfl, hcur]; rfl
    | some a =>
      rw [ho] at h_time_last
      simp only [intField] at h_time_last
      simp only [memberOf, storeMembers, setField_PassiveDNS_time_last, decodeInt, h_time_last]
  have s_count : ∀ cur : PassiveDNS, cur.Count = PassiveDNS.zero.Count →
      storeMembers PassiveDNS.setField (memberOf (ascii "count") JValue.num o.count) cur
        = .ok { cur with Count := r.Count } := by
    intro cur hcur
    cases ho : o.count with
    | none =>
      rw [ho] at h_count
      simp only [intField] at h_count
      simp only [memberOf, storeMembers, h_count]
      rw [show cur = { cur with Count := cur.Count } from rfl, hcur]; rfl
    | some a =>
      rw [ho] at h_count
      simp only [intField] at h_count
      simp only [memberOf, storeMembers, setField_PassiveDNS_count, decodeInt, h_count]
  have e0 := s_rrname PassiveDNS.zero rfl
  have e1 := (storeMembers_append_ok _ _ _ _ _ e0).trans (s_rrdata _ rfl)
  have e2 := (storeMembers_append_ok _ _ _ _ _ e1).trans (s_rrtype _ rfl)
  have e3 := (storeMembers_append_ok _ _ _ _ _ e2).trans (s_time_first _ rfl)
  have e4 := (storeMembers_append_ok _ _ _ _ _ e3).trans (s_time_last _ rfl)
  have e5 := (storeMembers_append_ok _ _ _ _ _ e4).trans (s_count _ rfl)
  rw [RecordLiterals.members, storeMembers_append_ok _ _ _ _ _ e5]
  exact storeMembers_noop _ extras _
    (fun m hm r' => setField_PassiveDNS_unknown r' m (hext m hm))

/-- An asquery object that holds a result is stored into the zero value as this
result. -/
theorem decodeASQueryResponse_holds (v : JValue) (r : ASQueryResponse) (h : HoldsASQuery v r) :
    decodeASQueryResponse v ASQueryResponse.zero = .ok r := by
  obtain ⟨o, extras, ms, rfl, hperm, hden, hext⟩ := h
  obtain ⟨h_status, h_nets⟩ := hden
  have h_status := strField_of_holds _ _ h_status
  let gNets : Option (Slice Prefix) → Option (Slice Prefix) := fun cur =>
    match o.nets with
    | some es =>
      match decodeSlice Prefix.zero decodePrefix (.arr es) cur with
      | .ok s => s
      | .error _ => cur
    | none => cur
  have hupd : ∀ x ∈ o.members ++ extras, ∃ u ∈ ([fun x => { x with Status := r.Status },
     fun x => { x with Nets := gNets x.Nets },
     fun x => x] : List (ASQueryResponse → ASQueryResponse)),
      ∀ r', ASQueryResponse.setField r' x = .ok (u r') := by
    intro x hx
    simp only [List.mem_append, ASQueryLiterals.members, mem_memberOf, or_assoc] at hx
    rcases hx with ⟨a, ha, rfl⟩ | ⟨a, ha, rfl⟩ | hx
    · rw [ha] at h_status
      exact ⟨fun x => { x with Status := r.Status }, by simp, fun r' => by
        rw [setField_ASQueryResponse_status]; simp [decodeString, strField] at h_status ⊢; simp [h_status]⟩
    · rw [ha] at h_nets
      obtain ⟨items, hitems, -⟩ := h_nets
      refine ⟨fun x => { x with Nets := gNets x.Nets }, by simp, fun r' => ?_⟩
      obtain ⟨s, hs⟩ := (decodeSlice_Prefix_holds a items hitems).2 r'.Nets
      rw [setField_ASQueryResponse_nets, hs]
      simp only [gNets, ha, hs]
    · exact ⟨fun x => x, by simp, fun r' => setField_ASQueryResponse_unknown r' x (hext x hx)⟩
  have hcomm := storeStep_comm_of_updates ASQueryResponse.setField (o.members ++ extras) _ hupd
    (by
      intro u hu v hv r'
      simp only [List.mem_cons, List.mem_singleton, List.not_mem_nil, or_false] at hu hv
      rcases hu with rfl | rfl | rfl <;>
        rcases hv with rfl | rfl | rfl <;> rfl)
  unfold decodeASQueryResponse decodeStruct
  simp only
  rw [storeMembers_perm _ _ ms _ hperm hcomm]
  have s_status : ∀ cur : ASQueryResponse, cur.Status = ASQueryResponse.zero.Status →
      storeMembers ASQueryResponse.setField (memberOf (ascii "status") JValue.str o.status) cur
        = .ok { cur with Status := r.Status } := by
    intro cur hcur
    cases ho : o.status with
    | none =>
      rw [ho] at h_status
      simp only [strField] at h_status
      simp only [memberOf, storeMembers, h_status]
      rw [show cur = { cur with Status := cur.Status } from rfl, hcur]; rfl
    | some a =>
      rw [ho] at h_status
      simp only [strField] at h_status
      simp only [memberOf, storeMembers, setField_ASQueryResponse_status, decodeString, h_status]
  have s_nets : ∀ cur : ASQueryResponse, cur.Nets = none →
      storeMembers ASQueryResponse.setField (memberOf (ascii "nets") JValue.arr o.nets) cur
        = .ok { cur with Nets := r.Nets } := by
    intro cur hcur
    cases ho : o.nets with
    | none =>
      rw [ho] at h_nets
      simp only [prefixesHold] at h_nets
      simp only [memberOf, storeMembers, h_nets]
      rw [show cur = { cur with Nets := cur.Nets } from rfl, hcur]
    | some a =>
      rw [ho] at h_nets
      obtain ⟨items, hitems, hr⟩ := h_nets
      have hs := (decodeSlice_Prefix_holds a items hitems).1
      simp only [memberOf, storeMembers, setField_ASQueryResponse_nets, hcur, hs, hr]
  have e0 := s_status ASQueryResponse.zero rfl
  have e1 := (storeMembers_append_ok _ _ _ _ _ e0).trans (s_nets _ rfl)
  rw [ASQueryLiterals.members, storeMembers_append_ok _ _ _ _ _ e1]
  exact storeMembers_noop _ extras _
    (fun m hm r' => setField_ASQueryResponse_unknown r' m (hext m hm))

/-- An ipquery object that holds a result is stored into the zero value as this
result. -/
theorem decodeIPQueryResponse_holds (v : JValue) (r : IPQueryResponse) (h : HoldsIPQuery v r) :
    decodeIPQueryResponse v IPQueryResponse.zero = .ok r := by
  obtain ⟨o, extras, ms, rfl, hperm, hden, hext⟩ := h
  obtain ⟨h_status, h_city, h_country, h_asn, h_asname, h_whoisdesc, h_routedesc, h_bgproute, h_act, h_acth, h_pas, h_pash⟩ := hden
  have h_status := strField_of_holds _ _ h_status
  have h_city := strField_of_holds _ _ h_city
  have h_country := strField_of_holds _ _ h_country
  have h_asn := intField_of_holds _ _ h_asn
  have h_asname := strField_of_holds _ _ h_asname
  have h_whoisdesc := strField_of_holds _ _ h_whoisdesc
  have h_routedesc := strField_of_holds _ _ h_routedesc
  have h_bgproute := strField_of_holds _ _ h_bgproute
  let gActiveForwardDNS : Option (Slice Item) → Option (Slice Item) := fun cur =>
    match o.act with
    | some es =>
      match decodeSlice Item.zero decodeItem (.arr es) cur with
      | .ok s => s
      | .error _ => cur
    | none => cur
  let gActiveDNSHistory : Option (Slice Item) → Option (Slice Item) := fun cur =>
    match o.acth with
    | some es =>
      match decodeSlice Item.zero decodeItem (.arr es) cur with
      | .ok s => s
      | .error _ => cur
    | none => cur
  let gPassiveReverseDNS : Option (Slice Item) → Option (Slice Item) := fun cur =>
    match o.pas with
    | some es =>
      match decodeSlice Item.zero decodeItem (.arr es) cur with
      | .ok s => s
      | .error _ => cur
    | none => cur
  let gPassiveDNSHistory : Option (Slice Item) → Option (Slice Item) := fun cur =>
    match o.pash with
    | some es =>
      match decodeSlice Item.zero decodeItem (.arr es) cur with
      | .ok s => s
      | .error _ => cur
    | none => cur
  have hupd : ∀ x ∈ o.members ++ extras, ∃ u ∈ ([fun x => { x with Status := r.Status },
     fun x => { x with City := r.City },
     fun x => { x with Country := r.Country },
     fun x => { x with AS := r.AS },
     fun x => { x with ASName := r.ASName },
     fun x => { x with Whois := r.Whois },
     fun x => { x with Route := r.Route },
     fun x => { x with BGPRoute := r.BGPRoute },
     fun x => { x with ActiveForwardDNS := gActiveForwardDNS x.ActiveForwardDNS },
     fun x => { x with ActiveDNSHistory := gActiveDNSHistory x.ActiveDNSHistory },
     fun x => { x with PassiveReverseDNS := gPassiveReverseDNS x.PassiveReverseDNS },
     fun x => { x with PassiveDNSHistory := gPassiveDNSHistory x.PassiveDNSHistory },
     fun x => x] : List (IPQueryResponse → IPQueryResponse)),
      ∀ r', IPQueryResponse.setField r' x = .ok (u r') := by
    intro x hx
    simp only [List.mem_append, IPQueryLiterals.members, mem_memberOf, or_assoc] at hx
    rcases hx with ⟨a, ha, rfl⟩ | ⟨a, ha, rfl⟩ | ⟨a, ha, rfl⟩ | ⟨a, ha, rfl⟩ | ⟨a, ha, rfl⟩ | ⟨a, ha, rfl⟩ | ⟨a, ha, rfl⟩ | ⟨a, ha, rfl⟩ | ⟨a, ha, rfl⟩ | ⟨a, ha, rfl⟩ | ⟨a, ha, rfl⟩ | ⟨a, ha, rfl⟩ | hx
    · rw [ha] at h_status
      exact ⟨fun x => { x with Status := r.Status }, by simp, fun r' => by
        rw [setField_IPQueryResponse_status]; simp [decodeString, strField] at h_status ⊢; simp [h_status]⟩
    · rw [ha] at h_city
      exact ⟨fun x => { x with City := r.City }, by simp, fun r' => by
        rw [setField_IPQueryResponse_city]; simp [decodeString, strField] at h_city ⊢; simp [h_city]⟩
    · rw [ha] at h_country
      exact ⟨fun x => { x with Country := r.Country }, by simp, fun r' => by
        rw [setField_IPQueryResponse_country]; simp [decodeString, strField] at h_country ⊢; simp [h_country]⟩
    · rw [ha] at h_asn
      exact ⟨fun x => { x with AS := r.AS }, by simp, fun r' => by
        rw [setField_IPQueryResponse_as]; simp [decodeInt, intField] at h_asn ⊢; simp [h_asn]⟩
    · rw [ha] at h_asname
      exact ⟨fun x => { x with ASName := r.ASName }, by simp, fun r' => by
        rw [setField_IPQueryResponse_asname]; simp [decodeString, strField] at h_asname ⊢; simp [h_asname]⟩
    · rw [ha] at h_whoisdesc
      exact ⟨fun x => { x with Whois := r.Whois }, by simp, fun r' => by
        rw [setField_IPQueryResponse_whoisdesc]; simp [decodeString, strField] at h_whoisdesc ⊢; simp [h_whoisdesc]⟩
    · rw [ha] at h_routedesc
      exact ⟨fun x => { x with Route := r.Route }, by simp, fun r' => by
        rw [setField_IPQueryResponse_routedesc]; simp [decodeString, strField] at h_routedesc ⊢; simp [h_routedesc]⟩
    · rw [ha] at h_bgproute
      exact ⟨fun x => { x with BGPRoute := r.BGPRoute }, by simp, fun r' => by
        rw [setField_IPQueryResponse_bgproute]; simp [decodeString, strField] at h_bgproute ⊢; simp [h_bgproute]⟩
    · rw [ha] at h_act
      obtain ⟨items, hitems, -⟩ := h_act
      refine ⟨fun x => { x with ActiveForwardDNS := gActiveForwardDNS x.ActiveForwardDNS }, by simp, fun r' => ?_⟩
      obtain ⟨s, hs⟩ := (decodeSlice_Item_holds a items hitems).2 r'.ActiveForwardDNS
      rw [setField_IPQueryResponse_act, hs]
      simp only [gActiveForwardDNS, ha, hs]
    · rw [ha] at h_acth
      obtain ⟨items, hitems, -⟩ := h_acth
      refine ⟨fun x => { x with ActiveDNSHistory := gActiveDNSHistory x.ActiveDNSHistory }, by simp, fun r' => ?_⟩
      obtain ⟨s, hs⟩ := (decodeSlice_Item_holds a items hitems).2 r'.ActiveDNSHistory
      rw [setField_IPQueryResponse_acth, hs]
      simp only [gActiveDNSHistory, ha, hs]
    · rw [ha] at h_pas
      obtain ⟨items, hitems, -⟩ := h_pas
      refine ⟨fun x => { x with PassiveReverseDNS := gPassiveReverseDNS x.PassiveReverseDNS }, by simp, fun r' => ?_⟩
      obtain ⟨s, hs⟩ := (decodeSlice_Item_holds a items hitems).2 r'.PassiveReverseDNS
      rw [setField_IPQueryResponse_pas, hs]
      simp only [gPassiveReverseDNS, ha, hs]
    · rw [ha] at h_pash
      obtain ⟨items, hitems, -⟩ := h_pash
      refine ⟨fun x => { x with PassiveDNSHistory := gPassiveDNSHistory x.PassiveDNSHistory }, by simp, fun r' => ?_⟩
      obtain ⟨s, hs⟩ := (decodeSlice_Item_holds a items hitems).2 r'.PassiveDNSHistory
      rw [setField_IPQueryResponse_pash, hs]
      simp only [gPassiveDNSHistory, ha, hs]
    · exact ⟨fun x => x, by simp, fun r' => setField_IPQueryResponse_unknown r' x (hext x hx)⟩
  have hcomm := storeStep_comm_of_updates IPQueryResponse.setField (o.members ++ extras) _ hupd
    (by
      intro u hu v hv r'
      simp only [List.mem_cons, List.mem_singleton, List.not_mem_nil, or_false] at hu hv
      rcases hu with rfl | rfl | rfl | rfl | rfl | rfl | rfl | rfl | rfl | rfl | rfl | rfl | rfl <;>
        rcases hv with rfl | rfl | rfl | rfl | rfl | rfl | rfl | rfl | rfl | rfl | rfl | rfl | rfl <;> rfl)
  unfold decodeIPQueryResponse decodeStruct
  simp only
  rw [storeMembers_perm _ _ ms _ hperm hcomm]
  have s_status : ∀ cur : IPQueryResponse, cur.Status = IPQueryResponse.zero.Status →
      storeMembers IPQueryResponse.setField (memberOf (ascii "status") JValue.str o.status) cur
        = .ok { cur with Status := r.Status } := by
    intro cur hcur
    cases ho : o.status with
    | none =>
      rw [ho] at h_status
      simp only [strField] at h_status
      simp only [memberOf, storeMembers, h_status]
      rw [show cur = { cur with Status := cur.Status } from rfl, hcur]; rfl
    | some a =>
      rw [ho] at h_status
      simp only [strField] at h_status
      simp only [memberOf, storeMembers, setField_IPQueryResponse_status, decodeString, h_status]
  have s_city : ∀ cur : IPQueryResponse, cur.City = IPQueryResponse.zero.City →
      storeMembers IPQueryResponse.setField (memberOf (ascii "city") JValue.str o.city) cur
        = .ok { cur with City := r.City } := by
    intro cur hcur
    cases ho : o.city with
    | none =>
      rw [ho] at h_city
      simp only [strField] at h_city
      simp only [memberOf, storeMembers, h_city]
      rw [show cur = { cur with City := cur.City } from rfl, hcur]; rfl
    | some a =>
      rw [ho] at h_city
      simp only [strField] at h_city
      simp only [memberOf, storeMembers, setField_IPQueryResponse_city, decodeString, h_city]
  have s_country : ∀ cur : IPQueryResponse, cur.Country = IPQueryResponse.zero.Country →
      storeMembers IPQueryResponse.setField (memberOf (ascii "country") JValue.str o.country) cur
        = .ok { cur with Country := r.Country } := by
    intro cur hcur
    cases ho : o.country with
    | none =>
      rw [ho] at h_country
      simp only [strField] at h_country
      simp only [memberOf, storeMembers, h_country]
      rw [show cur = { cur with Country := cur.Country } from rfl, hcur]; rfl
    | some a =>
      rw [ho] at h_country
      simp only [strField] at h_country
      simp only [memberOf, storeMembers, setField_IPQueryResponse_country, decodeString, h_country]
  have s_asn : ∀ cur : IPQueryResponse, cur.AS = IPQueryResponse.zero.AS →
      storeMembers IPQueryResponse.setField (memberOf (ascii "as") JValue.num o.asn) cur
        = .ok { cur with AS := r.AS } := by
    intro cur hcur
    cases ho : o.asn with
    | none =>
      rw [ho] at h_asn
      simp only [intField] at h_asn
      simp only [memberOf, storeMembers, h_asn]
      rw [show cur = { cur with AS := cur.AS } from rfl, hcur]; rfl
    | some a =>
      rw [ho] at h_asn
      simp only [intField] at h_asn
      simp only [memberOf, storeMembers, setField_IPQueryResponse_as, decodeInt, h_asn]
  have s_asname : ∀ cur : IPQueryResponse, cur.ASName = IPQueryResponse.zero.ASName →
      storeMembers IPQueryResponse.setField (memberOf (ascii "asname") JValue.str o.asname) cur
        = .ok { cur with ASName := r.ASName } := by
    intro cur hcur
    cases ho : o.asname with
    | none =>
      rw [ho] at h_asname
      simp only [strField] at h_asname
      simp only [memberOf, storeMembers, h_asname]
      rw [show cur = { cur with ASName := cur.ASName } from rfl, hcur]; rfl
    | some a =>
      rw [ho] at h_asname
      simp only [strField] at h_asname
      simp only [memberOf, storeMembers, setField_IPQueryResponse_asname, decodeString, h_asname]
  have s_whoisdesc : ∀ cur : IPQueryResponse, cur.Whois = IPQueryResponse.zero.Whois →
      storeMembers IPQueryResponse.setField (memberOf (ascii "whoisdesc") JValue.str o.whoisdesc) cur
        = .ok { cur with Whois := r.Whois } := by
    intro cur hcur
    cases ho : o.whoisdesc with
    | none =>
      rw [ho] at h_whoisdesc
      simp only [strField] at h_whoisdesc
      simp only [memberOf, storeMembers, h_whoisdesc]
      rw [show cur = { cur with Whois := cur.Whois } from rfl, hcur]; rfl
    | some a =>
      rw [ho] at h_whoisdesc
      simp only [strField] at h_whoisdesc
      simp only [memberOf, storeMembers, setField_IPQueryResponse_whoisdesc, decodeString, h_whoisdesc]
  have s_routedesc : ∀ cur : IPQueryResponse, cur.Route = IPQueryResponse.zero.Route →
      storeMembers IPQueryResponse.setField (memberOf (ascii "routedesc") JValue.str o.routedesc) cur
        = .ok { cur with Route := r.Route } := by
    intro cur hcur
    cases ho : o.routedesc with
    | none =>
      rw [ho] at h_routedesc
      simp only [strField] at h_routedesc
      simp only [memberOf, storeMembers, h_routedesc]
      rw [show cur = { cur with Route := cur.Route } from rfl, hcur]; rfl
    | some a =>
      rw [ho] at h_routedesc
      simp only [strField] at h_routedesc
      simp only [memberOf, storeMembers, setField_IPQueryResponse_routedesc, decodeString, h_routedesc]
  have s_bgproute : ∀ cur : IPQueryResponse, cur.BGPRoute = IPQueryResponse.zero.BGPRoute →
      storeMembers IPQueryResponse.setField (memberOf (ascii "bgproute") JValue.str o.bgproute) cur
        = .ok { cur with BGPRoute := r.BGPRoute } := by
    intro cur hcur
    cases ho : o.bgproute with
    | none =>
      rw [ho] at h_bgproute
      simp only [strField] at h_bgproute
      simp only [memberOf, storeMembers, h_bgproute]
      rw [show cur = { cur with BGPRoute := cur.BGPRoute } from rfl, hcur]; rfl
    | some a =>
      rw [ho] at h_bgproute
      simp only [strField] at h_bgproute
      simp only [memberOf, storeMembers, setField_IPQueryResponse_bgproute, decodeString, h_bgproute]
  have s_act : ∀ cur : IPQueryResponse, cur.ActiveForwardDNS = none →
      storeMembers IPQueryResponse.setField (memberOf (ascii "act") JValue.arr o.act) cur
        = .ok { cur with ActiveForwardDNS := r.ActiveForwardDNS } := by
    intro cur hcur
    cases ho : o.act with
    | none =>
      rw [ho] at h_act
      simp only [itemsHold] at h_act
      simp only [memberOf, storeMembers, h_act]
      rw [show cur = { cur with ActiveForwardDNS := cur.ActiveForwardDNS } from rfl, hcur]
    | some a =>
      rw [ho] at h_act
      obtain ⟨items, hitems, hr⟩ := h_act
      have hs := (decodeSlice_Item_holds a items hitems).1
      simp only [memberOf, storeMembers, setField_IPQueryResponse_act, hcur, hs, hr]
  have s_acth : ∀ cur : IPQueryResponse, cur.ActiveDNSHistory = none →
      storeMembers IPQueryResponse.setField (memberOf (ascii "acth") JValue.arr o.acth) cur
        = .ok { cur with ActiveDNSHistory := r.ActiveDNSHistory } := by
    intro cur hcur
    cases ho : o.acth with
    | none =>
      rw [ho] at h_acth
      simp only [itemsHold] at h_acth
      simp only [memberOf, storeMembers, h_acth]
      rw [show cur = { cur with ActiveDNSHistory := cur.ActiveDNSHistory } from rfl, hcur]
    | some a =>
      rw [ho] at h_acth
      obtain ⟨items, hitems, hr⟩ := h_acth
      have hs := (decodeSlice_Item_holds a items hitems).1
      simp only [memberOf, storeMembers, setField_IPQueryResponse_acth, hcur, hs, hr]
  have s_pas : ∀ cur : IPQueryResponse, cur.PassiveReverseDNS = none →
      storeMembers IPQueryResponse.setField (memberOf (ascii "pas") JValue.arr o.pas) cur
        = .ok { cur with PassiveReverseDNS := r.PassiveReverseDNS } := by
    intro cur hcur
    cases ho : o.pas with
    | none =>
      rw [ho] at h_pas
      simp only [itemsHold] at h_pas
      simp only [memberOf, storeMembers, h_pas]
      rw [show cur = { cur with PassiveReverseDNS := cur.PassiveReverseDNS } from rfl, hcur]
    | some a =>
      rw [ho] at h_pas
      obtain ⟨items, hitems, hr⟩ := h_pas
      have hs := (decodeSlice_Item_holds a items hitems).1
      simp only [memberOf, storeMembers, setField_IPQueryResponse_pas, hcur, hs, hr]
  have s_pash : ∀ cur : IPQueryResponse, cur.PassiveDNSHistory = none →
      storeMembers IPQueryResponse.setField (memberOf (ascii "pash") JValue.arr o.pash) cur
        = .ok { cur with PassiveDNSHistory := r.PassiveDNSHistory } := by
    intro cur hcur
    cases ho : o.pash with
    | none =>
      rw [ho] at h_pash
      simp only [itemsHold] at h_pash
      simp only [memberOf, storeMembers, h_pash]
      rw [show cur = { cur with PassiveDNSHistory := cur.PassiveDNSHistory } from rfl, hcur]
    | some a =>
      rw [ho] at h_pash
      obtain ⟨items, hitems, hr⟩ := h_pash
      have hs := (decodeSlice_Item_holds a items hitems).1
      simp only [memberOf, storeMembers, setField_IPQueryResponse_pash, hcur, hs, hr]
  have e0 := s_status IPQueryResponse.zero rfl
  have e1 := (storeMembers_append_ok _ _ _ _ _ e0).trans (s_city _ rfl)
  have e2 := (storeMembers_append_ok _ _ _ _ _ e1).trans (s_country _ rfl)
  have e3 := (storeMembers_append_ok _ _ _ _ _ e2).trans (s_asn _ rfl)
  have e4 := (storeMembers_append_ok _ _ _ _ _ e3).trans (s_asname _ rfl)
  have e5 := (storeMembers_append_ok _ _ _ _ _ e4).trans (s_whoisdesc _ rfl)
  have e6 := (storeMembers_append_ok _ _ _ _ _ e5).trans (s_routedesc _ rfl)
  have e7 := (storeMembers_append_ok _ _ _ _ _ e6).trans (s_bgproute _ rfl)
  have e8 := (storeMembers_append_ok _ _ _ _ _ e7).trans (s_act _ rfl)
  have e9 := (storeMembers_append_ok _ _ _ _ _ e8).trans (s_acth _ rfl)
  have e10 := (storeMembers_append_ok _ _ _ _ _ e9).trans (s_pas _ rfl)
  have e11 := (storeMembers_append_ok _ _ _ _ _ e10).trans (s_pash _ rfl)
  rw [IPQueryLiterals.members, storeMembers_append_ok _ _ _ _ _ e11]
  exact storeMembers_noop _ extras _
    (fun m hm r' => setField_IPQueryResponse_unknown r' m (hext m hm))

/-! ## The records of the passive DNS operations -/

theorem isObject_of_record (d : Doc) (r : PassiveDNS) (h : HoldsRecord d.value r) :
    d.isObject = true := by
  obtain ⟨o, extras, ms, hv, -⟩ := h
  exact isObject_of_value d ms hv

/-- Objects that hold records are stored as these records: one record for
each object, in order. -/
theorem storeAll_holds (vs : List JValue) (recs : List PassiveDNS)
    (h : List.Forall₂ HoldsRecord vs recs) : storeAll vs = .ok recs := by
  induction h with
  | nil => rfl
  | cons hv _ ih =>
    simp only [storeAll, decodePassiveDNS_holds _ _ hv, ih, prepend]
    rfl

/-- C2, as amended: for every number of JSON objects, one per line, in a
response with status 200, where the members of each object with the keys
`rrname`, `rrdata` and `rrtype` are strings and those with the keys
`time_first`, `time_last` and `count` are integers of 64 bits, both passive
DNS operations return no error and exactly one record for each object, in the
order of the body.  Each field of a record is the value at its key in the
object of the record: the text of the string with its escapes replaced, the
integer of the number, and the zero value when the object lacks the key. -/
theorem typed_lines_decode (c : Client) (ctx : Option Context) (id : Bytes) (docs : List Doc)
    (recs : List PassiveDNS) (hdocs : ∀ d ∈ docs, d.ok = true)
    (hvals : List.Forall₂ (fun d r => HoldsRecord d.value r) docs recs) :
    recs.length = docs.length ∧
    (∀ req, c.newRequest ctx [ascii "pdns", ascii "forward", id] = .ok req →
      c.httpClient req = .ok ⟨200, lines docs⟩ → c.PassiveDNSForward ctx id = .ok recs) ∧
    (∀ req, c.newRequest ctx [ascii "pdns", ascii "reverse", id] = .ok req →
      c.httpClient req = .ok ⟨200, lines docs⟩ → c.PassiveDNSReverse ctx id = .ok recs) := by
  have hobj : ∀ d ∈ docs, d.ok = true ∧ d.isObject = true := by
    intro d hd
    obtain ⟨r, hr⟩ := forall₂_left _ _ _ hvals d hd
    exact ⟨hdocs d hd, isObject_of_record d r hr⟩
  have hdec : decodeStream (lines docs) = .ok recs := by
    have h := decodeStream_lines docs [] rfl hobj
    rw [List.nil_append] at h
    rw [h]
    exact storeAll_holds _ _ ((forall₂_map_left _ _ _ _).mpr hvals)
  refine ⟨hvals.length_eq.symm, ?_, ?_⟩
  · intro req hreq hresp
    unfold Client.PassiveDNSForward
    rw [roundTrip_ok c ctx _ _ req _ hreq hresp, hdec]
  · intro req hreq hresp
    unfold Client.PassiveDNSReverse
    rw [roundTrip_ok c ctx _ _ req _ hreq hresp, hdec]

/-- The literal `a\u002eiana-servers\u002Enet` stands for
`a.iana-servers.net`. -/
theorem escapedName_value :
    StrValue (ascii "a\\u002eiana-servers\\u002Enet") (ascii "a.iana-servers.net") :=
  StrValue_append (ascii "a") (ascii "a") _ _ (StrValue_plain _ (by decide))
    (.unicode 48 48 50 101 46 _ _ (by decide) (by decide)
      (StrValue_append (ascii "iana-servers") (ascii "iana-servers") _ _
        (StrValue_plain _ (by decide))
        (.unicode 48 48 50 69 46 _ _ (by decide) (by decide)
          (StrValue_plain (ascii "net") (by decide)))))

/-- The literal with the escapes of the quotation mark and the tab, the
surrogate pair `\ud83d\ude00` and the character U+00E9 in UTF-8 stands for
the text `"v=spf1"`, a tab, the character U+1F600 in UTF-8 and ` caf` with
U+00E9. -/
theorem escapedData_value :
    StrValue (ascii "\\\"v=spf1\\\"\\t\\ud83d\\ude00 caf" ++ [0xC3, 0xA9])
      (ascii "\"v=spf1\"\t" ++ [0xF0, 0x9F, 0x98, 0x80] ++ ascii " caf" ++ [0xC3, 0xA9]) :=
  .escape 34 34 _ _ (by decide)
    (StrValue_append (ascii "v=spf1") (ascii "v=spf1") _ _ (StrValue_plain _ (by decide))
      (.escape 34 34 _ _ (by decide)
        (.escape 116 9 _ _ (by decide)
          (.pair 100 56 51 100 100 101 48 48 0xD83D 0xDE00 _ _ (by decide) (by decide)
            (by decide) (by decide) (by decide) (by decide)
            (StrValue_append (ascii " caf") (ascii " caf") _ _ (StrValue_plain _ (by decide))
              (.wide 0xE9 [] [] (by decide) (by decide) .done))))))

/-- The first object of the example holds the first record. -/
theorem sampleDoc1_holds : HoldsRecord sampleDoc1.value sampleRecord1 :=
  ⟨sampleRecordLiterals, [], _, rfl, List.Perm.refl _,
    ⟨StrValue_plain (ascii "a.iana-servers.net") (by decide),
      StrValue_plain (ascii "2001:500:8c::53") (by decide),
      StrValue_plain (ascii "AAAA") (by decide),
      ⟨ascii "1441242410", by decide, by decide, Or.inl ⟨rfl, by decide⟩, by decide, by decide⟩,
      ⟨ascii "1460542918", by decide, by decide, Or.inl ⟨rfl, by decide⟩, by decide, by decide⟩,
      ⟨ascii "18", by decide, by decide, Or.inl ⟨rfl, by decide⟩, by decide, by decide⟩⟩,
    by simp⟩

/-- The object with escapes holds the record with the texts the escapes stand
for; the fields of the keys it lacks are zero. -/
theorem escapedDoc_holds : HoldsRecord escapedDoc.value escapedRecord :=
  ⟨escapedLiterals, [(ascii "zone", .bool true)], _, rfl, List.Perm.refl _,
    ⟨escapedName_value, escapedData_value, rfl,
      ⟨ascii "1441242410", by decide, by decide, Or.inr ⟨rfl, by decide⟩, by decide, by decide⟩,
      rfl,
      ⟨ascii "18", by decide, by decide, Or.inl ⟨rfl, by decide⟩, by decide, by decide⟩⟩,
    by intro m hm; rw [List.mem_singleton.mp hm]; decide!⟩

/-- C2, as amended, on a body of two lines, the second with escapes, a
negative number and without two of the keys: the forward lookup returns the
two records. -/
theorem typed_lines_decode_witness :
    (∀ d ∈ [sampleDoc1, escapedDoc], d.ok = true) ∧
    List.Forall₂ (fun d r => HoldsRecord d.value r) [sampleDoc1, escapedDoc]
      [sampleRecord1, escapedRecord] ∧
    (New (replyWith 200 (lines [sampleDoc1, escapedDoc])) []).PassiveDNSForward background
      (ascii "a.iana-servers.net") = .ok [sampleRecord1, escapedRecord] :=
  have h1 : ∀ d ∈ [sampleDoc1, escapedDoc], d.ok = true := by decide!
  have h2 : List.Forall₂ (fun d r => HoldsRecord d.value r) [sampleDoc1, escapedDoc]
      [sampleRecord1, escapedRecord] :=
    .cons sampleDoc1_holds (.cons escapedDoc_holds .nil)
  ⟨h1, h2,
    (typed_lines_decode (New (replyWith 200 (lines [sampleDoc1, escapedDoc])) []) background
      (ascii "a.iana-servers.net") [sampleDoc1, escapedDoc] [sampleRecord1, escapedRecord]
      h1 h2).2.1 sampleForwardRequest (by decide!) rfl⟩

/-! ## Text that is not JSON in the stream of records -/

/-- A text whose value is an object or `null` starts with `nu` or with an
opening brace. -/
theorem struct_text_start (w : Bytes) (d : Doc) (rest : Bytes) (hw : allSpace w = true)
    (hfit : d.value.fitsStruct = true) :
    (skipSpace (w ++ d.render ++ rest)).take 2 = [110, 117] ∨
    (skipSpace (w ++ d.render ++ rest)).head? = some 123 := by
  rw [List.append_assoc, skipSpace_append _ _ hw]
  cases d <;> simp [Doc.value, JValue.fitsStruct] at hfit
  · exact Or.inl (by simp [Doc.render, skipSpace, isSpace])
  · exact Or.inr (by simp [Doc.render, skipSpace, isSpace])
  · exact Or.inr (by simp [Doc.render, skipSpace, isSpace])

/-- Reading a record fails on a rest of the body that does not start with a
JSON text for a record. -/
theorem Decode_error (tail : Bytes)
    (h : ∀ w d rest, allSpace w = true → Doc.wf d = true → d.value.fitsStruct = true →
      tail ≠ w ++ d.render ++ rest) :
    ∃ e, Decoder.Decode decodePassiveDNS tail PassiveDNS.zero = .error e := by
  obtain ⟨e, he⟩ := decodeOne_error PassiveDNS.setField PassiveDNS.zero tail h
  cases hd : Decoder.Decode decodePassiveDNS tail PassiveDNS.zero with
  | error e' => exact ⟨e', rfl⟩
  | ok p =>
    exfalso
    have hd' : Decoder.Decode (decodeStruct PassiveDNS.setField) tail PassiveDNS.zero = .ok p := hd
    unfold decodeOne at he
    rw [hd'] at he
    cases he

/-- The next byte of the rest of the body that is not white space. -/
theorem skipSpace_next (w : Bytes) (b : UInt8) (more : Bytes) (hw : allSpace w = true)
    (hb : isSpace b = false) : skipSpace (w ++ b :: more) = b :: more := by
  rw [skipSpace_append w _ hw]
  exact skipSpace_cons_of_not_space b more hb

/-- C3, as amended: the body is decoded as a stream of JSON values, not line
by line.  After any number of objects that hold records, in any layout, when
the rest of the body has a next byte other than white space, `]` and a
closing brace, and does not start, after white space, with a JSON text that
follows the grammar and is an object or `null`, both passive DNS operations
return an error and no records: the records of the objects before are
dropped, though these objects alone decode to them without error.  When the
next byte other than white space is `]` or a closing brace, the decoding
stops there without error and the operations return the records read so
far. -/
theorem malformed_text_is_error (c : Client) (ctx : Option Context) (id : Bytes)
    (items : List (Bytes × Doc)) (tail : Bytes) (recs : List PassiveDNS)
    (hitems : streamOK items = true)
    (hvals : List.Forall₂ HoldsRecord (streamValues items) recs) :
    decodeStream (renderStream items []) = .ok recs ∧
    (∀ w b more, tail = w ++ b :: more → allSpace w = true → isSpace b = false →
      b ≠ 93 → b ≠ 125 →
      (∀ w1 d rest, allSpace w1 = true → Doc.wf d = true → d.value.fitsStruct = true →
        tail ≠ w1 ++ d.render ++ rest) →
      ∃ e,
        (∀ req, c.newRequest ctx [ascii "pdns", ascii "forward", id] = .ok req →
          c.httpClient req = .ok ⟨200, renderStream items tail⟩ →
          c.PassiveDNSForward ctx id = .error e) ∧
        (∀ req, c.newRequest ctx [ascii "pdns", ascii "reverse", id] = .ok req →
          c.httpClient req = .ok ⟨200, renderStream items tail⟩ →
          c.PassiveDNSReverse ctx id = .error e)) ∧
    (∀ w b more, tail = w ++ b :: more → allSpace w = true → b = 93 ∨ b = 125 →
      (∀ req, c.newRequest ctx [ascii "pdns", ascii "forward", id] = .ok req →
        c.httpClient req = .ok ⟨200, renderStream items tail⟩ →
        c.PassiveDNSForward ctx id = .ok recs) ∧
      (∀ req, c.newRequest ctx [ascii "pdns", ascii "reverse", id] = .ok req →
        c.httpClient req = .ok ⟨200, renderStream items tail⟩ →
        c.PassiveDNSReverse ctx id = .ok recs)) := by
  have hstore := storeAll_holds _ _ hvals
  refine ⟨?_, ?_, ?_⟩
  · rw [decodeStream_render items [] hitems, hstore, decodeStream_space [] rfl]
    simp [andThen, prepend]
  · intro w b more htail hw hb h93 h125 hbad
    obtain ⟨e, he⟩ := Decode_error tail hbad
    have hmore : Decoder.More tail = true := by
      unfold Decoder.More
      rw [htail, skipSpace_next w b more hw hb]
      simp [h93, h125]
    have h1 : decodeStream (renderStream items tail) = .error e := by
      rw [decodeStream_render items tail hitems, hstore, decodeStream_unfold tail, hmore, he]
      rfl
    refine ⟨e, ?_, ?_⟩
    · intro req hreq hresp
      unfold Client.PassiveDNSForward
      rw [roundTrip_ok c ctx _ _ req _ hreq hresp, h1]
    · intro req hreq hresp
      unfold Client.PassiveDNSReverse
      rw [roundTrip_ok c ctx _ _ req _ hreq hresp, h1]
  · intro w b more htail hw hb
    have hsp : isSpace b = false := by
      rcases hb with rfl | rfl <;> decide
    have hmore : Decoder.More tail = false := by
      unfold Decoder.More
      rw [htail, skipSpace_next w b more hw hsp]
      rcases hb with rfl | rfl <;> rfl
    have h1 : decodeStream (renderStream items tail) = .ok recs := by
      rw [decodeStream_render items tail hitems, hstore, decodeStream_unfold tail, hmore]
      simp [andThen, prepend]
    refine ⟨?_, ?_⟩
    · intro req hreq hresp
      unfold Client.PassiveDNSForward
      rw [roundTrip_ok c ctx _ _ req _ hreq hresp, h1]
    · intro req hreq hresp
      unfold Client.PassiveDNSReverse
      rw [roundTrip_ok c ctx _ _ req _ hreq hresp, h1]

/-- C3, as amended, on a body of three lines, an object, the text `not json`
and an object: the forward lookup returns an error, the syntax error, and no
records.  With a closing brace in place of `not json` it returns the record
of the first line without error. -/
theorem malformed_text_is_error_witness :
    streamOK [([], sampleDoc1)] = true ∧
    List.Forall₂ HoldsRecord (streamValues [([], sampleDoc1)]) [sampleRecord1] ∧
    renderStream [([], sampleDoc1)] garbageTail
      = sampleDoc1.render ++ ascii "\nnot json\n" ++ sampleDoc2.render ++ [10] ∧
    (∃ e, (New (replyWith 200 (renderStream [([], sampleDoc1)] garbageTail)) []).PassiveDNSForward
      background (ascii "a.iana-servers.net") = .error e) ∧
    (New (replyWith 200 (renderStream [([], sampleDoc1)] garbageTail)) []).PassiveDNSForward
      background (ascii "a.iana-servers.net") = .error .badSyntax ∧
    (New (replyWith 200 (renderStream [([], sampleDoc1)] braceTail)) []).PassiveDNSForward
      background (ascii "a.iana-servers.net") = .ok [sampleRecord1] :=
  have h1 : streamOK [([], sampleDoc1)] = true := by decide!
  have h2 : List.Forall₂ HoldsRecord (streamValues [([], sampleDoc1)]) [sampleRecord1] :=
    .cons sampleDoc1_holds .nil
  have hbad : ∀ w1 d rest, allSpace w1 = true → Doc.wf d = true → d.value.fitsStruct = true →
      garbageTail ≠ w1 ++ d.render ++ rest := by
    intro w1 d rest hw _ hfit e
    have ht := struct_text_start w1 d rest hw hfit
    rw [← e] at ht
    have h110 : (skipSpace garbageTail).take 2 = [110, 111] := by decide
    have h110b : (skipSpace garbageTail).head? = some 110 := by decide
    rw [h110, h110b] at ht
    rcases ht with ht | ht <;> simp at ht
  have hg := (malformed_text_is_error
    (New (replyWith 200 (renderStream [([], sampleDoc1)] garbageTail)) []) background
    (ascii "a.iana-servers.net") [([], sampleDoc1)] garbageTail [sampleRecord1] h1 h2).2.1
    [10] 110 (ascii "ot json\n" ++ sampleDoc2.render ++ [10]) (by decide!) rfl (by decide)
    (by decide) (by decide) hbad
  have hb := ((malformed_text_is_error
    (New (replyWith 200 (renderStream [([], sampleDoc1)] braceTail)) []) background
    (ascii "a.iana-servers.net") [([], sampleDoc1)] braceTail [sampleRecord1] h1 h2).2.2
    [10] 125 ([10] ++ sampleDoc2.render ++ [10]) (by decide!) rfl (Or.inr rfl)).1
    sampleForwardRequest (by decide!) rfl
  ⟨h1, h2, by decide!, hg.elim (fun e he => ⟨e, he.1 sampleForwardRequest (by decide!) rfl⟩),
    by decide!, hb⟩

/-! ## The results of the lookup operations -/

/-- The lists of the result that an ipquery object holds: each holds the
items of the elements of the array of its key. -/
theorem ipquery_lists_hold (v : JValue) (r : IPQueryResponse) (h : HoldsIPQuery v r) :
    (∀ es, (ascii "act", JValue.arr es) ∈ v.members → itemsHold (some es) r.ActiveForwardDNS) ∧
    (∀ es, (ascii "acth", JValue.arr es) ∈ v.members → itemsHold (some es) r.ActiveDNSHistory) ∧
    (∀ es, (ascii "pas", JValue.arr es) ∈ v.members → itemsHold (some es) r.PassiveReverseDNS) ∧
    (∀ es, (ascii "pash", JValue.arr es) ∈ v.members → itemsHold (some es) r.PassiveDNSHistory) := by
  obtain ⟨o, extras, ms, rfl, hperm, hden, hext⟩ := h
  obtain ⟨-, -, -, -, -, -, -, -, h9, h10, h11, h12⟩ := hden
  refine ⟨fun es hes => ?_, fun es hes => ?_, fun es hes => ?_, fun es hes => ?_⟩
  · rw [← (ipquery_literal_act o extras ms hperm hext).1 es hes]; exact h9
  · rw [← (ipquery_literal_acth o extras ms hperm hext).1 es hes]; exact h10
  · rw [← (ipquery_literal_pas o extras ms hperm hext).1 es hes]; exact h11
  · rw [← (ipquery_literal_pash o extras ms hperm hext).1 es hes]; exact h12

/-- The list `Nets` of the result that an asquery object holds: it holds the
prefixes of the elements of the array of `nets`. -/
theorem asquery_nets_hold (v : JValue) (r : ASQueryResponse) (h : HoldsASQuery v r)
    (es : List JValue) (hes : (ascii "nets", JValue.arr es) ∈ v.members) :
    prefixesHold (some es) r.Nets := by
  obtain ⟨o, extras, ms, rfl, hperm, ⟨-, h2⟩, hext⟩ := h
  have hm := hperm.mem_iff.mp hes
  simp only [List.mem_append, ASQueryLiterals.members, mem_memberOf, or_assoc,
    Prod.mk.injEq] at hm
  rcases hm with ⟨a, -, -, hv⟩ | ⟨a, ha, -, hv⟩ | hx
  · exact absurd hv (by simp)
  · cases hv
    rw [← ha]; exact h2
  · have h4 := hext _ hx
    rw [show selectsNone ASQueryResponse.keys (ascii "nets") = false by decide!] at h4
    cases h4

/-- The IP lookup on an ipquery object that holds a result. -/
theorem IPQuery_holds (c : Client) (ctx : Option Context) (id w : Bytes) (d : Doc)
    (rest : Bytes) (r : IPQueryResponse) (req : Request) (hw : allSpace w = true)
    (hd : d.ok = true) (hobj : HoldsIPQuery d.value r)
    (hreq : c.newRequest ctx [ascii "ipquery", id] = .ok req)
    (hresp : c.httpClient req = .ok ⟨200, w ++ d.render ++ rest⟩) :
    c.IPQuery ctx id = .ok r := by
  have hisobj : d.isObject = true := by
    obtain ⟨o, extras, ms, hv, -⟩ := hobj
    exact isObject_of_value d ms hv
  unfold Client.IPQuery
  rw [roundTrip_ok c ctx _ _ req _ hreq hresp,
    decodeOne_render _ _ w d rest hw hd (isObject_endsBefore d hisobj rest)]
  exact decodeIPQueryResponse_holds _ _ hobj

/-- The AS lookup on an asquery object that holds a result. -/
theorem ASQuery_holds (c : Client) (ctx : Option Context) (id w : Bytes) (d : Doc)
    (rest : Bytes) (r : ASQueryResponse) (req : Request) (hw : allSpace w = true)
    (hd : d.ok = true) (hobj : HoldsASQuery d.value r)
    (hreq : c.newRequest ctx [ascii "asquery", id] = .ok req)
    (hresp : c.httpClient req = .ok ⟨200, w ++ d.render ++ rest⟩) :
    c.ASQuery ctx id = .ok r := by
  have hisobj : d.isObject = true := by
    obtain ⟨o, extras, ms, hv, -⟩ := hobj
    exact isObject_of_value d ms hv
  unfold Client.ASQuery
  rw [roundTrip_ok c ctx _ _ req _ hreq hresp,
    decodeOne_render _ _ w d rest hw hd (isObject_endsBefore d hisobj rest)]
  exact decodeASQueryResponse_holds _ _ hobj

/-- The elements of a list field: the items of the elements of the array, as
many and in the same order, in a slice that is not nil. -/
theorem itemsHold_some (es : List JValue) (field : Option (Slice Item))
    (h : itemsHold (some es) field) :
    ∃ items, field = some ⟨items, []⟩ ∧ items.length = es.length ∧
      List.Forall₂ HoldsItem es items := by
  obtain ⟨items, h1, h2⟩ := h
  exact ⟨items, h2, h1.length_eq.symm, h1⟩

/-- C5: on a response with status 200 whose body is a well-formed ipquery
object (white space may precede it), the IP lookup returns no error and the
result whose every field is the value at its key in the object: the text of
the string with its escapes replaced at `status`, `city`, `country`, `asname`,
`whoisdesc`, `routedesc` and `bgproute`, the integer of the number at `as`,
and the zero value for a key the object lacks.  On a well-formed asquery
object the AS lookup returns no error and the result with `Status` from
`status` and `Nets` from `nets`.  Every list of the result has as many
elements as the array of its key, in the order of the array, each element
holding the values at the keys `o` and `t`, or `n` and `inbgp`, of its
object. -/
theorem lookup_object_decodes (c : Client) (ctx : Option Context) (id w : Bytes) (d : Doc)
    (rest : Bytes) (hw : allSpace w = true) (hd : d.ok = true) :
    (∀ r req, HoldsIPQuery d.value r →
      c.newRequest ctx [ascii "ipquery", id] = .ok req →
      c.httpClient req = .ok ⟨200, w ++ d.render ++ rest⟩ →
      c.IPQuery ctx id = .ok r ∧
      (∀ es, (ascii "act", JValue.arr es) ∈ d.value.members →
        ∃ items, r.ActiveForwardDNS = some ⟨items, []⟩ ∧ items.length = es.length ∧
          List.Forall₂ HoldsItem es items) ∧
      (∀ es, (ascii "acth", JValue.arr es) ∈ d.value.members →
        ∃ items, r.ActiveDNSHistory = some ⟨items, []⟩ ∧ items.length = es.length ∧
          List.Forall₂ HoldsItem es items) ∧
      (∀ es, (ascii "pas", JValue.arr es) ∈ d.value.members →
        ∃ items, r.PassiveReverseDNS = some ⟨items, []⟩ ∧ items.length = es.length ∧
          List.Forall₂ HoldsItem es items) ∧
      (∀ es, (ascii "pash", JValue.arr es) ∈ d.value.members →
        ∃ items, r.PassiveDNSHistory = some ⟨items, []⟩ ∧ items.length = es.length ∧
          List.Forall₂ HoldsItem es items)) ∧
    (∀ r req, HoldsASQuery d.value r →
      c.newRequest ctx [ascii "asquery", id] = .ok req →
      c.httpClient req = .ok ⟨200, w ++ d.render ++ rest⟩ →
      c.ASQuery ctx id = .ok r ∧
      (∀ es, (ascii "nets", JValue.arr es) ∈ d.value.members →
        ∃ nets, r.Nets = some ⟨nets, []⟩ ∧ nets.length = es.length ∧
          List.Forall₂ HoldsPrefix es nets)) := by
  constructor
  · intro r req hobj hreq hresp
    obtain ⟨l1, l2, l3, l4⟩ := ipquery_lists_hold _ _ hobj
    exact ⟨IPQuery_holds c ctx id w d rest r req hw hd hobj hreq hresp,
      fun es hes => itemsHold_some es _ (l1 es hes), fun es hes => itemsHold_some es _ (l2 es hes),
      fun es hes => itemsHold_some es _ (l3 es hes), fun es hes => itemsHold_some es _ (l4 es hes)⟩
  · intro r req hobj hreq hresp
    refine ⟨ASQuery_holds c ctx id w d rest r req hw hd hobj hreq hresp, fun es hes => ?_⟩
    obtain ⟨nets, h1, h2⟩ := asquery_nets_hold _ _ hobj es hes
    exact ⟨nets, h2, h1.length_eq.symm, h1⟩

/-- The element with an escape and a negative number holds the item with the
text and the number they stand for. -/
theorem escapedItem_holds :
    HoldsItem escapedItemDoc.value ⟨ascii "b0.org.afilias-nst.org", -1⟩ :=
  ⟨⟨some (ascii "b0.org\\u002eafilias-nst.org"), some (ascii "-1")⟩, [], _, rfl,
    List.Perm.refl _,
    ⟨StrValue_append (ascii "b0.org") (ascii "b0.org") _ _ (StrValue_plain _ (by decide))
        (.unicode 48 48 50 101 46 _ _ (by decide) (by decide)
          (StrValue_plain (ascii "afilias-nst.org") (by decide))),
      ⟨ascii "1", by decide, by decide, Or.inr ⟨rfl, by decide⟩, by decide, by decide⟩⟩,
    by simp⟩

/-- The element without the key `t` holds the item with the number 0. -/
theorem sparseItem_holds : HoldsItem sparseItemDoc.value ⟨ascii "x/y", 0⟩ :=
  ⟨⟨some (ascii "x\\/y"), none⟩, [], _, rfl, List.Perm.refl _,
    ⟨.plain 120 _ _ (by decide) (by decide) (by decide) (by decide)
        (.escape 47 47 _ _ (by decide) (StrValue_plain (ascii "y") (by decide))), rfl⟩,
    by simp⟩

/-- The ipquery object with escapes holds the result with the texts and the
numbers they stand for. -/
theorem escapedIP_holds : HoldsIPQuery escapedIPDoc.value escapedIPResult :=
  ⟨escapedIPLiterals, [], _, rfl, List.Perm.refl _,
    ⟨StrValue_plain (ascii "ok") (by decide),
      StrValue_append (ascii "Montr") (ascii "Montr") _ _ (StrValue_plain _ (by decide))
        (.unicode 48 48 101 57 0xE9 _ _ (by decide) (by decide)
          (StrValue_plain (ascii "al") (by decide))),
      rfl,
      ⟨ascii "12041", by decide, by decide, Or.inr ⟨rfl, by decide⟩, by decide, by decide⟩,
      rfl, rfl, rfl, rfl,
      ⟨_, .cons escapedItem_holds (.cons sparseItem_holds .nil), rfl⟩, rfl, rfl, rfl⟩,
    by simp⟩

/-- The element of `nets` with an escape holds the prefix with the text it
stands for. -/
theorem escapedPrefix_holds :
    HoldsPrefix (compactObject
      [(ascii "n", .str (ascii "8.8.4.0\\/24")), (ascii "inbgp", .num (ascii "1"))]).value
      ⟨ascii "8.8.4.0/24", 1⟩ :=
  ⟨⟨some (ascii "8.8.4.0\\/24"), some (ascii "1")⟩, [], _, rfl, List.Perm.refl _,
    ⟨StrValue_append (ascii "8.8.4.0") (ascii "8.8.4.0") _ _ (StrValue_plain _ (by decide))
        (.escape 47 47 _ _ (by decide) (StrValue_plain (ascii "24") (by decide))),
      ⟨ascii "1", by decide, by decide, Or.inl ⟨rfl, by decide⟩, by decide, by decide⟩⟩,
    by simp⟩

/-- The element of `nets` without the key `inbgp` holds the prefix with the
number 0. -/
theorem sparsePrefix_holds :
    HoldsPrefix (compactObject [(ascii "n", .str (ascii "8.8.8.0/24"))]).value
      ⟨ascii "8.8.8.0/24", 0⟩ :=
  ⟨⟨some (ascii "8.8.8.0/24"), none⟩, [], _, rfl, List.Perm.refl _,
    ⟨StrValue_plain (ascii "8.8.8.0/24") (by decide), rfl⟩, by simp⟩

/-- The asquery object with escapes holds the result of the two networks. -/
theorem escapedAS_holds : HoldsASQuery escapedASDoc.value sampleASResult :=
  ⟨⟨some (ascii "o\\u006b"), some _⟩, [], _, rfl, List.Perm.refl _,
    ⟨.plain 111 _ _ (by decide) (by decide) (by decide) (by decide)
        (.unicode 48 48 54 98 107 _ _ (by decide) (by decide) .done),
      ⟨_, .cons escapedPrefix_holds (.cons sparsePrefix_holds .nil), rfl⟩⟩,
    by simp⟩

/-- The element of the list `act` of the example holds its item. -/
theorem sampleItem_holds :
    HoldsItem sampleItemDoc.value ⟨ascii "b0.org.afilias-nst.org", 1498717654⟩ :=
  ⟨⟨some (ascii "b0.org.afilias-nst.org"), some (ascii "1498717654")⟩, [], _, rfl,
    List.Perm.refl _,
    ⟨StrValue_plain (ascii "b0.org.afilias-nst.org") (by decide),
      ⟨ascii "1498717654", by decide, by decide, Or.inl ⟨rfl, by decide⟩, by decide,
        by decide⟩⟩,
    by simp⟩

/-- The object of the example holds the result of the example. -/
theorem sampleIP_holds : HoldsIPQuery sampleIPDoc.value exampleResult :=
  ⟨sampleIPLiterals, [], _, rfl, List.Perm.refl _,
    ⟨StrValue_plain (ascii "ok") (by decide), StrValue_plain (ascii "Toronto") (by decide),
      StrValue_plain (ascii "Canada") (by decide),
      ⟨ascii "12041", by decide, by decide, Or.inl ⟨rfl, by decide⟩, by decide, by decide⟩,
      rfl, rfl, rfl, rfl, ⟨_, .cons sampleItem_holds .nil, rfl⟩, rfl, rfl, rfl⟩,
    by simp⟩

/-- C5 on the object of the example, and on an ipquery object and an asquery
object with escapes in their strings, a negative number and elements without
one of their keys, each on a line of its own. -/
theorem lookup_object_decodes_witness :
    allSpace [] = true ∧ sampleIPDoc.ok = true ∧ escapedIPDoc.ok = true ∧
    escapedASDoc.ok = true ∧
    [] ++ sampleIPDoc.render ++ [10] = exampleBody ++ [10] ∧
    HoldsIPQuery sampleIPDoc.value exampleResult ∧
    HoldsIPQuery escapedIPDoc.value escapedIPResult ∧
    HoldsASQuery escapedASDoc.value sampleASResult ∧
    (New (replyWith 200 ([] ++ sampleIPDoc.render ++ [10])) []).IPQuery background
      (ascii "199.19.54.1") = .ok exampleResult ∧
    (New (replyWith 200 ([] ++ escapedIPDoc.render ++ [10])) []).IPQuery background
      (ascii "199.19.54.1") = .ok escapedIPResult ∧
    (New (replyWith 200 ([] ++ escapedASDoc.render ++ [10])) []).ASQuery background
      (ascii "15169") = .ok sampleASResult :=
  ⟨rfl, by decide!, by decide!, by decide!, by decide!, sampleIP_holds, escapedIP_holds,
    escapedAS_holds,
    ((lookup_object_decodes (New (replyWith 200 ([] ++ sampleIPDoc.render ++ [10])) [])
      background (ascii "199.19.54.1") [] sampleIPDoc [10] rfl (by decide!)).1 exampleResult
      sampleRequest sampleIP_holds (by decide!) rfl).1,
    ((lookup_object_decodes (New (replyWith 200 ([] ++ escapedIPDoc.render ++ [10])) [])
      background (ascii "199.19.54.1") [] escapedIPDoc [10] rfl (by decide!)).1 escapedIPResult
      sampleRequest escapedIP_holds (by decide!) rfl).1,
    ((lookup_object_decodes (New (replyWith 200 ([] ++ escapedASDoc.render ++ [10])) [])
      background (ascii "15169") [] escapedASDoc [10] rfl (by decide!)).2 sampleASResult
      sampleASRequest escapedAS_holds (by decide!) rfl).1⟩


end Robtex
